import Mathlib

/-!
# elr_mpl: a hierarchical fixed-size-block memory pool

A shallow embedding of `src/elr_mpl.c` (built without `ELR_USE_THREAD`) and
theorems about it.

## Memory model

The C program manipulates raw memory through three record types and one kind of
pointer array.  The embedding keeps one view of memory per type (a map from
byte address to record), so `p->f = v` becomes an update of field `f` of the
record at address `p` in the view of `p`'s static type.  Pointers are byte
addresses (of type `Nat`), `NULL` is `0`, and pointer arithmetic is arithmetic on
addresses: the pool object held by a slice at address `a` is at
`a + SLICE_HDR`, the `i`-th slice of a node is at `first_avail` after `i` bumps.

* `size_t` is 64 bits wide (LP64); every `size_t` operation is reduced
  modulo `2^64`.
* `int` is 32 bits wide: the values of `tag` and `slice_tag` are integers
  between `-2^31` and `2^31 - 1`, and `tag++` is reduced to that range by
  `wrap_int`, so that `INT_MAX + 1` is `INT_MIN` (signed overflow is undefined
  behaviour in C; this is its result on two's complement targets).  The counter
  `g_mpl_refs` (`long`) changes by one per call of `elr_mpl_init` or
  `elr_mpl_finalize` and is a mathematical integer.
* `sizeof` values are those of the LP64 data model.
* The system allocator is part of the state: `blocks` is the set of blocks it
  has handed out and not got back, `sys` is the list of answers it will give to
  the next requests (`none`: refuse; `some a`: offer address `a`).  An offer
  that is null, overlaps a live block or the static pool object, or does not
  fit in the address space is a refusal.  Every behaviour of a real allocator
  is the behaviour of some `sys`.
* `free` of a block does not change the contents of the views: a read through a
  dangling pointer sees what was last written there.
* The records of one view at different addresses are independent.  This is the
  C program as long as objects of one type do not overlap; slices overlap only
  in a pool whose `slice_size` has wrapped around to less than `SLICE_HDR`, and
  what the code then reads from an overwritten header is not represented.
* Callbacks are function addresses; a call is recorded in `calls`.  Callbacks
  do not call back into the pool module.
* `assert` is compiled out (`NDEBUG`); asserted conditions appear as
  hypotheses of theorems where they are needed.
* Loops over linked structures take a step budget (`fuel`) and return `none`
  when it is exhausted.
-/

namespace ElrMpl

/-- Modulus of `size_t` arithmetic. -/
def SIZE_MOD : Nat := 2 ^ 64

def ELR_MAX_SLICE_SIZE : Nat := 32768
def ELR_MAX_SLICE_COUNT : Nat := 64
def ELR_OVERRANGE_UNIT_SIZE : Nat := 1024
def ELR_AUTO_FREE_NODE_THRESHOLD : Nat := 536870912

/-- The macro `ELR_ALIGN(size, boundary)`, i.e.
`((size) + ((boundary) - 1)) & ~((boundary) - 1)` on `size_t`. -/
def ELR_ALIGN (size boundary : Nat) : Nat :=
  ((size + (boundary - 1)) % SIZE_MOD) &&& (SIZE_MOD - 1 - (boundary - 1))

/-- The value of an `int` expression `v` as stored in an `int`: `v` reduced
to the 32-bit two's complement range. -/
def wrap_int (v : Int) : Int := (v + 2147483648) % 4294967296 - 2147483648

def sizeof_int : Nat := 4
def sizeof_ptr : Nat := 8
def sizeof_size_t : Nat := 8
/-- Three pointers and an `int`, padded to pointer alignment. -/
def sizeof_elr_mem_slice : Nat := 32
/-- Five pointers, two `size_t` and a `char*`. -/
def sizeof_elr_mem_node : Nat := 64
/-- Five pointers, an `int` (padded), four `size_t`, three pointers, two
function pointers, one pointer and an `int` (padded). -/
def sizeof_elr_mem_pool : Nat := 136

/-- The expression `ELR_ALIGN(sizeof(elr_mem_slice),sizeof(int))`. -/
def SLICE_HDR : Nat := ELR_ALIGN sizeof_elr_mem_slice sizeof_int
/-- The expression `ELR_ALIGN(sizeof(elr_mem_node),sizeof(int))`. -/
def NODE_HDR : Nat := ELR_ALIGN sizeof_elr_mem_node sizeof_int

structure elr_mem_node where
  owner : Nat
  prev : Nat
  next : Nat
  free_slice_head : Nat
  free_slice_tail : Nat
  using_slice_count : Nat
  used_slice_count : Nat
  first_avail : Nat
deriving DecidableEq

structure elr_mem_slice where
  prev : Nat
  next : Nat
  node : Nat
  /-- An `int`: written as 0 or as the `wrap_int` of the old tag plus one. -/
  tag : Int
deriving DecidableEq

structure elr_mem_pool where
  parent : Nat
  first_child : Nat
  prev : Nat
  next : Nat
  multi : Nat
  multi_count : Nat
  slice_count : Nat
  slice_size : Nat
  object_size : Nat
  node_size : Nat
  first_node : Nat
  newly_alloc_node : Nat
  first_free_slice : Nat
  on_slice_alloc : Nat
  on_slice_free : Nat
  first_occupied_slice : Nat
  /-- An `int`: a copy of the tag of a slice, or -1. -/
  slice_tag : Int
deriving DecidableEq

/-- The handle type `elr_mpl_t` of `elr_mpl.h`: a pool pointer and a tag. -/
structure elr_mpl_t where
  pool : Nat
  /-- An `int`: a copy of the `slice_tag` of the pool. -/
  tag : Int
deriving DecidableEq

def ELR_MPL_INITIALIZER : elr_mpl_t := ⟨0, 0⟩

/-- Address of the static object `g_mem_pool`. -/
def g_mem_pool : Nat := 4096

@[ext]
structure State where
  /-- Memory viewed as `elr_mem_slice` objects. -/
  slice : Nat → elr_mem_slice
  /-- Memory viewed as `elr_mem_node` objects. -/
  node : Nat → elr_mem_node
  /-- Memory viewed as `elr_mem_pool` objects; `g_mem_pool` is one of them. -/
  pool : Nat → elr_mem_pool
  /-- Memory viewed as pointer cells (the `multi` arrays and their temporary). -/
  cell : Nat → Nat
  g_multi_mem_pool : elr_mpl_t
  g_occupation_size : Nat
  g_mpl_refs : Int
  /-- Live blocks of the system allocator: base address and size. -/
  blocks : List (Nat × Nat)
  /-- Answers of the system allocator to the requests to come. -/
  sys : List (Option Nat)
  /-- Callback invocations so far, latest first: function and argument. -/
  calls : List (Nat × Nat)

namespace State

def setSlice (s : State) (a : Nat) (v : elr_mem_slice) : State :=
  { s with slice := fun x => if x = a then v else s.slice x }

def setNode (s : State) (a : Nat) (v : elr_mem_node) : State :=
  { s with node := fun x => if x = a then v else s.node x }

def setPool (s : State) (a : Nat) (v : elr_mem_pool) : State :=
  { s with pool := fun x => if x = a then v else s.pool x }

def setCell (s : State) (a : Nat) (v : Nat) : State :=
  { s with cell := fun x => if x = a then v else s.cell x }

end State

/-- Two byte ranges `[a, a+n)` and `[b, b+m)` have no byte in common. -/
def disjoint (a n b m : Nat) : Bool := decide (a + n ≤ b) || decide (b + m ≤ a)

/-- Whether the system allocator may hand out `[a, a+size)` in state `s`. -/
def sys_fresh (s : State) (a size : Nat) : Bool :=
  decide (a ≠ 0) && decide (a + size ≤ SIZE_MOD)
    && disjoint a size (g_mem_pool - SLICE_HDR) (SLICE_HDR + sizeof_elr_mem_pool)
    && s.blocks.all (fun b => disjoint a size b.1 b.2)

/-- The library function `malloc`. -/
def malloc (s : State) (size : Nat) : State × Nat :=
  match s.sys with
  | [] => (s, 0)
  | none :: rest => ({ s with sys := rest }, 0)
  | some a :: rest =>
    if sys_fresh s a size then
      ({ s with sys := rest, blocks := (a, size) :: s.blocks }, a)
    else ({ s with sys := rest }, 0)

/-- The library function `free` (named `sys_free` since `elr_mpl_free` is the
pool's own operation). -/
def sys_free (s : State) (p : Nat) : State :=
  { s with blocks := s.blocks.filter (fun b => b.1 ≠ p) }

/-- The function `_elr_alloc_mem_node`: ask the system for a node of
`pool->node_size` bytes and push it at the head of the pool's node list. -/
def _elr_alloc_mem_node (s : State) (pool : Nat) : State :=
  let r := malloc s (s.pool pool).node_size
  let s := r.1
  let pnode := r.2
  if pnode = 0 then s else
  let s := { s with g_occupation_size :=
    (s.g_occupation_size + (s.pool pool).node_size) % SIZE_MOD }
  let s := s.setPool pool { s.pool pool with newly_alloc_node := pnode }
  let s := s.setNode pnode { s.node pnode with owner := pool }
  let s := s.setNode pnode { s.node pnode with first_avail := pnode + NODE_HDR }
  let s := s.setNode pnode { s.node pnode with free_slice_head := 0 }
  let s := s.setNode pnode { s.node pnode with free_slice_tail := 0 }
  let s := s.setNode pnode { s.node pnode with used_slice_count := 0 }
  let s := s.setNode pnode { s.node pnode with using_slice_count := 0 }
  let s := s.setNode pnode { s.node pnode with prev := 0 }
  if (s.pool pool).first_node = 0 then
    let s := s.setPool pool { s.pool pool with first_node := pnode }
    s.setNode pnode { s.node pnode with next := 0 }
  else
    let s := s.setNode pnode { s.node pnode with next := (s.pool pool).first_node }
    let s := s.setNode (s.pool pool).first_node
      { s.node (s.pool pool).first_node with prev := pnode }
    s.setPool pool { s.pool pool with first_node := pnode }

/-- Lines 674-684 of `_elr_free_mem_node`: cut the node's free slices
(`free_slice_head` to `free_slice_tail`) out of the owner's free list. -/
def excise_free_run (s : State) (pnode : Nat) : State :=
  let s :=
    if (s.node pnode).free_slice_tail ≠ 0
        ∧ (s.slice (s.node pnode).free_slice_tail).next ≠ 0 then
      s.setSlice (s.slice (s.node pnode).free_slice_tail).next
        { s.slice (s.slice (s.node pnode).free_slice_tail).next with
          prev := (s.slice (s.node pnode).free_slice_head).prev }
    else s
  let s :=
    if (s.node pnode).free_slice_head ≠ 0
        ∧ (s.slice (s.node pnode).free_slice_head).prev ≠ 0 then
      s.setSlice (s.slice (s.node pnode).free_slice_head).prev
        { s.slice (s.slice (s.node pnode).free_slice_head).prev with
          next := (s.slice (s.node pnode).free_slice_tail).next }
    else s
  if (s.pool (s.node pnode).owner).first_free_slice ≠ 0
      ∧ (s.pool (s.node pnode).owner).first_free_slice
          = (s.node pnode).free_slice_head then
    s.setPool (s.node pnode).owner
      { s.pool (s.node pnode).owner with
        first_free_slice := (s.slice (s.node pnode).free_slice_tail).next }
  else s

/-- The function `_elr_free_mem_node`: cut the node's free slices out of the
owner's free list, unlink the node and give its block back to the system. -/
def _elr_free_mem_node (s : State) (pnode : Nat) : State :=
  let s := excise_free_run s pnode
  let s :=
    if (s.pool (s.node pnode).owner).newly_alloc_node = pnode then
      s.setPool (s.node pnode).owner
        { s.pool (s.node pnode).owner with newly_alloc_node := 0 }
    else s
  let s :=
    if (s.node pnode).next ≠ 0 then
      s.setNode (s.node pnode).next
        { s.node (s.node pnode).next with prev := (s.node pnode).prev }
    else s
  let s :=
    if (s.node pnode).prev ≠ 0 then
      s.setNode (s.node pnode).prev
        { s.node (s.node pnode).prev with next := (s.node pnode).next }
    else
      s.setPool (s.node pnode).owner
        { s.pool (s.node pnode).owner with first_node := (s.node pnode).next }
  let s := { s with g_occupation_size :=
    (s.g_occupation_size + SIZE_MOD - (s.pool (s.node pnode).owner).node_size)
      % SIZE_MOD }
  sys_free s pnode

/-- The function `_elr_slice_from_node`: bump-allocate a slice from the pool's
`newly_alloc_node`.  (`memset` also clears the payload bytes; payload contents
are not represented, and the pool objects and pointer arrays kept in payloads
are written in full by their creators before they are read.) -/
def _elr_slice_from_node (s : State) (pool : Nat) : State × Nat :=
  if (s.pool pool).newly_alloc_node ≠ 0 then
    let nn := (s.pool pool).newly_alloc_node
    let s := s.setNode nn { s.node nn with
      used_slice_count := ((s.node nn).used_slice_count + 1) % SIZE_MOD }
    let s := s.setNode nn { s.node nn with
      using_slice_count := ((s.node nn).using_slice_count + 1) % SIZE_MOD }
    let pslice := (s.node nn).first_avail
    let s := s.setSlice pslice ⟨0, 0, 0, 0⟩
    let s := s.setSlice pslice { s.slice pslice with next := 0 }
    let s := s.setSlice pslice { s.slice pslice with prev := 0 }
    let s := s.setSlice pslice { s.slice pslice with tag := 0 }
    let s := s.setNode nn { s.node nn with
      first_avail := (s.node nn).first_avail + (s.pool pool).slice_size }
    let s := s.setSlice pslice { s.slice pslice with node := nn }
    let s :=
      if (s.node nn).used_slice_count = (s.pool pool).slice_count then
        s.setPool pool { s.pool pool with newly_alloc_node := 0 }
      else s
    (s, pslice)
  else (s, 0)

/-- The free-list branch of `_elr_slice_from_pool` (lines 744-760): detach the
head of the pool's free list. -/
def slice_from_free_list (s : State) (pool : Nat) : State × Nat :=
  let slice := (s.pool pool).first_free_slice
  let s := s.setPool pool { s.pool pool with first_free_slice := (s.slice slice).next }
  let s := s.setNode (s.slice slice).node
    { s.node (s.slice slice).node with free_slice_head := 0 }
  let s :=
    if (s.pool pool).first_free_slice ≠ 0 then
      let s := s.setSlice (s.pool pool).first_free_slice
        { s.slice (s.pool pool).first_free_slice with prev := 0 }
      if (s.slice (s.slice slice).next).node = (s.slice slice).node then
        s.setNode (s.slice slice).node
          { s.node (s.slice slice).node with free_slice_head := (s.slice slice).next }
      else s
    else s
  let s :=
    if (s.node (s.slice slice).node).free_slice_head = 0 then
      s.setNode (s.slice slice).node
        { s.node (s.slice slice).node with free_slice_tail := 0 }
    else s
  let s := s.setSlice slice { s.slice slice with next := 0 }
  let s := s.setSlice slice { s.slice slice with prev := 0 }
  let s := s.setSlice slice { s.slice slice with tag := wrap_int ((s.slice slice).tag + 1) }
  let s := s.setNode (s.slice slice).node
    { s.node (s.slice slice).node with
      using_slice_count := ((s.node (s.slice slice).node).using_slice_count + 1) % SIZE_MOD }
  (s, slice)

/-- The tail of `_elr_slice_from_pool` (lines 769-776): push the slice at the
head of the pool's occupied list. -/
def push_occupied (s : State) (pool slice : Nat) : State :=
  if slice ≠ 0 then
    let s := s.setSlice slice { s.slice slice with prev := 0 }
    let s := s.setSlice slice { s.slice slice with next := (s.pool pool).first_occupied_slice }
    let s :=
      if (s.pool pool).first_occupied_slice ≠ 0 then
        s.setSlice (s.pool pool).first_occupied_slice
          { s.slice (s.pool pool).first_occupied_slice with prev := slice }
      else s
    s.setPool pool { s.pool pool with first_occupied_slice := slice }
  else s

/-- The function `_elr_slice_from_pool`. -/
def _elr_slice_from_pool (s : State) (pool : Nat) : State × Nat :=
  let pool_slice := pool - SLICE_HDR
  if (s.slice pool_slice).tag ≠ (s.pool pool).slice_tag then (s, 0) else
  let r :=
    if (s.pool pool).first_free_slice ≠ 0 then
      slice_from_free_list s pool
    else
      let s := if (s.pool pool).newly_alloc_node = 0 then _elr_alloc_mem_node s pool else s
      _elr_slice_from_node s pool
  (push_occupied r.1 pool r.2, r.2)

/-- The function `elr_mpl_avail`. -/
def elr_mpl_avail (s : State) (hpool : elr_mpl_t) : Bool :=
  if hpool.pool = 0 then false
  else
    let pool := hpool.pool
    let pslice := hpool.pool - SLICE_HDR
    if hpool.tag ≠ (s.pool pool).slice_tag ∨ hpool.tag ≠ (s.slice pslice).tag then false
    else true

/-- The function `elr_mpl_alloc`; the result is the new state and `mem`. -/
def elr_mpl_alloc (s : State) (hpool : elr_mpl_t) : State × Nat :=
  let pool := hpool.pool
  let r := _elr_slice_from_pool s pool
  let s := r.1
  let pslice := r.2
  if pslice = 0 then (s, 0)
  else
    let mem := pslice + SLICE_HDR
    let s :=
      if (s.pool pool).on_slice_alloc ≠ 0 then
        { s with calls := ((s.pool pool).on_slice_alloc, mem) :: s.calls }
      else s
    (s, mem)

/-- The function `elr_mpl_size`. -/
def elr_mpl_size (s : State) (mem : Nat) : Nat :=
  let slice := mem - SLICE_HDR
  (s.pool (s.node (s.slice slice).node).owner).object_size

/-- Lines 520-533 of `elr_mpl_free`: bump the tag, count the slice out of its
node, call `on_slice_free` and take the slice out of the occupied list. -/
def free_unlink (s : State) (mem slice node pool : Nat) : State :=
  let s := s.setSlice slice { s.slice slice with tag := wrap_int ((s.slice slice).tag + 1) }
  let s := s.setNode node { s.node node with
    using_slice_count := ((s.node node).using_slice_count + SIZE_MOD - 1) % SIZE_MOD }
  let s :=
    if (s.pool pool).on_slice_free ≠ 0 then
      { s with calls := ((s.pool pool).on_slice_free, mem) :: s.calls }
    else s
  let s :=
    if (s.slice slice).next ≠ 0 then
      s.setSlice (s.slice slice).next
        { s.slice (s.slice slice).next with prev := (s.slice slice).prev }
    else s
  if (s.slice slice).prev ≠ 0 then
    s.setSlice (s.slice slice).prev
      { s.slice (s.slice slice).prev with next := (s.slice slice).next }
  else
    s.setPool pool { s.pool pool with first_occupied_slice := (s.slice slice).next }

/-- Lines 544-550 of `elr_mpl_free`: the node has no free slice; the slice
becomes its free range, at the head of the pool's free list. -/
def free_new_run (s : State) (slice node pool : Nat) : State :=
  let s := s.setNode node { s.node node with free_slice_head := slice }
  let s := s.setNode node { s.node node with free_slice_tail := slice }
  let s := s.setSlice slice { s.slice slice with prev := 0 }
  let s := s.setSlice slice { s.slice slice with next := (s.pool pool).first_free_slice }
  let s :=
    if (s.pool pool).first_free_slice ≠ 0 then
      s.setSlice (s.pool pool).first_free_slice
        { s.slice (s.pool pool).first_free_slice with prev := slice }
    else s
  s.setPool pool { s.pool pool with first_free_slice := slice }

/-- Lines 554-559 of `elr_mpl_free`: the slice goes behind the last free slice
of its node. -/
def free_after_tail (s : State) (slice node : Nat) : State :=
  let s := s.setSlice slice { s.slice slice with
    next := (s.slice (s.node node).free_slice_tail).next }
  let s :=
    if (s.slice (s.node node).free_slice_tail).next ≠ 0 then
      s.setSlice (s.slice (s.node node).free_slice_tail).next
        { s.slice (s.slice (s.node node).free_slice_tail).next with prev := slice }
    else s
  let s := s.setSlice (s.node node).free_slice_tail
    { s.slice (s.node node).free_slice_tail with next := slice }
  let s := s.setSlice slice { s.slice slice with prev := (s.node node).free_slice_tail }
  s.setNode node { s.node node with free_slice_tail := slice }

/-- The function `elr_mpl_free`. -/
def elr_mpl_free (s : State) (mem : Nat) : State :=
  let slice := mem - SLICE_HDR
  let node := (s.slice slice).node
  let pool := (s.node node).owner
  let pool_slice := pool - SLICE_HDR
  if (s.slice pool_slice).tag ≠ (s.pool pool).slice_tag then s else
  let s := free_unlink s mem slice node pool
  if (s.node node).using_slice_count = 0
      ∧ s.g_occupation_size ≥ ELR_AUTO_FREE_NODE_THRESHOLD then
    _elr_free_mem_node s node
  else if (s.node node).free_slice_head = 0 then free_new_run s slice node pool
  else free_after_tail s slice node

/-- The value the C code gives `pool->slice_count` (lines 232-236). -/
def slice_count_of (slice_size : Nat) : Nat :=
  if slice_size < ELR_MAX_SLICE_SIZE then
    (ELR_MAX_SLICE_COUNT + SIZE_MOD
      - (slice_size * (ELR_MAX_SLICE_COUNT - 1) % SIZE_MOD) / ELR_MAX_SLICE_SIZE) % SIZE_MOD
  else 1

/-- The expression `fpool == NULL ? &g_mem_pool : (elr_mem_pool*)fpool->pool`. -/
def parent_of (fpool : Option elr_mpl_t) : Nat :=
  match fpool with
  | none => g_mem_pool
  | some h => h.pool

/-- Lines 225-246 of `elr_mpl_create_ex`: fill in the pool object at `pool`, in
the payload of the slice `pslice`; `fpool` is `none` for a null pointer. -/
def init_pool (s : State) (pslice pool : Nat) (fpool : Option elr_mpl_t) (obj_size : Nat)
    (on_alloc on_free : Nat) : State :=
  let s := s.setPool pool { s.pool pool with slice_tag := (s.slice pslice).tag }
  let s := s.setPool pool { s.pool pool with first_child := 0 }
  let s := s.setPool pool { s.pool pool with parent := parent_of fpool }
  let s := s.setPool pool { s.pool pool with multi := 0 }
  let s := s.setPool pool { s.pool pool with multi_count := 0 }
  let s := s.setPool pool { s.pool pool with object_size := obj_size }
  let s := s.setPool pool { s.pool pool with
    slice_size := (ELR_ALIGN sizeof_elr_mem_slice sizeof_int
      + ELR_ALIGN obj_size sizeof_int) % SIZE_MOD }
  let s := s.setPool pool { s.pool pool with
    slice_count := slice_count_of (s.pool pool).slice_size }
  let s := s.setPool pool { s.pool pool with
    node_size := ((s.pool pool).slice_size * (s.pool pool).slice_count
      + ELR_ALIGN sizeof_elr_mem_node sizeof_int) % SIZE_MOD }
  let s := s.setPool pool { s.pool pool with first_node := 0 }
  let s := s.setPool pool { s.pool pool with newly_alloc_node := 0 }
  let s := s.setPool pool { s.pool pool with first_free_slice := 0 }
  let s := s.setPool pool { s.pool pool with on_slice_alloc := on_alloc }
  let s := s.setPool pool { s.pool pool with on_slice_free := on_free }
  s.setPool pool { s.pool pool with first_occupied_slice := 0 }

/-- Lines 251-255 of `elr_mpl_create_ex`: put the pool at the head of the
children of its parent. -/
def link_pool (s : State) (pool : Nat) : State :=
  let s := s.setPool pool { s.pool pool with prev := 0 }
  let s := s.setPool pool { s.pool pool with
    next := (s.pool (s.pool pool).parent).first_child }
  let s :=
    if (s.pool pool).next ≠ 0 then
      s.setPool (s.pool pool).next { s.pool (s.pool pool).next with prev := pool }
    else s
  s.setPool (s.pool pool).parent
    { s.pool (s.pool pool).parent with first_child := pool }

/-- The function `elr_mpl_create_ex`; `fpool` is `none` for a null pointer. -/
def elr_mpl_create_ex (s : State) (fpool : Option elr_mpl_t) (obj_size : Nat)
    (on_alloc on_free : Nat) : State × elr_mpl_t :=
  let r := _elr_slice_from_pool s g_mem_pool
  let s := r.1
  let pslice := r.2
  if pslice = 0 then (s, ELR_MPL_INITIALIZER) else
  let pool := pslice + SLICE_HDR
  let s := init_pool s pslice pool fpool obj_size on_alloc on_free
  let s := link_pool s pool
  (s, ⟨pool, (s.pool pool).slice_tag⟩)

/-- The function `elr_mpl_create`. -/
def elr_mpl_create (s : State) (fpool : Option elr_mpl_t) (obj_size : Nat) :
    State × elr_mpl_t :=
  elr_mpl_create_ex s fpool obj_size 0 0

/-- The expression `pool->multi[i]`. -/
def multi_at (s : State) (pool : Nat) (i : Nat) : Nat :=
  s.cell ((s.pool pool).multi + sizeof_ptr * i)

/-- The loop of lines 442-449: the first index `i` in `i .. i+n` with
`pool->multi[i]->object_size >= size` gives `alloc_pool`; null when none. -/
def scan_multi (s : State) (pool : Nat) (size : Nat) : Nat → Nat → Nat
  | 0, _ => 0
  | n + 1, i =>
    if (s.pool (multi_at s pool i)).object_size ≥ size then multi_at s pool i
    else scan_multi s pool size n (i + 1)

/-- The loop of lines 454-462: walk the sibling list from `child_pool` for the
first pool with `object_size >= size`; `none` when the budget runs out. -/
def scan_children (s : State) (size : Nat) : Nat → Nat → Option Nat
  | 0, _ => none
  | fuel + 1, child_pool =>
    if child_pool ≠ 0 then
      if (s.pool child_pool).object_size ≥ size then some child_pool
      else scan_children s size fuel (s.pool child_pool).next
    else some 0

/-- Lines 424-425: `if (hpool == NULL) hpool = &g_multi_mem_pool;`, with `none`
for a null pointer. -/
def multi_handle (s : State) (hpool : Option elr_mpl_t) : elr_mpl_t :=
  match hpool with
  | none => s.g_multi_mem_pool
  | some h => h

/-- The function `elr_mpl_alloc_multi`; `hpool` is `none` for a null pointer. -/
def elr_mpl_alloc_multi (fuel : Nat) (s : State) (hpool : Option elr_mpl_t) (size : Nat) :
    Option (State × Nat) :=
  let hpool := multi_handle s hpool
  let pool := hpool.pool
  let parent_pool := multi_at s pool ((s.pool pool).multi_count - 1)
  let pool_slice := pool - SLICE_HDR
  if hpool.tag ≠ (s.pool pool).slice_tag
      ∨ (s.pool pool).slice_tag ≠ (s.slice pool_slice).tag then some (s, 0) else
  let alloc_pool := scan_multi s pool size (s.pool pool).multi_count 0
  let found :=
    if alloc_pool = 0 then scan_children s size fuel (s.pool parent_pool).first_child
    else some alloc_pool
  match found with
  | none => none
  | some alloc_pool =>
    let r :=
      if alloc_pool = 0 then
        let size := (ELR_OVERRANGE_UNIT_SIZE
          * (((size + ELR_OVERRANGE_UNIT_SIZE - 1) % SIZE_MOD) / ELR_OVERRANGE_UNIT_SIZE))
          % SIZE_MOD
        let alloc_mpl : elr_mpl_t := ⟨parent_pool, (s.pool parent_pool).slice_tag⟩
        elr_mpl_create_ex s (some alloc_mpl) size
          (s.pool parent_pool).on_slice_alloc (s.pool parent_pool).on_slice_free
      else
        (s, ⟨alloc_pool, (s.pool alloc_pool).slice_tag⟩)
    let s := r.1
    let alloc_mpl := r.2
    let alloc_pool := alloc_mpl.pool
    if alloc_pool ≠ 0 then some (elr_mpl_alloc s alloc_mpl)
    else some (s, 0)

/-- The loop of lines 825-832: call `on_slice_free` on every payload of the
occupied list, unhooking each slice from the list head. -/
def free_occupied (s : State) (pool : Nat) : Nat → Nat → Option State
  | 0, _ => none
  | fuel + 1, temp_slice =>
    if temp_slice ≠ 0 then
      let s := s.setPool pool { s.pool pool with
        first_occupied_slice := (s.slice temp_slice).next }
      let s := { s with calls := ((s.pool pool).on_slice_free, temp_slice + SLICE_HDR) :: s.calls }
      free_occupied s pool fuel (s.pool pool).first_occupied_slice
    else some s

/-- The loop of lines 836-841: give every node of the pool back to the system. -/
def free_nodes (s : State) (pool : Nat) : Nat → Nat → Option State
  | 0, _ => none
  | fuel + 1, temp_node =>
    if temp_node ≠ 0 then
      let s := s.setPool pool { s.pool pool with first_node := (s.node temp_node).next }
      let s := sys_free s temp_node
      free_nodes s pool fuel (s.pool pool).first_node
    else some s

mutual

/-- The function `_elr_mpl_destory`.  The arguments `inner` and `lock_this`
only select lock operations, which this build does not have. -/
def _elr_mpl_destory : Nat → State → Nat → Int → Int → Option State
  | 0, _, _, _, _ => none
  | fuel + 1, s, pool, _inner, lock_this =>
    let s :=
      if (s.pool pool).next ≠ 0 then
        s.setPool (s.pool pool).next { s.pool (s.pool pool).next with prev := (s.pool pool).prev }
      else s
    let s :=
      if (s.pool pool).prev ≠ 0 then
        s.setPool (s.pool pool).prev { s.pool (s.pool pool).prev with next := (s.pool pool).next }
      else s
    let s :=
      if (s.pool pool).prev = 0 ∧ (s.pool pool).parent ≠ 0 then
        s.setPool (s.pool pool).parent
          { s.pool (s.pool pool).parent with first_child := (s.pool pool).next }
      else s
    match destroy_children fuel s pool lock_this with
    | none => none
    | some s =>
      let r :=
        if (s.pool pool).on_slice_free ≠ 0 then
          free_occupied s pool fuel (s.pool pool).first_occupied_slice
        else some s
      match r with
      | none => none
      | some s =>
        match free_nodes s pool fuel (s.pool pool).first_node with
        | none => none
        | some s =>
          let s := s.setPool pool { s.pool pool with parent := 0 }
          let s := s.setPool pool { s.pool pool with slice_tag := -1 }
          let s :=
            if pool ≠ s.g_multi_mem_pool.pool ∧ (s.pool pool).multi ≠ 0 then
              elr_mpl_free s (s.pool pool).multi
            else s
          if pool ≠ g_mem_pool then some (elr_mpl_free s pool) else some s

/-- The loop of lines 812-815:
`while((temp_pool = pool->first_child) != NULL) _elr_mpl_destory(temp_pool, 1, lock_this);` -/
def destroy_children : Nat → State → Nat → Int → Option State
  | 0, _, _, _ => none
  | fuel + 1, s, pool, lock_this =>
    if (s.pool pool).first_child ≠ 0 then
      match _elr_mpl_destory fuel s (s.pool pool).first_child 1 lock_this with
      | none => none
      | some s => destroy_children fuel s pool lock_this
    else some s

end

/-- The loop of lines 594-597: `_elr_mpl_destory(pool->multi[j], 0, 0)` for
`j` from the given index while `j < pool->multi_count`. -/
def destroy_multi (dfuel : Nat) : Nat → State → Nat → Nat → Option State
  | 0, _, _, _ => none
  | fuel + 1, s, pool, j =>
    if j < (s.pool pool).multi_count then
      match _elr_mpl_destory dfuel s (multi_at s pool j) 0 0 with
      | none => none
      | some s => destroy_multi dfuel fuel s pool (j + 1)
    else some s

/-- The function `elr_mpl_destroy`; the second component is the value left in
the caller's handle `*hpool`. -/
def elr_mpl_destroy (fuel : Nat) (s : State) (hpool : elr_mpl_t) : Option (State × elr_mpl_t) :=
  let pool := hpool.pool
  let pslice := pool - SLICE_HDR
  let r :=
    if hpool.tag = (s.pool pool).slice_tag ∧ hpool.tag = (s.slice pslice).tag then
      if (s.pool pool).multi ≠ 0 then destroy_multi fuel fuel s pool 0
      else _elr_mpl_destory fuel s pool 0 1
    else some s
  match r with
  | none => none
  | some s => some (s, ⟨0, 0⟩)

/-- The function `memcpy` on pointer cells: copy `n` cells from `src` to `dst`. -/
def memcpy_cells (s : State) (dst src : Nat) : Nat → State
  | 0 => s
  | n + 1 =>
    let s := memcpy_cells s dst src n
    s.setCell (dst + sizeof_ptr * n) (s.cell (src + sizeof_ptr * n))

/-- The loop of lines 278-293 from index `i` on, over the sizes still to do.
The result is the state, the final `i`, `valid` and `first_mpl`. -/
def create_multi_loop (fpool : Option elr_mpl_t) (on_alloc on_free : Nat)
    (multi_pool : Nat) (obj_size_count : Nat) :
    State → List Nat → Nat → elr_mpl_t → State × Nat × Bool × elr_mpl_t
  | s, [], i, first_mpl => (s, i, true, first_mpl)
  | s, sz :: rest, i, first_mpl =>
    let r := elr_mpl_create_ex s fpool sz on_alloc on_free
    let s := r.1
    let mpl := r.2
    if mpl.pool = 0 then (s, i, false, first_mpl)
    else
      let s := s.setCell (multi_pool + sizeof_ptr * i) mpl.pool
      if i = 0 then
        let s := s.setPool (s.cell (multi_pool + sizeof_ptr * i))
          { s.pool (s.cell (multi_pool + sizeof_ptr * i)) with multi := multi_pool }
        let s := s.setPool (s.cell (multi_pool + sizeof_ptr * i))
          { s.pool (s.cell (multi_pool + sizeof_ptr * i)) with multi_count := obj_size_count }
        create_multi_loop fpool on_alloc on_free multi_pool obj_size_count s rest (i + 1) mpl
      else
        create_multi_loop fpool on_alloc on_free multi_pool obj_size_count s rest (i + 1) first_mpl

/-- The loop of lines 315-318: `_elr_mpl_destory(multi_pool[j], 0, 0)` for
`j = i - n .. i - 1`. -/
def rollback_multi (fuel : Nat) (multi_pool : Nat) (i : Nat) : Nat → State → Option State
  | 0, s => some s
  | n + 1, s =>
    match _elr_mpl_destory fuel s (s.cell (multi_pool + sizeof_ptr * (i - (n + 1)))) 0 0 with
    | none => none
    | some s => rollback_multi fuel multi_pool i n s

/-- The function `elr_mpl_create_multi_1`.  The array `obj_size` of
`obj_size_count` sizes is the list `obj_size`; the C code requires it to be
non-empty (it reads `multi_pool[0]`). -/
def elr_mpl_create_multi_1 (fuel : Nat) (s : State) (fpool : Option elr_mpl_t)
    (on_alloc on_free : Nat) (obj_size : List Nat) : Option (State × elr_mpl_t) :=
  let obj_size_count := obj_size.length
  let r := malloc s ((obj_size_count * sizeof_ptr) % SIZE_MOD)
  let s := r.1
  let multi_pool := r.2
  if multi_pool = 0 then some (s, ELR_MPL_INITIALIZER) else
  let r := create_multi_loop fpool on_alloc on_free multi_pool obj_size_count s obj_size 0
    ELR_MPL_INITIALIZER
  let s := r.1
  let i := r.2.1
  let valid := r.2.2.1
  let first_mpl := r.2.2.2
  let r :=
    if valid then
      let s :=
        if s.g_multi_mem_pool.pool = 0 then { s with g_multi_mem_pool := first_mpl } else s
      match elr_mpl_alloc_multi fuel s (some s.g_multi_mem_pool)
          ((obj_size_count * sizeof_ptr) % SIZE_MOD) with
      | none => none
      | some r =>
        let s := r.1
        let s := s.setPool (s.cell multi_pool) { s.pool (s.cell multi_pool) with multi := r.2 }
        if (s.pool (s.cell multi_pool)).multi ≠ 0 then
          some (memcpy_cells s (s.pool (s.cell multi_pool)).multi multi_pool obj_size_count, true)
        else some (s, false)
    else some (s, false)
  match r with
  | none => none
  | some (s, valid) =>
    let r :=
      if valid = false then
        match rollback_multi fuel multi_pool i i s with
        | none => none
        | some s => some (s, ELR_MPL_INITIALIZER)
      else some (s, first_mpl)
    match r with
    | none => none
    | some (s, first_mpl) => some (sys_free s multi_pool, first_mpl)

/-- The function `elr_mpl_create_multi_2`.  The variadic `int` arguments are
the list `sizes`; each is converted to `size_t`. -/
def elr_mpl_create_multi_2 (fuel : Nat) (s : State) (fpool : Option elr_mpl_t)
    (on_alloc on_free : Nat) (sizes : List Int) : Option (State × elr_mpl_t) :=
  let obj_size_count := sizes.length
  let r := malloc s ((obj_size_count * sizeof_size_t) % SIZE_MOD)
  let s := r.1
  let obj_size := r.2
  if obj_size = 0 then some (s, ELR_MPL_INITIALIZER) else
  match elr_mpl_create_multi_1 fuel s fpool on_alloc on_free
      (sizes.map (fun v => (v % (SIZE_MOD : Int)).toNat)) with
  | none => none
  | some (s, mpl) => some (sys_free s obj_size, mpl)

/-- The size classes of the global multi-size pool (lines 172 and 179). -/
def default_sizes : List Int :=
  [64, 98, 128, 192, 256, 384, 512, 768, 1024, 1280, 1536, 1792, 2048]

/-- The function `elr_mpl_init`; the second component is the return value. -/
def elr_mpl_init (fuel : Nat) (s : State) : Option (State × Int) :=
  let s : State := { s with g_mpl_refs := s.g_mpl_refs + 1 }
  if s.g_mpl_refs = 1 then
    let s : State := { s with g_occupation_size := 0 }
    let s := s.setPool g_mem_pool { s.pool g_mem_pool with parent := 0 }
    let s := s.setPool g_mem_pool { s.pool g_mem_pool with first_child := 0 }
    let s := s.setPool g_mem_pool { s.pool g_mem_pool with prev := 0 }
    let s := s.setPool g_mem_pool { s.pool g_mem_pool with next := 0 }
    let s := s.setPool g_mem_pool { s.pool g_mem_pool with multi := 0 }
    let s := s.setPool g_mem_pool { s.pool g_mem_pool with multi_count := 0 }
    let s := s.setPool g_mem_pool { s.pool g_mem_pool with object_size := sizeof_elr_mem_pool }
    let s := s.setPool g_mem_pool { s.pool g_mem_pool with
      slice_size := (ELR_ALIGN sizeof_elr_mem_slice sizeof_int
        + ELR_ALIGN sizeof_elr_mem_pool sizeof_int) % SIZE_MOD }
    let s := s.setPool g_mem_pool { s.pool g_mem_pool with slice_count := ELR_MAX_SLICE_COUNT }
    let s := s.setPool g_mem_pool { s.pool g_mem_pool with
      node_size := ((s.pool g_mem_pool).slice_size * (s.pool g_mem_pool).slice_count
        + ELR_ALIGN sizeof_elr_mem_node sizeof_int) % SIZE_MOD }
    let s := s.setPool g_mem_pool { s.pool g_mem_pool with first_node := 0 }
    let s := s.setPool g_mem_pool { s.pool g_mem_pool with newly_alloc_node := 0 }
    let s := s.setPool g_mem_pool { s.pool g_mem_pool with first_free_slice := 0 }
    let s := s.setPool g_mem_pool { s.pool g_mem_pool with on_slice_alloc := 0 }
    let s := s.setPool g_mem_pool { s.pool g_mem_pool with on_slice_free := 0 }
    let s := s.setPool g_mem_pool { s.pool g_mem_pool with first_occupied_slice := 0 }
    let s := s.setPool g_mem_pool { s.pool g_mem_pool with slice_tag := 0 }
    match elr_mpl_create_multi_2 fuel s none 0 0 default_sizes with
    | none => none
    | some (s, mpl) =>
      let s : State := { s with g_multi_mem_pool := mpl }
      if s.g_multi_mem_pool.pool = 0 then
        some ({ s with g_mpl_refs := s.g_mpl_refs - 1 }, 0)
      else some (s, 1)
  else some (s, 1)

/-- The function `elr_mpl_finalize`. -/
def elr_mpl_finalize (fuel : Nat) (s : State) : Option State :=
  let s : State := { s with g_mpl_refs := s.g_mpl_refs - 1 }
  if s.g_mpl_refs = 0 then _elr_mpl_destory fuel s g_mem_pool 0 1
  else some s

/-! ## Linked lists and the pool invariant -/

/-- Following `nx` from `a` visits exactly the non-null addresses `l`, in
order, and then arrives at `b`. -/
def Chain (nx : Nat → Nat) : Nat → List Nat → Nat → Prop
  | a, [], b => a = b
  | a, x :: l, b => a = x ∧ x ≠ 0 ∧ Chain nx (nx x) l b

/-- The last element of `l`, or `d` when `l` is empty. -/
def lastD : List Nat → Nat → Nat
  | [], d => d
  | x :: l, _ => lastD l x

/-- Every element of `l` has its predecessor in `l` as `pv`, the first one `p`. -/
def Back (pv : Nat → Nat) : Nat → List Nat → Prop
  | _, [] => True
  | p, x :: l => pv x = p ∧ Back pv x l

instance Chain.instDecidable (nx : Nat → Nat) :
    ∀ (a : Nat) (l : List Nat) (b : Nat), Decidable (Chain nx a l b)
  | a, [], b => inferInstanceAs (Decidable (a = b))
  | a, x :: l, b =>
    have := Chain.instDecidable nx (nx x) l b
    inferInstanceAs (Decidable (a = x ∧ x ≠ 0 ∧ Chain nx (nx x) l b))

instance Back.instDecidable (pv : Nat → Nat) :
    ∀ (p : Nat) (l : List Nat), Decidable (Back pv p l)
  | _, [] => inferInstanceAs (Decidable True)
  | p, x :: l =>
    have := Back.instDecidable pv x l
    inferInstanceAs (Decidable (pv x = p ∧ Back pv x l))

/-- The null-terminated doubly linked list with head pointer `first` holds
exactly `l`, without repetition. -/
def DLL (nx pv : Nat → Nat) (first : Nat) (l : List Nat) : Prop :=
  Chain nx first l 0 ∧ Back pv 0 l ∧ l.Nodup

instance DLL.instDecidable (nx pv : Nat → Nat) (first : Nat) (l : List Nat) :
    Decidable (DLL nx pv first l) :=
  inferInstanceAs (Decidable (Chain nx first l 0 ∧ Back pv 0 l ∧ l.Nodup))

/-- The node list of `pool` (from `first_node`) is `l`. -/
def node_list (s : State) (pool : Nat) (l : List Nat) : Prop :=
  DLL (fun n => (s.node n).next) (fun n => (s.node n).prev) (s.pool pool).first_node l

/-- The free-slice list of `pool` (from `first_free_slice`) is `l`. -/
def free_list (s : State) (pool : Nat) (l : List Nat) : Prop :=
  DLL (fun x => (s.slice x).next) (fun x => (s.slice x).prev) (s.pool pool).first_free_slice l

/-- The occupied-slice list of `pool` (from `first_occupied_slice`) is `l`. -/
def occupied_list (s : State) (pool : Nat) (l : List Nat) : Prop :=
  DLL (fun x => (s.slice x).next) (fun x => (s.slice x).prev)
    (s.pool pool).first_occupied_slice l

instance node_list.instDecidable (s : State) (pool : Nat) (l : List Nat) :
    Decidable (node_list s pool l) := by
  unfold node_list; infer_instance

instance free_list.instDecidable (s : State) (pool : Nat) (l : List Nat) :
    Decidable (free_list s pool l) := by
  unfold free_list; infer_instance

instance occupied_list.instDecidable (s : State) (pool : Nat) (l : List Nat) :
    Decidable (occupied_list s pool l) := by
  unfold occupied_list; infer_instance

/-- The free slices of node `n` in a free list given as runs `(node, slices)`. -/
def run_of (runs : List (Nat × List Nat)) (n : Nat) : List Nat :=
  match runs.find? (fun r => r.1 = n) with
  | some r => r.2
  | none => []

/-- The free list that the runs spell out. -/
def flat (runs : List (Nat × List Nat)) : List Nat := (runs.map Prod.snd).flatten

/-- No two live blocks of the system allocator overlap. -/
def blocks_disjoint (s : State) : Prop :=
  s.blocks.Pairwise (fun a b => disjoint a.1 a.2 b.1 b.2 = true)

instance blocks_disjoint.instDecidable (s : State) : Decidable (blocks_disjoint s) := by
  unfold blocks_disjoint; infer_instance

/-- What holds of one node `n` of a pool whose free list is `runs` and whose
occupied list is `OL`. -/
def NodeInv (s : State) (pool : Nat) (runs : List (Nat × List Nat)) (OL : List Nat)
    (n : Nat) : Prop :=
  (s.node n).owner = pool
  ∧ (n, (s.pool pool).node_size) ∈ s.blocks
  ∧ (s.node n).used_slice_count ≤ (s.pool pool).slice_count
  ∧ (s.node n).first_avail
      = n + NODE_HDR + (s.node n).used_slice_count * (s.pool pool).slice_size
  ∧ (n ≠ (s.pool pool).newly_alloc_node →
      (s.node n).used_slice_count = (s.pool pool).slice_count)
  ∧ (s.node n).using_slice_count = OL.countP (fun x => decide ((s.slice x).node = n))
  ∧ (s.node n).used_slice_count = (s.node n).using_slice_count + (run_of runs n).length
  ∧ (s.node n).free_slice_head = (run_of runs n).headD 0
  ∧ (s.node n).free_slice_tail = lastD (run_of runs n) 0
  ∧ (∀ i : Nat, i < (s.node n).used_slice_count →
      n + NODE_HDR + i * (s.pool pool).slice_size ∈ flat runs ++ OL)

instance NodeInv.instDecidable (s : State) (pool : Nat) (runs : List (Nat × List Nat))
    (OL : List Nat) (n : Nat) : Decidable (NodeInv s pool runs OL n) := by
  unfold NodeInv; infer_instance

/-- The invariant of a pool: `NL` is its node list, `runs` its free list cut
into the runs of slices of one node each, `OL` its occupied list. -/
structure PoolInv (s : State) (pool : Nat) (NL : List Nat) (runs : List (Nat × List Nat))
    (OL : List Nat) : Prop where
  blocks_ok : blocks_disjoint s
  ss_pos : 0 < (s.pool pool).slice_size
  sc_pos : 0 < (s.pool pool).slice_count
  sc_lt : (s.pool pool).slice_count < SIZE_MOD
  ns_pos : 0 < (s.pool pool).node_size
  geom : (s.pool pool).slice_count = 1
    ∨ NODE_HDR + (s.pool pool).slice_count * (s.pool pool).slice_size ≤ (s.pool pool).node_size
  nodes : node_list s pool NL
  node_ok : ∀ n ∈ NL, NodeInv s pool runs OL n
  newly_ok : (s.pool pool).newly_alloc_node = 0
    ∨ ((s.pool pool).newly_alloc_node ∈ NL
      ∧ (s.node (s.pool pool).newly_alloc_node).used_slice_count < (s.pool pool).slice_count)
  frees : free_list s pool (flat runs)
  runs_keys : (runs.map Prod.fst).Nodup
  runs_ok : ∀ r ∈ runs, r.2 ≠ [] ∧ r.1 ∈ NL ∧ ∀ x ∈ r.2, (s.slice x).node = r.1
  occ : occupied_list s pool OL
  occ_ok : ∀ x ∈ OL, (s.slice x).node ∈ NL
  disj : ∀ x ∈ OL, x ∉ flat runs
  issued : ∀ x ∈ flat runs ++ OL, ∃ i : Nat, i < (s.node (s.slice x).node).used_slice_count
    ∧ x = (s.slice x).node + NODE_HDR + i * (s.pool pool).slice_size
  tag_occ : ∀ x ∈ OL, (s.slice x).tag % 2 = 0
    ∧ -2147483648 ≤ (s.slice x).tag ∧ (s.slice x).tag ≤ 2147483647
  tag_free : ∀ x ∈ flat runs, (s.slice x).tag % 2 = 1
    ∧ -2147483648 ≤ (s.slice x).tag ∧ (s.slice x).tag ≤ 2147483647

instance PoolInv.instDecidable (s : State) (pool : Nat) (NL : List Nat)
    (runs : List (Nat × List Nat)) (OL : List Nat) : Decidable (PoolInv s pool NL runs OL) :=
  if h : blocks_disjoint s
      ∧ 0 < (s.pool pool).slice_size
      ∧ 0 < (s.pool pool).slice_count
      ∧ (s.pool pool).slice_count < SIZE_MOD
      ∧ 0 < (s.pool pool).node_size
      ∧ ((s.pool pool).slice_count = 1
        ∨ NODE_HDR + (s.pool pool).slice_count * (s.pool pool).slice_size
          ≤ (s.pool pool).node_size)
      ∧ node_list s pool NL
      ∧ (∀ n ∈ NL, NodeInv s pool runs OL n)
      ∧ ((s.pool pool).newly_alloc_node = 0
        ∨ ((s.pool pool).newly_alloc_node ∈ NL
          ∧ (s.node (s.pool pool).newly_alloc_node).used_slice_count
            < (s.pool pool).slice_count))
      ∧ free_list s pool (flat runs)
      ∧ (runs.map Prod.fst).Nodup
      ∧ (∀ r ∈ runs, r.2 ≠ [] ∧ r.1 ∈ NL ∧ ∀ x ∈ r.2, (s.slice x).node = r.1)
      ∧ occupied_list s pool OL
      ∧ (∀ x ∈ OL, (s.slice x).node ∈ NL)
      ∧ (∀ x ∈ OL, x ∉ flat runs)
      ∧ (∀ x ∈ flat runs ++ OL, ∃ i : Nat, i < (s.node (s.slice x).node).used_slice_count
        ∧ x = (s.slice x).node + NODE_HDR + i * (s.pool pool).slice_size)
      ∧ (∀ x ∈ OL, (s.slice x).tag % 2 = 0
        ∧ -2147483648 ≤ (s.slice x).tag ∧ (s.slice x).tag ≤ 2147483647)
      ∧ (∀ x ∈ flat runs, (s.slice x).tag % 2 = 1
        ∧ -2147483648 ≤ (s.slice x).tag ∧ (s.slice x).tag ≤ 2147483647) then
    isTrue ⟨h.1, h.2.1, h.2.2.1, h.2.2.2.1, h.2.2.2.2.1, h.2.2.2.2.2.1, h.2.2.2.2.2.2.1,
      h.2.2.2.2.2.2.2.1, h.2.2.2.2.2.2.2.2.1, h.2.2.2.2.2.2.2.2.2.1, h.2.2.2.2.2.2.2.2.2.2.1,
      h.2.2.2.2.2.2.2.2.2.2.2.1, h.2.2.2.2.2.2.2.2.2.2.2.2.1, h.2.2.2.2.2.2.2.2.2.2.2.2.2.1,
      h.2.2.2.2.2.2.2.2.2.2.2.2.2.2.1, h.2.2.2.2.2.2.2.2.2.2.2.2.2.2.2.1,
      h.2.2.2.2.2.2.2.2.2.2.2.2.2.2.2.2.1, h.2.2.2.2.2.2.2.2.2.2.2.2.2.2.2.2.2⟩
  else
    isFalse (fun hi => h ⟨hi.blocks_ok, hi.ss_pos, hi.sc_pos, hi.sc_lt, hi.ns_pos, hi.geom,
      hi.nodes, hi.node_ok, hi.newly_ok, hi.frees, hi.runs_keys, hi.runs_ok, hi.occ, hi.occ_ok,
      hi.disj, hi.issued, hi.tag_occ, hi.tag_free⟩)

/-- The fields of a pool that allocation and release never write: the pool
with its four list heads blanked. -/
def static_of (p : elr_mem_pool) : elr_mem_pool :=
  { p with first_node := 0, newly_alloc_node := 0, first_free_slice := 0,
           first_occupied_slice := 0 }

/-- The sizes and list heads of a pool, which `elr_mpl_create_ex` sets once and
the linking of the pool into the tree does not touch. -/
def geometry_of (p : elr_mem_pool) : Nat × Nat × Nat × Nat × Nat × Nat × Nat × Nat :=
  (p.object_size, p.slice_size, p.slice_count, p.node_size, p.first_node,
    p.newly_alloc_node, p.first_free_slice, p.first_occupied_slice)

/-- A call on a pool by its client. -/
inductive Op where
  | alloc : Op
  | free (mem : Nat) : Op
  deriving DecidableEq

/-- Run a sequence of `elr_mpl_alloc` and `elr_mpl_free` calls on the pool of
the handle `h`, keeping the list of the live payloads: those returned by
`elr_mpl_alloc` and not yet given to `elr_mpl_free`.  A release of a payload
that is not live is not a call the client may make; it is skipped. -/
def run_ops (h : elr_mpl_t) : List Op → State × List Nat → State × List Nat
  | [], c => c
  | Op.alloc :: ops, c =>
      run_ops h ops ((elr_mpl_alloc c.1 h).1,
        if (elr_mpl_alloc c.1 h).2 = 0 then c.2 else (elr_mpl_alloc c.1 h).2 :: c.2)
  | Op.free mem :: ops, c =>
      if mem ∈ c.2 then run_ops h ops (elr_mpl_free c.1 mem, c.2.erase mem)
      else run_ops h ops c

/-- The pool `P` satisfies its invariant and every live payload is the payload
of an occupied slice. -/
def Live (s : State) (P : Nat) (live : List Nat) : Prop :=
  ∃ NL runs OL, PoolInv s P NL runs OL ∧ live.Nodup
    ∧ ∀ p ∈ live, SLICE_HDR ≤ p ∧ p - SLICE_HDR ∈ OL

/-- No live block of the system allocator overlaps the static storage of
`g_mem_pool`. -/
def static_clear (s : State) : Prop :=
  ∀ b ∈ s.blocks, disjoint b.1 b.2 (g_mem_pool - SLICE_HDR) (SLICE_HDR + sizeof_elr_mem_pool)
    = true

instance static_clear.instDecidable (s : State) : Decidable (static_clear s) := by
  unfold static_clear; infer_instance

/-! ## Concrete states -/

/-- Memory in which every byte is zero (static storage at program start), with
the system allocator about to give the answers `sys`. -/
def zero_state (sys : List (Option Nat)) : State :=
  { slice := fun _ => ⟨0, 0, 0, 0⟩
    node := fun _ => ⟨0, 0, 0, 0, 0, 0, 0, 0⟩
    pool := fun _ => ⟨0, 0, 0, 0, 0, 0, 0, 0, 0, 0, 0, 0, 0, 0, 0, 0, 0⟩
    cell := fun _ => 0
    g_multi_mem_pool := ⟨0, 0⟩
    g_occupation_size := 0
    g_mpl_refs := 0
    blocks := []
    sys := sys
    calls := [] }

/-- The state of an `Option` result, or the given state when there is none. -/
def state_of {α : Type} (d : State) : Option (State × α) → State
  | some r => r.1
  | none => d

/-- The state after the first `elr_mpl_init()` of a program whose allocator
answers the four requests of `elr_mpl_init` with the addresses `65536`,
`69632`, `131072`, `196608` and the later ones with `rest`. -/
def booted (rest : List (Option Nat)) : State :=
  state_of (zero_state rest)
    (elr_mpl_init 8 (zero_state ([some 65536, some 69632, some 131072, some 196608] ++ rest)))

/-- The state after `n` further calls `elr_mpl_create(NULL, 8)`. -/
def create_many : Nat → State → State
  | 0, s => s
  | n + 1, s => create_many n (elr_mpl_create s none 8).1

/-- The state after `elr_mpl_init` and `p = elr_mpl_create(NULL, 256)`; the
handle `p` is `(133352, 0)`. -/
def pool256_state : State := (elr_mpl_create (booted [some 300000]) none 256).1

/-- The occupied list of `g_mem_pool` in `pool256_state`. -/
def pool256_occupied : List Nat :=
  [133320, 133152, 132984, 132816, 132648, 132480, 132312, 132144, 131976, 131808, 131640,
    131472, 131304, 131136]

/-- The pool of the largest default size class (2048 bytes) after
`elr_mpl_init`. -/
def largest_class : Nat :=
  multi_at (booted [some 300000, some 400000])
    (booted [some 300000, some 400000]).g_multi_mem_pool.pool 12

/-- The state and handle `h` after `elr_mpl_init`, a pool of 1 GiB objects with
one object allocated, 50 calls `elr_mpl_create(NULL, 8)` that fill the first
node of `g_mem_pool`, and `h = elr_mpl_create(NULL, 8)`, whose pool object lands
in a second node of `g_mem_pool` at `2000000000`; the system allocator will
return that address once more. -/
def stale_scenario : State × elr_mpl_t :=
  elr_mpl_create
    (create_many 50
      (elr_mpl_alloc
        (elr_mpl_create (booted [some 300000, some 2000000000, some 2000000000]) none
          (2 ^ 30)).1
        (elr_mpl_create (booted [some 300000, some 2000000000, some 2000000000]) none
          (2 ^ 30)).2).1)
    none 8

/-- The state and handle after `elr_mpl_init`, `p = elr_mpl_create(NULL, 256)`
and `c = elr_mpl_create(&p, 128)`. -/
def child_scenario : State × elr_mpl_t :=
  elr_mpl_create (elr_mpl_create (booted []) none 256).1
    (some (elr_mpl_create (booted []) none 256).2) 128

/-- Answers of the system allocator for two rounds of `elr_mpl_init`, the
second of which gets the node of `g_mem_pool` at `900000`. -/
def twice_sys : List (Option Nat) :=
  [some 65536, some 69632, some 131072, some 196608, some 65536, some 69632, some 900000]

/-- The state after `elr_mpl_init`, `p = elr_mpl_create(NULL, 256)` and one
`elr_mpl_alloc(&p)`, which acquires the node `300000` of `p`. -/
def alloc256_state : State := (elr_mpl_alloc pool256_state ⟨133352, 0⟩).1

/-- The state after `elr_mpl_init` and 50 calls `elr_mpl_create(NULL, 8)`: the
only node of `g_mem_pool` has one unused slice left; the system allocator will
grant one request, at `500000`, and refuse the next. -/
def rollback_scenario : State := create_many 50 (booted [some 500000, none])

/-- The list `R` is the free subrange of the node `n` in the free list `FL`:
a contiguous part of `FL` that holds exactly the slices of `FL` lying in `n`,
from `free_slice_head` to `free_slice_tail`, which are null exactly when `R`
is empty. -/
def free_subrange (s : State) (FL : List Nat) (n : Nat) (R : List Nat) : Prop :=
  (∃ A B, FL = A ++ R ++ B ∧ ∀ x ∈ A ++ B, (s.slice x).node ≠ n)
  ∧ (∀ x ∈ R, (s.slice x).node = n)
  ∧ (s.node n).free_slice_head = R.headD 0
  ∧ (s.node n).free_slice_tail = lastD R 0
  ∧ ((s.node n).free_slice_head = 0 ↔ R = [])
  ∧ ((s.node n).free_slice_tail = 0 ↔ R = [])

/-- The pool `P` passes the tag check of `_elr_slice_from_pool` and
`elr_mpl_free`: the tag of the slice that holds the pool object is the tag the
pool recorded when it was created. -/
def pool_valid (s : State) (P : Nat) : Prop :=
  (s.slice (P - SLICE_HDR)).tag = (s.pool P).slice_tag

instance pool_valid.instDecidable (s : State) (P : Nat) : Decidable (pool_valid s P) := by
  unfold pool_valid; infer_instance

/-- The slice that holds the pool object `P` starts inside a live block that
is not a node of `P`. -/
def anchored (s : State) (P : Nat) : Prop :=
  ∃ b ∈ s.blocks, (s.node b.1).owner ≠ P ∧ 0 < b.1 ∧ b.1 ≤ P - SLICE_HDR
    ∧ P - SLICE_HDR < b.1 + b.2

instance anchored.instDecidable (s : State) (P : Nat) : Decidable (anchored s P) := by
  unfold anchored; infer_instance

/-- The nodes of the pool `P` have room for their header and `slice_count`
slices. -/
def roomy (s : State) (P : Nat) : Prop :=
  NODE_HDR + (s.pool P).slice_count * (s.pool P).slice_size ≤ (s.pool P).node_size

instance roomy.instDecidable (s : State) (P : Nat) : Decidable (roomy s P) := by
  unfold roomy; infer_instance

/-- The pool `P` is in working order and `live` are its live payloads: the
pool invariant holds, the pool is valid, and its own slice lies apart from its
nodes. -/
def Sound (s : State) (P : Nat) (live : List Nat) : Prop :=
  Live s P live ∧ pool_valid s P ∧ anchored s P ∧ roomy s P

/-- The state and the live payloads after a call of `elr_mpl_create_ex` in
the state `s` and the calls `ops` on the new pool. -/
def reached (s : State) (fpool : Option elr_mpl_t) (n a f : Nat) (ops : List Op) :
    State × List Nat :=
  run_ops (elr_mpl_create_ex s fpool n a f).2 ops ((elr_mpl_create_ex s fpool n a f).1, [])

/-- The occupied list of `g_mem_pool` after `elr_mpl_init`. -/
def init_occupied : List Nat :=
  [133152, 132984, 132816, 132648, 132480, 132312, 132144, 131976, 131808, 131640, 131472,
    131304, 131136]

/-- The fields of a pool that tell whether it is an unused pool without
children, and its tag. -/
def leaf_of (p : elr_mem_pool) : Nat × Nat × Nat × Nat × Nat × Int :=
  (p.parent, p.first_child, p.first_node, p.multi, p.on_slice_free, p.slice_tag)

/-- Lines 798-804 of `_elr_mpl_destory`: take the pool out of the list of
children of its parent. -/
def unlink_pool (s : State) (pool : Nat) : State :=
  let s :=
    if (s.pool pool).next ≠ 0 then
      s.setPool (s.pool pool).next { s.pool (s.pool pool).next with prev := (s.pool pool).prev }
    else s
  let s :=
    if (s.pool pool).prev ≠ 0 then
      s.setPool (s.pool pool).prev { s.pool (s.pool pool).prev with next := (s.pool pool).next }
    else s
  if (s.pool pool).prev = 0 ∧ (s.pool pool).parent ≠ 0 then
    s.setPool (s.pool pool).parent
      { s.pool (s.pool pool).parent with first_child := (s.pool pool).next }
  else s

/-- Lines 843-844 of `_elr_mpl_destory`: the pool loses its parent and its
tag. -/
def mark_dead (s : State) (pool : Nat) : State :=
  let s := s.setPool pool { s.pool pool with parent := 0 }
  s.setPool pool { s.pool pool with slice_tag := -1 }

/-- The offset of the field `node` in `elr_mem_slice`: it follows the pointers
`prev` and `next`. -/
def offsetof_slice_node : Nat := 2 * sizeof_ptr

/-- The part of a state that a destruction of the pool `133352` (an unused
pool of 8-byte objects, the newest child of `g_mem_pool`, in the slice
`133320` of the node `131072`) and the next `elr_mpl_create(NULL, 8)` read
and write, with the tag `t` of the slice and of the pool. -/
def cycle_view (s : State) (t : Int) : Prop :=
  s.pool 133352 = ⟨4096, 0, 0, 133184, 0, 0, 64, 40, 8, 2624, 0, 0, 0, 0, 0, 0, t⟩
  ∧ s.pool 4096 = ⟨0, 133352, 0, 0, 0, 0, 64, 168, 136, 10816, 131072, 131072, 0, 0, 0, 133320, 0⟩
  ∧ s.pool 133184
      = ⟨4096, 0, 133352, 133016, 0, 0, 61, 2080, 2048, 126944, 0, 0, 0, 0, 0, 0, 0⟩
  ∧ s.slice 133320 = ⟨0, 133152, 131072, t⟩
  ∧ s.slice 133152 = ⟨133320, 132984, 131072, 0⟩
  ∧ (s.slice 4064).tag = 0
  ∧ s.node 131072 = ⟨4096, 0, 0, 0, 0, 14, 14, 133488⟩
  ∧ s.g_occupation_size = 21120
  ∧ s.blocks = [(196608, 10304), (131072, 10816)]

instance cycle_view.instDecidable (s : State) (t : Int) : Decidable (cycle_view s t) := by
  unfold cycle_view; infer_instance

/-- The same part of the state after the destruction of the pool `133352`:
the pool is dead and out of the children of `g_mem_pool`, and its slice, with
the tag `u`, is the free list of `g_mem_pool`. -/
def dead_view (s : State) (u : Int) : Prop :=
  s.pool 133352 = ⟨0, 0, 0, 133184, 0, 0, 64, 40, 8, 2624, 0, 0, 0, 0, 0, 0, -1⟩
  ∧ s.pool 4096
      = ⟨0, 133184, 0, 0, 0, 0, 64, 168, 136, 10816, 131072, 131072, 133320, 0, 0, 133152, 0⟩
  ∧ s.pool 133184
      = ⟨4096, 0, 0, 133016, 0, 0, 61, 2080, 2048, 126944, 0, 0, 0, 0, 0, 0, 0⟩
  ∧ s.slice 133320 = ⟨0, 0, 131072, u⟩
  ∧ s.slice 133152 = ⟨0, 132984, 131072, 0⟩
  ∧ (s.slice 4064).tag = 0
  ∧ s.node 131072 = ⟨4096, 0, 0, 133320, 133320, 13, 14, 133488⟩
  ∧ s.g_occupation_size = 21120
  ∧ s.blocks = [(196608, 10304), (131072, 10816)]

instance dead_view.instDecidable (s : State) (u : Int) : Decidable (dead_view s u) := by
  unfold dead_view; infer_instance

/-- The calls `elr_mpl_destroy(&h); h = elr_mpl_create(NULL, 8);` made `k`
times, from the state and handle `c`.  The step budget of a destruction is 2,
which is enough for a pool without children, nodes and callback; the result is
`none` when a destruction runs out of it. -/
def recycle : Nat → State × elr_mpl_t → Option (State × elr_mpl_t)
  | 0, c => some c
  | k + 1, c =>
    match elr_mpl_destroy 2 c.1 c.2 with
    | none => none
    | some r => recycle k (elr_mpl_create r.1 none 8)

/-! ## Theorems -/

/-! ### Linked lists -/

theorem chain_nil {nx : Nat → Nat} {a b : Nat} : Chain nx a [] b ↔ a = b := Iff.rfl

theorem chain_cons {nx : Nat → Nat} {a b x : Nat} {l : List Nat} :
    Chain nx a (x :: l) b ↔ a = x ∧ x ≠ 0 ∧ Chain nx (nx x) l b := Iff.rfl

theorem back_nil {pv : Nat → Nat} {p : Nat} : Back pv p [] ↔ True := Iff.rfl

theorem back_cons {pv : Nat → Nat} {p x : Nat} {l : List Nat} :
    Back pv p (x :: l) ↔ pv x = p ∧ Back pv x l := Iff.rfl

theorem chain_congr {nx nx2 : Nat → Nat} : ∀ {l : List Nat} {a b : Nat},
    (∀ y ∈ l, nx2 y = nx y) → (Chain nx2 a l b ↔ Chain nx a l b) := by
  intro l
  induction l with
  | nil => intro a b _; simp [chain_nil]
  | cons x l ih =>
    intro a b h
    simp only [chain_cons]
    rw [h x (List.mem_cons_self _ _), ih (fun y hy => h y (List.mem_cons_of_mem _ hy))]

theorem back_congr {pv pv2 : Nat → Nat} : ∀ {l : List Nat} {p : Nat},
    (∀ y ∈ l, pv2 y = pv y) → (Back pv2 p l ↔ Back pv p l) := by
  intro l
  induction l with
  | nil => intro p _; simp [back_nil]
  | cons x l ih =>
    intro p h
    simp only [back_cons]
    rw [h x (List.mem_cons_self _ _), ih (fun y hy => h y (List.mem_cons_of_mem _ hy))]

theorem chain_append {nx : Nat → Nat} : ∀ {l1 l2 : List Nat} {a b : Nat},
    Chain nx a (l1 ++ l2) b ↔ ∃ m, Chain nx a l1 m ∧ Chain nx m l2 b := by
  intro l1
  induction l1 with
  | nil =>
    intro l2 a b
    simp [chain_nil]
  | cons x l ih =>
    intro l2 a b
    simp only [List.cons_append, chain_cons, ih]
    constructor
    · rintro ⟨h1, h2, m, h3, h4⟩
      exact ⟨m, ⟨h1, h2, h3⟩, h4⟩
    · rintro ⟨m, ⟨h1, h2, h3⟩, h4⟩
      exact ⟨h1, h2, m, h3, h4⟩

theorem back_append {pv : Nat → Nat} : ∀ {l1 l2 : List Nat} {p : Nat},
    Back pv p (l1 ++ l2) ↔ Back pv p l1 ∧ Back pv (lastD l1 p) l2 := by
  intro l1
  induction l1 with
  | nil =>
    intro l2 p
    simp [back_nil, lastD]
  | cons x l ih =>
    intro l2 p
    simp only [List.cons_append, back_cons, ih, and_assoc, lastD]

theorem chain_not_mem_zero {nx : Nat → Nat} : ∀ {l : List Nat} {a b : Nat},
    Chain nx a l b → (0 : Nat) ∉ l := by
  intro l
  induction l with
  | nil => intro a b _; simp
  | cons x l ih =>
    intro a b h
    simp only [chain_cons] at h
    simp only [List.mem_cons, not_or]
    exact ⟨fun h0 => h.2.1 h0.symm, ih h.2.2⟩

theorem chain_head {nx : Nat → Nat} {l : List Nat} {a b : Nat} (h : Chain nx a l b) :
    a = l.headD b := by
  cases l with
  | nil => simpa [chain_nil, chain_cons] using h
  | cons x l => simpa [chain_nil, chain_cons] using h.1

/-- In a chain through `A ++ x :: B` the successor of `x` is the head of `B`. -/
theorem chain_next {nx : Nat → Nat} {A B : List Nat} {x a b : Nat}
    (h : Chain nx a (A ++ x :: B) b) : nx x = B.headD b := by
  rw [chain_append] at h
  obtain ⟨m, _, h2⟩ := h
  simp only [chain_cons] at h2
  exact chain_head h2.2.2

/-- In a back-linked list `A ++ x :: B` the predecessor of `x` is the last of `A`. -/
theorem back_prev {pv : Nat → Nat} {A B : List Nat} {x p : Nat}
    (h : Back pv p (A ++ x :: B)) : pv x = lastD A p := by
  rw [back_append] at h
  simp only [back_cons] at h
  exact h.2.1

theorem dll_not_mem_zero {nx pv : Nat → Nat} {f : Nat} {l : List Nat}
    (h : DLL nx pv f l) : (0 : Nat) ∉ l :=
  chain_not_mem_zero h.1

theorem dll_first {nx pv : Nat → Nat} {f : Nat} {l : List Nat}
    (h : DLL nx pv f l) : f = l.headD 0 :=
  chain_head h.1

theorem dll_nil_iff {nx pv : Nat → Nat} {f : Nat} {l : List Nat}
    (h : DLL nx pv f l) : f = 0 ↔ l = [] := by
  cases l with
  | nil => simpa [chain_nil] using h.1
  | cons x l =>
    have h1 := h.1
    simp only [chain_cons] at h1
    simp only [reduceCtorEq, iff_false]
    rw [h1.1]
    exact h1.2.1

theorem lastD_cons_cons (x y : Nat) (l : List Nat) (d : Nat) :
    lastD (x :: y :: l) d = lastD (y :: l) d := rfl

theorem lastD_of_ne_nil : ∀ {l : List Nat}, l ≠ [] → ∀ a b : Nat, lastD l a = lastD l b := by
  intro l h a b
  cases l with
  | nil => exact absurd rfl h
  | cons x l => rfl

theorem lastD_mem : ∀ {l : List Nat} (d : Nat), l ≠ [] → lastD l d ∈ l := by
  intro l
  induction l with
  | nil => intro d h; exact absurd rfl h
  | cons x l ih =>
    intro d _
    cases l with
    | nil => simp [lastD]
    | cons y l =>
      have := ih x (by simp)
      exact List.mem_cons_of_mem _ this

theorem lastD_append_cons (A B : List Nat) (x d : Nat) :
    lastD (A ++ x :: B) d = lastD B x := by
  induction A generalizing d with
  | nil => rfl
  | cons a A ih => simp only [List.cons_append, lastD]; exact ih a

theorem lastD_append_singleton (A : List Nat) (x d : Nat) : lastD (A ++ [x]) d = x := by
  rw [lastD_append_cons]; rfl

theorem headD_mem {l : List Nat} (h : l ≠ []) (a : Nat) : l.headD a ∈ l := by
  cases l with
  | nil => exact absurd rfl h
  | cons x l => simp

theorem chain_last {nx : Nat → Nat} : ∀ {l : List Nat} {a b : Nat},
    Chain nx a l b → l ≠ [] → nx (lastD l 0) = b := by
  intro l
  induction l with
  | nil => intro a b _ h; exact absurd rfl h
  | cons x l ih =>
    intro a b h _
    rw [chain_cons] at h
    cases l with
    | nil =>
      simp only [chain_nil] at h
      simpa [lastD] using h.2.2
    | cons y l =>
      have := ih h.2.2 (by simp)
      simpa [lastD] using this

/-- Cutting the segment `R` out of a chain. -/
theorem chain_excise {nx nx2 : Nat → Nat} {R B : List Nat} {b : Nat} (hR : R ≠ []) :
    ∀ {A : List Nat} {a : Nat}, Chain nx a (A ++ R ++ B) b → (A ++ R ++ B).Nodup →
      (∀ y ∈ A ++ B, y ≠ lastD A 0 → nx2 y = nx y) →
      (A ≠ [] → nx2 (lastD A 0) = nx (lastD R 0)) →
      Chain nx2 (if A = [] then nx (lastD R 0) else a) (A ++ B) b := by
  intro A
  induction A with
  | nil =>
    intro a hc _ hn _
    simp only [List.nil_append, if_true] at hc ⊢
    rw [chain_append] at hc
    obtain ⟨m, h1, h2⟩ := hc
    have hm := chain_last h1 hR
    rw [hm]
    have h0 := chain_not_mem_zero h2
    refine (chain_congr ?_).2 h2
    intro y hy
    exact hn y (by simpa using hy) (by
      simp only [lastD]
      rintro rfl
      exact h0 hy)
  | cons z A ih =>
    intro a hc hnd hn hn1
    simp only [List.cons_append, chain_cons, reduceCtorEq, if_false] at hc ⊢
    obtain ⟨h1, h2, h3⟩ := hc
    refine ⟨h1, h2, ?_⟩
    simp only [List.cons_append, List.nodup_cons] at hnd
    cases A with
    | nil =>
      have hz := hn1 (by simp)
      simp only [lastD] at hz
      rw [hz]
      have := ih h3 hnd.2 (fun y hy hne => by
        refine hn y (List.mem_cons_of_mem _ hy) ?_
        simp only [lastD]
        rintro rfl
        exact hnd.1 (by simp at hy ⊢; exact Or.inr hy)) (fun h => absurd rfl h)
      simpa using this
    | cons w A =>
      have hzn : nx2 z = nx z := by
        refine hn z (by simp) ?_
        have : lastD (z :: w :: A) 0 ∈ w :: A := lastD_mem z (by simp)
        intro he
        rw [← he] at this
        exact hnd.1 (by simp only [List.mem_append]; exact Or.inl (Or.inl this))
      rw [hzn]
      have := ih h3 hnd.2 (fun y hy hne => by
        refine hn y (List.mem_cons_of_mem _ hy) ?_
        simpa [lastD] using hne) (fun _ => by
        have := hn1 (by simp)
        simpa [lastD] using this)
      simpa using this

/-- Cutting the segment `R` out of a back-linked list. -/
theorem back_excise {pv pv2 : Nat → Nat} {R B : List Nat} :
    ∀ {A : List Nat} {p : Nat}, Back pv p (A ++ R ++ B) → (A ++ R ++ B).Nodup →
      (∀ y ∈ A ++ B, y ≠ B.headD 0 → pv2 y = pv y) →
      (B ≠ [] → pv2 (B.headD 0) = lastD A p) → (0 : Nat) ∉ A →
      Back pv2 p (A ++ B) := by
  intro A p hb hnd hp hp1 h0
  rw [List.append_assoc, back_append] at hb
  rw [back_append]
  have hA : Back pv2 p A := by
    refine (back_congr ?_).2 hb.1
    intro y hy
    refine hp y (by simp [hy]) ?_
    intro he
    cases B with
    | nil => simp at he; rw [he] at hy; exact h0 hy
    | cons b B =>
      simp at he
      rw [List.append_assoc] at hnd
      have := (List.nodup_append.1 hnd).2.2
      exact this hy (by simp [he])
  refine ⟨hA, ?_⟩
  cases B with
  | nil => exact trivial
  | cons b B =>
    have hb2 := hb.2
    rw [back_append, back_cons] at hb2
    rw [back_cons]
    refine ⟨by simpa using hp1 (by simp), ?_⟩
    refine (back_congr ?_).2 hb2.2.2
    intro y hy
    refine hp y (by simp [hy]) ?_
    simp only [List.headD_cons]
    rintro rfl
    rw [List.append_assoc] at hnd
    have h1 := (List.nodup_append.1 hnd).2.1
    have h2 := (List.nodup_append.1 h1).2.1
    exact (List.nodup_cons.1 h2).1 hy

theorem dll_push_front {nx pv nx2 pv2 : Nat → Nat} {f x : Nat} {l : List Nat}
    (h : DLL nx pv f l) (hx0 : x ≠ 0) (hx : x ∉ l)
    (hnx : nx2 x = f) (hpx : pv2 x = 0)
    (hn : ∀ y ∈ l, nx2 y = nx y) (hp : ∀ y ∈ l, y ≠ f → pv2 y = pv y)
    (hf : f ≠ 0 → pv2 f = x) : DLL nx2 pv2 x (x :: l) := by
  obtain ⟨hc, hb, hnd⟩ := h
  refine ⟨?_, ?_, List.nodup_cons.2 ⟨hx, hnd⟩⟩
  · rw [chain_cons, hnx]
    exact ⟨rfl, hx0, (chain_congr hn).2 hc⟩
  · rw [back_cons]
    refine ⟨hpx, ?_⟩
    cases l with
    | nil => exact trivial
    | cons y l =>
      rw [chain_cons] at hc
      rw [back_cons] at hb ⊢
      obtain ⟨hfy, hy0, _⟩ := hc
      subst hfy
      refine ⟨hf hy0, (back_congr ?_).2 hb.2⟩
      intro z hz
      refine hp z (List.mem_cons_of_mem _ hz) ?_
      rintro rfl
      exact (List.nodup_cons.1 hnd).1 hz

theorem dll_pop_front {nx pv nx2 pv2 : Nat → Nat} {f x : Nat} {l : List Nat}
    (h : DLL nx pv f (x :: l))
    (hn : ∀ y ∈ l, nx2 y = nx y) (hp : ∀ y ∈ l, y ≠ nx x → pv2 y = pv y)
    (hf : nx x ≠ 0 → pv2 (nx x) = 0) : DLL nx2 pv2 (nx x) l := by
  obtain ⟨hc, hb, hnd⟩ := h
  rw [chain_cons] at hc
  rw [back_cons] at hb
  refine ⟨(chain_congr hn).2 hc.2.2, ?_, (List.nodup_cons.1 hnd).2⟩
  cases l with
  | nil => exact trivial
  | cons y l =>
    have hc2 := hc.2.2
    rw [chain_cons] at hc2
    have hb2 := hb.2
    rw [back_cons] at hb2 ⊢
    obtain ⟨hxy, hy0, _⟩ := hc2
    refine ⟨by rw [← hxy]; exact hf (by rw [hxy]; exact hy0), (back_congr ?_).2 hb2.2⟩
    intro z hz
    refine hp z (List.mem_cons_of_mem _ hz) ?_
    rw [hxy]
    rintro rfl
    exact (List.nodup_cons.1 (List.nodup_cons.1 hnd).2).1 hz

/-- Cutting a non-empty segment `R` out of a doubly linked list: the pointer
updates of `_elr_free_mem_node` (with `R` the free slices of the node) and of
the removal from the occupied list (with `R` a single slice). -/
theorem dll_excise {nx pv nx2 pv2 : Nat → Nat} {f : Nat} {A R B : List Nat}
    (h : DLL nx pv f (A ++ R ++ B)) (hR : R ≠ [])
    (hn : ∀ y ∈ A ++ B, y ≠ pv (R.headD 0) → nx2 y = nx y)
    (hn1 : pv (R.headD 0) ≠ 0 → nx2 (pv (R.headD 0)) = nx (lastD R 0))
    (hp : ∀ y ∈ A ++ B, y ≠ nx (lastD R 0) → pv2 y = pv y)
    (hp1 : nx (lastD R 0) ≠ 0 → pv2 (nx (lastD R 0)) = pv (R.headD 0)) :
    DLL nx2 pv2 (if pv (R.headD 0) ≠ 0 then f else nx (lastD R 0)) (A ++ B) := by
  obtain ⟨hc, hb, hnd⟩ := h
  have h0 := chain_not_mem_zero hc
  obtain ⟨r, R', rfl⟩ := List.exists_cons_of_ne_nil hR
  have hpv : pv r = lastD A 0 := by
    have := hb
    rw [List.append_assoc, List.cons_append] at this
    exact back_prev this
  have hnxt : nx (lastD (r :: R') 0) = B.headD 0 := by
    have hc2 := hc
    rw [chain_append] at hc2
    obtain ⟨m, h1, h2⟩ := hc2
    rw [chain_append] at h1
    obtain ⟨m2, _, h4⟩ := h1
    rw [chain_last h4 (by simp)]
    exact chain_head h2
  have hA0 : (0 : Nat) ∉ A := fun hm => h0 (by simp [hm])
  have hB0 : (0 : Nat) ∉ B := fun hm => h0 (by simp [hm])
  have hAiff : pv r ≠ 0 ↔ A ≠ [] := by
    rw [hpv]
    constructor
    · intro h1 h2; rw [h2] at h1; exact h1 rfl
    · intro h1 h2
      have := lastD_mem 0 h1
      rw [h2] at this
      exact hA0 this
  have hBiff : nx (lastD (r :: R') 0) ≠ 0 ↔ B ≠ [] := by
    rw [hnxt]
    constructor
    · intro h1 h2; rw [h2] at h1; exact h1 rfl
    · intro h1 h2
      have := headD_mem h1 0
      rw [h2] at this
      exact hB0 this
  simp only [List.headD_cons] at hn hn1 hp hp1 ⊢
  refine ⟨?_, ?_, ?_⟩
  · have := @chain_excise _ nx2 _ _ _ (by simp : r :: R' ≠ []) _ _ hc hnd
      (fun y hy hne => hn y hy (by rw [hpv]; exact hne))
      (fun hA => by rw [← hpv]; exact hn1 (hAiff.2 hA))
    by_cases hA : A = []
    · rw [if_pos hA] at this
      rw [if_neg (by rw [not_not, hpv, hA]; rfl)]
      exact this
    · rw [if_neg hA] at this
      rw [if_pos (hAiff.2 hA)]
      exact this
  · exact back_excise hb hnd (fun y hy hne => hp y hy (by rw [hnxt]; exact hne))
      (fun hB => by rw [← hnxt, ← hpv]; exact hp1 (hBiff.2 hB)) hA0
  · rw [List.append_assoc] at hnd
    have h1 := List.nodup_append.1 hnd
    have h2 := List.nodup_append.1 h1.2.1
    refine List.nodup_append.2 ⟨h1.1, h2.2.1, ?_⟩
    intro y hyA hyB
    exact h1.2.2 hyA (by simp [hyB])

/-- Inserting `x` after the element `t` of a doubly linked list: the pointer
updates of `elr_mpl_free` when the node already has free slices. -/
theorem dll_insert_after {nx pv nx2 pv2 : Nat → Nat} {f t x : Nat} {A B : List Nat}
    (h : DLL nx pv f (A ++ t :: B)) (hx0 : x ≠ 0) (hx : x ∉ A ++ t :: B)
    (hnx : nx2 x = nx t) (hpx : pv2 x = t) (hnt : nx2 t = x)
    (hpn : nx t ≠ 0 → pv2 (nx t) = x)
    (hn : ∀ y ∈ A ++ t :: B, y ≠ t → nx2 y = nx y)
    (hp : ∀ y ∈ A ++ t :: B, y ≠ nx t → pv2 y = pv y) :
    DLL nx2 pv2 f (A ++ t :: x :: B) := by
  obtain ⟨hc, hb, hnd⟩ := h
  have h0 := chain_not_mem_zero hc
  have hnt0 : nx t = B.headD 0 := chain_next hc
  have hnd2 := List.nodup_append.1 hnd
  have htA : t ∉ A := fun hm => hnd2.2.2 hm (by simp)
  have htB : t ∉ B := (List.nodup_cons.1 hnd2.2.1).1
  have hnxt_not : ∀ y ∈ A ++ [t], y ≠ nx t := by
    intro y hy he
    rw [hnt0] at he
    cases B with
    | nil => simp at he; rw [he] at hy; exact h0 (by simpa using hy)
    | cons b B =>
      simp only [List.headD_cons] at he
      rw [he] at hy
      rcases List.mem_append.1 hy with h1 | h1
      · exact hnd2.2.2 h1 (by simp)
      · simp at h1
        rw [h1] at htB
        exact htB (by simp)
  refine ⟨?_, ?_, ?_⟩
  · rw [chain_append] at hc ⊢
    obtain ⟨m, h1, h2⟩ := hc
    rw [chain_cons] at h2
    refine ⟨m, (chain_congr ?_).2 h1, ?_⟩
    · intro y hy
      exact hn y (by simp [hy]) (fun he => htA (he ▸ hy))
    · rw [chain_cons, chain_cons, hnt, hnx]
      refine ⟨h2.1, h2.2.1, rfl, hx0, (chain_congr ?_).2 h2.2.2⟩
      intro y hy
      exact hn y (by simp [hy]) (fun he => htB (he ▸ hy))
  · rw [back_append] at hb ⊢
    rw [back_cons] at hb
    refine ⟨(back_congr ?_).2 hb.1, ?_⟩
    · intro y hy
      exact hp y (by simp [hy]) (hnxt_not y (by simp [hy]))
    · rw [back_cons, back_cons]
      refine ⟨?_, hpx, ?_⟩
      · rw [hp t (by simp) (hnxt_not t (by simp))]
        exact hb.2.1
      · cases B with
        | nil => exact trivial
        | cons b B =>
          simp only [List.headD_cons] at hnt0
          have hb2 := hb.2.2
          rw [back_cons] at hb2 ⊢
          refine ⟨by rw [← hnt0]; exact hpn (by rw [hnt0]; exact fun he => h0 (by simp [he])), ?_⟩
          refine (back_congr ?_).2 hb2.2
          intro y hy
          refine hp y (by simp [hy]) ?_
          rw [hnt0]
          rintro rfl
          exact (List.nodup_cons.1 (List.nodup_cons.1 hnd2.2.1).2).1 hy
  · have hxA : x ∉ A := fun hm => hx (by simp [hm])
    have hxt : x ≠ t := fun he => hx (by simp [he])
    have hxB : x ∉ B := fun hm => hx (by simp [hm])
    refine List.nodup_append.2 ⟨hnd2.1, ?_, ?_⟩
    · refine List.nodup_cons.2 ⟨?_, List.nodup_cons.2 ⟨hxB, (List.nodup_cons.1 hnd2.2.1).2⟩⟩
      simp only [List.mem_cons, not_or]
      exact ⟨fun he => hxt he.symm, htB⟩
    · intro y hyA hy
      simp only [List.mem_cons] at hy
      rcases hy with rfl | rfl | hy
      · exact htA hyA
      · exact hxA hyA
      · exact hnd2.2.2 hyA (by simp [hy])

/-! ### Runs of free slices -/


theorem flat_nil : flat [] = [] := rfl

theorem flat_cons (r : Nat × List Nat) (rest : List (Nat × List Nat)) :
    flat (r :: rest) = r.2 ++ flat rest := by
  simp [flat]

theorem flat_append (A B : List (Nat × List Nat)) : flat (A ++ B) = flat A ++ flat B := by
  simp [flat]

theorem mem_flat {runs : List (Nat × List Nat)} {x : Nat} :
    x ∈ flat runs ↔ ∃ r ∈ runs, x ∈ r.2 := by
  simp only [flat, List.mem_flatten, List.mem_map]
  constructor
  · rintro ⟨l, ⟨r, hr, rfl⟩, hx⟩
    exact ⟨r, hr, hx⟩
  · rintro ⟨r, hr, hx⟩
    exact ⟨r.2, ⟨r, hr, rfl⟩, hx⟩

theorem run_of_cons_self (n : Nat) (R : List Nat) (rest : List (Nat × List Nat)) :
    run_of ((n, R) :: rest) n = R := by
  simp [run_of]

theorem run_of_cons_ne {n m : Nat} (R : List Nat) (rest : List (Nat × List Nat))
    (h : n ≠ m) : run_of ((n, R) :: rest) m = run_of rest m := by
  simp [run_of, List.find?_cons, h]

theorem run_of_not_mem {runs : List (Nat × List Nat)} {n : Nat}
    (h : n ∉ runs.map Prod.fst) : run_of runs n = [] := by
  induction runs with
  | nil => rfl
  | cons r rest ih =>
    obtain ⟨k, R⟩ := r
    simp only [List.map_cons, List.mem_cons, not_or] at h
    rw [run_of_cons_ne R rest (fun e => h.1 e.symm)]
    exact ih h.2

theorem run_of_append_not_mem {A : List (Nat × List Nat)} (B : List (Nat × List Nat))
    {n : Nat} (h : n ∉ A.map Prod.fst) : run_of (A ++ B) n = run_of B n := by
  induction A with
  | nil => rfl
  | cons r rest ih =>
    obtain ⟨k, R⟩ := r
    simp only [List.map_cons, List.mem_cons, not_or] at h
    rw [List.cons_append, run_of_cons_ne R _ (fun e => h.1 e.symm)]
    exact ih h.2

theorem run_of_append_mem {A : List (Nat × List Nat)} (B : List (Nat × List Nat))
    {n : Nat} (h : n ∈ A.map Prod.fst) : run_of (A ++ B) n = run_of A n := by
  induction A with
  | nil => simp at h
  | cons r rest ih =>
    obtain ⟨k, R⟩ := r
    by_cases hk : k = n
    · subst hk
      rw [List.cons_append, run_of_cons_self, run_of_cons_self]
    · rw [List.cons_append, run_of_cons_ne R _ hk, run_of_cons_ne R _ hk]
      apply ih
      simp only [List.map_cons, List.mem_cons] at h
      rcases h with h | h
      · exact absurd h.symm hk
      · exact h

/-- A run of the list can be singled out. -/
theorem runs_split {runs : List (Nat × List Nat)} {n : Nat}
    (h : n ∈ runs.map Prod.fst) (hk : (runs.map Prod.fst).Nodup) :
    ∃ A B, runs = A ++ (n, run_of runs n) :: B ∧ n ∉ A.map Prod.fst ∧ n ∉ B.map Prod.fst := by
  induction runs with
  | nil => simp at h
  | cons r rest ih =>
    obtain ⟨k, R⟩ := r
    simp only [List.map_cons, List.nodup_cons] at hk
    by_cases hkn : k = n
    · subst hkn
      exact ⟨[], rest, by simp [run_of_cons_self], by simp, hk.1⟩
    · simp only [List.map_cons, List.mem_cons] at h
      rcases h with h | h
      · exact absurd h.symm hkn
      · obtain ⟨A, B, h1, h2, h3⟩ := ih h hk.2
        refine ⟨(k, R) :: A, B, ?_, ?_, h3⟩
        · rw [run_of_cons_ne R rest hkn, List.cons_append, ← h1]
        · simp only [List.map_cons, List.mem_cons, not_or]
          exact ⟨fun e => hkn e.symm, h2⟩

theorem run_of_mem_runs {runs : List (Nat × List Nat)} {n : Nat}
    (h : n ∈ runs.map Prod.fst) : (n, run_of runs n) ∈ runs := by
  induction runs with
  | nil => simp at h
  | cons r rest ih =>
    obtain ⟨k, R⟩ := r
    by_cases hkn : k = n
    · subst hkn
      simp [run_of_cons_self]
    · simp only [List.map_cons, List.mem_cons] at h
      rcases h with h | h
      · exact absurd h.symm hkn
      · rw [run_of_cons_ne R rest hkn]
        exact List.mem_cons_of_mem _ (ih h)

theorem run_of_subset_flat (runs : List (Nat × List Nat)) (n : Nat) :
    ∀ x ∈ run_of runs n, x ∈ flat runs := by
  intro x hx
  by_cases h : n ∈ runs.map Prod.fst
  · exact mem_flat.2 ⟨_, run_of_mem_runs h, hx⟩
  · rw [run_of_not_mem h] at hx
    simp at hx


/-! ### Reading the views after an update -/

@[simp] theorem setSlice_slice (s : State) (a : Nat) (v : elr_mem_slice) (x : Nat) :
    (s.setSlice a v).slice x = if x = a then v else s.slice x := rfl
@[simp] theorem setSlice_node (s : State) (a : Nat) (v : elr_mem_slice) :
    (s.setSlice a v).node = s.node := rfl
@[simp] theorem setSlice_pool (s : State) (a : Nat) (v : elr_mem_slice) :
    (s.setSlice a v).pool = s.pool := rfl
@[simp] theorem setSlice_cell (s : State) (a : Nat) (v : elr_mem_slice) :
    (s.setSlice a v).cell = s.cell := rfl
@[simp] theorem setSlice_multi (s : State) (a : Nat) (v : elr_mem_slice) :
    (s.setSlice a v).g_multi_mem_pool = s.g_multi_mem_pool := rfl
@[simp] theorem setSlice_occupation (s : State) (a : Nat) (v : elr_mem_slice) :
    (s.setSlice a v).g_occupation_size = s.g_occupation_size := rfl
@[simp] theorem setSlice_refs (s : State) (a : Nat) (v : elr_mem_slice) :
    (s.setSlice a v).g_mpl_refs = s.g_mpl_refs := rfl
@[simp] theorem setSlice_blocks (s : State) (a : Nat) (v : elr_mem_slice) :
    (s.setSlice a v).blocks = s.blocks := rfl
@[simp] theorem setSlice_sys (s : State) (a : Nat) (v : elr_mem_slice) :
    (s.setSlice a v).sys = s.sys := rfl
@[simp] theorem setSlice_calls (s : State) (a : Nat) (v : elr_mem_slice) :
    (s.setSlice a v).calls = s.calls := rfl

@[simp] theorem setNode_node (s : State) (a : Nat) (v : elr_mem_node) (x : Nat) :
    (s.setNode a v).node x = if x = a then v else s.node x := rfl
@[simp] theorem setNode_slice (s : State) (a : Nat) (v : elr_mem_node) :
    (s.setNode a v).slice = s.slice := rfl
@[simp] theorem setNode_pool (s : State) (a : Nat) (v : elr_mem_node) :
    (s.setNode a v).pool = s.pool := rfl
@[simp] theorem setNode_cell (s : State) (a : Nat) (v : elr_mem_node) :
    (s.setNode a v).cell = s.cell := rfl
@[simp] theorem setNode_multi (s : State) (a : Nat) (v : elr_mem_node) :
    (s.setNode a v).g_multi_mem_pool = s.g_multi_mem_pool := rfl
@[simp] theorem setNode_occupation (s : State) (a : Nat) (v : elr_mem_node) :
    (s.setNode a v).g_occupation_size = s.g_occupation_size := rfl
@[simp] theorem setNode_refs (s : State) (a : Nat) (v : elr_mem_node) :
    (s.setNode a v).g_mpl_refs = s.g_mpl_refs := rfl
@[simp] theorem setNode_blocks (s : State) (a : Nat) (v : elr_mem_node) :
    (s.setNode a v).blocks = s.blocks := rfl
@[simp] theorem setNode_sys (s : State) (a : Nat) (v : elr_mem_node) :
    (s.setNode a v).sys = s.sys := rfl
@[simp] theorem setNode_calls (s : State) (a : Nat) (v : elr_mem_node) :
    (s.setNode a v).calls = s.calls := rfl

@[simp] theorem setPool_pool (s : State) (a : Nat) (v : elr_mem_pool) (x : Nat) :
    (s.setPool a v).pool x = if x = a then v else s.pool x := rfl
@[simp] theorem setPool_slice (s : State) (a : Nat) (v : elr_mem_pool) :
    (s.setPool a v).slice = s.slice := rfl
@[simp] theorem setPool_node (s : State) (a : Nat) (v : elr_mem_pool) :
    (s.setPool a v).node = s.node := rfl
@[simp] theorem setPool_cell (s : State) (a : Nat) (v : elr_mem_pool) :
    (s.setPool a v).cell = s.cell := rfl
@[simp] theorem setPool_multi (s : State) (a : Nat) (v : elr_mem_pool) :
    (s.setPool a v).g_multi_mem_pool = s.g_multi_mem_pool := rfl
@[simp] theorem setPool_occupation (s : State) (a : Nat) (v : elr_mem_pool) :
    (s.setPool a v).g_occupation_size = s.g_occupation_size := rfl
@[simp] theorem setPool_refs (s : State) (a : Nat) (v : elr_mem_pool) :
    (s.setPool a v).g_mpl_refs = s.g_mpl_refs := rfl
@[simp] theorem setPool_blocks (s : State) (a : Nat) (v : elr_mem_pool) :
    (s.setPool a v).blocks = s.blocks := rfl
@[simp] theorem setPool_sys (s : State) (a : Nat) (v : elr_mem_pool) :
    (s.setPool a v).sys = s.sys := rfl
@[simp] theorem setPool_calls (s : State) (a : Nat) (v : elr_mem_pool) :
    (s.setPool a v).calls = s.calls := rfl

@[simp] theorem setCell_cell (s : State) (a : Nat) (v : Nat) (x : Nat) :
    (s.setCell a v).cell x = if x = a then v else s.cell x := rfl
@[simp] theorem setCell_slice (s : State) (a : Nat) (v : Nat) :
    (s.setCell a v).slice = s.slice := rfl
@[simp] theorem setCell_node (s : State) (a : Nat) (v : Nat) :
    (s.setCell a v).node = s.node := rfl
@[simp] theorem setCell_pool (s : State) (a : Nat) (v : Nat) :
    (s.setCell a v).pool = s.pool := rfl
@[simp] theorem setCell_multi (s : State) (a : Nat) (v : Nat) :
    (s.setCell a v).g_multi_mem_pool = s.g_multi_mem_pool := rfl
@[simp] theorem setCell_occupation (s : State) (a : Nat) (v : Nat) :
    (s.setCell a v).g_occupation_size = s.g_occupation_size := rfl
@[simp] theorem setCell_refs (s : State) (a : Nat) (v : Nat) :
    (s.setCell a v).g_mpl_refs = s.g_mpl_refs := rfl
@[simp] theorem setCell_blocks (s : State) (a : Nat) (v : Nat) :
    (s.setCell a v).blocks = s.blocks := rfl
@[simp] theorem setCell_sys (s : State) (a : Nat) (v : Nat) :
    (s.setCell a v).sys = s.sys := rfl
@[simp] theorem setCell_calls (s : State) (a : Nat) (v : Nat) :
    (s.setCell a v).calls = s.calls := rfl

theorem SLICE_HDR_eq : SLICE_HDR = 32 := by decide

theorem NODE_HDR_eq : NODE_HDR = 64 := by decide

/-! ### The system allocator -/

theorem malloc_refused (s : State) (size : Nat) (h : (malloc s size).2 = 0) :
    (malloc s size).1 = { s with sys := s.sys.tail } := by
  unfold malloc at h ⊢
  cases hs : s.sys with
  | nil => simp [hs] at h ⊢; cases s; simp_all
  | cons a rest =>
    cases a with
    | none => simp
    | some a =>
      by_cases hf : sys_fresh s a size = true
      · have ha : a ≠ 0 := by
          unfold sys_fresh at hf
          simp only [Bool.and_eq_true, decide_eq_true_eq] at hf
          exact hf.1.1.1
        simp [hs, hf] at h
        exact absurd h ha
      · simp [hf]

theorem alloc_mem_node_refused (s : State) (pool : Nat)
    (h : (malloc s (s.pool pool).node_size).2 = 0) :
    _elr_alloc_mem_node s pool = { s with sys := s.sys.tail } := by
  unfold _elr_alloc_mem_node
  simp only [h, if_true]
  exact malloc_refused s _ h

theorem slice_from_pool_refused (s : State) (pool : Nat)
    (htag : (s.slice (pool - SLICE_HDR)).tag = (s.pool pool).slice_tag)
    (hfree : (s.pool pool).first_free_slice = 0)
    (hnew : (s.pool pool).newly_alloc_node = 0)
    (h : (malloc s (s.pool pool).node_size).2 = 0) :
    _elr_slice_from_pool s pool = ({ s with sys := s.sys.tail }, 0) := by
  unfold _elr_slice_from_pool
  simp only [htag, hfree, hnew, ne_eq, not_true_eq_false, if_false, if_true,
    alloc_mem_node_refused s pool h]
  simp [_elr_slice_from_node, hnew, push_occupied]

/-! ### The code blocks in closed form -/


theorem malloc_granted (s : State) (size a : Nat) (rest : List (Option Nat))
    (hsys : s.sys = some a :: rest) (hfresh : sys_fresh s a size = true) :
    malloc s size = ({ s with sys := rest, blocks := (a, size) :: s.blocks }, a) := by
  unfold malloc
  simp [hsys, hfresh]

/-- The state after `_elr_alloc_mem_node` when the system grants the node at `a`. -/
theorem alloc_mem_node_granted (s : State) (P a fn : Nat) (rest : List (Option Nat))
    (hsys : s.sys = some a :: rest)
    (hfresh : sys_fresh s a (s.pool P).node_size = true)
    (hfn : (s.pool P).first_node = fn) (hne : fn ≠ a) :
    _elr_alloc_mem_node s P =
      { s with
        sys := rest
        blocks := (a, (s.pool P).node_size) :: s.blocks
        g_occupation_size := (s.g_occupation_size + (s.pool P).node_size) % SIZE_MOD
        pool := fun p => if p = P then
            { s.pool P with newly_alloc_node := a, first_node := a }
          else s.pool p
        node := fun m =>
          if m = a then
            { owner := P, prev := 0, next := fn, free_slice_head := 0, free_slice_tail := 0,
              using_slice_count := 0, used_slice_count := 0, first_avail := a + NODE_HDR }
          else if fn ≠ 0 ∧ m = fn then { s.node m with prev := a }
          else s.node m } := by
  have ha : a ≠ 0 := by
    unfold sys_fresh at hfresh
    simp only [Bool.and_eq_true, decide_eq_true_eq] at hfresh
    exact hfresh.1.1.1
  have hne2 : a ≠ fn := hne.symm
  unfold _elr_alloc_mem_node
  rw [malloc_granted s _ a rest hsys hfresh]
  by_cases hfn0 : fn = 0
  all_goals simp [ha, hfn, hfn0, hne, hne2]
  all_goals ext1 <;> try rfl
  all_goals
    funext z
    simp
    split_ifs <;> (try simp_all) <;> (try (subst_vars; rfl))

/-- The state after `_elr_slice_from_node` on a pool with a node in its bump
phase: the slice at `first_avail` is handed out. -/
theorem slice_from_node_bump (s : State) (P nn xs : Nat)
    (hnn : (s.pool P).newly_alloc_node = nn) (hnn0 : nn ≠ 0)
    (hxs : (s.node nn).first_avail = xs) :
    _elr_slice_from_node s P =
      ({ s with
          node := fun m => if m = nn then
              { s.node nn with
                used_slice_count := ((s.node nn).used_slice_count + 1) % SIZE_MOD
                using_slice_count := ((s.node nn).using_slice_count + 1) % SIZE_MOD
                first_avail := xs + (s.pool P).slice_size }
            else s.node m
          slice := fun z => if z = xs then { prev := 0, next := 0, node := nn, tag := 0 }
            else s.slice z
          pool := fun p => if p = P then
              { s.pool P with newly_alloc_node :=
                  if ((s.node nn).used_slice_count + 1) % SIZE_MOD = (s.pool P).slice_count
                  then 0 else nn }
            else s.pool p },
        xs) := by
  unfold _elr_slice_from_node
  by_cases hfull : ((s.node nn).used_slice_count + 1) % SIZE_MOD = (s.pool P).slice_count
  all_goals simp [hnn, hnn0, hxs, hfull]
  all_goals ext1 <;> try rfl
  all_goals
    funext z
    simp
    split_ifs <;> (try simp_all) <;> (try (subst_vars; rfl))

/-- The state after the slice `x` is pushed on the occupied list. -/
theorem push_occupied_eq (s : State) (P x fo : Nat)
    (hfo : (s.pool P).first_occupied_slice = fo) (hx0 : x ≠ 0) (hxo : fo ≠ x) :
    push_occupied s P x =
      { s with
        slice := fun z =>
          if z = x then { s.slice x with prev := 0, next := fo }
          else if fo ≠ 0 ∧ z = fo then { s.slice z with prev := x }
          else s.slice z
        pool := fun p => if p = P then { s.pool P with first_occupied_slice := x }
          else s.pool p } := by
  have hxo2 : x ≠ fo := hxo.symm
  unfold push_occupied
  by_cases hfo0 : fo = 0
  all_goals simp [hfo, hx0, hxo, hxo2, hfo0]
  all_goals ext1 <;> try rfl
  all_goals
    funext z
    simp
    split_ifs <;> (try simp_all) <;> (try (subst_vars; rfl))



/-- The state after `_elr_slice_from_pool` takes the head `x` of the free list. -/
theorem slice_from_pool_free_path (s : State) (P x y fo n : Nat)
    (htag : (s.slice (P - SLICE_HDR)).tag = (s.pool P).slice_tag)
    (hx : (s.pool P).first_free_slice = x) (hy : (s.slice x).next = y)
    (hfo : (s.pool P).first_occupied_slice = fo) (hn : (s.slice x).node = n)
    (hx0 : x ≠ 0) (hxy : y ≠ x) (hxo : fo ≠ x) (hyo : fo ≠ 0 → fo ≠ y) :
    _elr_slice_from_pool s P =
      ({ s with
          pool := fun p => if p = P then
              { s.pool P with first_free_slice := y, first_occupied_slice := x }
            else s.pool p
          node := fun m => if m = n then
              { s.node n with
                free_slice_head := if y ≠ 0 ∧ (s.slice y).node = n then y else 0
                free_slice_tail :=
                  if y ≠ 0 ∧ (s.slice y).node = n then (s.node n).free_slice_tail else 0
                using_slice_count := ((s.node n).using_slice_count + 1) % SIZE_MOD }
            else s.node m
          slice := fun z =>
            if z = x then { prev := 0, next := fo, node := n, tag := wrap_int ((s.slice x).tag + 1) }
            else if fo ≠ 0 ∧ z = fo then { s.slice z with prev := x }
            else if y ≠ 0 ∧ z = y then { s.slice z with prev := 0 }
            else s.slice z },
        x) := by
  have hxy2 : x ≠ y := hxy.symm
  have hxo2 : x ≠ fo := hxo.symm
  unfold _elr_slice_from_pool
  simp only [htag, ne_eq, not_true_eq_false, if_false, hx, hx0, not_false_eq_true, if_true]
  unfold push_occupied slice_from_free_list
  simp only [ne_eq, hx, hx0, not_false_eq_true, if_true, Prod.mk.injEq, and_true]
  by_cases hy0 : y = 0 <;> by_cases hsame : (s.slice y).node = n <;> by_cases hfo0 : fo = 0
  all_goals
    simp [hx, hy, hfo, hn, hx0, hxy, hxy2, hxo, hxo2, hy0, hsame, hfo0]
  all_goals
    ext1 <;> try rfl
  all_goals
    funext z
    simp
    split_ifs <;> simp_all



/-- The state after lines 520-533 of `elr_mpl_free` on the slice `x` with
occupied-list neighbours `px` and `nx`. -/
theorem free_unlink_eq (s : State) (mem x n P px nx : Nat)
    (hpx : (s.slice x).prev = px) (hnx : (s.slice x).next = nx)
    (hxp : px ≠ x) (hxn : nx ≠ x) (hpn : nx ≠ 0 → px ≠ nx) :
    free_unlink s mem x n P =
      { s with
        slice := fun z =>
          if z = x then { s.slice x with tag := wrap_int ((s.slice x).tag + 1) }
          else if px ≠ 0 ∧ z = px then { s.slice z with next := nx }
          else if nx ≠ 0 ∧ z = nx then { s.slice z with prev := px }
          else s.slice z
        node := fun m => if m = n then
            { s.node n with using_slice_count :=
                ((s.node n).using_slice_count + SIZE_MOD - 1) % SIZE_MOD }
          else s.node m
        pool := fun p => if px = 0 ∧ p = P then { s.pool P with first_occupied_slice := nx }
          else s.pool p
        calls := if (s.pool P).on_slice_free ≠ 0 then ((s.pool P).on_slice_free, mem) :: s.calls
          else s.calls } := by
  have hxp2 : x ≠ px := hxp.symm
  have hxn2 : x ≠ nx := hxn.symm
  unfold free_unlink
  by_cases hcb : (s.pool P).on_slice_free = 0 <;> by_cases hp0 : px = 0 <;>
    by_cases hn0 : nx = 0
  all_goals simp [hpx, hnx, hxp, hxn, hxp2, hxn2, hcb, hp0, hn0]
  all_goals ext1 <;> try rfl
  all_goals
    funext z
    simp
    split_ifs <;> (try simp_all) <;> (try (subst_vars; rfl))

/-- The state after lines 544-550 of `elr_mpl_free`. -/
theorem free_new_run_eq (s : State) (x n P ff : Nat)
    (hff : (s.pool P).first_free_slice = ff) (hxf : ff ≠ x) :
    free_new_run s x n P =
      { s with
        slice := fun z =>
          if z = x then { s.slice x with prev := 0, next := ff }
          else if ff ≠ 0 ∧ z = ff then { s.slice z with prev := x }
          else s.slice z
        node := fun m => if m = n then
            { s.node n with free_slice_head := x, free_slice_tail := x }
          else s.node m
        pool := fun p => if p = P then { s.pool P with first_free_slice := x } else s.pool p } := by
  have hxf2 : x ≠ ff := hxf.symm
  unfold free_new_run
  by_cases hf0 : ff = 0
  all_goals simp [hff, hxf, hxf2, hf0]
  all_goals ext1 <;> try rfl
  all_goals
    funext z
    simp
    split_ifs <;> (try simp_all) <;> (try (subst_vars; rfl))

/-- The state after lines 554-559 of `elr_mpl_free`. -/
theorem free_after_tail_eq (s : State) (x n t nt : Nat)
    (ht : (s.node n).free_slice_tail = t) (hnt : (s.slice t).next = nt)
    (hxt : t ≠ x) (hxnt : nt ≠ x) (htnt : nt ≠ t) :
    free_after_tail s x n =
      { s with
        slice := fun z =>
          if z = x then { s.slice x with prev := t, next := nt }
          else if z = t then { s.slice z with next := x }
          else if nt ≠ 0 ∧ z = nt then { s.slice z with prev := x }
          else s.slice z
        node := fun m => if m = n then { s.node n with free_slice_tail := x } else s.node m } := by
  have hxt2 : x ≠ t := hxt.symm
  have hxnt2 : x ≠ nt := hxnt.symm
  have htnt2 : t ≠ nt := htnt.symm
  unfold free_after_tail
  by_cases hn0 : nt = 0
  all_goals simp [ht, hnt, hxt, hxnt, htnt, hxt2, hxnt2, htnt2, hn0]
  all_goals ext1 <;> try rfl
  all_goals
    funext z
    simp
    split_ifs <;> (try simp_all) <;> (try (subst_vars; rfl))


/-- The state after lines 674-684 of `_elr_free_mem_node` on a node without
free slices. -/
theorem excise_free_run_none (s : State) (n : Nat)
    (hh : (s.node n).free_slice_head = 0) (ht : (s.node n).free_slice_tail = 0) :
    excise_free_run s n = s := by
  unfold excise_free_run
  simp [hh, ht]

/-- The state after lines 674-684 of `_elr_free_mem_node` on the node `n` whose
free slices run from `h` to `t`. -/
theorem excise_free_run_eq (s : State) (n P h t nt ph ff : Nat)
    (hP : (s.node n).owner = P)
    (hh : (s.node n).free_slice_head = h) (ht : (s.node n).free_slice_tail = t)
    (hnt : (s.slice t).next = nt) (hph : (s.slice h).prev = ph)
    (hff : (s.pool P).first_free_slice = ff)
    (hh0 : h ≠ 0) (ht0 : t ≠ 0)
    (h1 : nt ≠ h) (h2 : ph ≠ t) (h3 : nt ≠ 0 → ph ≠ nt) :
    excise_free_run s n =
      { s with
        slice := fun z =>
          if ph ≠ 0 ∧ z = ph then { s.slice z with next := nt }
          else if nt ≠ 0 ∧ z = nt then { s.slice z with prev := ph }
          else s.slice z
        pool := fun p => if ff = h ∧ p = P then { s.pool P with first_free_slice := nt }
          else s.pool p } := by
  have h1' : h ≠ nt := h1.symm
  have h2' : t ≠ ph := h2.symm
  unfold excise_free_run
  by_cases hnt0 : nt = 0 <;> by_cases hph0 : ph = 0 <;> by_cases hffh : ff = h
  all_goals
    simp [hP, hh, ht, hnt, hph, hff, hh0, ht0, hnt0, hph0, hffh, h1, h2, h1', h2']
  all_goals ext1 <;> try rfl
  all_goals
    funext z
    simp
    split_ifs <;> (try simp_all) <;> (try (subst_vars; rfl))

/-- The state after lines 686-698 of `_elr_free_mem_node`: the node `n` with
neighbours `pn` and `nn` leaves the node list of its owner `P` and its block
goes back to the system. -/
theorem free_mem_node_eq (s : State) (n P nn pn : Nat)
    (hP : (s.node n).owner = P)
    (hnn : (s.node n).next = nn) (hpn : (s.node n).prev = pn)
    (h4 : nn ≠ n) (h5 : pn ≠ n) (h6 : nn ≠ 0 → pn ≠ nn) :
    _elr_free_mem_node s n =
      { excise_free_run s n with
        node := fun m =>
          if pn ≠ 0 ∧ m = pn then { s.node m with next := nn }
          else if nn ≠ 0 ∧ m = nn then { s.node m with prev := pn }
          else s.node m
        pool := fun p => if p = P then
            { (excise_free_run s n).pool P with
              newly_alloc_node :=
                if ((excise_free_run s n).pool P).newly_alloc_node = n then 0
                else ((excise_free_run s n).pool P).newly_alloc_node
              first_node :=
                if pn ≠ 0 then ((excise_free_run s n).pool P).first_node else nn }
          else (excise_free_run s n).pool p
        g_occupation_size :=
          (s.g_occupation_size + SIZE_MOD - ((excise_free_run s n).pool P).node_size) % SIZE_MOD
        blocks := s.blocks.filter (fun b => b.1 ≠ n) } := by
  have h4' : n ≠ nn := h4.symm
  have h5' : n ≠ pn := h5.symm
  have e1 : (excise_free_run s n).node = s.node := by
    simp only [excise_free_run, apply_ite State.node, setSlice_node, setPool_node, ite_self]
  have e2 : (excise_free_run s n).g_occupation_size = s.g_occupation_size := by
    simp only [excise_free_run, apply_ite State.g_occupation_size, setSlice_occupation,
      setPool_occupation, ite_self]
  have e3 : (excise_free_run s n).blocks = s.blocks := by
    simp only [excise_free_run, apply_ite State.blocks, setSlice_blocks, setPool_blocks,
      ite_self]
  unfold _elr_free_mem_node sys_free
  generalize excise_free_run s n = s1 at *
  by_cases hnw : (s1.pool P).newly_alloc_node = n <;>
    by_cases hnn0 : nn = 0 <;> by_cases hpn0 : pn = 0
  all_goals
    simp [e1, e2, e3, hP, hnn, hpn, hnw, hnn0, hpn0, h4, h5, h4', h5']
  all_goals
    (try constructor) <;>
    (funext z
     first
     | (simp; done)
     | ((try simp); split_ifs <;> (try simp_all) <;> (try (subst_vars; rfl))))


/-! ### The pool invariant is kept by allocation and release -/



/-- A node keeps its invariant under an operation that leaves its counters and
free range alone. -/
theorem NodeInv_transfer {s s2 : State} {P m : Nat} {runs runs2 : List (Nat × List Nat)}
    {OL OL2 : List Nat} (h : NodeInv s P runs OL m)
    (hnode : (s2.node m).owner = (s.node m).owner
      ∧ (s2.node m).used_slice_count = (s.node m).used_slice_count
      ∧ (s2.node m).using_slice_count = (s.node m).using_slice_count
      ∧ (s2.node m).first_avail = (s.node m).first_avail
      ∧ (s2.node m).free_slice_head = (s.node m).free_slice_head
      ∧ (s2.node m).free_slice_tail = (s.node m).free_slice_tail)
    (hns : (s2.pool P).node_size = (s.pool P).node_size)
    (hsc : (s2.pool P).slice_count = (s.pool P).slice_count)
    (hss : (s2.pool P).slice_size = (s.pool P).slice_size)
    (hnew : m ≠ (s2.pool P).newly_alloc_node → m ≠ (s.pool P).newly_alloc_node)
    (hblk : (m, (s.pool P).node_size) ∈ s.blocks → (m, (s.pool P).node_size) ∈ s2.blocks)
    (hcnt : OL2.countP (fun x => decide ((s2.slice x).node = m))
      = OL.countP (fun x => decide ((s.slice x).node = m)))
    (hrun : run_of runs2 m = run_of runs m)
    (hmem : ∀ z, z ∈ flat runs ++ OL → z ∈ flat runs2 ++ OL2) :
    NodeInv s2 P runs2 OL2 m := by
  obtain ⟨h1, h2, h3, h4, h5, h6, h7, h8, h9, h10⟩ := h
  obtain ⟨e1, e2, e3, e4, e5, e6⟩ := hnode
  unfold NodeInv
  rw [e1, e2, e3, e4, e5, e6, hns, hsc, hss, hcnt, hrun]
  exact ⟨h1, hblk h2, h3, h4, fun hm => h5 (hnew hm), h6, h7, h8, h9,
    fun i hi => hmem _ (h10 i hi)⟩

theorem countP_node_congr {s s2 : State} {l : List Nat} (m : Nat)
    (h : ∀ z ∈ l, (s2.slice z).node = (s.slice z).node) :
    l.countP (fun x => decide ((s2.slice x).node = m))
      = l.countP (fun x => decide ((s.slice x).node = m)) := by
  apply List.countP_congr
  intro z hz
  simp [h z hz]

/-- The head of the free list is the head of the first run. -/
theorem PoolInv.first_run {s : State} {P : Nat} {NL : List Nat}
    {runs : List (Nat × List Nat)} {OL : List Nat} (h : PoolInv s P NL runs OL)
    (hx0 : (s.pool P).first_free_slice ≠ 0) :
    ∃ n R rest, runs = (n, (s.pool P).first_free_slice :: R) :: rest := by
  have hfl := h.frees
  unfold free_list at hfl
  have hne : flat runs ≠ [] := fun e => hx0 ((dll_nil_iff hfl).2 e)
  cases hr : runs with
  | nil => rw [hr] at hne; exact absurd rfl hne
  | cons r rest =>
    obtain ⟨n, R⟩ := r
    have hR := (h.runs_ok (n, R) (by rw [hr]; simp)).1
    obtain ⟨x, R', rfl⟩ := List.exists_cons_of_ne_nil hR
    have := dll_first hfl
    rw [hr, flat_cons] at this
    simp only [List.cons_append, List.headD_cons] at this
    rw [this]
    exact ⟨n, R', rest, rfl⟩


theorem headD_ne_of_not_mem {l : List Nat} {x : Nat} (hx0 : x ≠ 0) (hx : x ∉ l) :
    l.headD 0 ≠ x := by
  cases l with
  | nil => exact fun e => hx0 e.symm
  | cons a l =>
    simp only [List.headD_cons]
    rintro rfl
    exact hx (by simp)

theorem headD_mem_of_ne_zero {l : List Nat} (h : l.headD 0 ≠ 0) : l.headD 0 ∈ l := by
  cases l with
  | nil => exact absurd rfl h
  | cons a l => simp

theorem dll_congr {nx pv nx2 pv2 : Nat → Nat} {f : Nat} {l : List Nat}
    (hn : ∀ y ∈ l, nx2 y = nx y) (hp : ∀ y ∈ l, pv2 y = pv y) (h : DLL nx pv f l) :
    DLL nx2 pv2 f l :=
  ⟨(chain_congr hn).2 h.1, (back_congr hp).2 h.2.1, h.2.2⟩

theorem flat_pop (n : Nat) (R : List Nat) (rest : List (Nat × List Nat)) :
    flat (if R = [] then rest else (n, R) :: rest) = R ++ flat rest := by
  split_ifs with hR
  · simp [hR]
  · rw [flat_cons]

theorem lastD_cons_of_ne_nil {R : List Nat} (hR : R ≠ []) (x d : Nat) :
    lastD (x :: R) d = lastD R 0 := by
  cases R with
  | nil => exact absurd rfl hR
  | cons a R => rfl


theorem mem_pop_push {x : Nat} {R FR OL : List Nat} {z : Nat}
    (hz : z ∈ (x :: R ++ FR) ++ OL) : z ∈ (R ++ FR) ++ (x :: OL) := by
  simp only [List.cons_append, List.mem_append, List.mem_cons] at hz ⊢
  tauto

theorem mem_push_pop {x : Nat} {R FR OL : List Nat} {z : Nat}
    (hz : z ∈ (R ++ FR) ++ (x :: OL)) : z ∈ (x :: R ++ FR) ++ OL := by
  simp only [List.cons_append, List.mem_append, List.mem_cons] at hz ⊢
  tauto

set_option maxHeartbeats 800000 in
/-- Allocation from the free list keeps the pool invariant: the head `x` of the
first run moves to the head of the occupied list. -/
theorem PoolInv_alloc_reuse {s : State} {P n x : Nat} {NL R : List Nat}
    {rest : List (Nat × List Nat)} {OL : List Nat}
    (h : PoolInv s P NL ((n, x :: R) :: rest) OL)
    (htag : (s.slice (P - SLICE_HDR)).tag = (s.pool P).slice_tag) :
    (_elr_slice_from_pool s P).2 = x
    ∧ PoolInv (_elr_slice_from_pool s P).1 P NL
        (if R = [] then rest else (n, R) :: rest) (x :: OL) := by
  have hfl := h.frees
  unfold free_list at hfl
  rw [flat_cons] at hfl
  simp only [List.cons_append] at hfl
  have hff : (s.pool P).first_free_slice = x := by
    have := dll_first hfl
    simpa using this
  have hx0 : x ≠ 0 := fun e => dll_not_mem_zero hfl (by simp [e])
  have hy : (s.slice x).next = (R ++ flat rest).headD 0 := chain_next (A := []) hfl.1
  have hocc := h.occ
  unfold occupied_list at hocc
  have hfo : (s.pool P).first_occupied_slice = OL.headD 0 := dll_first hocc
  have hxOL : x ∉ OL := fun hm => h.disj x hm (by simp [flat_cons])
  have hxFL : x ∉ R ++ flat rest := (List.nodup_cons.1 hfl.2.2).1
  have hOL0 : (0 : Nat) ∉ OL := dll_not_mem_zero hocc
  have hFL0 : (0 : Nat) ∉ R ++ flat rest := fun hm => dll_not_mem_zero hfl (by simp [hm])
  have hyx : (R ++ flat rest).headD 0 ≠ x := headD_ne_of_not_mem hx0 hxFL
  have hfox : OL.headD 0 ≠ x := headD_ne_of_not_mem hx0 hxOL
  have hfoy : OL.headD 0 ≠ 0 → OL.headD 0 ≠ (R ++ flat rest).headD 0 := by
    intro h0 he
    have h1 := headD_mem_of_ne_zero h0
    have h2 : (R ++ flat rest).headD 0 ∈ R ++ flat rest :=
      headD_mem_of_ne_zero (by rw [← he]; exact h0)
    rw [← he] at h2
    exact h.disj _ h1 (by rw [flat_cons]; simp only [List.cons_append]; exact List.mem_cons_of_mem _ h2)
  have hn : (s.slice x).node = n := (h.runs_ok (n, x :: R) (by simp)).2.2 x (by simp)
  obtain ⟨y, hyd⟩ : ∃ y, y = (R ++ flat rest).headD 0 := ⟨_, rfl⟩
  obtain ⟨fo, hfod⟩ : ∃ fo, fo = OL.headD 0 := ⟨_, rfl⟩
  rw [← hyd] at hy hyx hfoy
  rw [← hfod] at hfo hfox hfoy
  have hcf := slice_from_pool_free_path s P x y fo n htag hff hy hfo hn hx0 hyx hfox hfoy
  obtain ⟨S, hS⟩ : ∃ S : State, S = (_elr_slice_from_pool s P).1 := ⟨_, rfl⟩
  rw [← hS]
  rw [hcf] at hS ⊢
  refine ⟨rfl, ?_⟩
  simp only at hS
  -- the views of the new state
  have hpoolP : S.pool P = { s.pool P with
      first_free_slice := y, first_occupied_slice := x } := by
    rw [hS]; simp
  have hnode_n : S.node n = { s.node n with
      free_slice_head := if y ≠ 0 ∧ (s.slice y).node = n then y else 0
      free_slice_tail := if y ≠ 0 ∧ (s.slice y).node = n then (s.node n).free_slice_tail else 0
      using_slice_count := ((s.node n).using_slice_count + 1) % SIZE_MOD } := by
    rw [hS]; simp
  have hnode_ne : ∀ m, m ≠ n → S.node m = s.node m := by
    intro m hm; rw [hS]; simp [hm]
  have hslice_x : S.slice x
      = { prev := 0, next := fo, node := n, tag := wrap_int ((s.slice x).tag + 1) } := by
    rw [hS]; simp
  have hslice_ne : ∀ z, z ≠ x → (S.slice z).next = (s.slice z).next
      ∧ (S.slice z).node = (s.slice z).node ∧ (S.slice z).tag = (s.slice z).tag := by
    intro z hz; rw [hS]; simp only [hz, if_false]
    split_ifs <;> simp
  have hprev_ne : ∀ z, z ≠ x → z ≠ fo → z ≠ y → (S.slice z).prev = (s.slice z).prev := by
    intro z h1 h2 h3; rw [hS]; simp [h1, h2, h3]
  have hprev_fo : fo ≠ 0 → (S.slice fo).prev = x := by
    intro h0; rw [hS]; simp [h0, hfox]
  have hprev_y : y ≠ 0 → (S.slice y).prev = 0 := by
    intro h0; rw [hS]
    have : ¬ (fo ≠ 0 ∧ y = fo) := fun ⟨a, b⟩ => hfoy a b.symm
    simp [hyx, this, h0]
  have hblocks : S.blocks = s.blocks := by rw [hS]
  clear hS hcf
  have hnode_same : ∀ m, (S.node m).next = (s.node m).next ∧ (S.node m).prev = (s.node m).prev
      ∧ (S.node m).owner = (s.node m).owner
      ∧ (S.node m).used_slice_count = (s.node m).used_slice_count
      ∧ (S.node m).first_avail = (s.node m).first_avail := by
    intro m
    by_cases hm : m = n
    · subst hm; rw [hnode_n]; simp
    · rw [hnode_ne m hm]; simp
  have hnNL : n ∈ NL := (h.runs_ok (n, x :: R) (by simp)).2.1
  have hkeys := h.runs_keys
  simp only [List.map_cons, List.nodup_cons] at hkeys
  have hsubFL : ∀ z, z ∈ R ++ flat rest → z ∈ flat ((n, x :: R) :: rest) := by
    intro z hz; rw [flat_cons]; simp only [List.cons_append]; exact List.mem_cons_of_mem _ hz
  have hOLx : ∀ z ∈ OL, z ≠ x := fun z hz e => hxOL (e ▸ hz)
  have hFLx : ∀ z ∈ R ++ flat rest, z ≠ x := fun z hz e => hxFL (e ▸ hz)
  have hfo_cases : fo = 0 ∨ fo ∈ OL := by
    by_cases h0 : fo = 0
    · exact Or.inl h0
    · exact Or.inr (hfod ▸ headD_mem_of_ne_zero (hfod ▸ h0))
  have hy_cases : y = 0 ∨ y ∈ R ++ flat rest := by
    by_cases h0 : y = 0
    · exact Or.inl h0
    · exact Or.inr (hyd ▸ headD_mem_of_ne_zero (hyd ▸ h0))
  have hnodeOL : ∀ z ∈ OL, (S.slice z).node = (s.slice z).node :=
    fun z hz => (hslice_ne z (hOLx z hz)).2.1
  have hNI := h.node_ok n hnNL
  obtain ⟨hn1, hn2, hn3, hn4, hn5, hn6, hn7, hn8, hn9, hn10⟩ := hNI
  rw [run_of_cons_self] at hn7 hn8 hn9
  have hscl := h.sc_lt
  refine
    { blocks_ok := ?_, ss_pos := ?_, sc_pos := ?_, sc_lt := ?_, ns_pos := ?_, geom := ?_,
      nodes := ?_, node_ok := ?_, newly_ok := ?_, frees := ?_, runs_keys := ?_, runs_ok := ?_,
      occ := ?_, occ_ok := ?_, disj := ?_, issued := ?_, tag_occ := ?_, tag_free := ?_ }
  · unfold blocks_disjoint; rw [hblocks]; exact h.blocks_ok
  · rw [hpoolP]; exact h.ss_pos
  · rw [hpoolP]; exact h.sc_pos
  · rw [hpoolP]; exact h.sc_lt
  · rw [hpoolP]; exact h.ns_pos
  · rw [hpoolP]; exact h.geom
  · unfold node_list
    rw [hpoolP]
    exact dll_congr (fun m _ => (hnode_same m).1) (fun m _ => (hnode_same m).2.1) h.nodes
  · intro m hm
    by_cases hmn : m = n
    · subst hmn
      unfold NodeInv
      rw [hnode_n, hpoolP]
      simp only [List.countP_cons, hslice_x, decide_True, if_true]
      rw [countP_node_congr m hnodeOL, ← hn6]
      have hlen : (s.node m).using_slice_count + 1 < SIZE_MOD := by
        simp only [List.length_cons] at hn7
        omega
      rw [Nat.mod_eq_of_lt hlen]
      have hrun : run_of (if R = [] then rest else (m, R) :: rest) m = R := by
        split_ifs with hR
        · rw [hR]; exact run_of_not_mem hkeys.1
        · exact run_of_cons_self _ _ _
      rw [hrun]
      refine ⟨hn1, by rw [hblocks]; exact hn2, hn3, hn4, hn5, rfl, ?_, ?_, ?_, ?_⟩
      · simp only [List.length_cons] at hn7; omega
      · cases R with
        | nil =>
          simp only [List.headD_nil]
          rw [if_neg]
          rintro ⟨hy0, hyn⟩
          rcases hy_cases with e | hmem
          · exact hy0 e
          · simp only [List.nil_append] at hmem
            obtain ⟨r, hr, hyr⟩ := mem_flat.1 hmem
            have := (h.runs_ok r (List.mem_cons_of_mem _ hr)).2.2 y hyr
            rw [hyn] at this
            exact hkeys.1 (this ▸ List.mem_map_of_mem Prod.fst hr)
        | cons a R =>
          simp only [List.cons_append, List.headD_cons] at hyd ⊢
          rw [if_pos]
          · exact hyd
          · refine ⟨fun e => hFL0 (by simp [← e, hyd]), ?_⟩
            rw [hyd]
            exact (h.runs_ok (m, x :: a :: R) (by simp)).2.2 a (by simp)
      · cases R with
        | nil =>
          simp only [lastD]
          rw [if_neg]
          rintro ⟨hy0, hyn⟩
          rcases hy_cases with e | hmem
          · exact hy0 e
          · simp only [List.nil_append] at hmem
            obtain ⟨r, hr, hyr⟩ := mem_flat.1 hmem
            have := (h.runs_ok r (List.mem_cons_of_mem _ hr)).2.2 y hyr
            rw [hyn] at this
            exact hkeys.1 (this ▸ List.mem_map_of_mem Prod.fst hr)
        | cons a R =>
          simp only [List.cons_append, List.headD_cons] at hyd
          rw [if_pos]
          · rw [hn9]; rfl
          · refine ⟨fun e => hFL0 (by simp [← e, hyd]), ?_⟩
            rw [hyd]
            exact (h.runs_ok (m, x :: a :: R) (by simp)).2.2 a (by simp)
      · intro i hi
        have := hn10 i hi
        rw [flat_pop]
        rw [flat_cons] at this
        exact mem_pop_push this
    · refine NodeInv_transfer (h.node_ok m hm)
        (by rw [hnode_ne m hmn]; exact ⟨rfl, rfl, rfl, rfl, rfl, rfl⟩) (by rw [hpoolP])
        (by rw [hpoolP]) (by rw [hpoolP]) (by rw [hpoolP]; exact id)
        (by rw [hblocks]; exact id) ?_ ?_ ?_
      · simp only [List.countP_cons, hslice_x]
        rw [countP_node_congr m hnodeOL]
        have hnm : n ≠ m := fun e => hmn e.symm
        simp [hnm]
      · rw [run_of_cons_ne _ _ (fun e : n = m => hmn e.symm)]
        split_ifs with hR
        · rfl
        · rw [run_of_cons_ne _ _ (fun e : n = m => hmn e.symm)]
      · intro z hz
        rw [flat_pop]
        rw [flat_cons] at hz
        exact mem_pop_push hz
  · rw [hpoolP]
    simp only
    rw [(hnode_same _).2.2.2.1]
    exact h.newly_ok
  · unfold free_list
    rw [hpoolP, flat_pop]
    simp only
    rw [← hy]
    refine dll_pop_front hfl (fun z hz => (hslice_ne z (hFLx z hz)).1) ?_ ?_
    · intro z hz hzy
      refine hprev_ne z (hFLx z hz) ?_ (by rw [← hy]; exact hzy)
      rintro rfl
      rcases hfo_cases with e | hmem
      · exact hFL0 (e ▸ hz)
      · exact h.disj _ hmem (hsubFL _ hz)
    · intro hy0
      rw [hy] at hy0 ⊢
      exact hprev_y hy0
  · split_ifs with hR
    · exact hkeys.2
    · simpa using hkeys
  · intro r hr
    have hr2 : (r = (n, R) ∧ R ≠ []) ∨ r ∈ rest := by
      split_ifs at hr with hR
      · exact Or.inr hr
      · rcases List.mem_cons.1 hr with e | e
        · exact Or.inl ⟨e, hR⟩
        · exact Or.inr e
    rcases hr2 with ⟨rfl, hR⟩ | hr2
    · refine ⟨hR, hnNL, ?_⟩
      intro z hz
      rw [(hslice_ne z (hFLx z (by simp [hz]))).2.1]
      exact (h.runs_ok (n, x :: R) (by simp)).2.2 z (by simp [hz])
    · obtain ⟨a, b, c⟩ := h.runs_ok r (List.mem_cons_of_mem _ hr2)
      refine ⟨a, b, ?_⟩
      intro z hz
      rw [(hslice_ne z (hFLx z (List.mem_append_right _ (mem_flat.2 ⟨r, hr2, hz⟩)))).2.1]
      exact c z hz
  · unfold occupied_list
    rw [hpoolP]
    simp only
    refine dll_push_front hocc hx0 hxOL (by rw [hslice_x, hfo]) (by rw [hslice_x])
      (fun z hz => (hslice_ne z (hOLx z hz)).1) ?_ ?_
    · intro z hz hzf
      refine hprev_ne z (hOLx z hz) (by rw [← hfo]; exact hzf) ?_
      rintro rfl
      rcases hy_cases with e | hmem
      · exact hOL0 (e ▸ hz)
      · exact h.disj _ hz (hsubFL _ hmem)
    · intro h0
      rw [hfo] at h0 ⊢
      exact hprev_fo h0
  · intro z hz
    rcases List.mem_cons.1 hz with rfl | hz
    · rw [hslice_x]; exact hnNL
    · rw [hnodeOL z hz]; exact h.occ_ok z hz
  · intro z hz
    rw [flat_pop]
    rcases List.mem_cons.1 hz with rfl | hz
    · exact hxFL
    · exact fun hm => h.disj z hz (hsubFL z hm)
  · intro z hz
    rw [hpoolP]
    simp only
    have hnz : (S.slice z).node = (s.slice z).node := by
      by_cases hzx : z = x
      · subst hzx; rw [hslice_x, hn]
      · exact (hslice_ne z hzx).2.1
    rw [hnz, (hnode_same _).2.2.2.1]
    apply h.issued
    rw [flat_pop] at hz
    rw [flat_cons]
    exact mem_push_pop hz
  · intro z hz
    rcases List.mem_cons.1 hz with rfl | hz
    · rw [hslice_x]
      have := h.tag_free z (by simp [flat_cons])
      simp only [wrap_int]
      omega
    · rw [(hslice_ne z (hOLx z hz)).2.2]
      exact h.tag_occ z hz
  · intro z hz
    rw [flat_pop] at hz
    rw [(hslice_ne z (hFLx z hz)).2.2]
    exact h.tag_free z (hsubFL z hz)


theorem disjoint_iff (a n b m : Nat) : disjoint a n b m = true ↔ a + n ≤ b ∨ b + m ≤ a := by
  simp [disjoint]

theorem sys_fresh_iff (s : State) (a size : Nat) :
    sys_fresh s a size = true ↔ a ≠ 0 ∧ a + size ≤ SIZE_MOD
      ∧ disjoint a size (g_mem_pool - SLICE_HDR) (SLICE_HDR + sizeof_elr_mem_pool) = true
      ∧ ∀ b ∈ s.blocks, disjoint a size b.1 b.2 = true := by
  simp [sys_fresh, and_assoc]

/-- Two distinct live blocks do not overlap. -/
theorem blocks_disjoint.ne {s : State} (h : blocks_disjoint s) {a b : Nat × Nat}
    (ha : a ∈ s.blocks) (hb : b ∈ s.blocks) (hab : a ≠ b) :
    a.1 + a.2 ≤ b.1 ∨ b.1 + b.2 ≤ a.1 := by
  have hsym : Symmetric (fun a b : Nat × Nat => disjoint a.1 a.2 b.1 b.2 = true) := by
    intro a b hd
    rw [disjoint_iff] at hd ⊢
    exact hd.symm
  have := List.Pairwise.forall hsym h ha hb hab
  exact (disjoint_iff _ _ _ _).1 this

/-- Slices of different nodes of a pool have different addresses. -/
theorem PoolInv.slice_addr_ne {s : State} {P : Nat} {NL : List Nat}
    {runs : List (Nat × List Nat)} {OL : List Nat} (h : PoolInv s P NL runs OL)
    {m n : Nat} (hm : m ∈ NL) (hn : n ∈ NL) (hmn : m ≠ n) {i j : Nat}
    (hi : i < (s.pool P).slice_count) (hj : j < (s.pool P).slice_count) :
    m + NODE_HDR + i * (s.pool P).slice_size ≠ n + NODE_HDR + j * (s.pool P).slice_size := by
  have hbm := (h.node_ok m hm).2.1
  have hbn := (h.node_ok n hn).2.1
  have hd : m + (s.pool P).node_size ≤ n ∨ n + (s.pool P).node_size ≤ m :=
    blocks_disjoint.ne h.blocks_ok hbm hbn (by
      intro e
      exact hmn (congrArg Prod.fst e))
  rcases h.geom with h1 | h1
  · have hi0 : i = 0 := by omega
    have hj0 : j = 0 := by omega
    subst hi0 hj0
    have := h.ns_pos
    omega
  · have e1 : (i + 1) * (s.pool P).slice_size ≤ (s.pool P).slice_count * (s.pool P).slice_size :=
      Nat.mul_le_mul_right _ hi
    have e2 : (j + 1) * (s.pool P).slice_size ≤ (s.pool P).slice_count * (s.pool P).slice_size :=
      Nat.mul_le_mul_right _ hj
    have hss := h.ss_pos
    rw [Nat.add_mul] at e1 e2
    omega


set_option maxHeartbeats 800000 in
/-- A node granted by the system joins the pool as its bump node and keeps the
pool invariant. -/
theorem PoolInv_alloc_mem_node {s : State} {P a : Nat} {NL : List Nat}
    {runs : List (Nat × List Nat)} {OL : List Nat} {rest : List (Option Nat)}
    (h : PoolInv s P NL runs OL) (hnew : (s.pool P).newly_alloc_node = 0)
    (hsys : s.sys = some a :: rest)
    (hfresh : sys_fresh s a (s.pool P).node_size = true) :
    PoolInv (_elr_alloc_mem_node s P) P (a :: NL) runs OL
    ∧ ((_elr_alloc_mem_node s P).pool P).newly_alloc_node = a
    ∧ ((_elr_alloc_mem_node s P).pool P).first_free_slice = (s.pool P).first_free_slice
    ∧ ((_elr_alloc_mem_node s P).pool P).slice_tag = (s.pool P).slice_tag
    ∧ (_elr_alloc_mem_node s P).slice = s.slice := by
  obtain ⟨ha0, _, _, hfb⟩ := (sys_fresh_iff s a _).1 hfresh
  have hnodes := h.nodes
  unfold node_list at hnodes
  have hNL0 : (0 : Nat) ∉ NL := dll_not_mem_zero hnodes
  have haNL : a ∉ NL := by
    intro hm
    have h1 := (h.node_ok a hm).2.1
    have h2 := (disjoint_iff _ _ _ _).1 (hfb _ h1)
    have := h.ns_pos
    simp only at h2
    omega
  obtain ⟨fn, hfnd⟩ : ∃ fn, fn = NL.headD 0 := ⟨_, rfl⟩
  have hfn : (s.pool P).first_node = fn := by rw [hfnd]; exact dll_first hnodes
  have hfna : fn ≠ a := by rw [hfnd]; exact headD_ne_of_not_mem ha0 haNL
  have hcf := alloc_mem_node_granted s P a fn rest hsys hfresh hfn hfna
  obtain ⟨S, hS⟩ : ∃ S : State, S = _elr_alloc_mem_node s P := ⟨_, rfl⟩
  rw [← hS]
  rw [hcf] at hS
  have hpoolP : S.pool P = { s.pool P with newly_alloc_node := a, first_node := a } := by
    rw [hS]; simp
  have hnode_a : S.node a =
      { owner := P, prev := 0, next := fn, free_slice_head := 0, free_slice_tail := 0,
        using_slice_count := 0, used_slice_count := 0, first_avail := a + NODE_HDR } := by
    rw [hS]; simp
  have hnode_ne : ∀ m, m ≠ a → (S.node m).next = (s.node m).next
      ∧ (S.node m).owner = (s.node m).owner
      ∧ (S.node m).used_slice_count = (s.node m).used_slice_count
      ∧ (S.node m).using_slice_count = (s.node m).using_slice_count
      ∧ (S.node m).first_avail = (s.node m).first_avail
      ∧ (S.node m).free_slice_head = (s.node m).free_slice_head
      ∧ (S.node m).free_slice_tail = (s.node m).free_slice_tail := by
    intro m hm; rw [hS]; simp only [hm, if_false]
    split_ifs <;> simp
  have hprev_ne : ∀ m, m ≠ a → m ≠ fn → (S.node m).prev = (s.node m).prev := by
    intro m h1 h2; rw [hS]; simp [h1, h2]
  have hprev_fn : fn ≠ 0 → (S.node fn).prev = a := by
    intro h0; rw [hS]; simp [h0, hfna]
  have hslice : S.slice = s.slice := by rw [hS]
  have hblocks : S.blocks = (a, (s.pool P).node_size) :: s.blocks := by rw [hS]
  clear hS hcf
  have hNLa : ∀ m ∈ NL, m ≠ a := fun m hm e => haNL (e ▸ hm)
  have hkeysNL : ∀ r ∈ runs, r.1 ∈ NL := fun r hr => (h.runs_ok r hr).2.1
  refine ⟨?_, by rw [hpoolP], by rw [hpoolP], by rw [hpoolP], hslice⟩
  refine
    { blocks_ok := ?_, ss_pos := ?_, sc_pos := ?_, sc_lt := ?_, ns_pos := ?_, geom := ?_,
      nodes := ?_, node_ok := ?_, newly_ok := ?_, frees := ?_, runs_keys := ?_, runs_ok := ?_,
      occ := ?_, occ_ok := ?_, disj := ?_, issued := ?_, tag_occ := ?_, tag_free := ?_ }
  · unfold blocks_disjoint
    rw [hblocks, List.pairwise_cons]
    exact ⟨hfb, h.blocks_ok⟩
  · rw [hpoolP]; exact h.ss_pos
  · rw [hpoolP]; exact h.sc_pos
  · rw [hpoolP]; exact h.sc_lt
  · rw [hpoolP]; exact h.ns_pos
  · rw [hpoolP]; exact h.geom
  · unfold node_list
    rw [hpoolP]
    simp only
    refine dll_push_front hnodes ha0 haNL (by rw [hnode_a, hfn]) (by rw [hnode_a])
      (fun m hm => (hnode_ne m (hNLa m hm)).1) ?_ ?_
    · intro m hm hmf
      exact hprev_ne m (hNLa m hm) (by rw [← hfn]; exact hmf)
    · intro h0
      rw [hfn] at h0 ⊢
      exact hprev_fn h0
  · intro m hm
    rcases List.mem_cons.1 hm with rfl | hm
    · unfold NodeInv
      rw [hnode_a, hpoolP, hblocks, hslice]
      have hrun : run_of runs m = [] := by
        apply run_of_not_mem
        intro hk
        obtain ⟨r, hr, e⟩ := List.mem_map.1 hk
        exact haNL (e ▸ hkeysNL r hr)
      have hcnt : OL.countP (fun x => decide ((s.slice x).node = m)) = 0 := by
        rw [List.countP_eq_zero]
        intro z hz
        simp only [decide_eq_true_eq]
        intro e
        exact haNL (e ▸ h.occ_ok z hz)
      rw [hrun, hcnt]
      simp [lastD]
    · obtain ⟨e1, e2, e3, e4, e5, e6, e7⟩ := hnode_ne m (hNLa m hm)
      refine NodeInv_transfer (h.node_ok m hm) ⟨e2, e3, e4, e5, e6, e7⟩ (by rw [hpoolP])
        (by rw [hpoolP]) (by rw [hpoolP]) ?_ ?_ ?_ rfl (fun z hz => hz)
      · intro _
        rw [hnew]
        exact fun e => hNL0 (e ▸ hm)
      · intro hb
        rw [hblocks]
        exact List.mem_cons_of_mem _ hb
      · rw [hslice]
  · right
    rw [hpoolP]
    simp only
    rw [hnode_a]
    exact ⟨List.mem_cons_self _ _, h.sc_pos⟩
  · unfold free_list
    rw [hpoolP, hslice]
    exact h.frees
  · exact h.runs_keys
  · intro r hr
    obtain ⟨a1, a2, a3⟩ := h.runs_ok r hr
    rw [hslice]
    exact ⟨a1, List.mem_cons_of_mem _ a2, a3⟩
  · unfold occupied_list
    rw [hpoolP, hslice]
    exact h.occ
  · intro z hz
    rw [hslice]
    exact List.mem_cons_of_mem _ (h.occ_ok z hz)
  · exact h.disj
  · intro z hz
    rw [hpoolP, hslice]
    simp only
    have hnz : (s.slice z).node ∈ NL := by
      rcases List.mem_append.1 hz with hz | hz
      · obtain ⟨r, hr, hzr⟩ := mem_flat.1 hz
        rw [(h.runs_ok r hr).2.2 z hzr]
        exact hkeysNL r hr
      · exact h.occ_ok z hz
    rw [(hnode_ne _ (hNLa _ hnz)).2.2.1]
    exact h.issued z hz
  · rw [hslice]; exact h.tag_occ
  · rw [hslice]; exact h.tag_free


set_option maxHeartbeats 800000 in
/-- Bump allocation from the pool's newest node keeps the pool invariant; the
slice handed out is the node's `first_avail`, with tag 0. -/
theorem PoolInv_bump {s : State} {P nn : Nat} {NL : List Nat}
    {runs : List (Nat × List Nat)} {OL : List Nat}
    (h : PoolInv s P NL runs OL) (hnn : (s.pool P).newly_alloc_node = nn) (hnn0 : nn ≠ 0) :
    (_elr_slice_from_node s P).2 = (s.node nn).first_avail
    ∧ PoolInv (push_occupied (_elr_slice_from_node s P).1 P (_elr_slice_from_node s P).2) P NL
        runs ((s.node nn).first_avail :: OL)
    ∧ ((push_occupied (_elr_slice_from_node s P).1 P (_elr_slice_from_node s P).2).slice
        (s.node nn).first_avail).tag = 0 := by
  have hnew := h.newly_ok
  rw [hnn] at hnew
  obtain ⟨hnNL, hused⟩ : nn ∈ NL ∧ (s.node nn).used_slice_count < (s.pool P).slice_count := by
    rcases hnew with e | e
    · exact absurd e hnn0
    · exact e
  obtain ⟨hn1, hn2, hn3, hn4, hn5, hn6, hn7, hn8, hn9, hn10⟩ := h.node_ok nn hnNL
  obtain ⟨xs, hxs⟩ : ∃ xs, xs = (s.node nn).first_avail := ⟨_, rfl⟩
  rw [← hxs]
  have hxs_eq : xs = nn + NODE_HDR + (s.node nn).used_slice_count * (s.pool P).slice_size := by
    rw [hxs, hn4]
  have hx0 : xs ≠ 0 := by
    rw [hxs_eq, NODE_HDR_eq]; omega
  have hss := h.ss_pos
  have hscl := h.sc_lt
  have hkeysNL : ∀ r ∈ runs, r.1 ∈ NL := fun r hr => (h.runs_ok r hr).2.1
  have hnodeNL : ∀ z ∈ flat runs ++ OL, (s.slice z).node ∈ NL := by
    intro z hz
    rcases List.mem_append.1 hz with hz | hz
    · obtain ⟨r, hr, hzr⟩ := mem_flat.1 hz
      rw [(h.runs_ok r hr).2.2 z hzr]
      exact hkeysNL r hr
    · exact h.occ_ok z hz
  have hfresh : xs ∉ flat runs ++ OL := by
    intro hm
    obtain ⟨i, hi, hxi⟩ := h.issued xs hm
    have hmNL := hnodeNL xs hm
    by_cases hmn : (s.slice xs).node = nn
    · rw [hmn] at hi hxi
      rw [hxs_eq] at hxi
      have h1 : (s.node nn).used_slice_count * (s.pool P).slice_size
          = i * (s.pool P).slice_size := by omega
      have h2 := Nat.eq_of_mul_eq_mul_right hss h1
      omega
    · have hi2 := (h.node_ok _ hmNL).2.2.1
      have := h.slice_addr_ne hmNL hnNL hmn (Nat.lt_of_lt_of_le hi hi2) hused
      rw [← hxi, ← hxs_eq] at this
      exact this rfl
  have hxOL : xs ∉ OL := fun hm => hfresh (List.mem_append_right _ hm)
  have hxFL : xs ∉ flat runs := fun hm => hfresh (List.mem_append_left _ hm)
  have hocc := h.occ
  unfold occupied_list at hocc
  have hOL0 : (0 : Nat) ∉ OL := dll_not_mem_zero hocc
  obtain ⟨fo, hfod⟩ : ∃ fo, fo = OL.headD 0 := ⟨_, rfl⟩
  have hfo : (s.pool P).first_occupied_slice = fo := by rw [hfod]; exact dll_first hocc
  have hfox : fo ≠ xs := by rw [hfod]; exact headD_ne_of_not_mem hx0 hxOL
  have hcf := slice_from_node_bump s P nn xs hnn hnn0 hxs.symm
  rw [hcf]
  simp only
  obtain ⟨S1, hS1⟩ : ∃ S1 : State, S1 = (_elr_slice_from_node s P).1 := ⟨_, rfl⟩
  rw [hcf] at hS1
  simp only at hS1
  rw [← hS1]
  have hfo1 : (S1.pool P).first_occupied_slice = fo := by rw [hS1]; simp [hfo]
  have hcf2 := push_occupied_eq S1 P xs fo hfo1 hx0 hfox
  obtain ⟨S, hS⟩ : ∃ S : State, S = push_occupied S1 P xs := ⟨_, rfl⟩
  rw [← hS]
  rw [hcf2, hS1] at hS
  have hlen : (s.node nn).used_slice_count + 1 < SIZE_MOD := by omega
  have hlen2 : (s.node nn).using_slice_count + 1 < SIZE_MOD := by omega
  have hpoolP : S.pool P = { s.pool P with
      newly_alloc_node :=
        if (s.node nn).used_slice_count + 1 = (s.pool P).slice_count then 0 else nn
      first_occupied_slice := xs } := by
    rw [hS]; simp [Nat.mod_eq_of_lt hlen]
  have hnode_n : S.node nn = { s.node nn with
      used_slice_count := (s.node nn).used_slice_count + 1
      using_slice_count := (s.node nn).using_slice_count + 1
      first_avail := xs + (s.pool P).slice_size } := by
    rw [hS]; simp [Nat.mod_eq_of_lt hlen, Nat.mod_eq_of_lt hlen2]
  have hnode_ne : ∀ m, m ≠ nn → S.node m = s.node m := by
    intro m hm; rw [hS]; simp [hm]
  have hslice_x : S.slice xs = { prev := 0, next := fo, node := nn, tag := 0 } := by
    rw [hS]; simp
  have hslice_ne : ∀ z, z ≠ xs → (S.slice z).next = (s.slice z).next
      ∧ (S.slice z).node = (s.slice z).node ∧ (S.slice z).tag = (s.slice z).tag := by
    intro z hz; rw [hS]; simp only [hz, if_false]
    split_ifs <;> simp
  have hprev_ne : ∀ z, z ≠ xs → z ≠ fo → (S.slice z).prev = (s.slice z).prev := by
    intro z h1 h2; rw [hS]; simp [h1, h2]
  have hprev_fo : fo ≠ 0 → (S.slice fo).prev = xs := by
    intro h0; rw [hS]; simp [h0, hfox]
  have hblocks : S.blocks = s.blocks := by rw [hS]
  clear hS hcf hcf2 hS1 hfo1
  refine ⟨trivial, ?_, by rw [hslice_x]⟩
  have hnode_same : ∀ m, (S.node m).next = (s.node m).next ∧ (S.node m).prev = (s.node m).prev
      ∧ (S.node m).owner = (s.node m).owner := by
    intro m
    by_cases hm : m = nn
    · subst hm; rw [hnode_n]; simp
    · rw [hnode_ne m hm]; simp
  have hOLx : ∀ z ∈ OL, z ≠ xs := fun z hz e => hxOL (e ▸ hz)
  have hFLx : ∀ z ∈ flat runs, z ≠ xs := fun z hz e => hxFL (e ▸ hz)
  have hnodeOL : ∀ z ∈ OL, (S.slice z).node = (s.slice z).node :=
    fun z hz => (hslice_ne z (hOLx z hz)).2.1
  have hfo_cases : fo = 0 ∨ fo ∈ OL := by
    by_cases h0 : fo = 0
    · exact Or.inl h0
    · exact Or.inr (hfod ▸ headD_mem_of_ne_zero (hfod ▸ h0))
  refine
    { blocks_ok := ?_, ss_pos := ?_, sc_pos := ?_, sc_lt := ?_, ns_pos := ?_, geom := ?_,
      nodes := ?_, node_ok := ?_, newly_ok := ?_, frees := ?_, runs_keys := ?_, runs_ok := ?_,
      occ := ?_, occ_ok := ?_, disj := ?_, issued := ?_, tag_occ := ?_, tag_free := ?_ }
  · unfold blocks_disjoint; rw [hblocks]; exact h.blocks_ok
  · rw [hpoolP]; exact h.ss_pos
  · rw [hpoolP]; exact h.sc_pos
  · rw [hpoolP]; exact h.sc_lt
  · rw [hpoolP]; exact h.ns_pos
  · rw [hpoolP]; exact h.geom
  · unfold node_list
    rw [hpoolP]
    exact dll_congr (fun m _ => (hnode_same m).1) (fun m _ => (hnode_same m).2.1) h.nodes
  · intro m hm
    by_cases hmn : m = nn
    · subst hmn
      unfold NodeInv
      rw [hnode_n, hpoolP]
      simp only [List.countP_cons, hslice_x, decide_True, if_true]
      rw [countP_node_congr m hnodeOL, ← hn6]
      refine ⟨hn1, by rw [hblocks]; exact hn2, by omega, ?_, ?_, rfl, by omega, hn8, hn9, ?_⟩
      · rw [hxs_eq, Nat.add_mul]; omega
      · intro hne
        by_cases hfull : (s.node m).used_slice_count + 1 = (s.pool P).slice_count
        · exact hfull
        · rw [if_neg hfull] at hne
          exact absurd rfl hne
      · intro i hi
        by_cases hiu : i < (s.node m).used_slice_count
        · have := hn10 i hiu
          rcases List.mem_append.1 this with e | e
          · exact List.mem_append_left _ e
          · exact List.mem_append_right _ (List.mem_cons_of_mem _ e)
        · have : i = (s.node m).used_slice_count := by omega
          rw [this, ← hxs_eq]
          exact List.mem_append_right _ (List.mem_cons_self _ _)
    · refine NodeInv_transfer (h.node_ok m hm)
        (by rw [hnode_ne m hmn]; exact ⟨rfl, rfl, rfl, rfl, rfl, rfl⟩) (by rw [hpoolP])
        (by rw [hpoolP]) (by rw [hpoolP]) ?_
        (by rw [hblocks]; exact id) ?_ rfl ?_
      · intro _; rw [hnn]; exact hmn
      · simp only [List.countP_cons, hslice_x]
        rw [countP_node_congr m hnodeOL]
        have hnm : nn ≠ m := fun e => hmn e.symm
        simp [hnm]
      · intro z hz
        rcases List.mem_append.1 hz with e | e
        · exact List.mem_append_left _ e
        · exact List.mem_append_right _ (List.mem_cons_of_mem _ e)
  · rw [hpoolP]
    simp only
    by_cases hfull : (s.node nn).used_slice_count + 1 = (s.pool P).slice_count
    · left; rw [if_pos hfull]
    · right
      rw [if_neg hfull, hnode_n]
      simp only
      exact ⟨hnNL, by omega⟩
  · unfold free_list
    rw [hpoolP]
    simp only
    have hfl := h.frees
    unfold free_list at hfl
    refine dll_congr (fun z hz => (hslice_ne z (hFLx z hz)).1) (fun z hz => ?_) hfl
    refine hprev_ne z (hFLx z hz) ?_
    rintro rfl
    rcases hfo_cases with e | hmem
    · exact dll_not_mem_zero hfl (e ▸ hz)
    · exact h.disj _ hmem hz
  · exact h.runs_keys
  · intro r hr
    obtain ⟨a, b, c⟩ := h.runs_ok r hr
    refine ⟨a, b, ?_⟩
    intro z hz
    rw [(hslice_ne z (hFLx z (mem_flat.2 ⟨r, hr, hz⟩))).2.1]
    exact c z hz
  · unfold occupied_list
    rw [hpoolP]
    simp only
    refine dll_push_front hocc hx0 hxOL (by rw [hslice_x, hfo]) (by rw [hslice_x])
      (fun z hz => (hslice_ne z (hOLx z hz)).1) ?_ ?_
    · intro z hz hzf
      exact hprev_ne z (hOLx z hz) (by rw [← hfo]; exact hzf)
    · intro h0
      rw [hfo] at h0 ⊢
      exact hprev_fo h0
  · intro z hz
    rcases List.mem_cons.1 hz with rfl | hz
    · rw [hslice_x]; exact hnNL
    · rw [hnodeOL z hz]; exact h.occ_ok z hz
  · intro z hz
    rcases List.mem_cons.1 hz with rfl | hz
    · exact hxFL
    · exact h.disj z hz
  · intro z hz
    rw [hpoolP]
    simp only
    by_cases hzx : z = xs
    · subst hzx
      rw [hslice_x]
      simp only
      rw [hnode_n]
      exact ⟨(s.node nn).used_slice_count, by simp, hxs_eq⟩
    · have hz2 : z ∈ flat runs ++ OL := by
        rcases List.mem_append.1 hz with e | e
        · exact List.mem_append_left _ e
        · rcases List.mem_cons.1 e with e | e
          · exact absurd e hzx
          · exact List.mem_append_right _ e
      rw [(hslice_ne z hzx).2.1]
      obtain ⟨i, hi, hzi⟩ := h.issued z hz2
      refine ⟨i, ?_, hzi⟩
      by_cases hmn : (s.slice z).node = nn
      · rw [hmn] at hi ⊢; rw [hnode_n]; simp only; omega
      · rw [hnode_ne _ hmn]; exact hi
  · intro z hz
    rcases List.mem_cons.1 hz with rfl | hz
    · rw [hslice_x]; simp
    · rw [(hslice_ne z (hOLx z hz)).2.2]
      exact h.tag_occ z hz
  · intro z hz
    rw [(hslice_ne z (hFLx z hz)).2.2]
    exact h.tag_free z hz


theorem lastD_zero_or_mem (A : List Nat) : lastD A 0 = 0 ∨ lastD A 0 ∈ A := by
  cases A with
  | nil => left; rfl
  | cons a A => right; exact lastD_mem 0 (by simp)

theorem headD_zero_or_mem (B : List Nat) : B.headD 0 = 0 ∨ B.headD 0 ∈ B := by
  cases B with
  | nil => left; rfl
  | cons a A => right; simp

/-- The neighbours of a segment of a doubly linked list. -/
theorem dll_neighbours {nx pv : Nat → Nat} {f : Nat} {A R B : List Nat}
    (h : DLL nx pv f (A ++ R ++ B)) (hR : R ≠ []) :
    pv (R.headD 0) = lastD A 0 ∧ nx (lastD R 0) = B.headD 0 := by
  obtain ⟨hc, hb, hnd⟩ := h
  obtain ⟨r, R', rfl⟩ := List.exists_cons_of_ne_nil hR
  constructor
  · have := hb
    rw [List.append_assoc, List.cons_append] at this
    exact back_prev this
  · obtain ⟨R0, t, e⟩ : ∃ R0 t, r :: R' = R0 ++ [t] := by
      refine ⟨(r :: R').dropLast, (r :: R').getLast (by simp), ?_⟩
      exact (List.dropLast_append_getLast _).symm
    rw [e, lastD_append_singleton]
    have hc2 := hc
    rw [e] at hc2
    have e2 : A ++ (R0 ++ [t]) ++ B = (A ++ R0) ++ t :: B := by simp
    rw [e2] at hc2
    exact chain_next hc2

/-- Taking one element out of a doubly linked list. -/
theorem dll_remove {nx pv nx2 pv2 : Nat → Nat} {f x : Nat} {l : List Nat}
    (h : DLL nx pv f l) (hx : x ∈ l)
    (hn : ∀ y ∈ l.erase x, y ≠ pv x → nx2 y = nx y)
    (hn1 : pv x ≠ 0 → nx2 (pv x) = nx x)
    (hp : ∀ y ∈ l.erase x, y ≠ nx x → pv2 y = pv y)
    (hp1 : nx x ≠ 0 → pv2 (nx x) = pv x) :
    DLL nx2 pv2 (if pv x ≠ 0 then f else nx x) (l.erase x) := by
  obtain ⟨A, B, rfl⟩ := List.append_of_mem hx
  have hnd := h.2.2
  have hxA : x ∉ A := fun hm => (List.nodup_append.1 hnd).2.2 hm (by simp)
  have he : (A ++ x :: B).erase x = A ++ B := by
    rw [List.erase_append_right _ hxA, List.erase_cons_head]
  rw [he] at hn hp ⊢
  have h2 : DLL nx pv f (A ++ [x] ++ B) := by simpa using h
  exact dll_excise (R := [x]) h2 (by simp) hn hn1 hp hp1

/-- The neighbours of an element of a doubly linked list are other elements of
the list, or null. -/
theorem dll_remove_facts {nx pv : Nat → Nat} {f x : Nat} {l : List Nat}
    (h : DLL nx pv f l) (hx : x ∈ l) :
    (pv x = 0 ∨ pv x ∈ l.erase x) ∧ (nx x = 0 ∨ nx x ∈ l.erase x)
    ∧ pv x ≠ x ∧ nx x ≠ x ∧ (nx x ≠ 0 → pv x ≠ nx x)
    ∧ (pv x = 0 → f = x) ∧ x ∉ l.erase x ∧ x ≠ 0 := by
  obtain ⟨A, B, rfl⟩ := List.append_of_mem hx
  have hnd := h.2.2
  have h0 := dll_not_mem_zero h
  have hnd2 := List.nodup_append.1 hnd
  have hxA : x ∉ A := fun hm => hnd2.2.2 hm (by simp)
  have hxB : x ∉ B := (List.nodup_cons.1 hnd2.2.1).1
  have hx0 : x ≠ 0 := fun e => h0 (by simp [e])
  have he : (A ++ x :: B).erase x = A ++ B := by
    rw [List.erase_append_right _ hxA, List.erase_cons_head]
  rw [he]
  have h2 : DLL nx pv f (A ++ [x] ++ B) := by simpa using h
  obtain ⟨e1, e2⟩ := dll_neighbours (R := [x]) h2 (by simp)
  simp only [List.headD_cons, lastD] at e1 e2
  rw [e1, e2]
  have hA := lastD_zero_or_mem A
  have hB := headD_zero_or_mem B
  refine ⟨?_, ?_, ?_, ?_, ?_, ?_, ?_, hx0⟩
  · rcases hA with e | e
    · exact Or.inl e
    · exact Or.inr (List.mem_append_left _ e)
  · rcases hB with e | e
    · exact Or.inl e
    · exact Or.inr (List.mem_append_right _ e)
  · rcases hA with e | e
    · rw [e]; exact fun e => hx0 e.symm
    · exact fun e2 => hxA (e2 ▸ e)
  · rcases hB with e | e
    · rw [e]; exact fun e => hx0 e.symm
    · exact fun e2 => hxB (e2 ▸ e)
  · intro hn0 heq
    rcases hB with e | e
    · exact hn0 e
    · rcases hA with e3 | e3
      · exact hn0 (heq ▸ e3)
      · exact hnd2.2.2 e3 (List.mem_cons_of_mem _ (heq ▸ e))
  · intro e
    cases A with
    | nil =>
      have := dll_first h
      simpa using this
    | cons a A =>
      have := lastD_mem 0 (l := a :: A) (by simp)
      rw [e] at this
      exact absurd (List.mem_append_left _ this) h0
  · simp only [List.mem_append, not_or]
    exact ⟨hxA, hxB⟩

theorem countP_erase_of_pos {p : Nat → Bool} {l : List Nat} {x : Nat} (hx : x ∈ l)
    (hp : p x = true) : (l.erase x).countP p + 1 = l.countP p := by
  induction l with
  | nil => simp at hx
  | cons a l ih =>
    by_cases hax : a = x
    · subst hax
      simp [List.countP_cons, hp]
    · have hx2 : x ∈ l := by
        rcases List.mem_cons.1 hx with e | e
        · exact absurd e.symm hax
        · exact e
      rw [List.erase_cons_tail (by simpa using hax), List.countP_cons, List.countP_cons,
        ← ih hx2]
      omega

theorem countP_erase_of_neg {p : Nat → Bool} {l : List Nat} {x : Nat}
    (hp : p x = false) : (l.erase x).countP p = l.countP p := by
  induction l with
  | nil => simp
  | cons a l ih =>
    by_cases hax : a = x
    · subst hax
      simp [List.countP_cons, hp]
    · rw [List.erase_cons_tail (by simpa using hax), List.countP_cons, List.countP_cons, ih]

theorem mem_erase_or {l : List Nat} {x z : Nat} (hz : z ∈ l) : z = x ∨ z ∈ l.erase x := by
  by_cases e : z = x
  · exact Or.inl e
  · exact Or.inr ((List.mem_erase_of_ne e).2 hz)

/-- What the invariant says about an occupied slice and its node. -/
theorem PoolInv.occupied_facts {s : State} {P : Nat} {NL : List Nat}
    {runs : List (Nat × List Nat)} {OL : List Nat} (h : PoolInv s P NL runs OL)
    {x : Nat} (hx : x ∈ OL) :
    (s.slice x).node ∈ NL
    ∧ 1 ≤ (s.node (s.slice x).node).using_slice_count
    ∧ (s.node (s.slice x).node).using_slice_count < SIZE_MOD
    ∧ x ∉ flat runs ∧ x ≠ 0 := by
  have hn := h.occ_ok x hx
  obtain ⟨hn1, hn2, hn3, hn4, hn5, hn6, hn7, hn8, hn9, hn10⟩ := h.node_ok _ hn
  have hpos : 0 < OL.countP (fun z => decide ((s.slice z).node = (s.slice x).node)) :=
    List.countP_pos_iff.2 ⟨x, hx, by simp⟩
  have hocc := h.occ
  unfold occupied_list at hocc
  have := h.sc_lt
  refine ⟨hn, by omega, by omega, h.disj x hx, ?_⟩
  exact fun e => dll_not_mem_zero hocc (e ▸ hx)

/-- A node whose `free_slice_head` is null has no run in the free list. -/
theorem PoolInv.no_run {s : State} {P : Nat} {NL : List Nat}
    {runs : List (Nat × List Nat)} {OL : List Nat} (h : PoolInv s P NL runs OL)
    {n : Nat} (hn : n ∈ NL) (hh : (s.node n).free_slice_head = 0) :
    n ∉ runs.map Prod.fst ∧ run_of runs n = [] := by
  have hfl := h.frees
  unfold free_list at hfl
  have h0 := dll_not_mem_zero hfl
  have h8 := (h.node_ok n hn).2.2.2.2.2.2.2.1
  rw [hh] at h8
  have hrun : run_of runs n = [] := by
    by_contra hne
    have := headD_mem hne 0
    rw [← h8] at this
    exact h0 (run_of_subset_flat runs n 0 this)
  refine ⟨?_, hrun⟩
  intro hk
  have := run_of_mem_runs hk
  rw [hrun] at this
  exact (h.runs_ok _ this).1 rfl

set_option maxHeartbeats 1600000 in
/-- Release of an occupied slice whose node has no free slice yet: the slice
becomes the node's run, at the head of the free list. -/
theorem PoolInv_free_new_run {s : State} {P n x mem : Nat} {NL : List Nat}
    {runs : List (Nat × List Nat)} {OL : List Nat}
    (h : PoolInv s P NL runs OL) (hx : x ∈ OL) (hn : (s.slice x).node = n)
    (hhead : (s.node n).free_slice_head = 0) :
    PoolInv (free_new_run (free_unlink s mem x n P) x n P) P NL ((n, [x]) :: runs)
      (OL.erase x) := by
  obtain ⟨hnNL, husing1, husing2, hxFL, hx0⟩ := h.occupied_facts hx
  rw [hn] at hnNL husing1 husing2
  obtain ⟨hnokey, hrun⟩ := h.no_run hnNL hhead
  have hocc := h.occ
  unfold occupied_list at hocc
  have hfl := h.frees
  unfold free_list at hfl
  obtain ⟨f1, f2, f3, f4, f5, f6, hxE, _⟩ := dll_remove_facts hocc hx
  have hfo : (s.pool P).first_occupied_slice = OL.headD 0 := dll_first hocc
  have hffd : (s.pool P).first_free_slice = (flat runs).headD 0 := dll_first hfl
  have hOL0 : (0 : Nat) ∉ OL := dll_not_mem_zero hocc
  have hFL0 : (0 : Nat) ∉ flat runs := dll_not_mem_zero hfl
  obtain ⟨px, hpx⟩ : ∃ px, px = (s.slice x).prev := ⟨_, rfl⟩
  obtain ⟨nx, hnx⟩ : ∃ nx, nx = (s.slice x).next := ⟨_, rfl⟩
  obtain ⟨ff, hff⟩ : ∃ ff, ff = (s.pool P).first_free_slice := ⟨_, rfl⟩
  obtain ⟨fo, hfod⟩ : ∃ fo, fo = (s.pool P).first_occupied_slice := ⟨_, rfl⟩
  rw [← hpx] at f1 f3 f5 f6
  rw [← hnx] at f2 f4 f5
  have hff_cases : ff = 0 ∨ ff ∈ flat runs := by
    rw [hff, hffd]; exact headD_zero_or_mem _
  have hffx : ff ≠ x := by
    rcases hff_cases with e | e
    · rw [e]; exact fun e => hx0 e.symm
    · exact fun e2 => hxFL (e2 ▸ e)
  have hOLE : ∀ z ∈ OL.erase x, z ∈ OL := fun z hz => List.mem_of_mem_erase hz
  have hEx : ∀ z ∈ OL.erase x, z ≠ x := fun z hz e => hxE (e ▸ hz)
  have hFLx : ∀ z ∈ flat runs, z ≠ x := fun z hz e => hxFL (e ▸ hz)
  have hff_nx : ff ≠ 0 → ff ≠ nx := by
    intro h0 e
    rcases hff_cases with e1 | e1
    · exact h0 e1
    · rcases f2 with e2 | e2
      · exact h0 (e ▸ e2)
      · exact h.disj _ (hOLE _ e2) (e ▸ e1)
  have hff_px : ff ≠ 0 → ff ≠ px := by
    intro h0 e
    rcases hff_cases with e1 | e1
    · exact h0 e1
    · rcases f1 with e2 | e2
      · exact h0 (e ▸ e2)
      · exact h.disj _ (hOLE _ e2) (e ▸ e1)
  have hcf1 := free_unlink_eq s mem x n P px nx hpx.symm hnx.symm f3 f4 f5
  obtain ⟨S1, hS1⟩ : ∃ S1 : State, S1 = free_unlink s mem x n P := ⟨_, rfl⟩
  rw [← hS1]
  rw [hcf1] at hS1
  have hff1 : (S1.pool P).first_free_slice = ff := by
    rw [hS1]; simp only; split_ifs <;> simp [hff]
  have hcf2 := free_new_run_eq S1 x n P ff hff1 hffx
  obtain ⟨S, hS⟩ : ∃ S : State, S = free_new_run S1 x n P := ⟨_, rfl⟩
  rw [← hS]
  rw [hcf2, hS1] at hS
  have hx_px : x ≠ px := fun e => f3 e.symm
  have hx_nx : x ≠ nx := fun e => f4 e.symm
  have hpoolP : S.pool P = { s.pool P with
      first_occupied_slice := if px = 0 then nx else fo
      first_free_slice := x } := by
    rw [hS]
    by_cases hp0 : px = 0 <;> simp [hp0, hfod]
  have hnode_n : S.node n = { s.node n with
      using_slice_count := (s.node n).using_slice_count - 1
      free_slice_head := x
      free_slice_tail := x } := by
    have e : ((s.node n).using_slice_count + SIZE_MOD - 1) % SIZE_MOD
        = (s.node n).using_slice_count - 1 := by
      have : (s.node n).using_slice_count + SIZE_MOD - 1
          = ((s.node n).using_slice_count - 1) + SIZE_MOD := by omega
      rw [this, Nat.add_mod_right, Nat.mod_eq_of_lt (by omega)]
    rw [hS]; simp [e]
  have hnode_ne : ∀ m, m ≠ n → S.node m = s.node m := by
    intro m hm; rw [hS]; simp [hm]
  have hslice_x : S.slice x
      = { prev := 0, next := ff, node := n, tag := wrap_int ((s.slice x).tag + 1) } := by
    rw [hS]; simp [hn]
  have hslice_ne : ∀ z, z ≠ x → (S.slice z).node = (s.slice z).node
      ∧ (S.slice z).tag = (s.slice z).tag := by
    intro z hz; rw [hS]; simp only [hz, if_false]
    split_ifs <;> simp
  have hnext_ne : ∀ z, z ≠ x → z ≠ px → (S.slice z).next = (s.slice z).next := by
    intro z h1 h2; rw [hS]; simp only [h1, h2, if_false, and_false]
    split_ifs <;> simp
  have hnext_px : px ≠ 0 → (S.slice px).next = nx := by
    intro h0; rw [hS]
    by_cases hpf : ff ≠ 0 ∧ px = ff <;> simp [f3, h0, hpf, hffx]
  have hprev_ne : ∀ z, z ≠ x → z ≠ nx → z ≠ ff → (S.slice z).prev = (s.slice z).prev := by
    intro z h1 h2 h3; rw [hS]; simp only [h1, h2, h3, if_false, and_false]
    split_ifs <;> simp
  have hprev_nx : nx ≠ 0 → (S.slice nx).prev = px := by
    intro h0
    have h1 : ¬ (ff ≠ 0 ∧ nx = ff) := fun ⟨a, b⟩ => hff_nx a b.symm
    have h2 : ¬ (px ≠ 0 ∧ nx = px) := fun ⟨_, b⟩ => f5 h0 b.symm
    rw [hS]; simp [f4, h0, h1, h2]
  have hprev_ff : ff ≠ 0 → (S.slice ff).prev = x := by
    intro h0; rw [hS]; simp [h0, hffx]
  have hblocks : S.blocks = s.blocks := by rw [hS]
  clear hS hcf1 hcf2 hS1 hff1
  have hnode_same : ∀ m, (S.node m).next = (s.node m).next ∧ (S.node m).prev = (s.node m).prev
      ∧ (S.node m).owner = (s.node m).owner
      ∧ (S.node m).used_slice_count = (s.node m).used_slice_count
      ∧ (S.node m).first_avail = (s.node m).first_avail := by
    intro m
    by_cases hm : m = n
    · subst hm; rw [hnode_n]; simp
    · rw [hnode_ne m hm]; simp
  have hnodeE : ∀ z ∈ OL.erase x, (S.slice z).node = (s.slice z).node :=
    fun z hz => (hslice_ne z (hEx z hz)).1
  obtain ⟨hn1, hn2, hn3, hn4, hn5, hn6, hn7, hn8, hn9, hn10⟩ := h.node_ok n hnNL
  rw [hrun] at hn7
  simp only [List.length_nil, Nat.add_zero] at hn7
  have hmemsub : ∀ z, z ∈ flat runs ++ OL → z ∈ flat ((n, [x]) :: runs) ++ OL.erase x := by
    intro z hz
    rw [flat_cons]
    simp only [List.cons_append, List.nil_append, List.mem_cons, List.mem_append] at hz ⊢
    rcases hz with e | e
    · exact Or.inr (Or.inl e)
    · rcases mem_erase_or (x := x) e with e2 | e2
      · exact Or.inl e2
      · exact Or.inr (Or.inr e2)
  have hmemsup : ∀ z, z ∈ flat ((n, [x]) :: runs) ++ OL.erase x → z ∈ flat runs ++ OL := by
    intro z hz
    rw [flat_cons] at hz
    simp only [List.cons_append, List.nil_append, List.mem_cons, List.mem_append] at hz ⊢
    rcases hz with e | e | e
    · exact Or.inr (e ▸ hx)
    · exact Or.inl e
    · exact Or.inr (hOLE z e)
  refine
    { blocks_ok := ?_, ss_pos := ?_, sc_pos := ?_, sc_lt := ?_, ns_pos := ?_, geom := ?_,
      nodes := ?_, node_ok := ?_, newly_ok := ?_, frees := ?_, runs_keys := ?_, runs_ok := ?_,
      occ := ?_, occ_ok := ?_, disj := ?_, issued := ?_, tag_occ := ?_, tag_free := ?_ }
  · unfold blocks_disjoint; rw [hblocks]; exact h.blocks_ok
  · rw [hpoolP]; exact h.ss_pos
  · rw [hpoolP]; exact h.sc_pos
  · rw [hpoolP]; exact h.sc_lt
  · rw [hpoolP]; exact h.ns_pos
  · rw [hpoolP]; exact h.geom
  · unfold node_list
    rw [hpoolP]
    exact dll_congr (fun m _ => (hnode_same m).1) (fun m _ => (hnode_same m).2.1) h.nodes
  · intro m hm
    by_cases hmn : m = n
    · subst hmn
      unfold NodeInv
      rw [hnode_n, hpoolP, run_of_cons_self]
      simp only
      rw [countP_node_congr m hnodeE]
      have hc := countP_erase_of_pos (p := fun z => decide ((s.slice z).node = m)) hx
        (by simp [hn])
      refine ⟨hn1, by rw [hblocks]; exact hn2, hn3, hn4, hn5, by omega, ?_, rfl, rfl, ?_⟩
      · simp only [List.length_singleton]; omega
      · intro i hi
        exact hmemsub _ (hn10 i hi)
    · refine NodeInv_transfer (h.node_ok m hm)
        (by rw [hnode_ne m hmn]; exact ⟨rfl, rfl, rfl, rfl, rfl, rfl⟩) (by rw [hpoolP])
        (by rw [hpoolP]) (by rw [hpoolP]) (by rw [hpoolP]; exact id)
        (by rw [hblocks]; exact id) ?_ ?_ hmemsub
      · rw [countP_node_congr m hnodeE]
        exact countP_erase_of_neg (by simp [hn]; exact fun e => hmn e.symm)
      · exact run_of_cons_ne _ _ (fun e : n = m => hmn e.symm)
  · rw [hpoolP]
    simp only
    rw [(hnode_same _).2.2.2.1]
    exact h.newly_ok
  · unfold free_list
    rw [hpoolP, flat_cons]
    simp only [List.cons_append, List.nil_append]
    rw [hff] at hslice_x hprev_ff hprev_ne hff_nx hff_px
    refine dll_push_front hfl hx0 hxFL (by rw [hslice_x]) (by rw [hslice_x])
      (fun z hz => ?_) ?_ ?_
    · refine hnext_ne z (hFLx z hz) ?_
      rintro rfl
      rcases f1 with e | e
      · exact hFL0 (e ▸ hz)
      · exact h.disj _ (hOLE _ e) hz
    · intro z hz hzf
      refine hprev_ne z (hFLx z hz) ?_ hzf
      rintro rfl
      rcases f2 with e | e
      · exact hFL0 (e ▸ hz)
      · exact h.disj _ (hOLE _ e) hz
    · exact hprev_ff
  · simp only [List.map_cons, List.nodup_cons]
    exact ⟨hnokey, h.runs_keys⟩
  · intro r hr
    rcases List.mem_cons.1 hr with rfl | hr
    · refine ⟨by simp, hnNL, ?_⟩
      intro z hz
      simp only [List.mem_singleton] at hz
      subst hz
      rw [hslice_x]
    · obtain ⟨a, b, c⟩ := h.runs_ok r hr
      refine ⟨a, b, ?_⟩
      intro z hz
      rw [(hslice_ne z (hFLx z (mem_flat.2 ⟨r, hr, hz⟩))).1]
      exact c z hz
  · unfold occupied_list
    rw [hpoolP]
    simp only
    have hd := @dll_remove _ _ (fun a => (S.slice a).next) (fun a => (S.slice a).prev) _ _ _
      hocc hx ?_ ?_ ?_ ?_
    · rw [← hpx, ← hnx, ← hfod] at hd
      by_cases hp0 : px = 0
      · simpa [hp0] using hd
      · simpa [hp0] using hd
    · intro z hz hzp
      rw [← hpx] at hzp
      exact hnext_ne z (hEx z hz) hzp
    · rw [← hpx, ← hnx]; exact hnext_px
    · intro z hz hzn
      rw [← hnx] at hzn
      refine hprev_ne z (hEx z hz) hzn ?_
      rintro rfl
      rcases hff_cases with e | e
      · exact hOL0 (e ▸ hOLE _ hz)
      · exact h.disj _ (hOLE _ hz) e
    · rw [← hpx, ← hnx]; exact hprev_nx
  · intro z hz
    rw [hnodeE z hz]; exact h.occ_ok z (hOLE z hz)
  · intro z hz
    rw [flat_cons]
    simp only [List.cons_append, List.nil_append, List.mem_cons, not_or]
    exact ⟨hEx z hz, h.disj z (hOLE z hz)⟩
  · intro z hz
    rw [hpoolP]
    simp only
    have hnz : (S.slice z).node = (s.slice z).node := by
      by_cases hzx : z = x
      · subst hzx; rw [hslice_x, hn]
      · exact (hslice_ne z hzx).1
    rw [hnz, (hnode_same _).2.2.2.1]
    exact h.issued z (hmemsup z hz)
  · intro z hz
    rw [(hslice_ne z (hEx z hz)).2]
    exact h.tag_occ z (hOLE z hz)
  · intro z hz
    rw [flat_cons] at hz
    simp only [List.cons_append, List.nil_append, List.mem_cons] at hz
    rcases hz with rfl | hz
    · rw [hslice_x]
      have := h.tag_occ z hx
      simp only [wrap_int]
      omega
    · rw [(hslice_ne z (hFLx z hz)).2]
      exact h.tag_free z hz

theorem run_of_replace {RA RB : List (Nat × List Nat)} {n m : Nat} (R R2 : List Nat)
    (hmn : m ≠ n) :
    run_of (RA ++ (n, R2) :: RB) m = run_of (RA ++ (n, R) :: RB) m := by
  have hnm : n ≠ m := fun e => hmn e.symm
  by_cases hk : m ∈ RA.map Prod.fst
  · rw [run_of_append_mem _ hk, run_of_append_mem _ hk]
  · rw [run_of_append_not_mem _ hk, run_of_append_not_mem _ hk, run_of_cons_ne _ _ hnm,
      run_of_cons_ne _ _ hnm]

theorem flat_split (RA RB : List (Nat × List Nat)) (n : Nat) (R : List Nat) :
    flat (RA ++ (n, R) :: RB) = flat RA ++ R ++ flat RB := by
  rw [flat_append, flat_cons]
  simp

theorem run_of_split {RA RB : List (Nat × List Nat)} {n : Nat} (R : List Nat)
    (hk : n ∉ RA.map Prod.fst) : run_of (RA ++ (n, R) :: RB) n = R := by
  rw [run_of_append_not_mem _ hk, run_of_cons_self]

theorem headD_append_of_ne_nil {R : List Nat} (hR : R ≠ []) (B : List Nat) (d : Nat) :
    (R ++ B).headD d = R.headD d := by
  cases R with
  | nil => exact absurd rfl hR
  | cons a R => rfl

set_option maxHeartbeats 1600000 in
/-- Release of an occupied slice whose node already has free slices: the slice
goes behind the node's last free slice. -/
theorem PoolInv_free_after_tail {s : State} {P n x mem : Nat} {NL : List Nat}
    {RA RB : List (Nat × List Nat)} {R : List Nat} {OL : List Nat}
    (h : PoolInv s P NL (RA ++ (n, R) :: RB) OL) (hx : x ∈ OL)
    (hn : (s.slice x).node = n) :
    PoolInv (free_after_tail (free_unlink s mem x n P) x n) P NL
      (RA ++ (n, R ++ [x]) :: RB) (OL.erase x) := by
  obtain ⟨hnNL, husing1, husing2, hxFL, hx0⟩ := h.occupied_facts hx
  rw [hn] at hnNL husing1 husing2
  have hkeys := h.runs_keys
  have hkA : n ∉ RA.map Prod.fst := by
    intro hm
    rw [List.map_append, List.map_cons] at hkeys
    exact (List.nodup_append.1 hkeys).2.2 hm (by simp)
  have hrun : run_of (RA ++ (n, R) :: RB) n = R := run_of_split R hkA
  have hR : R ≠ [] := (h.runs_ok (n, R) (by simp)).1
  have hocc := h.occ
  unfold occupied_list at hocc
  have hfl := h.frees
  unfold free_list at hfl
  rw [flat_split] at hfl hxFL
  obtain ⟨f1, f2, f3, f4, f5, f6, hxE, _⟩ := dll_remove_facts hocc hx
  have hOL0 : (0 : Nat) ∉ OL := dll_not_mem_zero hocc
  have hFL0 : (0 : Nat) ∉ flat RA ++ R ++ flat RB := dll_not_mem_zero hfl
  obtain ⟨hn1, hn2, hn3, hn4, hn5, hn6, hn7, hn8, hn9, hn10⟩ := h.node_ok n hnNL
  rw [hrun] at hn7 hn8 hn9
  obtain ⟨R0, t, hRt⟩ : ∃ R0 t, R = R0 ++ [t] :=
    ⟨R.dropLast, R.getLast hR, (List.dropLast_append_getLast hR).symm⟩
  have ht : (s.node n).free_slice_tail = t := by
    rw [hn9, hRt, lastD_append_singleton]
  have htl : lastD R 0 = t := by rw [hRt, lastD_append_singleton]
  have hnb := (dll_neighbours hfl hR).2
  rw [htl] at hnb
  have htR : t ∈ R := by rw [hRt]; simp
  have htFL : t ∈ flat RA ++ R ++ flat RB := by simp [htR]
  have hsplit : flat RA ++ R ++ flat RB = (flat RA ++ R0) ++ t :: flat RB := by
    rw [hRt]; simp
  have hsplit2 : flat RA ++ (R ++ [x]) ++ flat RB = (flat RA ++ R0) ++ t :: x :: flat RB := by
    rw [hRt]; simp
  obtain ⟨px, hpx⟩ : ∃ px, px = (s.slice x).prev := ⟨_, rfl⟩
  obtain ⟨nx, hnx⟩ : ∃ nx, nx = (s.slice x).next := ⟨_, rfl⟩
  obtain ⟨nt, hnt⟩ : ∃ nt, nt = (s.slice t).next := ⟨_, rfl⟩
  obtain ⟨fo, hfod⟩ : ∃ fo, fo = (s.pool P).first_occupied_slice := ⟨_, rfl⟩
  rw [← hpx] at f1 f3 f5 f6
  rw [← hnx] at f2 f4 f5
  have hOLE : ∀ z ∈ OL.erase x, z ∈ OL := fun z hz => List.mem_of_mem_erase hz
  have hEx : ∀ z ∈ OL.erase x, z ≠ x := fun z hz e => hxE (e ▸ hz)
  have hFLx : ∀ z ∈ flat RA ++ R ++ flat RB, z ≠ x := fun z hz e => hxFL (e ▸ hz)
  have hdisj : ∀ z ∈ OL, z ∉ flat RA ++ R ++ flat RB := by
    intro z hz
    have := h.disj z hz
    rwa [flat_split] at this
  have hnt_cases : nt = 0 ∨ nt ∈ flat RB := by
    rw [hnt, hnb]; exact headD_zero_or_mem _
  have ht0 : t ≠ 0 := fun e => hFL0 (e ▸ htFL)
  have htx : t ≠ x := hFLx t htFL
  have hntx : nt ≠ x := by
    rcases hnt_cases with e | e
    · rw [e]; exact fun e => hx0 e.symm
    · exact hFLx nt (by simp [e])
  have hntt : nt ≠ t := by
    rcases hnt_cases with e | e
    · rw [e]; exact fun e => ht0 e.symm
    · intro e2
      have hnd := hfl.2.2
      rw [hsplit] at hnd
      have := (List.nodup_cons.1 (List.nodup_append.1 hnd).2.1).1
      exact this (e2 ▸ e)
  have hpx_FL : px ≠ 0 → px ∉ flat RA ++ R ++ flat RB := by
    intro h0
    rcases f1 with e | e
    · exact absurd e h0
    · exact hdisj _ (hOLE _ e)
  have hnx_FL : nx ≠ 0 → nx ∉ flat RA ++ R ++ flat RB := by
    intro h0
    rcases f2 with e | e
    · exact absurd e h0
    · exact hdisj _ (hOLE _ e)
  have hpx_t : px ≠ 0 → px ≠ t := fun h0 e => hpx_FL h0 (e ▸ htFL)
  have hnx_t : nx ≠ 0 → nx ≠ t := fun h0 e => hnx_FL h0 (e ▸ htFL)
  have hnt_FL : nt ≠ 0 → nt ∈ flat RA ++ R ++ flat RB := by
    intro h0
    rcases hnt_cases with e | e
    · exact absurd e h0
    · simp [e]
  have hpx_nt : px ≠ 0 → px ≠ nt := by
    intro h0 e
    have h1 := hpx_FL h0
    rw [e] at h1 h0
    exact h1 (hnt_FL h0)
  have hnx_nt : nx ≠ 0 → nx ≠ nt := by
    intro h0 e
    have h1 := hnx_FL h0
    rw [e] at h1 h0
    exact h1 (hnt_FL h0)
  have hcf1 := free_unlink_eq s mem x n P px nx hpx.symm hnx.symm f3 f4 f5
  obtain ⟨S1, hS1⟩ : ∃ S1 : State, S1 = free_unlink s mem x n P := ⟨_, rfl⟩
  rw [← hS1]
  rw [hcf1] at hS1
  have ht1 : (S1.node n).free_slice_tail = t := by
    rw [hS1]; simp [ht]
  have hnt1 : (S1.slice t).next = nt := by
    have h1 : ¬ (px ≠ 0 ∧ t = px) := fun ⟨a, b⟩ => hpx_t a b.symm
    have h2 : ¬ (nx ≠ 0 ∧ t = nx) := fun ⟨a, b⟩ => hnx_t a b.symm
    rw [hS1]; simp [htx, h1, h2, hnt]
  have hcf2 := free_after_tail_eq S1 x n t nt ht1 hnt1 htx hntx hntt
  obtain ⟨S, hS⟩ : ∃ S : State, S = free_after_tail S1 x n := ⟨_, rfl⟩
  rw [← hS]
  rw [hcf2, hS1] at hS
  have hpoolP : S.pool P = { s.pool P with
      first_occupied_slice := if px = 0 then nx else fo } := by
    rw [hS]
    by_cases hp0 : px = 0 <;> simp [hp0, hfod]
  have hnode_n : S.node n = { s.node n with
      using_slice_count := (s.node n).using_slice_count - 1
      free_slice_tail := x } := by
    have e : ((s.node n).using_slice_count + SIZE_MOD - 1) % SIZE_MOD
        = (s.node n).using_slice_count - 1 := by
      have : (s.node n).using_slice_count + SIZE_MOD - 1
          = ((s.node n).using_slice_count - 1) + SIZE_MOD := by omega
      rw [this, Nat.add_mod_right, Nat.mod_eq_of_lt (by omega)]
    rw [hS]; simp [e]
  have hnode_ne : ∀ m, m ≠ n → S.node m = s.node m := by
    intro m hm; rw [hS]; simp [hm]
  have hslice_x : S.slice x
      = { prev := t, next := nt, node := n, tag := wrap_int ((s.slice x).tag + 1) } := by
    rw [hS]; simp [hn]
  have hslice_ne : ∀ z, z ≠ x → (S.slice z).node = (s.slice z).node
      ∧ (S.slice z).tag = (s.slice z).tag := by
    intro z hz; rw [hS]; simp only [hz, if_false]
    split_ifs <;> simp
  have hnext_ne : ∀ z, z ≠ x → z ≠ px → z ≠ t → (S.slice z).next = (s.slice z).next := by
    intro z h1 h2 h3; rw [hS]; simp only [h1, h2, h3, if_false, and_false]
    split_ifs <;> simp
  have hnext_px : px ≠ 0 → (S.slice px).next = nx := by
    intro h0; rw [hS]
    have h1 := hpx_t h0
    by_cases hpf : nt ≠ 0 ∧ px = nt
    · exact absurd hpf.2 (hpx_nt h0)
    · simp [f3, h0, hpf, h1]
  have hnext_t : (S.slice t).next = x := by
    rw [hS]; simp [htx]
  have hprev_ne : ∀ z, z ≠ x → z ≠ nx → z ≠ nt → (S.slice z).prev = (s.slice z).prev := by
    intro z h1 h2 h3; rw [hS]; simp only [h1, h2, h3, if_false, and_false]
    split_ifs <;> simp
  have hprev_nx : nx ≠ 0 → (S.slice nx).prev = px := by
    intro h0
    have h1 : ¬ (nt ≠ 0 ∧ nx = nt) := fun ⟨_, b⟩ => hnx_nt h0 b
    have h2 : ¬ (px ≠ 0 ∧ nx = px) := fun ⟨_, b⟩ => f5 h0 b.symm
    have h3 := hnx_t h0
    rw [hS]; simp [f4, h0, h1, h2, h3]
  have hprev_nt : nt ≠ 0 → (S.slice nt).prev = x := by
    intro h0; rw [hS]; simp [h0, hntx, hntt]
  have hblocks : S.blocks = s.blocks := by rw [hS]
  clear hS hcf1 hcf2 hS1 ht1 hnt1
  have hnode_same : ∀ m, (S.node m).next = (s.node m).next ∧ (S.node m).prev = (s.node m).prev
      ∧ (S.node m).owner = (s.node m).owner
      ∧ (S.node m).used_slice_count = (s.node m).used_slice_count
      ∧ (S.node m).first_avail = (s.node m).first_avail := by
    intro m
    by_cases hm : m = n
    · subst hm; rw [hnode_n]; simp
    · rw [hnode_ne m hm]; simp
  have hnodeE : ∀ z ∈ OL.erase x, (S.slice z).node = (s.slice z).node :=
    fun z hz => (hslice_ne z (hEx z hz)).1
  have hmemsub : ∀ z, z ∈ flat (RA ++ (n, R) :: RB) ++ OL →
      z ∈ flat (RA ++ (n, R ++ [x]) :: RB) ++ OL.erase x := by
    intro z hz
    rw [flat_split] at hz ⊢
    simp only [List.mem_append, List.mem_singleton] at hz ⊢
    rcases hz with ((e | e) | e) | e
    · exact Or.inl (Or.inl (Or.inl e))
    · exact Or.inl (Or.inl (Or.inr (Or.inl e)))
    · exact Or.inl (Or.inr e)
    · rcases mem_erase_or (x := x) e with e2 | e2
      · exact Or.inl (Or.inl (Or.inr (Or.inr e2)))
      · exact Or.inr e2
  have hmemsup : ∀ z, z ∈ flat (RA ++ (n, R ++ [x]) :: RB) ++ OL.erase x →
      z ∈ flat (RA ++ (n, R) :: RB) ++ OL := by
    intro z hz
    rw [flat_split] at hz ⊢
    simp only [List.mem_append, List.mem_singleton] at hz ⊢
    rcases hz with ((e | e | e) | e) | e
    · exact Or.inl (Or.inl (Or.inl e))
    · exact Or.inl (Or.inl (Or.inr e))
    · exact Or.inr (e ▸ hx)
    · exact Or.inl (Or.inr e)
    · exact Or.inr (hOLE z e)
  refine
    { blocks_ok := ?_, ss_pos := ?_, sc_pos := ?_, sc_lt := ?_, ns_pos := ?_, geom := ?_,
      nodes := ?_, node_ok := ?_, newly_ok := ?_, frees := ?_, runs_keys := ?_, runs_ok := ?_,
      occ := ?_, occ_ok := ?_, disj := ?_, issued := ?_, tag_occ := ?_, tag_free := ?_ }
  · unfold blocks_disjoint; rw [hblocks]; exact h.blocks_ok
  · rw [hpoolP]; exact h.ss_pos
  · rw [hpoolP]; exact h.sc_pos
  · rw [hpoolP]; exact h.sc_lt
  · rw [hpoolP]; exact h.ns_pos
  · rw [hpoolP]; exact h.geom
  · unfold node_list
    rw [hpoolP]
    exact dll_congr (fun m _ => (hnode_same m).1) (fun m _ => (hnode_same m).2.1) h.nodes
  · intro m hm
    by_cases hmn : m = n
    · subst hmn
      unfold NodeInv
      rw [hnode_n, hpoolP, run_of_split _ hkA]
      simp only
      rw [countP_node_congr m hnodeE]
      have hc := countP_erase_of_pos (p := fun z => decide ((s.slice z).node = m)) hx
        (by simp [hn])
      refine ⟨hn1, by rw [hblocks]; exact hn2, hn3, hn4, hn5, by omega, ?_, ?_, ?_, ?_⟩
      · simp only [List.length_append, List.length_singleton]; omega
      · rw [headD_append_of_ne_nil hR]; exact hn8
      · rw [lastD_append_singleton]
      · intro i hi
        exact hmemsub _ (hn10 i hi)
    · refine NodeInv_transfer (h.node_ok m hm)
        (by rw [hnode_ne m hmn]; exact ⟨rfl, rfl, rfl, rfl, rfl, rfl⟩) (by rw [hpoolP])
        (by rw [hpoolP]) (by rw [hpoolP]) (by rw [hpoolP]; exact id)
        (by rw [hblocks]; exact id) ?_ ?_ hmemsub
      · rw [countP_node_congr m hnodeE]
        exact countP_erase_of_neg (by simp [hn]; exact fun e => hmn e.symm)
      · exact run_of_replace R (R ++ [x]) hmn
  · rw [hpoolP]
    simp only
    rw [(hnode_same _).2.2.2.1]
    exact h.newly_ok
  · unfold free_list
    rw [hpoolP, flat_split, hsplit2]
    simp only
    rw [hsplit] at hfl hFLx hpx_FL hnx_FL
    rw [hnt] at hslice_x hprev_nt hprev_ne
    refine dll_insert_after hfl hx0 (by rw [← hsplit]; exact hxFL) (by rw [hslice_x]) (by rw [hslice_x]) hnext_t
      hprev_nt ?_ ?_
    · intro z hz hzt
      refine hnext_ne z (hFLx z hz) ?_ hzt
      rintro rfl
      by_cases h0 : z = 0
      · exact hFL0 (by rw [hsplit, ← h0]; exact hz)
      · exact hpx_FL h0 hz
    · intro z hz hzn
      refine hprev_ne z (hFLx z hz) ?_ hzn
      rintro rfl
      by_cases h0 : z = 0
      · exact hFL0 (by rw [hsplit, ← h0]; exact hz)
      · exact hnx_FL h0 hz
  · have : (RA ++ (n, R ++ [x]) :: RB).map Prod.fst = (RA ++ (n, R) :: RB).map Prod.fst := by
      simp
    rw [this]; exact hkeys
  · intro r hr
    rcases List.mem_append.1 hr with hr | hr
    · obtain ⟨a, b, c⟩ := h.runs_ok r (List.mem_append_left _ hr)
      refine ⟨a, b, ?_⟩
      intro z hz
      rw [(hslice_ne z (hFLx z (by simp [mem_flat.2 ⟨r, hr, hz⟩]))).1]
      exact c z hz
    · rcases List.mem_cons.1 hr with rfl | hr
      · refine ⟨by simp, hnNL, ?_⟩
        intro z hz
        rcases List.mem_append.1 hz with hz | hz
        · rw [(hslice_ne z (hFLx z (by simp [hz]))).1]
          exact (h.runs_ok (n, R) (by simp)).2.2 z hz
        · simp only [List.mem_singleton] at hz
          subst hz
          rw [hslice_x]
      · obtain ⟨a, b, c⟩ := h.runs_ok r
          (List.mem_append_right _ (List.mem_cons_of_mem _ hr))
        refine ⟨a, b, ?_⟩
        intro z hz
        rw [(hslice_ne z (hFLx z (by simp [mem_flat.2 ⟨r, hr, hz⟩]))).1]
        exact c z hz
  · unfold occupied_list
    rw [hpoolP]
    simp only
    have hd := @dll_remove _ _ (fun a => (S.slice a).next) (fun a => (S.slice a).prev) _ _ _
      hocc hx ?_ ?_ ?_ ?_
    · rw [← hpx, ← hnx, ← hfod] at hd
      by_cases hp0 : px = 0
      · simpa [hp0] using hd
      · simpa [hp0] using hd
    · intro z hz hzp
      rw [← hpx] at hzp
      refine hnext_ne z (hEx z hz) hzp ?_
      rintro rfl
      exact hdisj _ (hOLE _ hz) htFL
    · rw [← hpx, ← hnx]; exact hnext_px
    · intro z hz hzn
      rw [← hnx] at hzn
      refine hprev_ne z (hEx z hz) hzn ?_
      rintro rfl
      by_cases h0 : z = 0
      · exact hOL0 (h0 ▸ hOLE _ hz)
      · exact hdisj _ (hOLE _ hz) (hnt_FL h0)
    · rw [← hpx, ← hnx]; exact hprev_nx
  · intro z hz
    rw [hnodeE z hz]; exact h.occ_ok z (hOLE z hz)
  · intro z hz hm
    have h1 := hmemsup z (List.mem_append_left _ hm)
    rcases List.mem_append.1 h1 with e | e
    · exact h.disj z (hOLE z hz) e
    · rw [flat_split] at hm
      simp only [List.mem_append, List.mem_singleton] at hm
      rcases hm with ((e2 | e2 | e2) | e2)
      · exact hdisj z e (by simp [e2])
      · exact hdisj z e (by simp [e2])
      · exact hEx z hz e2
      · exact hdisj z e (by simp [e2])
  · intro z hz
    rw [hpoolP]
    simp only
    have hnz : (S.slice z).node = (s.slice z).node := by
      by_cases hzx : z = x
      · subst hzx; rw [hslice_x, hn]
      · exact (hslice_ne z hzx).1
    rw [hnz, (hnode_same _).2.2.2.1]
    exact h.issued z (hmemsup z hz)
  · intro z hz
    rw [(hslice_ne z (hEx z hz)).2]
    exact h.tag_occ z (hOLE z hz)
  · intro z hz
    by_cases hzx : z = x
    · subst hzx
      rw [hslice_x]
      have := h.tag_occ z hx
      simp only [wrap_int]
      omega
    · rw [(hslice_ne z hzx).2]
      apply h.tag_free z
      have h1 := hmemsup z (List.mem_append_left _ hz)
      rcases List.mem_append.1 h1 with e | e
      · exact e
      · rw [flat_split] at hz
        simp only [List.mem_append, List.mem_singleton] at hz
        rw [flat_split]
        simp only [List.mem_append]
        rcases hz with ((e2 | e2 | e2) | e2)
        · exact Or.inl (Or.inl e2)
        · exact Or.inl (Or.inr e2)
        · exact absurd e2 hzx
        · exact Or.inr e2

/-- The state after lines 674-684 of `_elr_free_mem_node`, whether or not the
node has free slices. -/
theorem excise_free_run_general (s : State) (n P h t nt ph ff : Nat)
    (hP : (s.node n).owner = P)
    (hh : (s.node n).free_slice_head = h) (ht : (s.node n).free_slice_tail = t)
    (hnt : (s.slice t).next = nt) (hph : (s.slice h).prev = ph)
    (hff : (s.pool P).first_free_slice = ff)
    (h0 : h = 0 → t = 0)
    (h1 : h ≠ 0 → t ≠ 0 ∧ nt ≠ h ∧ ph ≠ t ∧ (nt ≠ 0 → ph ≠ nt)) :
    excise_free_run s n =
      { s with
        slice := fun z =>
          if h ≠ 0 ∧ ph ≠ 0 ∧ z = ph then { s.slice z with next := nt }
          else if h ≠ 0 ∧ nt ≠ 0 ∧ z = nt then { s.slice z with prev := ph }
          else s.slice z
        pool := fun p => if h ≠ 0 ∧ ff = h ∧ p = P then { s.pool P with first_free_slice := nt }
          else s.pool p } := by
  by_cases hz : h = 0
  · rw [excise_free_run_none s n (hh.trans hz) (ht.trans (h0 hz))]
    ext1 <;> try rfl
    · funext z; simp [hz]
    · funext z; simp [hz]
  · obtain ⟨a, b, c, d⟩ := h1 hz
    rw [excise_free_run_eq s n P h t nt ph ff hP hh ht hnt hph hff hz a b c d]
    ext1 <;> try rfl
    · funext z; simp [hz]
    · funext z; simp [hz]

theorem filter_key_absent {runs : List (Nat × List Nat)} {n : Nat}
    (h : n ∉ runs.map Prod.fst) : runs.filter (fun r => decide (r.1 ≠ n)) = runs := by
  rw [List.filter_eq_self]
  intro r hr
  simp only [decide_eq_true_eq]
  exact fun e => h (e ▸ List.mem_map_of_mem Prod.fst hr)

theorem filter_key_split {RA RB : List (Nat × List Nat)} {n : Nat} (R : List Nat)
    (hA : n ∉ RA.map Prod.fst) (hB : n ∉ RB.map Prod.fst) :
    (RA ++ (n, R) :: RB).filter (fun r => decide (r.1 ≠ n)) = RA ++ RB := by
  rw [List.filter_append, List.filter_cons, filter_key_absent hA, filter_key_absent hB]
  simp

/-- A node keeps its invariant under an operation that leaves its counters and
free range alone, when its own slices stay in the lists. -/
theorem NodeInv_transfer_at {s s2 : State} {P m : Nat} {runs runs2 : List (Nat × List Nat)}
    {OL OL2 : List Nat} (h : NodeInv s P runs OL m)
    (hnode : (s2.node m).owner = (s.node m).owner
      ∧ (s2.node m).used_slice_count = (s.node m).used_slice_count
      ∧ (s2.node m).using_slice_count = (s.node m).using_slice_count
      ∧ (s2.node m).first_avail = (s.node m).first_avail
      ∧ (s2.node m).free_slice_head = (s.node m).free_slice_head
      ∧ (s2.node m).free_slice_tail = (s.node m).free_slice_tail)
    (hns : (s2.pool P).node_size = (s.pool P).node_size)
    (hsc : (s2.pool P).slice_count = (s.pool P).slice_count)
    (hss : (s2.pool P).slice_size = (s.pool P).slice_size)
    (hnew : m ≠ (s2.pool P).newly_alloc_node → m ≠ (s.pool P).newly_alloc_node)
    (hblk : (m, (s.pool P).node_size) ∈ s.blocks → (m, (s.pool P).node_size) ∈ s2.blocks)
    (hcnt : OL2.countP (fun x => decide ((s2.slice x).node = m))
      = OL.countP (fun x => decide ((s.slice x).node = m)))
    (hrun : run_of runs2 m = run_of runs m)
    (hmem : ∀ i : Nat, i < (s.node m).used_slice_count →
      m + NODE_HDR + i * (s.pool P).slice_size ∈ flat runs ++ OL →
      m + NODE_HDR + i * (s.pool P).slice_size ∈ flat runs2 ++ OL2) :
    NodeInv s2 P runs2 OL2 m := by
  obtain ⟨h1, h2, h3, h4, h5, h6, h7, h8, h9, h10⟩ := h
  obtain ⟨e1, e2, e3, e4, e5, e6⟩ := hnode
  unfold NodeInv
  rw [e1, e2, e3, e4, e5, e6, hns, hsc, hss, hcnt, hrun]
  exact ⟨h1, hblk h2, h3, h4, fun hm => h5 (hnew hm), h6, h7, h8, h9,
    fun i hi => hmem i hi (h10 i hi)⟩

/-- The slices of the lists lie in the nodes of the pool, at the places the
bump allocation gave them. -/
theorem PoolInv.slice_place {s : State} {P : Nat} {NL : List Nat}
    {runs : List (Nat × List Nat)} {OL : List Nat} (h : PoolInv s P NL runs OL)
    {z : Nat} (hz : z ∈ flat runs ++ OL) :
    (s.slice z).node ∈ NL ∧ ∃ i : Nat, i < (s.pool P).slice_count
      ∧ z = (s.slice z).node + NODE_HDR + i * (s.pool P).slice_size := by
  have hnz : (s.slice z).node ∈ NL := by
    rcases List.mem_append.1 hz with hz | hz
    · obtain ⟨r, hr, hzr⟩ := mem_flat.1 hz
      rw [(h.runs_ok r hr).2.2 z hzr]
      exact (h.runs_ok r hr).2.1
    · exact h.occ_ok z hz
  obtain ⟨i, hi, hzi⟩ := h.issued z hz
  exact ⟨hnz, i, Nat.lt_of_lt_of_le hi (h.node_ok _ hnz).2.2.1, hzi⟩

/-- A slice of the lists lies in no other node than its own. -/
theorem PoolInv.slice_node_unique {s : State} {P : Nat} {NL : List Nat}
    {runs : List (Nat × List Nat)} {OL : List Nat} (h : PoolInv s P NL runs OL)
    {z m i : Nat} (hz : z ∈ flat runs ++ OL) (hm : m ∈ NL)
    (hi : i < (s.node m).used_slice_count)
    (he : z = m + NODE_HDR + i * (s.pool P).slice_size) : (s.slice z).node = m := by
  obtain ⟨hnz, j, hj, hzj⟩ := h.slice_place hz
  by_contra hne
  have hi2 := Nat.lt_of_lt_of_le hi (h.node_ok _ hm).2.2.1
  exact h.slice_addr_ne hnz hm hne hj hi2 (hzj.symm.trans he)

/-- Cutting the run of the node `n` out of the runs of a free list. -/
theorem runs_cut (runs : List (Nat × List Nat)) (n : Nat)
    (hk : (runs.map Prod.fst).Nodup) :
    ∃ RA RB, flat runs = flat RA ++ run_of runs n ++ flat RB
      ∧ runs.filter (fun r => decide (r.1 ≠ n)) = RA ++ RB
      ∧ (∀ m, m ≠ n → run_of (RA ++ RB) m = run_of runs m) := by
  by_cases hm : n ∈ runs.map Prod.fst
  · obtain ⟨A, B, e, hA, hB⟩ := runs_split hm hk
    refine ⟨A, B, ?_, ?_, ?_⟩
    · conv_lhs => rw [e]
      exact flat_split A B n _
    · conv_lhs => rw [e]
      exact filter_key_split _ hA hB
    · intro m hmn
      conv_rhs => rw [e]
      have hnm : n ≠ m := fun e => hmn e.symm
      by_cases hkA : m ∈ A.map Prod.fst
      · rw [run_of_append_mem _ hkA, run_of_append_mem _ hkA]
      · rw [run_of_append_not_mem _ hkA, run_of_append_not_mem _ hkA, run_of_cons_ne _ _ hnm]
  · refine ⟨[], runs, ?_, ?_, ?_⟩
    · rw [run_of_not_mem hm]; simp [flat_nil]
    · rw [filter_key_absent hm]; simp
    · intro m _; simp

theorem PoolInv.run_node {s : State} {P : Nat} {NL : List Nat}
    {runs : List (Nat × List Nat)} {OL : List Nat} (h : PoolInv s P NL runs OL)
    {n z : Nat} (hz : z ∈ run_of runs n) : (s.slice z).node = n := by
  by_cases hk : n ∈ runs.map Prod.fst
  · exact (h.runs_ok _ (run_of_mem_runs hk)).2.2 z hz
  · rw [run_of_not_mem hk] at hz
    simp at hz

theorem lastD_eq_zero_iff {A : List Nat} (h0 : (0 : Nat) ∉ A) : lastD A 0 = 0 ↔ A = [] := by
  constructor
  · intro e
    by_contra hne
    exact h0 (e ▸ lastD_mem 0 hne)
  · rintro rfl; rfl

theorem headD_eq_zero_iff {A : List Nat} (h0 : (0 : Nat) ∉ A) : A.headD 0 = 0 ↔ A = [] := by
  constructor
  · intro e
    by_contra hne
    exact h0 (e ▸ headD_mem hne 0)
  · rintro rfl; rfl

set_option maxHeartbeats 3200000 in
/-- Release of the last occupied slice of a node when the node goes back to
the system: the node leaves the node list and its free slices leave the free
list. -/
theorem PoolInv_free_release {s : State} {P n x mem : Nat} {NL : List Nat}
    {runs : List (Nat × List Nat)} {OL : List Nat}
    (h : PoolInv s P NL runs OL) (hx : x ∈ OL) (hn : (s.slice x).node = n)
    (hlast : (s.node n).using_slice_count = 1) :
    PoolInv (_elr_free_mem_node (free_unlink s mem x n P) n) P (NL.erase n)
      (runs.filter (fun r => decide (r.1 ≠ n))) (OL.erase x)
    ∧ (n, (s.pool P).node_size) ∉
        (_elr_free_mem_node (free_unlink s mem x n P) n).blocks := by
  obtain ⟨hnNL, husing1, husing2, hxFL, hx0⟩ := h.occupied_facts hx
  rw [hn] at hnNL husing1 husing2
  obtain ⟨RA, RB, hflat, hfilter, hrun_other⟩ := runs_cut runs n h.runs_keys
  obtain ⟨R, hRd⟩ : ∃ R, R = run_of runs n := ⟨_, rfl⟩
  rw [← hRd] at hflat
  have hocc := h.occ
  unfold occupied_list at hocc
  have hfl := h.frees
  unfold free_list at hfl
  have hnl := h.nodes
  unfold node_list at hnl
  have hffd : (s.pool P).first_free_slice = (flat runs).headD 0 := dll_first hfl
  rw [hflat] at hfl hxFL hffd
  obtain ⟨f1, f2, f3, f4, f5, f6, hxE, _⟩ := dll_remove_facts hocc hx
  obtain ⟨g1, g2, g3, g4, g5, g6, hnE, hn0⟩ := dll_remove_facts hnl hnNL
  have hOL0 : (0 : Nat) ∉ OL := dll_not_mem_zero hocc
  have hFL0 : (0 : Nat) ∉ flat RA ++ R ++ flat RB := dll_not_mem_zero hfl
  have hnd := hfl.2.2
  obtain ⟨hn1, hn2, hn3, hn4, hn5, hn6, hn7, hn8, hn9, hn10⟩ := h.node_ok n hnNL
  rw [← hRd] at hn7 hn8 hn9
  have hRnode : ∀ z ∈ R, (s.slice z).node = n := fun z hz => h.run_node (hRd ▸ hz)
  have hRsub : ∀ z ∈ R, z ∈ flat RA ++ R ++ flat RB := fun z hz => by simp [hz]
  obtain ⟨px, hpx⟩ : ∃ px, px = (s.slice x).prev := ⟨_, rfl⟩
  obtain ⟨nx, hnx⟩ : ∃ nx, nx = (s.slice x).next := ⟨_, rfl⟩
  obtain ⟨fo, hfod⟩ : ∃ fo, fo = (s.pool P).first_occupied_slice := ⟨_, rfl⟩
  obtain ⟨ff, hff⟩ : ∃ ff, ff = (s.pool P).first_free_slice := ⟨_, rfl⟩
  obtain ⟨fn, hfn⟩ : ∃ fn, fn = (s.pool P).first_node := ⟨_, rfl⟩
  obtain ⟨nw, hnw⟩ : ∃ nw, nw = (s.pool P).newly_alloc_node := ⟨_, rfl⟩
  obtain ⟨pn, hpn⟩ : ∃ pn, pn = (s.node n).prev := ⟨_, rfl⟩
  obtain ⟨nn, hnn⟩ : ∃ nn, nn = (s.node n).next := ⟨_, rfl⟩
  obtain ⟨hd, hhd⟩ : ∃ hd, hd = R.headD 0 := ⟨_, rfl⟩
  obtain ⟨t, htd⟩ : ∃ t, t = lastD R 0 := ⟨_, rfl⟩
  obtain ⟨ph, hph⟩ : ∃ ph, ph = (s.slice hd).prev := ⟨_, rfl⟩
  obtain ⟨nt, hnt⟩ : ∃ nt, nt = (s.slice t).next := ⟨_, rfl⟩
  rw [← hpx] at f1 f3 f5 f6
  rw [← hnx] at f2 f4 f5
  rw [← hpn] at g1 g3 g5 g6
  rw [← hnn] at g2 g4 g5
  rw [← hhd] at hn8
  rw [← htd] at hn9
  have hOLE : ∀ z ∈ OL.erase x, z ∈ OL := fun z hz => List.mem_of_mem_erase hz
  have hEx : ∀ z ∈ OL.erase x, z ≠ x := fun z hz e => hxE (e ▸ hz)
  have hNLE : ∀ m ∈ NL.erase n, m ∈ NL := fun m hm => List.mem_of_mem_erase hm
  have hNEn : ∀ m ∈ NL.erase n, m ≠ n := fun m hm e => hnE (e ▸ hm)
  have hFLx : ∀ z ∈ flat RA ++ R ++ flat RB, z ≠ x := fun z hz e => hxFL (e ▸ hz)
  have hdisj : ∀ z ∈ OL, z ∉ flat RA ++ R ++ flat RB := by
    intro z hz
    have := h.disj z hz
    rwa [hflat] at this
  have hpx_FL : px ≠ 0 → px ∉ flat RA ++ R ++ flat RB := by
    intro h0
    rcases f1 with e | e
    · exact absurd e h0
    · exact hdisj _ (hOLE _ e)
  have hnx_FL : nx ≠ 0 → nx ∉ flat RA ++ R ++ flat RB := by
    intro h0
    rcases f2 with e | e
    · exact absurd e h0
    · exact hdisj _ (hOLE _ e)
  -- the run of the node and its neighbours in the free list
  have hR0 : ∀ z ∈ R, z ≠ 0 := fun z hz e => hFL0 (e ▸ hRsub z hz)
  have hhd0 : hd = 0 ↔ R = [] := by
    rw [hhd]; exact headD_eq_zero_iff (fun hm => hR0 0 hm rfl)
  have ht0 : t = 0 ↔ R = [] := by
    rw [htd]; exact lastD_eq_zero_iff (fun hm => hR0 0 hm rfl)
  have hhdR : hd ≠ 0 → hd ∈ R := fun h0 => hhd ▸ headD_mem (fun e => h0 (hhd0.2 e)) 0
  have htR : hd ≠ 0 → t ∈ R := fun h0 => htd ▸ lastD_mem 0 (fun e => h0 (hhd0.2 e))
  have hnb : hd ≠ 0 → ph = lastD (flat RA) 0 ∧ nt = (flat RB).headD 0 := by
    intro h0
    have := dll_neighbours hfl (fun e => h0 (hhd0.2 e))
    rw [← hhd, ← htd, ← hph, ← hnt] at this
    exact this
  have hdisjAB : ∀ z ∈ flat RA, z ∉ flat RB := by
    intro z hz hz2
    exact (List.nodup_append.1 hnd).2.2 (List.mem_append_left _ hz) hz2
  have hdisjAR : ∀ z ∈ flat RA, z ∉ R := by
    intro z hz hz2
    exact (List.nodup_append.1 (List.nodup_append.1 hnd).1).2.2 hz hz2
  have hdisjRB : ∀ z ∈ R, z ∉ flat RB := by
    intro z hz hz2
    exact (List.nodup_append.1 hnd).2.2 (List.mem_append_right _ hz) hz2
  have hph_cases : hd ≠ 0 → ph = 0 ∨ ph ∈ flat RA := by
    intro h0; rw [(hnb h0).1]; exact lastD_zero_or_mem _
  have hnt_cases : hd ≠ 0 → nt = 0 ∨ nt ∈ flat RB := by
    intro h0; rw [(hnb h0).2]; exact headD_zero_or_mem _
  have hex1 : hd ≠ 0 → t ≠ 0 ∧ nt ≠ hd ∧ ph ≠ t ∧ (nt ≠ 0 → ph ≠ nt) := by
    intro h0
    refine ⟨fun e => h0 (hhd0.2 (ht0.1 e)), ?_, ?_, ?_⟩
    · rcases hnt_cases h0 with e | e
      · rw [e]; exact fun e => h0 e.symm
      · exact fun e2 => hdisjRB _ (hhdR h0) (e2 ▸ e)
    · rcases hph_cases h0 with e | e
      · rw [e]; exact fun e2 => h0 (hhd0.2 (ht0.1 e2.symm))
      · exact fun e2 => hdisjAR _ e (e2 ▸ htR h0)
    · intro hnt0 e2
      rcases hnt_cases h0 with e | e
      · exact hnt0 e
      · rcases hph_cases h0 with e3 | e3
        · exact hnt0 (e2 ▸ e3)
        · exact hdisjAB _ e3 (e2 ▸ e)
  have hph_FL : hd ≠ 0 → ph ≠ 0 → ph ∈ flat RA := by
    intro h0 h1
    rcases hph_cases h0 with e | e
    · exact absurd e h1
    · exact e
  have hnt_FL : hd ≠ 0 → nt ≠ 0 → nt ∈ flat RB := by
    intro h0 h1
    rcases hnt_cases h0 with e | e
    · exact absurd e h1
    · exact e
  have hff_hd : hd ≠ 0 → (ff = hd ↔ ph = 0) := by
    intro h0
    rw [(hnb h0).1, hff, hffd, lastD_eq_zero_iff (fun hm => hFL0 (by simp [hm]))]
    constructor
    · intro e
      by_contra hne
      have h1 : (flat RA ++ R ++ flat RB).headD 0 ∈ flat RA := by
        rw [List.append_assoc, headD_append_of_ne_nil hne]
        exact headD_mem hne 0
      rw [e] at h1
      exact hdisjAR _ h1 (hhdR h0)
    · intro e
      rw [e, List.nil_append, headD_append_of_ne_nil (fun e => h0 (hhd0.2 e)), hhd]
  -- the closed forms
  have hcf1 := free_unlink_eq s mem x n P px nx hpx.symm hnx.symm f3 f4 f5
  obtain ⟨S1, hS1⟩ : ∃ S1 : State, S1 = free_unlink s mem x n P := ⟨_, rfl⟩
  rw [← hS1]
  rw [hcf1] at hS1
  have a1 : S1.pool P = { s.pool P with
      first_occupied_slice := if px = 0 then nx else fo } := by
    rw [hS1]
    by_cases hp0 : px = 0 <;> simp [hp0, hfod]
  have a2 : S1.node n = { s.node n with using_slice_count := 0 } := by
    rw [hS1]; simp [hlast, SIZE_MOD]
  have a3 : ∀ m, m ≠ n → S1.node m = s.node m := by
    intro m hm; rw [hS1]; simp [hm]
  have a4 : S1.slice x = { s.slice x with tag := wrap_int ((s.slice x).tag + 1) } := by
    rw [hS1]; simp
  have a5 : ∀ z, z ≠ x → (S1.slice z).node = (s.slice z).node
      ∧ (S1.slice z).tag = (s.slice z).tag := by
    intro z hz; rw [hS1]; simp only [hz, if_false]
    split_ifs <;> simp
  have a6 : ∀ z, z ≠ x → z ≠ px → (S1.slice z).next = (s.slice z).next := by
    intro z h1 h2; rw [hS1]; simp only [h1, h2, if_false, and_false]
    split_ifs <;> simp
  have a7 : px ≠ 0 → (S1.slice px).next = nx := by
    intro h0; rw [hS1]; simp [f3, h0]
  have a8 : ∀ z, z ≠ x → z ≠ nx → (S1.slice z).prev = (s.slice z).prev := by
    intro z h1 h2; rw [hS1]; simp only [h1, h2, if_false, and_false]
    split_ifs <;> simp
  have a9 : nx ≠ 0 → (S1.slice nx).prev = px := by
    intro h0
    have h2 : ¬ (px ≠ 0 ∧ nx = px) := fun ⟨_, b⟩ => f5 h0 b.symm
    rw [hS1]; simp [f4, h0, h2]
  have a10 : S1.blocks = s.blocks := by rw [hS1]
  have a11 : ∀ z, z ≠ x → (px ≠ 0 → z ≠ px) → (nx ≠ 0 → z ≠ nx) → S1.slice z = s.slice z := by
    intro z h1 h2 h3
    have e1 : ¬ (px ≠ 0 ∧ z = px) := fun ⟨a, b⟩ => h2 a b
    have e2 : ¬ (nx ≠ 0 ∧ z = nx) := fun ⟨a, b⟩ => h3 a b
    rw [hS1]; simp [h1, e1, e2]
  clear hS1 hcf1
  have a12 : ∀ z, z = 0 ∨ z ∈ flat RA ++ R ++ flat RB → S1.slice z = s.slice z := by
    intro z hz
    rcases hz with rfl | hz
    · exact a11 0 (fun e => hx0 e.symm) (fun h0 e => h0 e.symm) (fun h0 e => h0 e.symm)
    · exact a11 z (hFLx z hz) (fun h0 e => hpx_FL h0 (e ▸ hz)) (fun h0 e => hnx_FL h0 (e ▸ hz))
  have ht_mem : t = 0 ∨ t ∈ flat RA ++ R ++ flat RB := by
    by_cases h0 : hd = 0
    · exact Or.inl (ht0.2 (hhd0.1 h0))
    · exact Or.inr (hRsub _ (htR h0))
  have hhd_mem : hd = 0 ∨ hd ∈ flat RA ++ R ++ flat RB := by
    by_cases h0 : hd = 0
    · exact Or.inl h0
    · exact Or.inr (hRsub _ (hhdR h0))
  have hcfe := excise_free_run_general S1 n P hd t nt ph ff (by rw [a2]; exact hn1)
    (by rw [a2]; exact hn8) (by rw [a2]; exact hn9) (by rw [a12 t ht_mem, hnt])
    (by rw [a12 hd hhd_mem, hph]) (by rw [a1, hff]) (fun e => ht0.2 (hhd0.1 e)) hex1
  have hcf2 := free_mem_node_eq S1 n P nn pn (by rw [a2]; exact hn1) (by rw [a2, hnn])
    (by rw [a2, hpn]) g4 g3 g5
  obtain ⟨S, hS⟩ : ∃ S : State, S = _elr_free_mem_node S1 n := ⟨_, rfl⟩
  rw [← hS]
  rw [hcf2, hcfe] at hS
  simp only at hS
  have hSslice : ∀ z, S.slice z =
      if hd ≠ 0 ∧ ph ≠ 0 ∧ z = ph then { S1.slice z with next := nt }
      else if hd ≠ 0 ∧ nt ≠ 0 ∧ z = nt then { S1.slice z with prev := ph }
      else S1.slice z := by
    intro z; rw [hS]
  have hSnode : ∀ m, S.node m =
      if pn ≠ 0 ∧ m = pn then { S1.node m with next := nn }
      else if nn ≠ 0 ∧ m = nn then { S1.node m with prev := pn }
      else S1.node m := by
    intro m; rw [hS]
  have hpoolP : S.pool P = { s.pool P with
      first_occupied_slice := if px = 0 then nx else fo
      first_free_slice := if hd ≠ 0 ∧ ff = hd then nt else ff
      newly_alloc_node := if nw = n then 0 else nw
      first_node := if pn ≠ 0 then fn else nn } := by
    rw [hS]
    simp only [if_true, a1]
    by_cases c1 : hd = 0 <;> by_cases c2 : ff = hd <;>
      simp [c1, c2, hnw.symm, hfn.symm, hff.symm]
  have hblocks : S.blocks = s.blocks.filter (fun b => decide (b.1 ≠ n)) := by
    rw [hS, a10]
  clear hS hcf2 hcfe
  -- the views of the new state
  have hS_OL : ∀ z ∈ OL, S.slice z = S1.slice z := by
    intro z hz
    have e1 : ¬ (hd ≠ 0 ∧ ph ≠ 0 ∧ z = ph) := by
      rintro ⟨a, b, c⟩
      exact hdisj z hz (by simp [c, hph_FL a b])
    have e2 : ¬ (hd ≠ 0 ∧ nt ≠ 0 ∧ z = nt) := by
      rintro ⟨a, b, c⟩
      exact hdisj z hz (by simp [c, hnt_FL a b])
    rw [hSslice, if_neg e1, if_neg e2]
  have hS_nt : ∀ z, (S.slice z).node = (S1.slice z).node ∧ (S.slice z).tag = (S1.slice z).tag := by
    intro z; rw [hSslice]
    split_ifs <;> simp
  have hnode_nt : ∀ z, z ≠ x → (S.slice z).node = (s.slice z).node
      ∧ (S.slice z).tag = (s.slice z).tag := by
    intro z hz
    rw [(hS_nt z).1, (hS_nt z).2]
    exact a5 z hz
  have hnode_other : ∀ m, m ≠ n → (S.node m).owner = (s.node m).owner
      ∧ (S.node m).used_slice_count = (s.node m).used_slice_count
      ∧ (S.node m).using_slice_count = (s.node m).using_slice_count
      ∧ (S.node m).first_avail = (s.node m).first_avail
      ∧ (S.node m).free_slice_head = (s.node m).free_slice_head
      ∧ (S.node m).free_slice_tail = (s.node m).free_slice_tail := by
    intro m hm
    rw [hSnode, ← a3 m hm]
    split_ifs <;> simp
  have hnodeE : ∀ z ∈ OL.erase x, (S.slice z).node = (s.slice z).node :=
    fun z hz => (hnode_nt z (hEx z hz)).1
  have hmemF : ∀ r, r ∈ runs.filter (fun r => decide (r.1 ≠ n)) ↔ r ∈ runs ∧ r.1 ≠ n := by
    intro r; simp [List.mem_filter]
  have hflatF : ∀ z, z ∈ flat (runs.filter (fun r => decide (r.1 ≠ n))) →
      z ∈ flat runs ∧ (s.slice z).node ≠ n := by
    intro z hz
    obtain ⟨r, hr, hzr⟩ := mem_flat.1 hz
    obtain ⟨hr1, hr2⟩ := (hmemF r).1 hr
    refine ⟨mem_flat.2 ⟨r, hr1, hzr⟩, ?_⟩
    rw [(h.runs_ok r hr1).2.2 z hzr]
    exact hr2
  have hflatF2 : ∀ z, z ∈ flat runs → (s.slice z).node ≠ n →
      z ∈ flat (runs.filter (fun r => decide (r.1 ≠ n))) := by
    intro z hz hne
    obtain ⟨r, hr, hzr⟩ := mem_flat.1 hz
    refine mem_flat.2 ⟨r, (hmemF r).2 ⟨hr, ?_⟩, hzr⟩
    rw [← (h.runs_ok r hr).2.2 z hzr]
    exact hne
  have hOLn : ∀ z ∈ OL.erase x, (s.slice z).node ≠ n := by
    intro z hz e
    have hc := countP_erase_of_pos (p := fun z => decide ((s.slice z).node = n)) hx
      (by simp [hn])
    have hpos : 0 < (OL.erase x).countP (fun z => decide ((s.slice z).node = n)) :=
      List.countP_pos_iff.2 ⟨z, hz, by simp [e]⟩
    omega
  have hxflat : ∀ z, z ∈ flat runs → z ≠ x := by
    intro z hz; rw [hflat] at hz; exact hFLx z hz
  refine ⟨?_, ?_⟩
  swap
  · rw [hblocks]
    simp [List.mem_filter]
  refine
    { blocks_ok := ?_, ss_pos := ?_, sc_pos := ?_, sc_lt := ?_, ns_pos := ?_, geom := ?_,
      nodes := ?_, node_ok := ?_, newly_ok := ?_, frees := ?_, runs_keys := ?_, runs_ok := ?_,
      occ := ?_, occ_ok := ?_, disj := ?_, issued := ?_, tag_occ := ?_, tag_free := ?_ }
  · unfold blocks_disjoint; rw [hblocks]
    exact List.Pairwise.filter _ h.blocks_ok
  · rw [hpoolP]; exact h.ss_pos
  · rw [hpoolP]; exact h.sc_pos
  · rw [hpoolP]; exact h.sc_lt
  · rw [hpoolP]; exact h.ns_pos
  · rw [hpoolP]; exact h.geom
  · unfold node_list
    rw [hpoolP]
    simp only
    have hd2 := @dll_remove _ _ (fun a => (S.node a).next) (fun a => (S.node a).prev) _ _ _
      hnl hnNL ?_ ?_ ?_ ?_
    · rw [← hpn, ← hnn, ← hfn] at hd2
      exact hd2
    · intro m hm hmp
      rw [← hpn] at hmp
      have e1 : ¬ (pn ≠ 0 ∧ m = pn) := fun ⟨_, b⟩ => hmp b
      simp only [hSnode, e1, if_false, a3 m (hNEn m hm)]
      split_ifs <;> simp
    · rw [← hpn, ← hnn]
      intro h0
      simp [hSnode, h0]
    · intro m hm hmn
      rw [← hnn] at hmn
      have e1 : ¬ (nn ≠ 0 ∧ m = nn) := fun ⟨_, b⟩ => hmn b
      simp only [hSnode, e1, if_false, a3 m (hNEn m hm)]
      split_ifs <;> simp
    · rw [← hpn, ← hnn]
      intro h0
      have e1 : ¬ (pn ≠ 0 ∧ nn = pn) := fun ⟨_, b⟩ => g5 h0 b.symm
      simp only [hSnode, e1, if_false]
      simp [h0, a3 nn g4]
  · intro m hm
    have hmn := hNEn m hm
    have hmNL := hNLE m hm
    refine NodeInv_transfer_at (h.node_ok m hmNL) (hnode_other m hmn) (by rw [hpoolP])
      (by rw [hpoolP]) (by rw [hpoolP]) ?_ ?_ ?_ ?_ ?_
    · rw [hpoolP]
      simp only
      intro hne e
      rw [← hnw] at e
      by_cases c : nw = n
      · exact hmn (e.trans c)
      · rw [if_neg c] at hne
        exact hne e
    · intro hb
      rw [hblocks]
      exact List.mem_filter.2 ⟨hb, by simpa using hmn⟩
    · rw [countP_node_congr m hnodeE]
      exact countP_erase_of_neg (by simp [hn]; exact fun e => hmn e.symm)
    · rw [hfilter]; exact hrun_other m hmn
    · intro i hi hz
      have hnz := h.slice_node_unique hz hmNL hi rfl
      rcases List.mem_append.1 hz with e | e
      · exact List.mem_append_left _ (hflatF2 _ e (by rw [hnz]; exact hmn))
      · refine List.mem_append_right _ ((List.mem_erase_of_ne ?_).2 e)
        intro e2
        rw [e2, hn] at hnz
        exact hmn hnz.symm
  · rw [hpoolP]
    simp only
    by_cases c : nw = n
    · left; rw [if_pos c]
    · rw [if_neg c]
      rcases h.newly_ok with e | e
      · left; rw [hnw]; exact e
      · right
        rw [← hnw] at e
        refine ⟨(List.mem_erase_of_ne c).2 e.1, ?_⟩
        rw [(hnode_other nw c).2.1]
        exact e.2
  · unfold free_list
    rw [hpoolP, hfilter, flat_append]
    simp only
    have hS_FL : ∀ z ∈ flat RA ++ flat RB, (¬ (hd ≠ 0 ∧ ph ≠ 0 ∧ z = ph) →
          (S.slice z).next = (s.slice z).next)
        ∧ (¬ (hd ≠ 0 ∧ nt ≠ 0 ∧ z = nt) → (S.slice z).prev = (s.slice z).prev) := by
      intro z hz
      have hz2 : z ∈ flat RA ++ R ++ flat RB := by
        rcases List.mem_append.1 hz with e | e
        · simp [e]
        · simp [e]
      rw [hSslice, a12 z (Or.inr hz2)]
      constructor
      · intro e1
        rw [if_neg e1]
        split_ifs <;> simp
      · intro e2
        split_ifs <;> simp
    by_cases hR : R = []
    · have hd0 : hd = 0 := hhd0.2 hR
      rw [hR, List.append_nil] at hfl
      simp only [hd0, ne_eq, not_true_eq_false, false_and, if_false]
      rw [hff]
      refine dll_congr (fun z hz => ?_) (fun z hz => ?_) hfl
      · exact (hS_FL z hz).1 (by simp [hd0])
      · exact (hS_FL z hz).2 (by simp [hd0])
    · have hd0 : hd ≠ 0 := fun e => hR (hhd0.1 e)
      have hd3 := @dll_excise _ _ (fun a => (S.slice a).next)
        (fun a => (S.slice a).prev) _ _ _ _ hfl hR ?_ ?_ ?_ ?_
      · rw [← hhd, ← htd, ← hph, ← hnt, ← hff] at hd3
        by_cases hp0 : ph = 0
        · have := (hff_hd hd0).2 hp0
          simpa [hp0, hd0, this] using hd3
        · have : ¬ ff = hd := fun e => hp0 ((hff_hd hd0).1 e)
          simpa [hp0, hd0, this] using hd3
      · intro z hz hzp
        rw [← hhd, ← hph] at hzp
        exact (hS_FL z hz).1 (fun ⟨_, _, c⟩ => hzp c)
      · rw [← hhd, ← htd, ← hph, ← hnt]
        intro h0
        simp only [hSslice]
        simp [hd0, h0]
      · intro z hz hzn
        rw [← htd, ← hnt] at hzn
        exact (hS_FL z hz).2 (fun ⟨_, _, c⟩ => hzn c)
      · rw [← hhd, ← htd, ← hph, ← hnt]
        intro h0
        have e1 : ¬ (hd ≠ 0 ∧ ph ≠ 0 ∧ nt = ph) := fun ⟨_, _, c⟩ => (hex1 hd0).2.2.2 h0 c.symm
        simp only [hSslice, if_neg e1]
        simp [hd0, h0]
  · exact List.Nodup.sublist (List.Sublist.map _ (List.filter_sublist _)) h.runs_keys
  · intro r hr
    obtain ⟨hr1, hr2⟩ := (hmemF r).1 hr
    obtain ⟨a, b, c⟩ := h.runs_ok r hr1
    refine ⟨a, (List.mem_erase_of_ne hr2).2 b, ?_⟩
    intro z hz
    rw [(hnode_nt z (hxflat z (mem_flat.2 ⟨r, hr1, hz⟩))).1]
    exact c z hz
  · unfold occupied_list
    rw [hpoolP]
    simp only
    have hd2 := @dll_remove _ _ (fun a => (S.slice a).next) (fun a => (S.slice a).prev) _ _ _
      hocc hx ?_ ?_ ?_ ?_
    · rw [← hpx, ← hnx, ← hfod] at hd2
      by_cases hp0 : px = 0
      · simpa [hp0] using hd2
      · simpa [hp0] using hd2
    · intro z hz hzp
      rw [← hpx] at hzp
      simp only
      rw [hS_OL z (hOLE z hz)]
      exact a6 z (hEx z hz) hzp
    · rw [← hpx, ← hnx]
      intro h0
      rcases f1 with e | e
      · exact absurd e h0
      · simp only
        rw [hS_OL px (hOLE _ e)]
        exact a7 h0
    · intro z hz hzn
      rw [← hnx] at hzn
      simp only
      rw [hS_OL z (hOLE z hz)]
      exact a8 z (hEx z hz) hzn
    · rw [← hpx, ← hnx]
      intro h0
      rcases f2 with e | e
      · exact absurd e h0
      · simp only
        rw [hS_OL nx (hOLE _ e)]
        exact a9 h0
  · intro z hz
    rw [hnodeE z hz]
    exact (List.mem_erase_of_ne (hOLn z hz)).2 (h.occ_ok z (hOLE z hz))
  · intro z hz hm
    exact h.disj z (hOLE z hz) (hflatF z hm).1
  · intro z hz
    rw [hpoolP]
    simp only
    have hz2 : z ∈ flat runs ++ OL ∧ (s.slice z).node ≠ n ∧ z ≠ x := by
      rcases List.mem_append.1 hz with e | e
      · exact ⟨List.mem_append_left _ (hflatF z e).1, (hflatF z e).2, hxflat z (hflatF z e).1⟩
      · exact ⟨List.mem_append_right _ (hOLE z e), hOLn z e, hEx z e⟩
    rw [(hnode_nt z hz2.2.2).1, (hnode_other _ hz2.2.1).2.1]
    exact h.issued z hz2.1
  · intro z hz
    rw [(hnode_nt z (hEx z hz)).2]
    exact h.tag_occ z (hOLE z hz)
  · intro z hz
    rw [(hnode_nt z (hxflat z (hflatF z hz).1)).2]
    exact h.tag_free z (hflatF z hz).1

/-! ### Fields that allocation and release leave alone -/

theorem static_of_object_size {a b : elr_mem_pool} (h : static_of a = static_of b) :
    a.object_size = b.object_size := by
  show (static_of a).object_size = (static_of b).object_size
  rw [h]

theorem static_of_first_node (p : elr_mem_pool) (v : Nat) :
    static_of { p with first_node := v } = static_of p := rfl
theorem static_of_newly (p : elr_mem_pool) (v : Nat) :
    static_of { p with newly_alloc_node := v } = static_of p := rfl
theorem static_of_first_free (p : elr_mem_pool) (v : Nat) :
    static_of { p with first_free_slice := v } = static_of p := rfl
theorem static_of_first_occupied (p : elr_mem_pool) (v : Nat) :
    static_of { p with first_occupied_slice := v } = static_of p := rfl

theorem static_setPool (s : State) (a p : Nat) (v : elr_mem_pool) :
    static_of ((s.setPool a v).pool p)
      = if p = a then static_of v else static_of (s.pool p) := by
  rw [setPool_pool]
  split_ifs <;> rfl

theorem static_ite (s : State) (p a : Nat) :
    (if p = a then static_of (s.pool a) else static_of (s.pool p)) = static_of (s.pool p) := by
  split_ifs with h
  · rw [h]
  · rfl

theorem malloc_pool (s : State) (size : Nat) : (malloc s size).1.pool = s.pool := by
  unfold malloc
  split
  · rfl
  · rfl
  · split_ifs <;> rfl

theorem alloc_mem_node_static (s : State) (P p : Nat) :
    static_of ((_elr_alloc_mem_node s P).pool p) = static_of (s.pool p) := by
  unfold _elr_alloc_mem_node
  have hp := malloc_pool s (s.pool P).node_size
  generalize malloc s (s.pool P).node_size = r at hp
  obtain ⟨s1, a⟩ := r
  simp only at hp
  simp only [setNode_pool, setSlice_pool, apply_ite State.pool, ite_apply,
    apply_ite static_of, static_setPool, static_of_first_node, static_of_newly,
    static_of_first_free, static_of_first_occupied, static_ite, ite_self, hp]

theorem slice_from_node_static (s : State) (P p : Nat) :
    static_of ((_elr_slice_from_node s P).1.pool p) = static_of (s.pool p) := by
  simp only [_elr_slice_from_node, apply_ite Prod.fst,
    setNode_pool, setSlice_pool, apply_ite State.pool, ite_apply,
    apply_ite static_of, static_setPool, static_of_first_node, static_of_newly,
    static_of_first_free, static_of_first_occupied, static_ite, ite_self]

theorem slice_from_free_list_static (s : State) (P p : Nat) :
    static_of ((slice_from_free_list s P).1.pool p) = static_of (s.pool p) := by
  simp only [slice_from_free_list, apply_ite Prod.fst,
    setNode_pool, setSlice_pool, apply_ite State.pool, ite_apply,
    apply_ite static_of, static_setPool, static_of_first_node, static_of_newly,
    static_of_first_free, static_of_first_occupied, static_ite, ite_self]

theorem push_occupied_static (s : State) (P x p : Nat) :
    static_of ((push_occupied s P x).pool p) = static_of (s.pool p) := by
  simp only [push_occupied,
    setNode_pool, setSlice_pool, apply_ite State.pool, ite_apply,
    apply_ite static_of, static_setPool, static_of_first_node, static_of_newly,
    static_of_first_free, static_of_first_occupied, static_ite, ite_self]

theorem slice_from_pool_static (s : State) (P p : Nat) :
    static_of ((_elr_slice_from_pool s P).1.pool p) = static_of (s.pool p) := by
  simp only [_elr_slice_from_pool, apply_ite Prod.fst, apply_ite State.pool, ite_apply,
    apply_ite static_of, push_occupied_static, slice_from_free_list_static,
    slice_from_node_static, alloc_mem_node_static, ite_self]

theorem alloc_static (s : State) (h : elr_mpl_t) (p : Nat) :
    static_of ((elr_mpl_alloc s h).1.pool p) = static_of (s.pool p) := by
  simp only [elr_mpl_alloc, apply_ite Prod.fst, apply_ite State.pool, ite_apply,
    apply_ite static_of, slice_from_pool_static, ite_self]

theorem free_unlink_static (s : State) (mem x n P p : Nat) :
    static_of ((free_unlink s mem x n P).pool p) = static_of (s.pool p) := by
  simp only [free_unlink,
    setNode_pool, setSlice_pool, apply_ite State.pool, ite_apply,
    apply_ite static_of, static_setPool, static_of_first_node, static_of_newly,
    static_of_first_free, static_of_first_occupied, static_ite, ite_self]

theorem free_new_run_static (s : State) (x n P p : Nat) :
    static_of ((free_new_run s x n P).pool p) = static_of (s.pool p) := by
  simp only [free_new_run,
    setNode_pool, setSlice_pool, apply_ite State.pool, ite_apply,
    apply_ite static_of, static_setPool, static_of_first_node, static_of_newly,
    static_of_first_free, static_of_first_occupied, static_ite, ite_self]

theorem free_after_tail_static (s : State) (x n p : Nat) :
    static_of ((free_after_tail s x n).pool p) = static_of (s.pool p) := by
  simp only [free_after_tail,
    setNode_pool, setSlice_pool, apply_ite State.pool, ite_apply,
    apply_ite static_of, static_setPool, static_of_first_node, static_of_newly,
    static_of_first_free, static_of_first_occupied, static_ite, ite_self]

theorem excise_free_run_static (s : State) (n p : Nat) :
    static_of ((excise_free_run s n).pool p) = static_of (s.pool p) := by
  simp only [excise_free_run,
    setNode_pool, setSlice_pool, setSlice_node, apply_ite State.pool, apply_ite State.node,
    ite_apply, apply_ite static_of, static_setPool, static_of_first_node, static_of_newly,
    static_of_first_free, static_of_first_occupied, static_ite, ite_self]

theorem excise_free_run_node (s : State) (n : Nat) : (excise_free_run s n).node = s.node := by
  simp only [excise_free_run, apply_ite State.node, setSlice_node, setPool_node, ite_self]

theorem free_mem_node_static (s : State) (n p : Nat) :
    static_of ((_elr_free_mem_node s n).pool p) = static_of (s.pool p) := by
  rw [← excise_free_run_static s n p]
  unfold _elr_free_mem_node sys_free
  generalize excise_free_run s n = s1
  simp only [setNode_pool, setSlice_pool, setPool_node, setNode_node,
    apply_ite State.pool, apply_ite State.node,
    ite_apply, apply_ite static_of, static_setPool, static_of_first_node, static_of_newly,
    static_of_first_free, static_of_first_occupied, static_ite, ite_self]

theorem free_static (s : State) (mem p : Nat) :
    static_of ((elr_mpl_free s mem).pool p) = static_of (s.pool p) := by
  simp only [elr_mpl_free, apply_ite State.pool, ite_apply, apply_ite static_of,
    free_mem_node_static, free_new_run_static, free_after_tail_static, free_unlink_static,
    ite_self]

/-- The invariant reads the slices, nodes, pools and blocks only. -/
theorem PoolInv_of_views {s S : State} {P : Nat} {NL : List Nat}
    {runs : List (Nat × List Nat)} {OL : List Nat} (h : PoolInv s P NL runs OL)
    (h1 : S.slice = s.slice) (h2 : S.node = s.node) (h3 : S.pool = s.pool)
    (h4 : S.blocks = s.blocks) : PoolInv S P NL runs OL := by
  obtain ⟨a1, a2, a3, a4, a5, a6, a7, a8, a9, a10⟩ := s
  obtain ⟨b1, b2, b3, b4, b5, b6, b7, b8, b9, b10⟩ := S
  simp only at h1 h2 h3 h4
  subst h1 h2 h3 h4
  exact
    { blocks_ok := h.blocks_ok, ss_pos := h.ss_pos, sc_pos := h.sc_pos, sc_lt := h.sc_lt,
      ns_pos := h.ns_pos, geom := h.geom, nodes := h.nodes, node_ok := h.node_ok,
      newly_ok := h.newly_ok, frees := h.frees, runs_keys := h.runs_keys,
      runs_ok := h.runs_ok, occ := h.occ, occ_ok := h.occ_ok, disj := h.disj,
      issued := h.issued, tag_occ := h.tag_occ, tag_free := h.tag_free }

theorem malloc_granted_of_ne_zero (s : State) (size : Nat) (h : (malloc s size).2 ≠ 0) :
    ∃ a rest, s.sys = some a :: rest ∧ sys_fresh s a size = true := by
  unfold malloc at h
  cases hs : s.sys with
  | nil => simp [hs] at h
  | cons a rest =>
    cases a with
    | none => simp [hs] at h
    | some a =>
      by_cases hf : sys_fresh s a size = true
      · exact ⟨a, rest, rfl, hf⟩
      · simp [hs, hf] at h

/-- The head of the occupied list is a non-null slice that occurs once. -/
theorem PoolInv.head_fresh {s : State} {P x : Nat} {NL : List Nat}
    {runs : List (Nat × List Nat)} {OL : List Nat} (h : PoolInv s P NL runs (x :: OL)) :
    x ≠ 0 ∧ x ∉ OL := by
  have hocc := h.occ
  unfold occupied_list at hocc
  exact ⟨fun e => dll_not_mem_zero hocc (by simp [e]), (List.nodup_cons.1 hocc.2.2).1⟩

/-- The function `_elr_slice_from_pool` keeps the pool invariant: either it
returns null and the lists are as before, or it returns a slice that was not
occupied and is now the head of the occupied list. -/
theorem PoolInv_slice_from_pool {s : State} {P : Nat} {NL : List Nat}
    {runs : List (Nat × List Nat)} {OL : List Nat} (h : PoolInv s P NL runs OL) :
    ((_elr_slice_from_pool s P).2 = 0 ∧ PoolInv (_elr_slice_from_pool s P).1 P NL runs OL)
    ∨ ((_elr_slice_from_pool s P).2 ≠ 0 ∧ (_elr_slice_from_pool s P).2 ∉ OL
      ∧ ∃ NL2 runs2, PoolInv (_elr_slice_from_pool s P).1 P NL2 runs2
          ((_elr_slice_from_pool s P).2 :: OL)) := by
  by_cases htag : (s.slice (P - SLICE_HDR)).tag = (s.pool P).slice_tag
  swap
  · left
    have e : _elr_slice_from_pool s P = (s, 0) := by
      unfold _elr_slice_from_pool
      simp [htag]
    rw [e]
    exact ⟨rfl, h⟩
  by_cases hff : (s.pool P).first_free_slice = 0
  swap
  · right
    obtain ⟨n, R, rest, hr⟩ := h.first_run hff
    rw [hr] at h
    obtain ⟨e, hinv⟩ := PoolInv_alloc_reuse h htag
    have hf := hinv.head_fresh
    rw [e]
    exact ⟨hf.1, hf.2, NL, _, hinv⟩
  by_cases hnew : (s.pool P).newly_alloc_node = 0
  · by_cases hm : (malloc s (s.pool P).node_size).2 = 0
    · left
      rw [slice_from_pool_refused s P htag hff hnew hm]
      exact ⟨rfl, PoolInv_of_views h rfl rfl rfl rfl⟩
    · right
      obtain ⟨a, rest, hsys, hfresh⟩ := malloc_granted_of_ne_zero s _ hm
      have ha0 : a ≠ 0 := ((sys_fresh_iff s a _).1 hfresh).1
      have e : _elr_slice_from_pool s P
          = (push_occupied (_elr_slice_from_node (_elr_alloc_mem_node s P) P).1 P
              (_elr_slice_from_node (_elr_alloc_mem_node s P) P).2,
             (_elr_slice_from_node (_elr_alloc_mem_node s P) P).2) := by
        unfold _elr_slice_from_pool
        simp [htag, hff, hnew]
      obtain ⟨hinv0, hnw0, _⟩ := PoolInv_alloc_mem_node h hnew hsys hfresh
      obtain ⟨e2, hinv, _⟩ := PoolInv_bump hinv0 hnw0 ha0
      rw [e, e2]
      rw [e2] at hinv
      have hf := hinv.head_fresh
      exact ⟨hf.1, hf.2, _, _, hinv⟩
  · right
    have e : _elr_slice_from_pool s P
        = (push_occupied (_elr_slice_from_node s P).1 P (_elr_slice_from_node s P).2,
           (_elr_slice_from_node s P).2) := by
      unfold _elr_slice_from_pool
      simp [htag, hff, hnew]
    obtain ⟨e2, hinv, _⟩ := PoolInv_bump h rfl hnew
    rw [e, e2]
    rw [e2] at hinv
    have hf := hinv.head_fresh
    exact ⟨hf.1, hf.2, _, _, hinv⟩

/-- The function `elr_mpl_alloc` keeps the pool invariant: either it returns
null and the lists are as before, or the slice of the payload it returns was
not occupied and is now the head of the occupied list. -/
theorem PoolInv_alloc {s : State} {hp : elr_mpl_t} {NL : List Nat}
    {runs : List (Nat × List Nat)} {OL : List Nat} (h : PoolInv s hp.pool NL runs OL) :
    ((elr_mpl_alloc s hp).2 = 0 ∧ PoolInv (elr_mpl_alloc s hp).1 hp.pool NL runs OL)
    ∨ ((elr_mpl_alloc s hp).2 ≠ 0
      ∧ (elr_mpl_alloc s hp).2 = ((elr_mpl_alloc s hp).2 - SLICE_HDR) + SLICE_HDR
      ∧ (elr_mpl_alloc s hp).2 - SLICE_HDR ∉ OL
      ∧ ∃ NL2 runs2, PoolInv (elr_mpl_alloc s hp).1 hp.pool NL2 runs2
          (((elr_mpl_alloc s hp).2 - SLICE_HDR) :: OL)) := by
  rcases PoolInv_slice_from_pool h with ⟨e, hinv⟩ | ⟨e, hf, NL2, runs2, hinv⟩
  · left
    have e2 : elr_mpl_alloc s hp = ((_elr_slice_from_pool s hp.pool).1, 0) := by
      unfold elr_mpl_alloc
      simp [e]
    rw [e2]
    exact ⟨rfl, hinv⟩
  · right
    have e2 : (elr_mpl_alloc s hp).2 = (_elr_slice_from_pool s hp.pool).2 + SLICE_HDR := by
      unfold elr_mpl_alloc
      simp [e]
    have e3 : (elr_mpl_alloc s hp).1.slice = (_elr_slice_from_pool s hp.pool).1.slice
        ∧ (elr_mpl_alloc s hp).1.node = (_elr_slice_from_pool s hp.pool).1.node
        ∧ (elr_mpl_alloc s hp).1.pool = (_elr_slice_from_pool s hp.pool).1.pool
        ∧ (elr_mpl_alloc s hp).1.blocks = (_elr_slice_from_pool s hp.pool).1.blocks := by
      unfold elr_mpl_alloc
      simp only [e, if_false]
      split_ifs <;> exact ⟨rfl, rfl, rfl, rfl⟩
    rw [e2, Nat.add_sub_cancel]
    refine ⟨by rw [SLICE_HDR_eq]; omega, rfl, hf, NL2, runs2, ?_⟩
    exact PoolInv_of_views hinv e3.1 e3.2.1 e3.2.2.1 e3.2.2.2

theorem free_unlink_node (s : State) (mem x n P : Nat) :
    (free_unlink s mem x n P).node = fun m =>
      if m = n then { s.node n with using_slice_count :=
          ((s.node n).using_slice_count + SIZE_MOD - 1) % SIZE_MOD }
      else s.node m := by
  simp only [free_unlink, setSlice_node, setPool_node, apply_ite State.node, ite_self]
  funext m
  simp only [setNode_node, setSlice_node]

theorem free_unlink_occupation (s : State) (mem x n P : Nat) :
    (free_unlink s mem x n P).g_occupation_size = s.g_occupation_size := by
  simp only [free_unlink, setSlice_occupation, setPool_occupation, setNode_occupation,
    apply_ite State.g_occupation_size, ite_self]

/-- The three ways `elr_mpl_free` ends on a live pool. -/
theorem free_eq (s : State) (x : Nat)
    (htag : (s.slice ((s.node (s.slice x).node).owner - SLICE_HDR)).tag
      = (s.pool (s.node (s.slice x).node).owner).slice_tag)
    (h1 : 1 ≤ (s.node (s.slice x).node).using_slice_count)
    (h2 : (s.node (s.slice x).node).using_slice_count < SIZE_MOD) :
    elr_mpl_free s (x + SLICE_HDR) =
      if (s.node (s.slice x).node).using_slice_count = 1
          ∧ s.g_occupation_size ≥ ELR_AUTO_FREE_NODE_THRESHOLD then
        _elr_free_mem_node (free_unlink s (x + SLICE_HDR) x (s.slice x).node
          (s.node (s.slice x).node).owner) (s.slice x).node
      else if (s.node (s.slice x).node).free_slice_head = 0 then
        free_new_run (free_unlink s (x + SLICE_HDR) x (s.slice x).node
          (s.node (s.slice x).node).owner) x (s.slice x).node (s.node (s.slice x).node).owner
      else
        free_after_tail (free_unlink s (x + SLICE_HDR) x (s.slice x).node
          (s.node (s.slice x).node).owner) x (s.slice x).node := by
  have e : ((s.node (s.slice x).node).using_slice_count + SIZE_MOD - 1) % SIZE_MOD
      = (s.node (s.slice x).node).using_slice_count - 1 := by
    have : (s.node (s.slice x).node).using_slice_count + SIZE_MOD - 1
        = ((s.node (s.slice x).node).using_slice_count - 1) + SIZE_MOD := by omega
    rw [this, Nat.add_mod_right, Nat.mod_eq_of_lt (by omega)]
  have e2 : (s.node (s.slice x).node).using_slice_count - 1 = 0
      ↔ (s.node (s.slice x).node).using_slice_count = 1 := by omega
  unfold elr_mpl_free
  simp only [Nat.add_sub_cancel, htag, ne_eq, not_true_eq_false, if_false,
    free_unlink_node, free_unlink_occupation, if_true, e, e2]

/-- The function `elr_mpl_free` on the payload of an occupied slice of a live
pool keeps the pool invariant.  The node of the slice goes back to the system
when this was its last occupied slice and `g_occupation_size` has reached the
threshold; otherwise the node list is as before and the slice is in the free
list. -/
theorem PoolInv_free {s : State} {P x : Nat} {NL : List Nat}
    {runs : List (Nat × List Nat)} {OL : List Nat} (h : PoolInv s P NL runs OL)
    (hx : x ∈ OL) (htag : (s.slice (P - SLICE_HDR)).tag = (s.pool P).slice_tag) :
    (((s.node (s.slice x).node).using_slice_count = 1
        ∧ s.g_occupation_size ≥ ELR_AUTO_FREE_NODE_THRESHOLD) →
      PoolInv (elr_mpl_free s (x + SLICE_HDR)) P (NL.erase (s.slice x).node)
        (runs.filter (fun r => decide (r.1 ≠ (s.slice x).node))) (OL.erase x)
      ∧ ((s.slice x).node, (s.pool P).node_size) ∉ (elr_mpl_free s (x + SLICE_HDR)).blocks)
    ∧ (¬ ((s.node (s.slice x).node).using_slice_count = 1
        ∧ s.g_occupation_size ≥ ELR_AUTO_FREE_NODE_THRESHOLD) →
      ∃ runs2, PoolInv (elr_mpl_free s (x + SLICE_HDR)) P NL runs2 (OL.erase x)
        ∧ x ∈ flat runs2) := by
  obtain ⟨hnNL, husing1, husing2, hxFL, hx0⟩ := h.occupied_facts hx
  have hown : (s.node (s.slice x).node).owner = P := (h.node_ok _ hnNL).1
  have hfe := free_eq s x (by rw [hown]; exact htag) husing1 husing2
  rw [hown] at hfe
  constructor
  · intro hc
    rw [hfe, if_pos hc]
    exact PoolInv_free_release h hx rfl hc.1
  · intro hc
    rw [hfe, if_neg hc]
    by_cases hh : (s.node (s.slice x).node).free_slice_head = 0
    · rw [if_pos hh]
      refine ⟨_, PoolInv_free_new_run h hx rfl hh, ?_⟩
      rw [flat_cons]
      simp
    · rw [if_neg hh]
      have h8 := (h.node_ok _ hnNL).2.2.2.2.2.2.2.1
      have hk : (s.slice x).node ∈ runs.map Prod.fst := by
        by_contra hk
        rw [run_of_not_mem hk] at h8
        exact hh h8
      obtain ⟨RA, RB, e, _, _⟩ := runs_split hk h.runs_keys
      have h2 := h
      rw [e] at h2
      refine ⟨_, PoolInv_free_after_tail h2 hx rfl, ?_⟩
      rw [flat_split]
      simp

theorem free_new_run_using (s : State) (x n P m : Nat) :
    ((free_new_run s x n P).node m).using_slice_count = (s.node m).using_slice_count := by
  simp only [free_new_run, setSlice_node, setPool_node, setNode_node, apply_ite State.node,
    ite_self]
  split_ifs with h1
  · rw [h1]
  · rfl

theorem free_after_tail_using (s : State) (x n m : Nat) :
    ((free_after_tail s x n).node m).using_slice_count = (s.node m).using_slice_count := by
  simp only [free_after_tail, setSlice_node, setPool_node, setNode_node, apply_ite State.node,
    ite_self]
  split_ifs with h1
  · rw [h1]
  · rfl

theorem static_of_node_size {a b : elr_mem_pool} (h : static_of a = static_of b) :
    a.node_size = b.node_size := by
  show (static_of a).node_size = (static_of b).node_size
  rw [h]

theorem static_of_slice_size {a b : elr_mem_pool} (h : static_of a = static_of b) :
    a.slice_size = b.slice_size := by
  show (static_of a).slice_size = (static_of b).slice_size
  rw [h]

theorem static_of_slice_count {a b : elr_mem_pool} (h : static_of a = static_of b) :
    a.slice_count = b.slice_count := by
  show (static_of a).slice_count = (static_of b).slice_count
  rw [h]

theorem static_of_slice_tag {a b : elr_mem_pool} (h : static_of a = static_of b) :
    a.slice_tag = b.slice_tag := by
  show (static_of a).slice_tag = (static_of b).slice_tag
  rw [h]

theorem geometry_of_prev (p : elr_mem_pool) (v : Nat) :
    geometry_of { p with prev := v } = geometry_of p := rfl
theorem geometry_of_next (p : elr_mem_pool) (v : Nat) :
    geometry_of { p with next := v } = geometry_of p := rfl
theorem geometry_of_first_child (p : elr_mem_pool) (v : Nat) :
    geometry_of { p with first_child := v } = geometry_of p := rfl

theorem geometry_setPool (s : State) (a p : Nat) (v : elr_mem_pool) :
    geometry_of ((s.setPool a v).pool p)
      = if p = a then geometry_of v else geometry_of (s.pool p) := by
  rw [setPool_pool]
  split_ifs <;> rfl

theorem geometry_ite (s : State) (p a : Nat) :
    (if p = a then geometry_of (s.pool a) else geometry_of (s.pool p))
      = geometry_of (s.pool p) := by
  split_ifs with h
  · rw [h]
  · rfl

theorem geometry_ite_state (c : Prop) [Decidable c] (A B : State) (p : Nat) :
    geometry_of ((if c then A else B).pool p)
      = if c then geometry_of (A.pool p) else geometry_of (B.pool p) := by
  split_ifs <;> rfl

theorem link_pool_geometry (s : State) (P p : Nat) :
    geometry_of ((link_pool s P).pool p) = geometry_of (s.pool p) := by
  simp only [link_pool, geometry_setPool, geometry_of_prev, geometry_of_next,
    geometry_of_first_child, geometry_ite, geometry_ite_state, ite_self]

theorem link_pool_views (s : State) (P : Nat) :
    (link_pool s P).slice = s.slice ∧ (link_pool s P).node = s.node
    ∧ (link_pool s P).blocks = s.blocks := by
  refine ⟨?_, ?_, ?_⟩
  · simp only [link_pool, setPool_slice, apply_ite State.slice, ite_self]
  · simp only [link_pool, setPool_node, apply_ite State.node, ite_self]
  · simp only [link_pool, setPool_blocks, apply_ite State.blocks, ite_self]

theorem init_pool_views (s : State) (ps P : Nat) (fpool : Option elr_mpl_t) (n a f : Nat) :
    (init_pool s ps P fpool n a f).slice = s.slice
    ∧ (init_pool s ps P fpool n a f).node = s.node
    ∧ (init_pool s ps P fpool n a f).blocks = s.blocks := by
  refine ⟨?_, ?_, ?_⟩
  · simp only [init_pool, setPool_slice]
  · simp only [init_pool, setPool_node]
  · simp only [init_pool, setPool_blocks]

theorem init_pool_geometry (s : State) (ps P : Nat) (fpool : Option elr_mpl_t) (n a f : Nat) :
    geometry_of ((init_pool s ps P fpool n a f).pool P)
      = (n, (SLICE_HDR + ELR_ALIGN n sizeof_int) % SIZE_MOD,
          slice_count_of ((SLICE_HDR + ELR_ALIGN n sizeof_int) % SIZE_MOD),
          ((SLICE_HDR + ELR_ALIGN n sizeof_int) % SIZE_MOD
            * slice_count_of ((SLICE_HDR + ELR_ALIGN n sizeof_int) % SIZE_MOD) + NODE_HDR)
            % SIZE_MOD, 0, 0, 0, 0) := by
  simp only [init_pool, setPool_pool, if_true]
  rfl

/-- The pool made by `elr_mpl_create_ex`: its address, sizes and (empty) lists;
the slices, nodes and blocks are those left by the slice allocation. -/
theorem create_ex_pool (s : State) (fpool : Option elr_mpl_t) (n a f : Nat)
    (hne : (_elr_slice_from_pool s g_mem_pool).2 ≠ 0) :
    (elr_mpl_create_ex s fpool n a f).2.pool = (_elr_slice_from_pool s g_mem_pool).2 + SLICE_HDR
    ∧ geometry_of ((elr_mpl_create_ex s fpool n a f).1.pool
        ((_elr_slice_from_pool s g_mem_pool).2 + SLICE_HDR))
      = (n, (SLICE_HDR + ELR_ALIGN n sizeof_int) % SIZE_MOD,
          slice_count_of ((SLICE_HDR + ELR_ALIGN n sizeof_int) % SIZE_MOD),
          ((SLICE_HDR + ELR_ALIGN n sizeof_int) % SIZE_MOD
            * slice_count_of ((SLICE_HDR + ELR_ALIGN n sizeof_int) % SIZE_MOD) + NODE_HDR)
            % SIZE_MOD, 0, 0, 0, 0)
    ∧ (elr_mpl_create_ex s fpool n a f).1.slice = (_elr_slice_from_pool s g_mem_pool).1.slice
    ∧ (elr_mpl_create_ex s fpool n a f).1.node = (_elr_slice_from_pool s g_mem_pool).1.node
    ∧ (elr_mpl_create_ex s fpool n a f).1.blocks
        = (_elr_slice_from_pool s g_mem_pool).1.blocks := by
  unfold elr_mpl_create_ex
  simp only [hne, if_false]
  refine ⟨trivial, ?_, ?_, ?_, ?_⟩
  · rw [link_pool_geometry, init_pool_geometry]
  · rw [(link_pool_views _ _).1, (init_pool_views _ _ _ _ _ _ _).1]
  · rw [(link_pool_views _ _).2.1, (init_pool_views _ _ _ _ _ _ _).2.1]
  · rw [(link_pool_views _ _).2.2, (init_pool_views _ _ _ _ _ _ _).2.2]

theorem and_align_mask (x : Nat) (hx : x < 2 ^ 64) : x &&& (2 ^ 64 - 1 - 3) = x - x % 4 := by
  have e1 : (2 : Nat) ^ 64 - 1 - 3 = (2 ^ 62 - 1) <<< 2 := by norm_num [Nat.shiftLeft_eq]
  have e2 : x - x % 4 = (x >>> 2) <<< 2 := by
    rw [Nat.shiftLeft_eq, Nat.shiftRight_eq_div_pow]
    have := Nat.div_add_mod x 4
    norm_num
    omega
  rw [e1, e2]
  apply Nat.eq_of_testBit_eq
  intro j
  simp only [Nat.testBit_and, Nat.testBit_shiftLeft, Nat.testBit_shiftRight,
    Nat.testBit_two_pow_sub_one]
  by_cases hj : 2 ≤ j
  · have e3 : 2 + (j - 2) = j := by omega
    simp only [hj, ge_iff_le, decide_True, Bool.true_and, e3]
    by_cases hb : x.testBit j = true
    · have : j < 64 := by
        by_contra hge
        have h2 : x < 2 ^ j := lt_of_lt_of_le hx (Nat.pow_le_pow_right (by norm_num) (by omega))
        rw [Nat.testBit_lt_two_pow h2] at hb
        exact absurd hb (by simp)
      have : j - 2 < 62 := by omega
      simp [hb, this]
    · simp [hb]
  · simp [hj]

/-- The macro `ELR_ALIGN(n, sizeof(int))` rounds up to a multiple of 4 when
`n + 3` does not wrap. -/
theorem ELR_ALIGN_int (n : Nat) (hn : n + 3 < SIZE_MOD) :
    ELR_ALIGN n sizeof_int = (n + 3) - (n + 3) % 4 := by
  unfold ELR_ALIGN sizeof_int
  have : SIZE_MOD = 2 ^ 64 := rfl
  rw [this] at hn ⊢
  rw [Nat.mod_eq_of_lt hn]
  exact and_align_mask (n + 3) hn

/-- The sizes `elr_mpl_create_ex` computes for an object size that does not
wrap them: slices hold their header and the object, and a node holds its header
and `slice_count` slices. -/
theorem create_sizes (n : Nat) (hn : n + 100 ≤ SIZE_MOD) :
    n + SLICE_HDR ≤ (SLICE_HDR + ELR_ALIGN n sizeof_int) % SIZE_MOD
    ∧ 0 < slice_count_of ((SLICE_HDR + ELR_ALIGN n sizeof_int) % SIZE_MOD)
    ∧ slice_count_of ((SLICE_HDR + ELR_ALIGN n sizeof_int) % SIZE_MOD) ≤ 64
    ∧ ((SLICE_HDR + ELR_ALIGN n sizeof_int) % SIZE_MOD
          * slice_count_of ((SLICE_HDR + ELR_ALIGN n sizeof_int) % SIZE_MOD) + NODE_HDR)
          % SIZE_MOD
        = NODE_HDR + slice_count_of ((SLICE_HDR + ELR_ALIGN n sizeof_int) % SIZE_MOD)
            * ((SLICE_HDR + ELR_ALIGN n sizeof_int) % SIZE_MOD) := by
  have hS : SIZE_MOD = 18446744073709551616 := by decide
  rw [hS] at hn
  rw [ELR_ALIGN_int n (by rw [hS]; omega), SLICE_HDR_eq, NODE_HDR_eq, hS]
  obtain ⟨al, hal⟩ : ∃ al, al = (n + 3) - (n + 3) % 4 := ⟨_, rfl⟩
  rw [← hal]
  have h1 : n ≤ al := by omega
  have h2 : al ≤ n + 3 := by omega
  rw [Nat.mod_eq_of_lt (by omega : 32 + al < 18446744073709551616)]
  unfold slice_count_of ELR_MAX_SLICE_SIZE ELR_MAX_SLICE_COUNT
  rw [hS]
  by_cases hsmall : 32 + al < 32768
  · simp only [hsmall, if_true]
    have h3 : (32 + al) * (64 - 1) % 18446744073709551616 = (32 + al) * 63 := by
      rw [Nat.mod_eq_of_lt (by omega)]
    rw [h3]
    have h4 : (32 + al) * 63 / 32768 ≤ 62 := by omega
    obtain ⟨q, hq⟩ : ∃ q, q = (32 + al) * 63 / 32768 := ⟨_, rfl⟩
    rw [← hq] at h4 ⊢
    have h5 : (64 + 18446744073709551616 - q) % 18446744073709551616 = 64 - q := by
      have : 64 + 18446744073709551616 - q = (64 - q) + 18446744073709551616 := by omega
      rw [this, Nat.add_mod_right, Nat.mod_eq_of_lt (by omega)]
    rw [h5]
    refine ⟨by omega, by omega, by omega, ?_⟩
    have h6 : (32 + al) * (64 - q) ≤ 32768 * 64 :=
      Nat.mul_le_mul (by omega) (by omega)
    rw [Nat.mod_eq_of_lt (by omega), Nat.mul_comm]
    omega
  · simp only [hsmall, if_false]
    refine ⟨by omega, by omega, by omega, ?_⟩
    rw [Nat.mod_eq_of_lt (by omega)]
    omega

theorem malloc_blocks_disjoint (s : State) (size : Nat) (h : blocks_disjoint s) :
    blocks_disjoint (malloc s size).1 := by
  unfold malloc
  split
  · exact h
  · exact h
  · rename_i a rest hs
    split_ifs with hf
    · unfold blocks_disjoint
      simp only
      rw [List.pairwise_cons]
      exact ⟨((sys_fresh_iff s a size).1 hf).2.2.2, h⟩
    · exact h

theorem alloc_mem_node_blocks (s : State) (P : Nat) :
    (_elr_alloc_mem_node s P).blocks = (malloc s (s.pool P).node_size).1.blocks := by
  simp only [_elr_alloc_mem_node, setNode_blocks, setPool_blocks, apply_ite State.blocks,
    ite_self]

theorem slice_from_node_blocks (s : State) (P : Nat) :
    (_elr_slice_from_node s P).1.blocks = s.blocks := by
  simp only [_elr_slice_from_node, setNode_blocks, setPool_blocks, setSlice_blocks,
    apply_ite Prod.fst, apply_ite State.blocks, ite_self]

theorem slice_from_free_list_blocks (s : State) (P : Nat) :
    (slice_from_free_list s P).1.blocks = s.blocks := by
  simp only [slice_from_free_list, setNode_blocks, setPool_blocks, setSlice_blocks,
    apply_ite State.blocks, ite_self]

theorem push_occupied_blocks (s : State) (P x : Nat) :
    (push_occupied s P x).blocks = s.blocks := by
  simp only [push_occupied, setNode_blocks, setPool_blocks, setSlice_blocks,
    apply_ite State.blocks, ite_self]

theorem slice_from_pool_blocks_disjoint (s : State) (P : Nat) (h : blocks_disjoint s) :
    blocks_disjoint (_elr_slice_from_pool s P).1 := by
  have hm := malloc_blocks_disjoint s (s.pool P).node_size h
  unfold blocks_disjoint at hm h ⊢
  rw [← alloc_mem_node_blocks] at hm
  simp only [_elr_slice_from_pool, apply_ite Prod.fst, apply_ite State.blocks,
    push_occupied_blocks, slice_from_free_list_blocks, slice_from_node_blocks]
  split_ifs <;> assumption

/-- The pool made by a successful `elr_mpl_create_ex` for an object size that
does not wrap the size computations satisfies the pool invariant, with no
node and no slice, and records the object size. -/
theorem PoolInv_create (s : State) (fpool : Option elr_mpl_t) (n a f : Nat)
    (hbd : blocks_disjoint s) (hn : n + 100 ≤ SIZE_MOD)
    (hok : (elr_mpl_create_ex s fpool n a f).2.pool ≠ 0) :
    PoolInv (elr_mpl_create_ex s fpool n a f).1 (elr_mpl_create_ex s fpool n a f).2.pool
      [] [] []
    ∧ ((elr_mpl_create_ex s fpool n a f).1.pool
        (elr_mpl_create_ex s fpool n a f).2.pool).object_size = n := by
  have hne : (_elr_slice_from_pool s g_mem_pool).2 ≠ 0 := by
    intro e
    apply hok
    unfold elr_mpl_create_ex
    simp [e, ELR_MPL_INITIALIZER]
  obtain ⟨e1, e2, e3, e4, e5⟩ := create_ex_pool s fpool n a f hne
  obtain ⟨c1, c2, c3, c4⟩ := create_sizes n hn
  rw [e1]
  obtain ⟨S, hS⟩ : ∃ S : State, S = (elr_mpl_create_ex s fpool n a f).1 := ⟨_, rfl⟩
  obtain ⟨P, hP⟩ : ∃ P : Nat, P = (_elr_slice_from_pool s g_mem_pool).2 + SLICE_HDR :=
    ⟨_, rfl⟩
  rw [← hS] at e2 e3 e4 e5 ⊢
  rw [← hP] at e2 ⊢
  unfold geometry_of at e2
  simp only [Prod.mk.injEq] at e2
  obtain ⟨g1, g2, g3, g4, g5, g6, g7, g8⟩ := e2
  have hbd2 : blocks_disjoint S := by
    unfold blocks_disjoint
    rw [e5]
    exact slice_from_pool_blocks_disjoint s g_mem_pool hbd
  have hS64 : (64 : Nat) < SIZE_MOD := by decide
  refine ⟨?_, g1⟩
  refine
    { blocks_ok := hbd2, ss_pos := ?_, sc_pos := ?_, sc_lt := ?_, ns_pos := ?_, geom := ?_,
      nodes := ?_, node_ok := ?_, newly_ok := ?_, frees := ?_, runs_keys := ?_, runs_ok := ?_,
      occ := ?_, occ_ok := ?_, disj := ?_, issued := ?_, tag_occ := ?_, tag_free := ?_ }
  · rw [g2, SLICE_HDR_eq] at *; omega
  · rw [g3]; exact c2
  · rw [g3]; omega
  · rw [g4, c4, NODE_HDR_eq]; omega
  · right; rw [g4, g3, g2, c4]
  · unfold node_list DLL
    rw [g5]
    exact ⟨rfl, trivial, List.nodup_nil⟩
  · intro m hm; simp at hm
  · left; exact g6
  · unfold free_list DLL
    rw [g7]
    exact ⟨rfl, trivial, List.nodup_nil⟩
  · simp
  · intro r hr; simp at hr
  · unfold occupied_list DLL
    rw [g8]
    exact ⟨rfl, trivial, List.nodup_nil⟩
  · intro z hz; simp at hz
  · intro z hz; simp at hz
  · intro z hz; simp [flat_nil] at hz
  · intro z hz; simp at hz
  · intro z hz; simp [flat_nil] at hz

/-- The function `elr_mpl_size` on the payload of an occupied slice. -/
theorem size_of_occupied {s : State} {P x : Nat} {NL : List Nat}
    {runs : List (Nat × List Nat)} {OL : List Nat} (h : PoolInv s P NL runs OL)
    (hx : x ∈ OL) : elr_mpl_size s (x + SLICE_HDR) = (s.pool P).object_size := by
  unfold elr_mpl_size
  simp only [Nat.add_sub_cancel]
  rw [(h.node_ok _ (h.occ_ok x hx)).1]

theorem free_dead_pool (s : State) (mem : Nat)
    (h : (s.slice ((s.node (s.slice (mem - SLICE_HDR)).node).owner - SLICE_HDR)).tag
      ≠ (s.pool (s.node (s.slice (mem - SLICE_HDR)).node).owner).slice_tag) :
    elr_mpl_free s mem = s := by
  unfold elr_mpl_free
  simp only [h, ne_eq, not_false_eq_true, if_true]

theorem Live_alloc {s : State} {hp : elr_mpl_t} {live : List Nat} (h : Live s hp.pool live) :
    Live (elr_mpl_alloc s hp).1 hp.pool
      (if (elr_mpl_alloc s hp).2 = 0 then live else (elr_mpl_alloc s hp).2 :: live) := by
  obtain ⟨NL, runs, OL, hinv, hnd, hl⟩ := h
  rcases @PoolInv_alloc _ hp _ _ _ hinv with ⟨e, hinv2⟩ | ⟨e, e2, hf, NL2, runs2, hinv2⟩
  · rw [if_pos e]
    exact ⟨NL, runs, OL, hinv2, hnd, hl⟩
  · rw [if_neg e]
    refine ⟨NL2, runs2, _, hinv2, ?_, ?_⟩
    · rw [List.nodup_cons]
      exact ⟨fun hm => hf (hl _ hm).2, hnd⟩
    · intro p hp2
      rcases List.mem_cons.1 hp2 with rfl | hp2
      · exact ⟨by omega, List.mem_cons_self _ _⟩
      · exact ⟨(hl p hp2).1, List.mem_cons_of_mem _ (hl p hp2).2⟩

theorem Live_free {s : State} {P mem : Nat} {live : List Nat} (h : Live s P live)
    (hm : mem ∈ live) : Live (elr_mpl_free s mem) P (live.erase mem) := by
  obtain ⟨NL, runs, OL, hinv, hnd, hl⟩ := h
  obtain ⟨hm1, hm2⟩ := hl mem hm
  have hmem : mem = (mem - SLICE_HDR) + SLICE_HDR := by omega
  have hown : (s.node (s.slice (mem - SLICE_HDR)).node).owner = P :=
    (hinv.node_ok _ (hinv.occ_ok _ hm2)).1
  have hsub : ∀ p ∈ live.erase mem, SLICE_HDR ≤ p ∧ p - SLICE_HDR ∈ OL.erase (mem - SLICE_HDR) := by
    intro p hp
    have hp1 := List.mem_of_mem_erase hp
    have hne : p ≠ mem := fun e => (List.Nodup.not_mem_erase hnd) (e ▸ hp)
    refine ⟨(hl p hp1).1, (List.mem_erase_of_ne ?_).2 (hl p hp1).2⟩
    have := (hl p hp1).1
    omega
  by_cases htag : (s.slice (P - SLICE_HDR)).tag = (s.pool P).slice_tag
  · obtain ⟨hrel, hkeep⟩ := PoolInv_free hinv hm2 htag
    rw [← hmem] at hrel hkeep
    by_cases hc : (s.node (s.slice (mem - SLICE_HDR)).node).using_slice_count = 1
        ∧ s.g_occupation_size ≥ ELR_AUTO_FREE_NODE_THRESHOLD
    · exact ⟨_, _, _, (hrel hc).1, hnd.erase _, hsub⟩
    · obtain ⟨runs2, hinv2, _⟩ := hkeep hc
      exact ⟨_, _, _, hinv2, hnd.erase _, hsub⟩
  · rw [free_dead_pool s mem (by rw [hown]; exact htag)]
    refine ⟨NL, runs, OL, hinv, hnd.erase _, ?_⟩
    intro p hp
    exact hl p (List.mem_of_mem_erase hp)

theorem Live_run_ops (hp : elr_mpl_t) (ops : List Op) :
    ∀ (s : State) (live : List Nat), Live s hp.pool live →
      Live (run_ops hp ops (s, live)).1 hp.pool (run_ops hp ops (s, live)).2
      ∧ static_of ((run_ops hp ops (s, live)).1.pool hp.pool) = static_of (s.pool hp.pool) := by
  induction ops with
  | nil => intro s live h; exact ⟨h, rfl⟩
  | cons op ops ih =>
    intro s live h
    cases op with
    | alloc =>
      simp only [run_ops]
      obtain ⟨h1, h2⟩ := ih _ _ (Live_alloc h)
      exact ⟨h1, h2.trans (alloc_static s hp hp.pool)⟩
    | free mem =>
      simp only [run_ops]
      split_ifs with hm
      · obtain ⟨h1, h2⟩ := ih _ _ (Live_free h hm)
        exact ⟨h1, h2.trans (free_static s mem hp.pool)⟩
      · exact ih _ _ h

theorem Live_size {s : State} {P : Nat} {live : List Nat} (h : Live s P live) {p : Nat}
    (hp : p ∈ live) : elr_mpl_size s p = (s.pool P).object_size := by
  obtain ⟨NL, runs, OL, hinv, hnd, hl⟩ := h
  obtain ⟨h1, h2⟩ := hl p hp
  have := size_of_occupied hinv h2
  rwa [Nat.sub_add_cancel h1] at this

/-- The invariant of a pool reads its sizes and list heads only. -/
theorem PoolInv_of_geometry {s S : State} {P : Nat} {NL : List Nat}
    {runs : List (Nat × List Nat)} {OL : List Nat} (h : PoolInv s P NL runs OL)
    (h1 : S.slice = s.slice) (h2 : S.node = s.node) (h4 : S.blocks = s.blocks)
    (h3 : geometry_of (S.pool P) = geometry_of (s.pool P)) : PoolInv S P NL runs OL := by
  unfold geometry_of at h3
  simp only [Prod.mk.injEq] at h3
  obtain ⟨g1, g2, g3, g4, g5, g6, g7, g8⟩ := h3
  refine
    { blocks_ok := ?_, ss_pos := ?_, sc_pos := ?_, sc_lt := ?_, ns_pos := ?_, geom := ?_,
      nodes := ?_, node_ok := ?_, newly_ok := ?_, frees := ?_, runs_keys := h.runs_keys,
      runs_ok := ?_, occ := ?_, occ_ok := ?_, disj := h.disj, issued := ?_, tag_occ := ?_,
      tag_free := ?_ }
  · unfold blocks_disjoint; rw [h4]; exact h.blocks_ok
  · rw [g2]; exact h.ss_pos
  · rw [g3]; exact h.sc_pos
  · rw [g3]; exact h.sc_lt
  · rw [g4]; exact h.ns_pos
  · rw [g3, g2, g4]; exact h.geom
  · unfold node_list; rw [h2, g5]; exact h.nodes
  · intro m hm
    exact NodeInv_transfer (h.node_ok m hm) (by rw [h2]; exact ⟨rfl, rfl, rfl, rfl, rfl, rfl⟩)
      g4 g3 g2 (by rw [g6]; exact id) (by rw [h4]; exact id) (by rw [h1]) rfl (fun z hz => hz)
  · rw [g6, g3, h2]; exact h.newly_ok
  · unfold free_list; rw [h1, g7]; exact h.frees
  · rw [h1]; exact h.runs_ok
  · unfold occupied_list; rw [h1, g8]; exact h.occ
  · rw [h1]; exact h.occ_ok
  · rw [h1, h2, g2]; exact h.issued
  · rw [h1]; exact h.tag_occ
  · rw [h1]; exact h.tag_free

theorem setPool_pool_ne (s : State) (a : Nat) (v : elr_mem_pool) {p : Nat} (h : p ≠ a) :
    (s.setPool a v).pool p = s.pool p := by
  rw [setPool_pool, if_neg h]

theorem init_pool_pool_ne (s : State) (ps P : Nat) (fpool : Option elr_mpl_t) (n a f : Nat)
    {p : Nat} (h : p ≠ P) : (init_pool s ps P fpool n a f).pool p = s.pool p := by
  simp only [init_pool, setPool_pool_ne _ _ _ h]

theorem alloc_mem_node_pool (s : State) (P : Nat) :
    (_elr_alloc_mem_node s P).pool = fun p =>
      if (malloc s (s.pool P).node_size).2 ≠ 0 ∧ p = P then
        { s.pool P with newly_alloc_node := (malloc s (s.pool P).node_size).2,
                        first_node := (malloc s (s.pool P).node_size).2 }
      else s.pool p := by
  unfold _elr_alloc_mem_node
  have hp := malloc_pool s (s.pool P).node_size
  generalize malloc s (s.pool P).node_size = r at hp
  obtain ⟨s1, a⟩ := r
  simp only at hp
  simp only [setNode_pool, setPool_pool, hp, apply_ite State.pool]
  funext p
  by_cases ha : a = 0 <;> by_cases hf : (s.pool P).first_node = 0 <;> by_cases hpP : p = P <;>
    simp [ha, hf, hpP, hp]

theorem slice_from_pool_pool_ne (s : State) (P : Nat) {p : Nat} (h : p ≠ P) :
    (_elr_slice_from_pool s P).1.pool p = s.pool p := by
  have e1 : ∀ s : State, (_elr_alloc_mem_node s P).pool p = s.pool p := by
    intro s
    rw [alloc_mem_node_pool]
    simp only [h, and_false, if_false]
  have e2 : ∀ s : State, (_elr_slice_from_node s P).1.pool p = s.pool p := by
    intro s
    simp only [_elr_slice_from_node, apply_ite Prod.fst, apply_ite State.pool, ite_apply,
      setPool_pool_ne _ _ _ h, setNode_pool, setSlice_pool, ite_self]
  have e3 : ∀ s : State, (slice_from_free_list s P).1.pool p = s.pool p := by
    intro s
    simp only [slice_from_free_list, apply_ite State.pool, ite_apply,
      setPool_pool_ne _ _ _ h, setNode_pool, setSlice_pool, ite_self]
  have e4 : ∀ (s : State) (x : Nat), (push_occupied s P x).pool p = s.pool p := by
    intro s x
    simp only [push_occupied, apply_ite State.pool, ite_apply,
      setPool_pool_ne _ _ _ h, setNode_pool, setSlice_pool, ite_self]
  simp only [_elr_slice_from_pool, apply_ite Prod.fst, apply_ite State.pool, ite_apply,
    e1, e2, e3, e4, ite_self]

theorem parent_setPool (s : State) (a p : Nat) (v : elr_mem_pool) :
    ((s.setPool a v).pool p).parent = if p = a then v.parent else (s.pool p).parent := by
  rw [setPool_pool]
  split_ifs <;> rfl

theorem parent_ite (s : State) (p a : Nat) :
    (if p = a then (s.pool a).parent else (s.pool p).parent) = (s.pool p).parent := by
  split_ifs with h
  · rw [h]
  · rfl

theorem parent_ite_state (c : Prop) [Decidable c] (A B : State) (p : Nat) :
    ((if c then A else B).pool p).parent
      = if c then (A.pool p).parent else (B.pool p).parent := by
  split_ifs <;> rfl

theorem init_pool_parent (s : State) (ps P : Nat) (fpool : Option elr_mpl_t) (n a f : Nat) :
    ((init_pool s ps P fpool n a f).pool P).parent
      = parent_of fpool := by
  simp only [init_pool, setPool_pool, if_true]

/-- Lines 251-255 of `elr_mpl_create_ex` leave every `parent` field alone and
make the pool the first child of its parent. -/
theorem link_pool_parent (s : State) (P p : Nat) :
    ((link_pool s P).pool p).parent = (s.pool p).parent
    ∧ ((link_pool s P).pool (s.pool P).parent).first_child = P := by
  have key : ∀ sc : State, (sc.pool P).parent = (s.pool P).parent →
      ((sc.setPool (sc.pool P).parent
          { sc.pool (sc.pool P).parent with first_child := P }).pool
        (s.pool P).parent).first_child = P := by
    intro sc hq
    rw [hq, setPool_pool, if_pos rfl]
  constructor
  · simp only [link_pool, parent_setPool, parent_ite, parent_ite_state, ite_self]
  · unfold link_pool
    refine key _ ?_
    simp only [parent_setPool, parent_ite, parent_ite_state, ite_self, if_true]

theorem slice_from_pool_static_clear (s : State) (P : Nat) (h : static_clear s) :
    static_clear (_elr_slice_from_pool s P).1 := by
  have hm : static_clear (_elr_alloc_mem_node s P) := by
    unfold static_clear
    rw [alloc_mem_node_blocks]
    unfold malloc
    split
    · exact h
    · exact h
    · rename_i a rest hs
      split_ifs with hf
      · intro b hb
        simp only [List.mem_cons] at hb
        rcases hb with rfl | hb
        · exact ((sys_fresh_iff s a _).1 hf).2.2.1
        · exact h b hb
      · exact h
  unfold static_clear at hm h ⊢
  simp only [_elr_slice_from_pool, apply_ite Prod.fst, apply_ite State.blocks,
    push_occupied_blocks, slice_from_free_list_blocks, slice_from_node_blocks]
  split_ifs <;> assumption

/-- The payload of a slice of the lists of a pool whose nodes hold their
slices is not the static `g_mem_pool`. -/
theorem PoolInv.payload_ne_global {s : State} {P : Nat} {NL : List Nat}
    {runs : List (Nat × List Nat)} {OL : List Nat} (h : PoolInv s P NL runs OL)
    (hst : static_clear s) (hsc : (s.pool P).slice_count ≠ 1) {x : Nat}
    (hx : x ∈ flat runs ++ OL) : x + SLICE_HDR ≠ g_mem_pool := by
  obtain ⟨hn, i, hi, hxi⟩ := h.slice_place hx
  have hb := hst _ (h.node_ok _ hn).2.1
  rw [disjoint_iff] at hb
  have hg : NODE_HDR + (s.pool P).slice_count * (s.pool P).slice_size ≤ (s.pool P).node_size := by
    rcases h.geom with e | e
    · exact absurd e hsc
    · exact e
  have hss := h.ss_pos
  have h1 : (i + 1) * (s.pool P).slice_size ≤ (s.pool P).slice_count * (s.pool P).slice_size :=
    Nat.mul_le_mul_right _ hi
  rw [Nat.add_mul, Nat.one_mul] at h1
  have hG : g_mem_pool = 4096 := rfl
  have hp : sizeof_elr_mem_pool = 136 := rfl
  simp only at hb
  rw [hG, SLICE_HDR_eq, hp] at hb
  rw [hG, SLICE_HDR_eq]
  rw [NODE_HDR_eq] at hg hxi
  omega

theorem create_ex_state (s : State) (fpool : Option elr_mpl_t) (n a f : Nat)
    (hne : (_elr_slice_from_pool s g_mem_pool).2 ≠ 0) :
    (elr_mpl_create_ex s fpool n a f).1
      = link_pool (init_pool (_elr_slice_from_pool s g_mem_pool).1
          (_elr_slice_from_pool s g_mem_pool).2
          ((_elr_slice_from_pool s g_mem_pool).2 + SLICE_HDR) fpool n a f)
          ((_elr_slice_from_pool s g_mem_pool).2 + SLICE_HDR) := by
  unfold elr_mpl_create_ex
  simp only [hne, if_false]

/-- C10: when the pool has no free slice and no node in its bump phase, so that
a node is requested, and the system allocator refuses the request,
`elr_mpl_alloc` returns null and `elr_mpl_create_ex` (whose request is made by
`g_mem_pool`) returns the null handle; the state after the call is the state
before it with the allocator's answer consumed: every pool, node and slice
(hence the node list, `newly_alloc_node`, free list and occupied list of the
pool) and `g_occupation_size` are as before. -/
theorem alloc_refused_state_unchanged (s : State) (h : elr_mpl_t) (fpool : Option elr_mpl_t)
    (obj_size on_alloc on_free : Nat) :
    ((s.slice (h.pool - SLICE_HDR)).tag = (s.pool h.pool).slice_tag →
      (s.pool h.pool).first_free_slice = 0 →
      (s.pool h.pool).newly_alloc_node = 0 →
      (malloc s (s.pool h.pool).node_size).2 = 0 →
      elr_mpl_alloc s h = ({ s with sys := s.sys.tail }, 0))
    ∧ ((s.slice (g_mem_pool - SLICE_HDR)).tag = (s.pool g_mem_pool).slice_tag →
      (s.pool g_mem_pool).first_free_slice = 0 →
      (s.pool g_mem_pool).newly_alloc_node = 0 →
      (malloc s (s.pool g_mem_pool).node_size).2 = 0 →
      elr_mpl_create_ex s fpool obj_size on_alloc on_free
        = ({ s with sys := s.sys.tail }, ELR_MPL_INITIALIZER)) := by
  constructor
  · intro htag hfree hnew hm
    unfold elr_mpl_alloc
    simp [slice_from_pool_refused s h.pool htag hfree hnew hm]
  · intro htag hfree hnew hm
    unfold elr_mpl_create_ex
    simp [slice_from_pool_refused s g_mem_pool htag hfree hnew hm]

/-- C10 (example): after `elr_mpl_init` and `p = elr_mpl_create(NULL, 256)` with
an allocator that refuses from then on, `elr_mpl_alloc(&p)` is a refused node
request; after 51 further creations the first node of `g_mem_pool` is used up
and `elr_mpl_create` is a refused node request. -/
theorem alloc_refused_state_unchanged_witness :
    (elr_mpl_alloc (elr_mpl_create (booted []) none 256).1
        (elr_mpl_create (booted []) none 256).2
      = ({ (elr_mpl_create (booted []) none 256).1 with
            sys := (elr_mpl_create (booted []) none 256).1.sys.tail }, 0))
    ∧ (elr_mpl_create_ex (create_many 51 (booted [])) none 8 0 0
      = ({ create_many 51 (booted []) with sys := (create_many 51 (booted [])).sys.tail },
          ELR_MPL_INITIALIZER)) :=
  ⟨(alloc_refused_state_unchanged (elr_mpl_create (booted []) none 256).1
      (elr_mpl_create (booted []) none 256).2 none 0 0 0).1
      (by decide!) (by decide!) (by decide!) (by decide!),
    (alloc_refused_state_unchanged (create_many 51 (booted [])) ⟨0, 0⟩ none 8 0 0).2
      (by decide!) (by decide!) (by decide!) (by decide!)⟩

/-! ### Multi-size dispatch -/

/-- The scan of `multi[]` returns the entry of least index whose `object_size`
is at least `size`, when there is one and the entries are not null. -/
theorem scan_multi_first (s : State) (pool : Nat) (size : Nat) :
    ∀ n i : Nat, (∃ j : Nat, i ≤ j ∧ j < i + n
        ∧ size ≤ (s.pool (multi_at s pool j)).object_size) →
      ∃ k : Nat, i ≤ k ∧ k < i + n
        ∧ size ≤ (s.pool (multi_at s pool k)).object_size
        ∧ (∀ j : Nat, i ≤ j → j < k →
            (s.pool (multi_at s pool j)).object_size < size)
        ∧ scan_multi s pool size n i = multi_at s pool k := by
  intro n
  induction n with
  | zero =>
    intro i ⟨j, h1, h2, _⟩
    omega
  | succ n ih =>
    intro i ⟨j, h1, h2, h3⟩
    by_cases hi : size ≤ (s.pool (multi_at s pool i)).object_size
    · refine ⟨i, le_refl _, by omega, hi, ?_, ?_⟩
      · intro j hj1 hj2
        omega
      · simp [scan_multi, hi]
    · have hj : i + 1 ≤ j := by
        rcases Nat.eq_or_lt_of_le h1 with h | h
        · subst h
          exact absurd h3 hi
        · exact h
      obtain ⟨k, k1, k2, k3, k4, k5⟩ := ih (i + 1) ⟨j, hj, by omega, h3⟩
      refine ⟨k, by omega, by omega, k3, ?_, ?_⟩
      · intro j hj1 hj2
        rcases Nat.eq_or_lt_of_le hj1 with h | h
        · subst h
          omega
        · exact k4 j h hj2
      · simp only [scan_multi]
        rw [if_neg (by omega), k5]

/-- C2: when the handle is valid, the entries of `multi[]` are not null and
their object sizes ascend, and `size` is not larger than the largest class,
`elr_mpl_alloc_multi` is `elr_mpl_alloc` on a class `multi[k]` with
`object_size >= size` and with the smallest object size among the classes that
are large enough.  (`hpool = none` is the null pointer, standing for
`g_multi_mem_pool`.) -/
theorem alloc_multi_smallest_class (fuel : Nat) (s : State) (hpool : Option elr_mpl_t)
    (size : Nat)
    (htag : (multi_handle s hpool).tag
      = (s.pool (multi_handle s hpool).pool).slice_tag)
    (hslice : (s.pool (multi_handle s hpool).pool).slice_tag
      = (s.slice ((multi_handle s hpool).pool - SLICE_HDR)).tag)
    (hnull : ∀ i : Nat, i < (s.pool (multi_handle s hpool).pool).multi_count →
      multi_at s (multi_handle s hpool).pool i ≠ 0)
    (hasc : ∀ j : Nat, j < (s.pool (multi_handle s hpool).pool).multi_count →
      ∀ i : Nat, i ≤ j →
      (s.pool (multi_at s (multi_handle s hpool).pool i)).object_size
        ≤ (s.pool (multi_at s (multi_handle s hpool).pool j)).object_size)
    (hcount : 0 < (s.pool (multi_handle s hpool).pool).multi_count)
    (hsize : size ≤ (s.pool (multi_at s (multi_handle s hpool).pool
      ((s.pool (multi_handle s hpool).pool).multi_count - 1))).object_size) :
    ∃ k : Nat, k < (s.pool (multi_handle s hpool).pool).multi_count
      ∧ size ≤ (s.pool (multi_at s (multi_handle s hpool).pool k)).object_size
      ∧ (∀ j : Nat, j < (s.pool (multi_handle s hpool).pool).multi_count →
          size ≤ (s.pool (multi_at s (multi_handle s hpool).pool j)).object_size →
          (s.pool (multi_at s (multi_handle s hpool).pool k)).object_size
            ≤ (s.pool (multi_at s (multi_handle s hpool).pool j)).object_size)
      ∧ elr_mpl_alloc_multi fuel s hpool size
          = some (elr_mpl_alloc s ⟨multi_at s (multi_handle s hpool).pool k,
              (s.pool (multi_at s (multi_handle s hpool).pool k)).slice_tag⟩) := by
  unfold elr_mpl_alloc_multi
  generalize multi_handle s hpool = h at *
  obtain ⟨k, _, k2, k3, k4, k5⟩ := scan_multi_first s h.pool size (s.pool h.pool).multi_count 0
    ⟨(s.pool h.pool).multi_count - 1, Nat.zero_le _, by omega, hsize⟩
  have k2 : k < (s.pool h.pool).multi_count := by omega
  refine ⟨k, k2, k3, ?_, ?_⟩
  · intro j hj hsz
    rcases Nat.lt_or_ge j k with hlt | hge
    · have := k4 j (Nat.zero_le _) hlt
      omega
    · exact hasc j hj k hge
  · have hk0 := hnull k k2
    simp only [htag, hslice, k5, hk0, ne_eq, not_true_eq_false, or_self, if_false,
      not_false_eq_true, if_true]

/-- C2 (example): after `elr_mpl_init` the hypotheses above hold for the global
multi-size pool and a request of 69 bytes, which gets a block of size 98; a
request of 0 bytes gets a block of the 64-byte class. -/
theorem alloc_multi_smallest_class_witness :
    (∃ k : Nat, k < (((booted [some 300000]).pool
          (multi_handle (booted [some 300000]) none).pool).multi_count)
      ∧ 69 ≤ ((booted [some 300000]).pool (multi_at (booted [some 300000])
          (multi_handle (booted [some 300000]) none).pool k)).object_size
      ∧ (∀ j : Nat, j < (((booted [some 300000]).pool
          (multi_handle (booted [some 300000]) none).pool).multi_count) →
          69 ≤ ((booted [some 300000]).pool (multi_at (booted [some 300000])
            (multi_handle (booted [some 300000]) none).pool j)).object_size →
          ((booted [some 300000]).pool (multi_at (booted [some 300000])
            (multi_handle (booted [some 300000]) none).pool k)).object_size
            ≤ ((booted [some 300000]).pool (multi_at (booted [some 300000])
            (multi_handle (booted [some 300000]) none).pool j)).object_size)
      ∧ elr_mpl_alloc_multi 8 (booted [some 300000]) none 69
          = some (elr_mpl_alloc (booted [some 300000])
              ⟨multi_at (booted [some 300000])
                (multi_handle (booted [some 300000]) none).pool k,
              ((booted [some 300000]).pool (multi_at (booted [some 300000])
                (multi_handle (booted [some 300000]) none).pool k)).slice_tag⟩))
    ∧ (elr_mpl_alloc_multi 8 (booted [some 300000]) none 69).map
        (fun r => (decide (r.2 ≠ 0), elr_mpl_size r.1 r.2)) = some (true, 98)
    ∧ (elr_mpl_alloc_multi 8 (booted [some 300000]) none 0).map
        (fun r => (decide (r.2 ≠ 0), elr_mpl_size r.1 r.2)) = some (true, 64) :=
  ⟨alloc_multi_smallest_class 8 (booted [some 300000]) none 69 (by decide!) (by decide!)
      (by decide!) (by decide!) (by decide!) (by decide!),
    by decide!, by decide!⟩

/-- C3: on the state after `elr_mpl_init`, `elr_mpl_alloc_multi(NULL, 2096)`
returns a block of size 3072, but `elr_mpl_alloc_multi(NULL, 2^64 - 1)`
succeeds with a block whose `elr_mpl_size` is 0: the rounding to a multiple of
`ELR_OVERRANGE_UNIT_SIZE` wraps around in `size_t`. -/
theorem alloc_multi_overrange_wraps :
    (elr_mpl_alloc_multi 8 (booted [some 300000]) none 2096).map
        (fun r => (decide (r.2 ≠ 0), elr_mpl_size r.1 r.2)) = some (true, 3072)
    ∧ (elr_mpl_alloc_multi 8 (booted [some 300000]) none (2 ^ 64 - 1)).map
        (fun r => (decide (r.2 ≠ 0), elr_mpl_size r.1 r.2)) = some (true, 0) := by
  decide!

/-- C4: on the state after `elr_mpl_init`, two calls
`elr_mpl_alloc_multi(NULL, 2096)` leave the same first child under the largest
class pool (the oversize pool is reused), but two calls
`elr_mpl_alloc_multi(NULL, 2^64 - 1)` both succeed and the second one creates a
further pool: the pool made by the first call has `object_size` 0 after the
wrap-around of the rounding, so the sibling scan does not find it. -/
theorem alloc_multi_overrange_not_reused :
    ((elr_mpl_alloc_multi 8 (booted [some 300000, some 400000]) none 2096).bind (fun r1 =>
        (elr_mpl_alloc_multi 8 r1.1 none 2096).map (fun r2 =>
          (decide (r1.2 ≠ 0), decide (r2.2 ≠ 0),
            (r1.1.pool largest_class).first_child, (r2.1.pool largest_class).first_child))))
      = some (true, true, 133352, 133352)
    ∧ ((elr_mpl_alloc_multi 8 (booted [some 300000, some 400000]) none (2 ^ 64 - 1)).bind
        (fun r1 =>
        (elr_mpl_alloc_multi 8 r1.1 none (2 ^ 64 - 1)).map (fun r2 =>
          (decide (r1.2 ≠ 0), decide (r2.2 ≠ 0),
            (r1.1.pool largest_class).first_child, (r2.1.pool largest_class).first_child))))
      = some (true, true, 133352, 133520) := by
  decide!

/-- C5: a handle of a destroyed pool can become valid again.  After
`elr_mpl_init`, a pool of 1 GiB objects is created and one object allocated
(so `g_occupation_size` exceeds the auto-free threshold), 50 more pools fill
the first node of `g_mem_pool`, and `h = elr_mpl_create(NULL, 8)` lands in a
second node at `2000000000`.  `elr_mpl_avail(h)` is true; after
`elr_mpl_destroy` on a copy of `h` it is false and the second node has gone
back to the system; the next `elr_mpl_create(NULL, 8)` gets a node at the same
address, and `elr_mpl_avail(h)` is true again although the pool of `h` was
destroyed. -/
theorem stale_handle_valid_again :
    (elr_mpl_destroy 8 stale_scenario.1 stale_scenario.2).map (fun d =>
        (elr_mpl_avail stale_scenario.1 stale_scenario.2, elr_mpl_avail d.1 stale_scenario.2,
          decide ((2000000000, 10816) ∈ d.1.blocks),
          decide ((elr_mpl_create d.1 none 8).2 = stale_scenario.2),
          elr_mpl_avail (elr_mpl_create d.1 none 8).1 stale_scenario.2))
      = some (true, false, false, true, true) := by
  decide!

/-- C7 (as stated, refuted): after `elr_mpl_init`, `p = elr_mpl_create(NULL, 256)`
and `c = elr_mpl_create(&p, 128)`, the slice that holds the pool object of `c`
lies in a node owned by `g_mem_pool`, not by `p`, and the occupied list of `p`
is still empty. -/
theorem create_slice_not_from_parent :
    child_scenario.2.pool ≠ 0
    ∧ (child_scenario.1.node
        (child_scenario.1.slice (child_scenario.2.pool - SLICE_HDR)).node).owner = g_mem_pool
    ∧ (child_scenario.1.node
        (child_scenario.1.slice (child_scenario.2.pool - SLICE_HDR)).node).owner
          ≠ (elr_mpl_create (booted []) none 256).2.pool
    ∧ ((elr_mpl_create (booted []) none 256).1.pool
        (elr_mpl_create (booted []) none 256).2.pool).first_occupied_slice = 0
    ∧ (child_scenario.1.pool (elr_mpl_create (booted []) none 256).2.pool).first_occupied_slice
        = 0
    ∧ (child_scenario.1.pool g_mem_pool).first_occupied_slice
        = child_scenario.2.pool - SLICE_HDR := by
  decide!

set_option synthInstance.maxSize 1024 in
/-- C9: `elr_mpl_finalize` does not put `g_multi_mem_pool` back to null.  After
`elr_mpl_init(); elr_mpl_finalize();` the global pool has no child and no node
and no block is live, but `g_multi_mem_pool.pool` still holds the address of
the destroyed pool; a second `elr_mpl_init()` for which the system returns the
node of `g_mem_pool` at another address (`900000` instead of `131072`) fails
(returns 0, reference count back to 0) and leaves that node allocated. -/
theorem finalize_keeps_multi_handle :
    ((elr_mpl_init 40 (zero_state twice_sys)).bind (fun r1 =>
      (elr_mpl_finalize 40 r1.1).map (fun s2 =>
        (r1.2, r1.1.g_multi_mem_pool.pool, s2.g_mpl_refs,
          (s2.pool g_mem_pool).first_child, (s2.pool g_mem_pool).first_node, s2.blocks,
          s2.g_multi_mem_pool.pool))))
      = some (1, 131168, 0, 0, 0, [], 131168)
    ∧ ((elr_mpl_init 40 (zero_state twice_sys)).bind (fun r1 =>
      (elr_mpl_finalize 40 r1.1).bind (fun s2 =>
        (elr_mpl_init 40 s2).map (fun r3 => (r3.2, r3.1.g_mpl_refs, r3.1.blocks)))))
      = some (0, 0, [(900000, 10816)]) := by
  decide!

/-- Object sizes that do not wrap around (`n + 100 ≤ 2^64`): a pool made by a successful `elr_mpl_create_ex` with object size `n`
(`n + 100 ≤ 2^64`, so that the size computations of the creation do not wrap),
then any sequence of `elr_mpl_alloc` calls and `elr_mpl_free` calls on live
payloads of that pool: for every payload `p` that was returned by
`elr_mpl_alloc` and not yet freed, `elr_mpl_size(p)` is `n`. -/
theorem size_of_live_payload (s : State) (fpool : Option elr_mpl_t) (n a f : Nat)
    (ops : List Op) (hbd : blocks_disjoint s) (hn : n + 100 ≤ SIZE_MOD)
    (hok : (elr_mpl_create_ex s fpool n a f).2.pool ≠ 0) :
    ∀ p ∈ (run_ops (elr_mpl_create_ex s fpool n a f).2 ops
        ((elr_mpl_create_ex s fpool n a f).1, [])).2,
      elr_mpl_size (run_ops (elr_mpl_create_ex s fpool n a f).2 ops
        ((elr_mpl_create_ex s fpool n a f).1, [])).1 p = n := by
  obtain ⟨hinv, hobj⟩ := PoolInv_create s fpool n a f hbd hn hok
  have hlive : Live (elr_mpl_create_ex s fpool n a f).1 (elr_mpl_create_ex s fpool n a f).2.pool
      [] := ⟨[], [], [], hinv, List.nodup_nil, fun p hp => by simp at hp⟩
  obtain ⟨h1, h2⟩ := Live_run_ops (elr_mpl_create_ex s fpool n a f).2 ops _ _ hlive
  intro p hp
  rw [Live_size h1 hp, static_of_object_size h2, hobj]

/-- Example: `p = elr_mpl_create(NULL, 256)`, two allocations, the release
of the first payload and one more allocation leave the payloads `300096` and
`300384` live, and `elr_mpl_size` is 256 on both. -/
theorem size_of_live_payload_witness :
    (run_ops (elr_mpl_create_ex (booted [some 300000]) none 256 0 0).2
        [Op.alloc, Op.alloc, Op.free 300096, Op.alloc]
        ((elr_mpl_create_ex (booted [some 300000]) none 256 0 0).1, [])).2 = [300096, 300384]
    ∧ ∀ p ∈ (run_ops (elr_mpl_create_ex (booted [some 300000]) none 256 0 0).2
        [Op.alloc, Op.alloc, Op.free 300096, Op.alloc]
        ((elr_mpl_create_ex (booted [some 300000]) none 256 0 0).1, [])).2,
      elr_mpl_size (run_ops (elr_mpl_create_ex (booted [some 300000]) none 256 0 0).2
        [Op.alloc, Op.alloc, Op.free 300096, Op.alloc]
        ((elr_mpl_create_ex (booted [some 300000]) none 256 0 0).1, [])).1 p = 256 :=
  ⟨by decide!, size_of_live_payload (booted [some 300000]) none 256 0 0
    [Op.alloc, Op.alloc, Op.free 300096, Op.alloc] (by decide!) (by decide) (by decide!)⟩


/-- C7 (amended): a successful `elr_mpl_create_ex`, whatever the parent, takes
the slice that holds the new pool object from `g_mem_pool`: the slice was not
occupied, it is now the head of the occupied list of `g_mem_pool`, whose other
slices are as before, and it lies in a node owned by `g_mem_pool`.  The new
pool has the requested parent and is the first child of that parent; the sizes
and the four lists (nodes, bump node, free slices, occupied slices) of a
non-null parent are as before the call. -/
theorem create_slice_from_global {s : State} {NL : List Nat} {runs : List (Nat × List Nat)}
    {OL : List Nat} (fpool : Option elr_mpl_t) (n a f : Nat)
    (hG : PoolInv s g_mem_pool NL runs OL) (hst : static_clear s)
    (hsc : (s.pool g_mem_pool).slice_count ≠ 1)
    (hpar : ∀ h, fpool = some h → SLICE_HDR ≤ h.pool ∧ h.pool - SLICE_HDR ∈ OL)
    (hok : (elr_mpl_create_ex s fpool n a f).2.pool ≠ 0) :
    (elr_mpl_create_ex s fpool n a f).2.pool
      = ((elr_mpl_create_ex s fpool n a f).2.pool - SLICE_HDR) + SLICE_HDR
    ∧ (elr_mpl_create_ex s fpool n a f).2.pool - SLICE_HDR ∉ OL
    ∧ occupied_list (elr_mpl_create_ex s fpool n a f).1 g_mem_pool
        (((elr_mpl_create_ex s fpool n a f).2.pool - SLICE_HDR) :: OL)
    ∧ ((elr_mpl_create_ex s fpool n a f).1.node
        ((elr_mpl_create_ex s fpool n a f).1.slice
          ((elr_mpl_create_ex s fpool n a f).2.pool - SLICE_HDR)).node).owner = g_mem_pool
    ∧ (∃ NL2 runs2, PoolInv (elr_mpl_create_ex s fpool n a f).1 g_mem_pool NL2 runs2
        (((elr_mpl_create_ex s fpool n a f).2.pool - SLICE_HDR) :: OL))
    ∧ ((elr_mpl_create_ex s fpool n a f).1.pool (elr_mpl_create_ex s fpool n a f).2.pool).parent
        = parent_of fpool
    ∧ ((elr_mpl_create_ex s fpool n a f).1.pool
        (parent_of fpool)).first_child = (elr_mpl_create_ex s fpool n a f).2.pool
    ∧ (∀ h, fpool = some h →
        geometry_of ((elr_mpl_create_ex s fpool n a f).1.pool h.pool)
          = geometry_of (s.pool h.pool)) := by
  have hne : (_elr_slice_from_pool s g_mem_pool).2 ≠ 0 := by
    intro e
    apply hok
    unfold elr_mpl_create_ex
    simp [e, ELR_MPL_INITIALIZER]
  obtain ⟨e1, _, _, _, _⟩ := create_ex_pool s fpool n a f hne
  have eS := create_ex_state s fpool n a f hne
  rcases PoolInv_slice_from_pool hG with ⟨e, _⟩ | ⟨_, hxOL, NL2, runs2, hinv1⟩
  · exact absurd e hne
  have hst1 := slice_from_pool_static_clear s g_mem_pool hst
  have hsc1 : ((_elr_slice_from_pool s g_mem_pool).1.pool g_mem_pool).slice_count ≠ 1 := by
    rw [static_of_slice_count (slice_from_pool_static s g_mem_pool g_mem_pool)]
    exact hsc
  obtain ⟨s1, hs1⟩ : ∃ s1 : State, s1 = (_elr_slice_from_pool s g_mem_pool).1 := ⟨_, rfl⟩
  obtain ⟨x, hx⟩ : ∃ x : Nat, x = (_elr_slice_from_pool s g_mem_pool).2 := ⟨_, rfl⟩
  obtain ⟨S, hS⟩ : ∃ S : State, S = (elr_mpl_create_ex s fpool n a f).1 := ⟨_, rfl⟩
  rw [← hS, e1, ← hx, Nat.add_sub_cancel]
  rw [← hS, ← hs1, ← hx] at eS
  rw [← hs1, ← hx] at hinv1
  rw [← hs1] at hst1 hsc1
  rw [← hx] at hxOL
  have hPG : x + SLICE_HDR ≠ g_mem_pool :=
    hinv1.payload_ne_global hst1 hsc1 (List.mem_append_right _ (List.mem_cons_self _ _))
  have hgeo : ∀ p, p ≠ x + SLICE_HDR → geometry_of (S.pool p) = geometry_of (s1.pool p) := by
    intro p hp
    rw [eS, link_pool_geometry, init_pool_pool_ne _ _ _ _ _ _ _ hp]
  have hviews : S.slice = s1.slice ∧ S.node = s1.node ∧ S.blocks = s1.blocks := by
    rw [eS]
    obtain ⟨a1, a2, a3⟩ := link_pool_views (init_pool s1 x (x + SLICE_HDR) fpool n a f)
      (x + SLICE_HDR)
    obtain ⟨b1, b2, b3⟩ := init_pool_views s1 x (x + SLICE_HDR) fpool n a f
    exact ⟨a1.trans b1, a2.trans b2, a3.trans b3⟩
  have hinvS : PoolInv S g_mem_pool NL2 runs2 (x :: OL) :=
    PoolInv_of_geometry hinv1 hviews.1 hviews.2.1 hviews.2.2 (hgeo _ (fun e => hPG e.symm))
  have hparent : (S.pool (x + SLICE_HDR)).parent
      = parent_of fpool := by
    rw [eS, (link_pool_parent _ _ _).1, init_pool_parent]
  refine ⟨rfl, hxOL, hinvS.occ, ?_, ⟨NL2, runs2, hinvS⟩, hparent, ?_, ?_⟩
  · exact (hinvS.node_ok _ (hinvS.occ_ok x (List.mem_cons_self _ _))).1
  · have := (link_pool_parent (init_pool s1 x (x + SLICE_HDR) fpool n a f) (x + SLICE_HDR)
      (x + SLICE_HDR)).2
    rw [init_pool_parent, ← eS] at this
    exact this
  · intro h hf
    obtain ⟨hp1, hp2⟩ := hpar h hf
    have hne1 : h.pool ≠ x + SLICE_HDR := by
      intro e
      apply hxOL
      rw [e, Nat.add_sub_cancel] at hp2
      exact hp2
    have hne2 : h.pool ≠ g_mem_pool := by
      have := hG.payload_ne_global hst hsc (List.mem_append_right _ hp2)
      rwa [Nat.sub_add_cancel hp1] at this
    rw [hgeo _ hne1, hs1, slice_from_pool_pool_ne s g_mem_pool hne2]

/-- C7 (example): in `pool256_state`, `elr_mpl_create(&p, 128)` with `p` the
pool `133352` puts the new pool object in the slice `133488` of `g_mem_pool`. -/
theorem create_slice_from_global_witness :
    PoolInv pool256_state g_mem_pool [131072] [] pool256_occupied
    ∧ (elr_mpl_create_ex pool256_state (some ⟨133352, 0⟩) 128 0 0).2.pool = 133520
    ∧ occupied_list (elr_mpl_create_ex pool256_state (some ⟨133352, 0⟩) 128 0 0).1 g_mem_pool
        (((elr_mpl_create_ex pool256_state (some ⟨133352, 0⟩) 128 0 0).2.pool - SLICE_HDR)
          :: pool256_occupied)
    ∧ ((elr_mpl_create_ex pool256_state (some ⟨133352, 0⟩) 128 0 0).1.node
        ((elr_mpl_create_ex pool256_state (some ⟨133352, 0⟩) 128 0 0).1.slice
          ((elr_mpl_create_ex pool256_state (some ⟨133352, 0⟩) 128 0 0).2.pool
            - SLICE_HDR)).node).owner = g_mem_pool :=
  ⟨by decide!, by decide!,
    (@create_slice_from_global pool256_state [131072] [] pool256_occupied (some ⟨133352, 0⟩) 128 0 0 (by decide!) (by decide!)
      (by decide!)
      (fun h e => by
        cases e
        exact ⟨by decide, by decide⟩)
      (by decide!)).2.2.1,
    (@create_slice_from_global pool256_state [131072] [] pool256_occupied (some ⟨133352, 0⟩) 128 0 0 (by decide!) (by decide!)
      (by decide!)
      (fun h e => by
        cases e
        exact ⟨by decide, by decide⟩)
      (by decide!)).2.2.2.1⟩

theorem slice_count_of_bounds (ss : Nat) :
    1 ≤ slice_count_of ss ∧ slice_count_of ss ≤ ELR_MAX_SLICE_COUNT
    ∧ (ELR_MAX_SLICE_SIZE ≤ ss → slice_count_of ss = 1) := by
  unfold slice_count_of
  have h1 : ELR_MAX_SLICE_SIZE = 32768 := rfl
  have h2 : ELR_MAX_SLICE_COUNT = 64 := rfl
  have h3 : SIZE_MOD = 18446744073709551616 := by decide
  rw [h1, h2, h3]
  split_ifs with h
  · have e1 : ss * (64 - 1) % 18446744073709551616 = ss * 63 :=
      Nat.mod_eq_of_lt (by omega)
    have e2 : ss * 63 / 32768 ≤ 62 := by omega
    have e3 : (64 + 18446744073709551616 - ss * 63 / 32768) % 18446744073709551616
        = 64 - ss * 63 / 32768 := by
      have : 64 + 18446744073709551616 - ss * 63 / 32768
          = (64 - ss * 63 / 32768) + 18446744073709551616 := by omega
      rw [this, Nat.add_mod_right]
      exact Nat.mod_eq_of_lt (by omega)
    rw [e1, e3]
    refine ⟨?_, ?_, fun h4 => by omega⟩ <;> omega
  · exact ⟨le_refl _, by omega, fun _ => rfl⟩

theorem create_ex_ok (s : State) (fpool : Option elr_mpl_t) (n a f : Nat)
    (hok : (elr_mpl_create_ex s fpool n a f).2.pool ≠ 0) :
    (_elr_slice_from_pool s g_mem_pool).2 ≠ 0 := by
  intro h0
  apply hok
  unfold elr_mpl_create_ex
  simp only [h0, if_true]
  rfl

/-- C12: `elr_mpl_create(NULL, 2^64 - 1)` after `elr_mpl_init` succeeds and the
created pool, whose `object_size` is `2^64 - 1 >= ELR_MAX_SLICE_SIZE`, has
`slice_size = 32` and `slice_count = 64`, not 1: the size computation of lines
230-231 wraps around. -/
theorem create_huge_object_slice_count :
    ELR_MAX_SLICE_SIZE ≤ 2 ^ 64 - 1
    ∧ (elr_mpl_create (booted []) none (2 ^ 64 - 1)).2 = ⟨133352, 0⟩
    ∧ ((elr_mpl_create (booted []) none (2 ^ 64 - 1)).1.pool 133352).object_size = 2 ^ 64 - 1
    ∧ ((elr_mpl_create (booted []) none (2 ^ 64 - 1)).1.pool 133352).slice_size = 32
    ∧ ((elr_mpl_create (booted []) none (2 ^ 64 - 1)).1.pool 133352).slice_count = 64
    ∧ ((elr_mpl_create (booted []) none (2 ^ 64 - 1)).1.pool 133352).node_size = 2112 := by
  decide!

/-- C13: for every object size, a successful `elr_mpl_create_ex` gives the pool
a `slice_count` between 1 and `ELR_MAX_SLICE_COUNT`; when
`slice_size < ELR_MAX_SLICE_SIZE` the slices of a node take at most
`ELR_MAX_SLICE_SIZE * ELR_MAX_SLICE_COUNT` bytes; and at
`object_size = ELR_MAX_SLICE_SIZE - aligned(slice header)` the count is 1. -/
theorem create_slice_count_bounds (s : State) (fpool : Option elr_mpl_t) (n a f : Nat)
    (hok : (elr_mpl_create_ex s fpool n a f).2.pool ≠ 0) :
    1 ≤ ((elr_mpl_create_ex s fpool n a f).1.pool
          (elr_mpl_create_ex s fpool n a f).2.pool).slice_count
    ∧ ((elr_mpl_create_ex s fpool n a f).1.pool
          (elr_mpl_create_ex s fpool n a f).2.pool).slice_count ≤ ELR_MAX_SLICE_COUNT
    ∧ (((elr_mpl_create_ex s fpool n a f).1.pool
          (elr_mpl_create_ex s fpool n a f).2.pool).slice_size < ELR_MAX_SLICE_SIZE →
        ((elr_mpl_create_ex s fpool n a f).1.pool
            (elr_mpl_create_ex s fpool n a f).2.pool).slice_size
          * ((elr_mpl_create_ex s fpool n a f).1.pool
              (elr_mpl_create_ex s fpool n a f).2.pool).slice_count
          ≤ ELR_MAX_SLICE_SIZE * ELR_MAX_SLICE_COUNT)
    ∧ (n = ELR_MAX_SLICE_SIZE - SLICE_HDR →
        ((elr_mpl_create_ex s fpool n a f).1.pool
          (elr_mpl_create_ex s fpool n a f).2.pool).slice_size = ELR_MAX_SLICE_SIZE
        ∧ ((elr_mpl_create_ex s fpool n a f).1.pool
          (elr_mpl_create_ex s fpool n a f).2.pool).slice_count = 1) := by
  have hne := create_ex_ok s fpool n a f hok
  obtain ⟨hP, hgeo, -⟩ := create_ex_pool s fpool n a f hne
  rw [hP]
  simp only [geometry_of, Prod.mk.injEq] at hgeo
  obtain ⟨-, hss, hsc, -⟩ := hgeo
  rw [hss, hsc]
  obtain ⟨b1, b2, b3⟩ := slice_count_of_bounds ((SLICE_HDR + ELR_ALIGN n sizeof_int) % SIZE_MOD)
  refine ⟨b1, b2, fun hlt => Nat.mul_le_mul (Nat.le_of_lt hlt) b2, fun hn => ?_⟩
  subst hn
  have e : (SLICE_HDR + ELR_ALIGN (ELR_MAX_SLICE_SIZE - SLICE_HDR) sizeof_int) % SIZE_MOD
      = ELR_MAX_SLICE_SIZE := by decide
  rw [e]
  exact ⟨rfl, by decide⟩

theorem create_slice_count_bounds_witness :
    (elr_mpl_create_ex (booted []) none 256 0 0).2.pool ≠ 0
    ∧ 1 ≤ ((elr_mpl_create_ex (booted []) none 256 0 0).1.pool
          (elr_mpl_create_ex (booted []) none 256 0 0).2.pool).slice_count
    ∧ ((elr_mpl_create_ex (booted []) none 256 0 0).1.pool
          (elr_mpl_create_ex (booted []) none 256 0 0).2.pool).slice_count ≤ ELR_MAX_SLICE_COUNT :=
  ⟨by decide!, (create_slice_count_bounds (booted []) none 256 0 0 (by decide!)).1,
    (create_slice_count_bounds (booted []) none 256 0 0 (by decide!)).2.1⟩

/-- C19: after `elr_mpl_init`, `p = elr_mpl_create(NULL, 256)`,
`elr_mpl_alloc(&p)` and `elr_mpl_destroy(&p)` the node of `p` (18496 bytes at
`300000`) has been given back to the system, so the blocks held are again the
two of the state after `elr_mpl_init` (10304 + 10816 = 21120 bytes), but
`g_occupation_size` is still 39616 = 21120 + 18496: the loop of lines 836-841
frees the nodes without subtracting their size. -/
theorem destroy_keeps_occupation_size :
    (booted [some 300000]).g_occupation_size = 21120
    ∧ (booted [some 300000]).blocks = [(196608, 10304), (131072, 10816)]
    ∧ alloc256_state.g_occupation_size = 39616
    ∧ alloc256_state.blocks = [(300000, 18496), (196608, 10304), (131072, 10816)]
    ∧ (elr_mpl_destroy 8 alloc256_state ⟨133352, 0⟩).isSome = true
    ∧ (state_of alloc256_state (elr_mpl_destroy 8 alloc256_state ⟨133352, 0⟩)).blocks
        = [(196608, 10304), (131072, 10816)]
    ∧ (state_of alloc256_state (elr_mpl_destroy 8 alloc256_state ⟨133352, 0⟩)).g_occupation_size
        = 39616 := by
  decide!

/-- C11: with one unused slice left in `g_mem_pool` and a system allocator that
grants the temporary array (at `500000`) and refuses the next node,
`elr_mpl_create_multi_1` on the sizes 64, 128 creates the first sub-pool, fails
on the second and returns the null handle with the children of `g_mem_pool` as
before; but the first sub-pool still has `multi` pointing at the temporary
array, so its destruction calls `elr_mpl_free` on that array, which is no slice
payload: the model shows writes to the 32 bytes in front of the array (slice
tag at `499968`) and through the null node pointer read there. -/
theorem create_multi_rollback_frees_array :
    rollback_scenario.sys = [some 500000, none]
    ∧ (rollback_scenario.slice 499968).tag = 0
    ∧ (rollback_scenario.node 0).using_slice_count = 0
    ∧ (create_multi_loop none 0 0 500000 2 (malloc rollback_scenario 16).1 [64, 128] 0
        ELR_MPL_INITIALIZER).2.1 = 1
    ∧ (create_multi_loop none 0 0 500000 2 (malloc rollback_scenario 16).1 [64, 128] 0
        ELR_MPL_INITIALIZER).2.2.1 = false
    ∧ ((create_multi_loop none 0 0 500000 2 (malloc rollback_scenario 16).1 [64, 128] 0
        ELR_MPL_INITIALIZER).1.pool
          ((create_multi_loop none 0 0 500000 2 (malloc rollback_scenario 16).1 [64, 128] 0
            ELR_MPL_INITIALIZER).1.cell 500000)).multi = 500000
    ∧ (elr_mpl_create_multi_1 8 rollback_scenario none 0 0 [64, 128]).map Prod.snd
        = some ELR_MPL_INITIALIZER
    ∧ ((state_of rollback_scenario
          (elr_mpl_create_multi_1 8 rollback_scenario none 0 0 [64, 128])).pool
            g_mem_pool).first_child = (rollback_scenario.pool g_mem_pool).first_child
    ∧ ((state_of rollback_scenario
          (elr_mpl_create_multi_1 8 rollback_scenario none 0 0 [64, 128])).slice 499968).tag = 1
    ∧ ((state_of rollback_scenario
          (elr_mpl_create_multi_1 8 rollback_scenario none 0 0 [64, 128])).node 0).using_slice_count
        = 2 ^ 64 - 1 := by
  decide!

/-! ### Counting the slices of a pool -/

theorem sum_indicator (c a : Nat) :
    ∀ NL : List Nat, NL.Nodup → a ∈ NL →
      (NL.map (fun n => if a = n then c else 0)).sum = c
  | [], _, h => by simp at h
  | m :: NL, hnd, h => by
    rw [List.nodup_cons] at hnd
    rw [List.map_cons, List.sum_cons]
    by_cases e : a = m
    · subst e
      have : (NL.map (fun n => if a = n then c else 0)).sum = 0 := by
        apply List.sum_eq_zero
        intro v hv
        obtain ⟨n, hn, rfl⟩ := List.mem_map.1 hv
        have : a ≠ n := fun e => hnd.1 (e ▸ hn)
        simp [this]
      simp [this]
    · have h2 : a ∈ NL := by
        rcases List.mem_cons.1 h with h | h
        · exact absurd h e
        · exact h
      rw [if_neg e, sum_indicator c a NL hnd.2 h2]
      simp

theorem sum_countP_eq_length (f : Nat → Nat) (NL : List Nat) (hnd : NL.Nodup) :
    ∀ l : List Nat, (∀ x ∈ l, f x ∈ NL) →
      (NL.map (fun n => l.countP (fun x => decide (f x = n)))).sum = l.length
  | [], _ => by simp
  | x :: l, h => by
    have ih := sum_countP_eq_length f NL hnd l (fun y hy => h y (List.mem_cons_of_mem _ hy))
    have e : (fun n => (x :: l).countP (fun x => decide (f x = n)))
        = fun n => l.countP (fun x => decide (f x = n)) + (if f x = n then 1 else 0) := by
      funext n
      rw [List.countP_cons]
      simp
    rw [e, List.sum_map_add, ih, sum_indicator 1 (f x) NL hnd (h x (List.mem_cons_self _ _))]
    simp

theorem sum_run_of_length (NL : List Nat) (hnd : NL.Nodup) :
    ∀ runs : List (Nat × List Nat), (runs.map Prod.fst).Nodup → (∀ r ∈ runs, r.1 ∈ NL) →
      (NL.map (fun n => (run_of runs n).length)).sum = (flat runs).length
  | [], _, _ => by
    have : (fun n => (run_of [] n).length) = fun _ => 0 := by
      funext n
      rfl
    rw [this]
    simp [flat]
  | (k, R) :: rest, hk, hmem => by
    simp only [List.map_cons, List.nodup_cons] at hk
    have ih := sum_run_of_length NL hnd rest hk.2
      (fun r hr => hmem r (List.mem_cons_of_mem _ hr))
    have e : (fun n => (run_of ((k, R) :: rest) n).length)
        = fun n => (if k = n then R.length else 0) + (run_of rest n).length := by
      funext n
      by_cases hkn : k = n
      · subst hkn
        rw [run_of_cons_self, run_of_not_mem hk.1]
        simp
      · rw [run_of_cons_ne R rest hkn, if_neg hkn]
        simp
    rw [e, List.sum_map_add, ih,
      sum_indicator R.length k NL hnd (hmem (k, R) (List.mem_cons_self _ _)), flat_cons]
    simp

theorem sum_complement (c : Nat) (g : Nat → Nat) :
    ∀ l : List Nat, (∀ n ∈ l, g n ≤ c) →
      (l.map (fun n => c - g n)).sum + (l.map g).sum = c * l.length
  | [], _ => by simp
  | m :: l, h => by
    have ih := sum_complement c g l (fun n hn => h n (List.mem_cons_of_mem _ hn))
    have hm := h m (List.mem_cons_self _ _)
    simp only [List.map_cons, List.sum_cons, List.length_cons]
    rw [Nat.mul_succ]
    omega

/-- In a pool that satisfies its invariant the occupied slices, the free
slices and the slices not yet handed out by the bump pointer add up to
`slice_count` per node. -/
theorem PoolInv.census {s : State} {P : Nat} {NL : List Nat}
    {runs : List (Nat × List Nat)} {OL : List Nat} (h : PoolInv s P NL runs OL) :
    OL.length + (flat runs).length
        + (NL.map (fun n => (s.pool P).slice_count - (s.node n).used_slice_count)).sum
      = (s.pool P).slice_count * NL.length := by
  have hnd : NL.Nodup := h.nodes.2.2
  have h1 := sum_countP_eq_length (fun x => (s.slice x).node) NL hnd OL h.occ_ok
  have h2 := sum_run_of_length NL hnd runs h.runs_keys (fun r hr => (h.runs_ok r hr).2.1)
  have h3 : (NL.map (fun n => (s.pool P).slice_count - (s.node n).used_slice_count)).sum
      + (NL.map (fun n => (s.node n).used_slice_count)).sum
      = (s.pool P).slice_count * NL.length :=
    sum_complement (s.pool P).slice_count (fun n => (s.node n).used_slice_count) NL
      (fun n hn => (h.node_ok n hn).2.2.1)
  have h4 : NL.map (fun n => (s.node n).used_slice_count)
      = NL.map (fun n => OL.countP (fun x => decide ((s.slice x).node = n))
          + (run_of runs n).length) := by
    apply List.map_congr_left
    intro n hn
    obtain ⟨-, -, -, -, -, h6, h7, -⟩ := h.node_ok n hn
    rw [h7, h6]
  rw [h4, List.sum_map_add, h1, h2] at h3
  omega

/-- The free slices of a node of a pool that satisfies its invariant are its
free subrange. -/
theorem PoolInv.free_subrange {s : State} {P : Nat} {NL : List Nat}
    {runs : List (Nat × List Nat)} {OL : List Nat} (h : PoolInv s P NL runs OL)
    {n : Nat} (hn : n ∈ NL) : free_subrange s (flat runs) n (run_of runs n) := by
  have h0 : (0 : Nat) ∉ flat runs := dll_not_mem_zero h.frees
  have h0R : (0 : Nat) ∉ run_of runs n := fun hm => h0 (run_of_subset_flat _ _ _ hm)
  obtain ⟨-, -, -, -, -, -, -, h8, h9, -⟩ := h.node_ok n hn
  have hkey : ∀ x ∈ flat runs, (s.slice x).node ∈ runs.map Prod.fst := by
    intro x hx
    obtain ⟨r, hr, hxr⟩ := mem_flat.1 hx
    rw [(h.runs_ok r hr).2.2 x hxr]
    exact List.mem_map_of_mem _ hr
  refine ⟨?_, ?_, h8, h9, ?_, ?_⟩
  · by_cases hk : n ∈ runs.map Prod.fst
    · obtain ⟨A, B, e, hA, hB⟩ := runs_split hk h.runs_keys
      have e2 : flat runs = flat A ++ run_of runs n ++ flat B := by
        conv_lhs => rw [e]
        exact flat_split _ _ _ _
      refine ⟨flat A, flat B, e2, ?_⟩
      intro x hx
      have hsub : ∀ C : List (Nat × List Nat), (∀ r ∈ C, r ∈ runs) → n ∉ C.map Prod.fst →
          x ∈ flat C → (s.slice x).node ≠ n := by
        intro C hC hnC hxC
        obtain ⟨r, hr, hxr⟩ := mem_flat.1 hxC
        rw [(h.runs_ok r (hC r hr)).2.2 x hxr]
        intro e3
        exact hnC (e3 ▸ List.mem_map_of_mem _ hr)
      rcases List.mem_append.1 hx with hx | hx
      · exact hsub A (fun r hr => by rw [e]; exact List.mem_append_left _ hr) hA hx
      · exact hsub B (fun r hr => by
          rw [e]; exact List.mem_append_right _ (List.mem_cons_of_mem _ hr)) hB hx
    · refine ⟨[], flat runs, by rw [run_of_not_mem hk]; simp, ?_⟩
      intro x hx
      rw [List.nil_append] at hx
      intro e3
      exact hk (e3 ▸ hkey x hx)
  · intro x hx
    by_cases hk : n ∈ runs.map Prod.fst
    · exact (h.runs_ok _ (run_of_mem_runs hk)).2.2 x hx
    · rw [run_of_not_mem hk] at hx
      simp at hx
  · rw [h8]
    exact headD_eq_zero_iff h0R
  · rw [h9]
    exact lastD_eq_zero_iff h0R

/-- The states reached from a successful `elr_mpl_create_ex` by calls of
`elr_mpl_alloc` and `elr_mpl_free` (of live payloads) on the new pool satisfy
the pool invariant, and the fields of the pool that these calls never write
are as the creation left them. -/
theorem Live_reached (s : State) (fpool : Option elr_mpl_t) (n a f : Nat)
    (ops : List Op) (hbd : blocks_disjoint s) (hn : n + 100 ≤ SIZE_MOD)
    (hok : (elr_mpl_create_ex s fpool n a f).2.pool ≠ 0) :
    Live (run_ops (elr_mpl_create_ex s fpool n a f).2 ops
        ((elr_mpl_create_ex s fpool n a f).1, [])).1 (elr_mpl_create_ex s fpool n a f).2.pool
      (run_ops (elr_mpl_create_ex s fpool n a f).2 ops
        ((elr_mpl_create_ex s fpool n a f).1, [])).2
    ∧ static_of ((run_ops (elr_mpl_create_ex s fpool n a f).2 ops
        ((elr_mpl_create_ex s fpool n a f).1, [])).1.pool (elr_mpl_create_ex s fpool n a f).2.pool)
      = static_of ((elr_mpl_create_ex s fpool n a f).1.pool
          (elr_mpl_create_ex s fpool n a f).2.pool) := by
  obtain ⟨hinv, -⟩ := PoolInv_create s fpool n a f hbd hn hok
  have hlive : Live (elr_mpl_create_ex s fpool n a f).1 (elr_mpl_create_ex s fpool n a f).2.pool
      [] := ⟨[], [], [], hinv, List.nodup_nil, fun p hp => by simp at hp⟩
  exact Live_run_ops (elr_mpl_create_ex s fpool n a f).2 ops _ _ hlive

/-- Object sizes that do not wrap around (`n + 100 ≤ 2^64`): a pool made by a successful `elr_mpl_create_ex` (object size `n` with
`n + 100 ≤ 2^64`), then any sequence of `elr_mpl_alloc` calls and
`elr_mpl_free` calls on live payloads of that pool: the pool then has a node
list `NL`, a free-slice list `FL` and an occupied-slice list `OL` with
`|OL| + |FL| + Σ (slice_count - used_slice_count) = slice_count * |NL|`, the
sum taken over the nodes of `NL`. -/
theorem slice_census (s : State) (fpool : Option elr_mpl_t) (n a f : Nat)
    (ops : List Op) (hbd : blocks_disjoint s) (hn : n + 100 ≤ SIZE_MOD)
    (hok : (elr_mpl_create_ex s fpool n a f).2.pool ≠ 0) :
    ∃ NL FL OL : List Nat,
      node_list (run_ops (elr_mpl_create_ex s fpool n a f).2 ops
          ((elr_mpl_create_ex s fpool n a f).1, [])).1
        (elr_mpl_create_ex s fpool n a f).2.pool NL
      ∧ free_list (run_ops (elr_mpl_create_ex s fpool n a f).2 ops
          ((elr_mpl_create_ex s fpool n a f).1, [])).1
        (elr_mpl_create_ex s fpool n a f).2.pool FL
      ∧ occupied_list (run_ops (elr_mpl_create_ex s fpool n a f).2 ops
          ((elr_mpl_create_ex s fpool n a f).1, [])).1
        (elr_mpl_create_ex s fpool n a f).2.pool OL
      ∧ OL.length + FL.length
          + (NL.map (fun m =>
              ((run_ops (elr_mpl_create_ex s fpool n a f).2 ops
                ((elr_mpl_create_ex s fpool n a f).1, [])).1.pool
                  (elr_mpl_create_ex s fpool n a f).2.pool).slice_count
              - ((run_ops (elr_mpl_create_ex s fpool n a f).2 ops
                ((elr_mpl_create_ex s fpool n a f).1, [])).1.node m).used_slice_count)).sum
        = ((run_ops (elr_mpl_create_ex s fpool n a f).2 ops
              ((elr_mpl_create_ex s fpool n a f).1, [])).1.pool
                (elr_mpl_create_ex s fpool n a f).2.pool).slice_count * NL.length := by
  obtain ⟨⟨NL, runs, OL, hinv, -, -⟩, -⟩ := Live_reached s fpool n a f ops hbd hn hok
  exact ⟨NL, flat runs, OL, hinv.nodes, hinv.frees, hinv.occ, hinv.census⟩

/-- Example: after `p = elr_mpl_create(NULL, 256)`, two allocations and
the release of the first payload, the lists of `p` add up as stated. -/
theorem slice_census_witness :
    blocks_disjoint (booted [some 300000]) ∧ 256 + 100 ≤ SIZE_MOD
    ∧ (elr_mpl_create_ex (booted [some 300000]) none 256 0 0).2.pool ≠ 0
    ∧ ∃ NL FL OL : List Nat,
      node_list (run_ops (elr_mpl_create_ex (booted [some 300000]) none 256 0 0).2
          [Op.alloc, Op.alloc, Op.free 300096]
          ((elr_mpl_create_ex (booted [some 300000]) none 256 0 0).1, [])).1
        (elr_mpl_create_ex (booted [some 300000]) none 256 0 0).2.pool NL
      ∧ free_list (run_ops (elr_mpl_create_ex (booted [some 300000]) none 256 0 0).2
          [Op.alloc, Op.alloc, Op.free 300096]
          ((elr_mpl_create_ex (booted [some 300000]) none 256 0 0).1, [])).1
        (elr_mpl_create_ex (booted [some 300000]) none 256 0 0).2.pool FL
      ∧ occupied_list (run_ops (elr_mpl_create_ex (booted [some 300000]) none 256 0 0).2
          [Op.alloc, Op.alloc, Op.free 300096]
          ((elr_mpl_create_ex (booted [some 300000]) none 256 0 0).1, [])).1
        (elr_mpl_create_ex (booted [some 300000]) none 256 0 0).2.pool OL
      ∧ OL.length + FL.length
          + (NL.map (fun m =>
              ((run_ops (elr_mpl_create_ex (booted [some 300000]) none 256 0 0).2
                [Op.alloc, Op.alloc, Op.free 300096]
                ((elr_mpl_create_ex (booted [some 300000]) none 256 0 0).1, [])).1.pool
                  (elr_mpl_create_ex (booted [some 300000]) none 256 0 0).2.pool).slice_count
              - ((run_ops (elr_mpl_create_ex (booted [some 300000]) none 256 0 0).2
                [Op.alloc, Op.alloc, Op.free 300096]
                ((elr_mpl_create_ex (booted [some 300000]) none 256 0 0).1, [])).1.node
                  m).used_slice_count)).sum
        = ((run_ops (elr_mpl_create_ex (booted [some 300000]) none 256 0 0).2
              [Op.alloc, Op.alloc, Op.free 300096]
              ((elr_mpl_create_ex (booted [some 300000]) none 256 0 0).1, [])).1.pool
                (elr_mpl_create_ex (booted [some 300000]) none 256 0 0).2.pool).slice_count
            * NL.length :=
  ⟨by decide!, by decide, by decide!,
    slice_census (booted [some 300000]) none 256 0 0 [Op.alloc, Op.alloc, Op.free 300096]
      (by decide!) (by decide) (by decide!)⟩

/-- Object sizes that do not wrap around (`n + 100 ≤ 2^64`): a pool made by a successful `elr_mpl_create_ex` (object size `n` with
`n + 100 ≤ 2^64`), then any sequence of `elr_mpl_alloc` calls and
`elr_mpl_free` calls on live payloads of that pool, node releases by
`elr_mpl_free` included: the pool then has a node list `NL` and a free-slice
list `FL` such that every slice of `FL` lies in a node of `NL` whose owner is
the pool, and every node of `NL` has a free subrange `R`: the slices of `FL`
in that node are one contiguous part `R` of `FL` that starts at
`free_slice_head` and ends at `free_slice_tail`, both null exactly when `R`
is empty. -/
theorem free_list_structure (s : State) (fpool : Option elr_mpl_t) (n a f : Nat)
    (ops : List Op) (hbd : blocks_disjoint s) (hn : n + 100 ≤ SIZE_MOD)
    (hok : (elr_mpl_create_ex s fpool n a f).2.pool ≠ 0) :
    ∃ NL FL : List Nat,
      node_list (run_ops (elr_mpl_create_ex s fpool n a f).2 ops
          ((elr_mpl_create_ex s fpool n a f).1, [])).1
        (elr_mpl_create_ex s fpool n a f).2.pool NL
      ∧ free_list (run_ops (elr_mpl_create_ex s fpool n a f).2 ops
          ((elr_mpl_create_ex s fpool n a f).1, [])).1
        (elr_mpl_create_ex s fpool n a f).2.pool FL
      ∧ (∀ x ∈ FL,
          ((run_ops (elr_mpl_create_ex s fpool n a f).2 ops
            ((elr_mpl_create_ex s fpool n a f).1, [])).1.slice x).node ∈ NL
          ∧ ((run_ops (elr_mpl_create_ex s fpool n a f).2 ops
              ((elr_mpl_create_ex s fpool n a f).1, [])).1.node
                ((run_ops (elr_mpl_create_ex s fpool n a f).2 ops
                  ((elr_mpl_create_ex s fpool n a f).1, [])).1.slice x).node).owner
            = (elr_mpl_create_ex s fpool n a f).2.pool)
      ∧ ∀ m ∈ NL, ∃ R : List Nat,
          free_subrange (run_ops (elr_mpl_create_ex s fpool n a f).2 ops
            ((elr_mpl_create_ex s fpool n a f).1, [])).1 FL m R := by
  obtain ⟨⟨NL, runs, OL, hinv, -, -⟩, -⟩ := Live_reached s fpool n a f ops hbd hn hok
  refine ⟨NL, flat runs, hinv.nodes, hinv.frees, ?_, ?_⟩
  · intro x hx
    have hm := (hinv.slice_place (List.mem_append_left OL hx)).1
    exact ⟨hm, (hinv.node_ok _ hm).1⟩
  · intro m hm
    exact ⟨run_of runs m, hinv.free_subrange hm⟩

/-- Example: the pool of 256-byte objects after two allocations and the
release of the first payload. -/
theorem free_list_structure_witness :
    blocks_disjoint (booted [some 300000]) ∧ 256 + 100 ≤ SIZE_MOD
    ∧ (elr_mpl_create_ex (booted [some 300000]) none 256 0 0).2.pool ≠ 0
    ∧ ∃ NL FL : List Nat,
      node_list (run_ops (elr_mpl_create_ex (booted [some 300000]) none 256 0 0).2
          [Op.alloc, Op.alloc, Op.free 300096]
          ((elr_mpl_create_ex (booted [some 300000]) none 256 0 0).1, [])).1
        (elr_mpl_create_ex (booted [some 300000]) none 256 0 0).2.pool NL
      ∧ free_list (run_ops (elr_mpl_create_ex (booted [some 300000]) none 256 0 0).2
          [Op.alloc, Op.alloc, Op.free 300096]
          ((elr_mpl_create_ex (booted [some 300000]) none 256 0 0).1, [])).1
        (elr_mpl_create_ex (booted [some 300000]) none 256 0 0).2.pool FL
      ∧ (∀ x ∈ FL,
          ((run_ops (elr_mpl_create_ex (booted [some 300000]) none 256 0 0).2
          [Op.alloc, Op.alloc, Op.free 300096]
          ((elr_mpl_create_ex (booted [some 300000]) none 256 0 0).1, [])).1.slice x).node ∈ NL
          ∧ ((run_ops (elr_mpl_create_ex (booted [some 300000]) none 256 0 0).2
          [Op.alloc, Op.alloc, Op.free 300096]
          ((elr_mpl_create_ex (booted [some 300000]) none 256 0 0).1, [])).1.node
              ((run_ops (elr_mpl_create_ex (booted [some 300000]) none 256 0 0).2
          [Op.alloc, Op.alloc, Op.free 300096]
          ((elr_mpl_create_ex (booted [some 300000]) none 256 0 0).1, [])).1.slice x).node).owner
            = (elr_mpl_create_ex (booted [some 300000]) none 256 0 0).2.pool)
      ∧ ∀ m ∈ NL, ∃ R : List Nat,
          free_subrange (run_ops (elr_mpl_create_ex (booted [some 300000]) none 256 0 0).2
          [Op.alloc, Op.alloc, Op.free 300096]
          ((elr_mpl_create_ex (booted [some 300000]) none 256 0 0).1, [])).1 FL m R :=
  ⟨by decide!, by decide, by decide!,
    free_list_structure (booted [some 300000]) none 256 0 0 [Op.alloc, Op.alloc, Op.free 300096]
      (by decide!) (by decide) (by decide!)⟩

/-! ### The tag of a slice and the owner of a node under the operations -/

theorem tag_setSlice (s : State) (a z : Nat) (v : elr_mem_slice) :
    ((s.setSlice a v).slice z).tag = if z = a then v.tag else (s.slice z).tag := by
  rw [setSlice_slice]
  split_ifs <;> rfl

theorem tag_ite (s : State) (z a : Nat) :
    (if z = a then (s.slice a).tag else (s.slice z).tag) = (s.slice z).tag := by
  split_ifs with h
  · rw [h]
  · rfl

theorem tag_ite_state (c : Prop) [Decidable c] (A B : State) (z : Nat) :
    ((if c then A else B).slice z).tag = if c then (A.slice z).tag else (B.slice z).tag := by
  split_ifs <;> rfl

theorem malloc_slice (s : State) (size : Nat) : (malloc s size).1.slice = s.slice := by
  unfold malloc
  split
  · rfl
  · rfl
  · split_ifs <;> rfl

theorem malloc_node (s : State) (size : Nat) : (malloc s size).1.node = s.node := by
  unfold malloc
  split
  · rfl
  · rfl
  · split_ifs <;> rfl

theorem alloc_mem_node_slice (s : State) (P : Nat) :
    (_elr_alloc_mem_node s P).slice = s.slice := by
  unfold _elr_alloc_mem_node
  have hp := malloc_slice s (s.pool P).node_size
  generalize malloc s (s.pool P).node_size = r at hp
  obtain ⟨s1, a⟩ := r
  simp only at hp
  simp only [setNode_slice, setPool_slice, apply_ite State.slice, ite_self, hp]

theorem push_occupied_tag (s : State) (P x z : Nat) :
    ((push_occupied s P x).slice z).tag = (s.slice z).tag := by
  simp only [push_occupied, setPool_slice, tag_setSlice, tag_ite, tag_ite_state, ite_self]

theorem slice_from_free_list_tag (s : State) (P z : Nat) :
    ((slice_from_free_list s P).1.slice z).tag
      = if z = (s.pool P).first_free_slice then wrap_int ((s.slice (s.pool P).first_free_slice).tag + 1)
        else (s.slice z).tag := by
  simp only [slice_from_free_list, setPool_slice, setNode_slice, tag_setSlice, tag_ite,
    tag_ite_state, ite_self, setPool_pool, setNode_pool, if_true]

theorem slice_from_node_tag (s : State) (P z : Nat) :
    ((_elr_slice_from_node s P).1.slice z).tag
      = if (s.pool P).newly_alloc_node ≠ 0
            ∧ z = (s.node (s.pool P).newly_alloc_node).first_avail then 0
        else (s.slice z).tag := by
  by_cases hnn0 : (s.pool P).newly_alloc_node = 0
  · have e : _elr_slice_from_node s P = (s, 0) := by
      unfold _elr_slice_from_node
      simp [hnn0]
    rw [e]
    simp [hnn0]
  · rw [slice_from_node_bump s P _ _ rfl hnn0 rfl]
    simp only [ne_eq, hnn0, not_false_eq_true, true_and]
    split_ifs <;> rfl

theorem free_unlink_tag (s : State) (mem x n P z : Nat) :
    ((free_unlink s mem x n P).slice z).tag
      = if z = x then wrap_int ((s.slice x).tag + 1) else (s.slice z).tag := by
  have hT : ∀ t : State,
      ((let t2 :=
          if (t.slice x).next ≠ 0 then
            t.setSlice (t.slice x).next
              { t.slice (t.slice x).next with prev := (t.slice x).prev }
          else t
        if (t2.slice x).prev ≠ 0 then
          t2.setSlice (t2.slice x).prev
            { t2.slice (t2.slice x).prev with next := (t2.slice x).next }
        else
          t2.setPool P { t2.pool P with first_occupied_slice := (t2.slice x).next }).slice z).tag
        = (t.slice z).tag := by
    intro t
    simp only [setPool_slice, tag_setSlice, tag_ite, tag_ite_state, ite_self]
  have hC : ∀ t : State,
      (if (t.pool P).on_slice_free ≠ 0 then
          { t with calls := ((t.pool P).on_slice_free, mem) :: t.calls }
        else t).slice = t.slice := by
    intro t
    split_ifs <;> rfl
  refine (hT _).trans ?_
  rw [hC, setNode_slice, tag_setSlice]

theorem free_new_run_tag (s : State) (x n P z : Nat) :
    ((free_new_run s x n P).slice z).tag = (s.slice z).tag := by
  simp only [free_new_run, setPool_slice, setNode_slice, tag_setSlice, tag_ite, tag_ite_state,
    ite_self]

theorem free_after_tail_tag (s : State) (x n z : Nat) :
    ((free_after_tail s x n).slice z).tag = (s.slice z).tag := by
  simp only [free_after_tail, setPool_slice, setNode_slice, tag_setSlice, tag_ite, tag_ite_state,
    ite_self]

theorem excise_free_run_tag (s : State) (n z : Nat) :
    ((excise_free_run s n).slice z).tag = (s.slice z).tag := by
  simp only [excise_free_run, setPool_slice, setNode_slice, tag_setSlice, tag_ite, tag_ite_state,
    ite_self]

theorem free_mem_node_slice (s : State) (n : Nat) :
    (_elr_free_mem_node s n).slice = (excise_free_run s n).slice := by
  unfold _elr_free_mem_node sys_free
  generalize excise_free_run s n = s1
  simp only [setNode_slice, setPool_slice, apply_ite State.slice, ite_self]

theorem free_mem_node_tag (s : State) (n z : Nat) :
    ((_elr_free_mem_node s n).slice z).tag = (s.slice z).tag := by
  rw [free_mem_node_slice, excise_free_run_tag]

/-- The function `elr_mpl_free` changes one tag at most: that of the slice of
`mem`, which goes up by one when the owner of the slice is a valid pool. -/
theorem free_tag (s : State) (mem z : Nat) :
    ((elr_mpl_free s mem).slice z).tag
      = if (s.slice ((s.node (s.slice (mem - SLICE_HDR)).node).owner - SLICE_HDR)).tag
            = (s.pool (s.node (s.slice (mem - SLICE_HDR)).node).owner).slice_tag
          ∧ z = mem - SLICE_HDR then wrap_int ((s.slice z).tag + 1)
        else (s.slice z).tag := by
  simp only [elr_mpl_free, tag_ite_state, free_mem_node_tag, free_new_run_tag,
    free_after_tail_tag, free_unlink_tag, ite_self]
  by_cases hv : (s.slice ((s.node (s.slice (mem - SLICE_HDR)).node).owner - SLICE_HDR)).tag
      = (s.pool (s.node (s.slice (mem - SLICE_HDR)).node).owner).slice_tag
  · by_cases hz : z = mem - SLICE_HDR
    · simp [hv, hz]
    · simp [hv, hz]
  · simp [hv]

theorem slice_from_node_snd (s : State) (P : Nat) :
    (_elr_slice_from_node s P).2
      = if (s.pool P).newly_alloc_node ≠ 0 then
          (s.node (s.pool P).newly_alloc_node).first_avail
        else 0 := by
  by_cases hnn0 : (s.pool P).newly_alloc_node = 0
  · unfold _elr_slice_from_node
    simp [hnn0]
  · rw [slice_from_node_bump s P _ _ rfl hnn0 rfl]
    simp [hnn0]

theorem slice_from_free_list_snd (s : State) (P : Nat) :
    (slice_from_free_list s P).2 = (s.pool P).first_free_slice := rfl

/-- The function `_elr_slice_from_pool` changes one tag at most, that of the
slice it returns. -/
theorem slice_from_pool_tag_ne (s : State) (P z : Nat)
    (hz : z ≠ (_elr_slice_from_pool s P).2) :
    ((_elr_slice_from_pool s P).1.slice z).tag = (s.slice z).tag := by
  revert hz
  unfold _elr_slice_from_pool
  by_cases hv : (s.slice (P - SLICE_HDR)).tag = (s.pool P).slice_tag
  swap
  · simp [hv]
  simp only [hv, ne_eq, not_true_eq_false, if_false]
  by_cases hff : (s.pool P).first_free_slice = 0
  · simp only [hff, not_true_eq_false, if_false, push_occupied_tag, slice_from_node_tag,
      slice_from_node_snd]
    intro hz
    by_cases hc : (s.pool P).newly_alloc_node = 0
    · simp only [hc, if_true] at hz ⊢
      rw [alloc_mem_node_slice]
      split_ifs with h1
      · exact absurd h1.2 (by rw [if_pos h1.1] at hz; exact hz)
      · rfl
    · simp only [hc, if_false] at hz ⊢
      split_ifs with h1
      · exact absurd h1.2 (by rw [if_pos h1.1] at hz; exact hz)
      · rfl
  · simp only [hff, not_false_eq_true, if_true, push_occupied_tag, slice_from_free_list_tag,
      slice_from_free_list_snd]
    intro hz
    rw [if_neg hz]

/-- The tag of the slice that `_elr_slice_from_pool` returns: one more than
before when the slice comes from the free list, 0 when it is a new slice of the
bump node. -/
theorem slice_from_pool_tag_eq (s : State) (P : Nat)
    (hne : (_elr_slice_from_pool s P).2 ≠ 0) :
    ((_elr_slice_from_pool s P).1.slice (_elr_slice_from_pool s P).2).tag
      = if (s.pool P).first_free_slice ≠ 0 then
          wrap_int ((s.slice (s.pool P).first_free_slice).tag + 1)
        else 0 := by
  revert hne
  unfold _elr_slice_from_pool
  by_cases hv : (s.slice (P - SLICE_HDR)).tag = (s.pool P).slice_tag
  swap
  · simp [hv]
  simp only [hv, ne_eq, not_true_eq_false, if_false]
  by_cases hff : (s.pool P).first_free_slice = 0
  · simp only [hff, not_true_eq_false, if_false, push_occupied_tag, slice_from_node_tag,
      slice_from_node_snd]
    generalize (if (s.pool P).newly_alloc_node = 0 then _elr_alloc_mem_node s P else s) = t
    intro hne
    by_cases hc : (t.pool P).newly_alloc_node = 0
    · simp [hc] at hne
    · simp [hc]
  · simp only [hff, not_false_eq_true, if_true, push_occupied_tag, slice_from_free_list_tag,
      slice_from_free_list_snd]
    intro _
    trivial

theorem alloc_slice (s : State) (h : elr_mpl_t) :
    (elr_mpl_alloc s h).1.slice = (_elr_slice_from_pool s h.pool).1.slice
    ∧ (elr_mpl_alloc s h).1.node = (_elr_slice_from_pool s h.pool).1.node
    ∧ (elr_mpl_alloc s h).1.pool = (_elr_slice_from_pool s h.pool).1.pool
    ∧ (elr_mpl_alloc s h).1.blocks = (_elr_slice_from_pool s h.pool).1.blocks
    ∧ (elr_mpl_alloc s h).1.g_occupation_size
        = (_elr_slice_from_pool s h.pool).1.g_occupation_size
    ∧ (elr_mpl_alloc s h).2
        = if (_elr_slice_from_pool s h.pool).2 = 0 then 0
          else (_elr_slice_from_pool s h.pool).2 + SLICE_HDR := by
  unfold elr_mpl_alloc
  by_cases e : (_elr_slice_from_pool s h.pool).2 = 0
  · simp [e]
  · simp only [e, if_false]
    split_ifs <;> simp

theorem owner_setNode (s : State) (a m : Nat) (v : elr_mem_node) :
    ((s.setNode a v).node m).owner = if m = a then v.owner else (s.node m).owner := by
  rw [setNode_node]
  split_ifs <;> rfl

theorem owner_ite (s : State) (m a : Nat) :
    (if m = a then (s.node a).owner else (s.node m).owner) = (s.node m).owner := by
  split_ifs with h
  · rw [h]
  · rfl

theorem owner_ite_state (c : Prop) [Decidable c] (A B : State) (m : Nat) :
    ((if c then A else B).node m).owner
      = if c then (A.node m).owner else (B.node m).owner := by
  split_ifs <;> rfl

theorem slice_from_free_list_owner (s : State) (P m : Nat) :
    ((slice_from_free_list s P).1.node m).owner = (s.node m).owner := by
  simp only [slice_from_free_list, setPool_node, setSlice_node, owner_setNode, owner_ite,
    owner_ite_state, ite_self]

theorem slice_from_node_owner (s : State) (P m : Nat) :
    ((_elr_slice_from_node s P).1.node m).owner = (s.node m).owner := by
  by_cases hnn0 : (s.pool P).newly_alloc_node = 0
  · have e : _elr_slice_from_node s P = (s, 0) := by
      unfold _elr_slice_from_node
      simp [hnn0]
    rw [e]
  · rw [slice_from_node_bump s P _ _ rfl hnn0 rfl]
    simp only
    split_ifs with h1
    · rw [h1]
    · rfl

theorem push_occupied_node (s : State) (P x : Nat) :
    (push_occupied s P x).node = s.node := by
  simp only [push_occupied, setPool_node, setSlice_node, apply_ite State.node, ite_self]

/-- The function `_elr_alloc_mem_node` sets the owner of the node it gets from
the system and of no other node. -/
theorem alloc_mem_node_owner (s : State) (P m : Nat)
    (hm : (malloc s (s.pool P).node_size).2 ≠ 0 → m ≠ (malloc s (s.pool P).node_size).2) :
    ((_elr_alloc_mem_node s P).node m).owner = (s.node m).owner := by
  have hT : ∀ (t : State) (a : Nat),
      ((let t := t.setNode a { t.node a with first_avail := a + NODE_HDR }
        let t := t.setNode a { t.node a with free_slice_head := 0 }
        let t := t.setNode a { t.node a with free_slice_tail := 0 }
        let t := t.setNode a { t.node a with used_slice_count := 0 }
        let t := t.setNode a { t.node a with using_slice_count := 0 }
        let t := t.setNode a { t.node a with prev := 0 }
        if (t.pool P).first_node = 0 then
          let t := t.setPool P { t.pool P with first_node := a }
          t.setNode a { t.node a with next := 0 }
        else
          let t := t.setNode a { t.node a with next := (t.pool P).first_node }
          let t := t.setNode (t.pool P).first_node
            { t.node (t.pool P).first_node with prev := a }
          t.setPool P { t.pool P with first_node := a }).node m).owner = (t.node m).owner := by
    intro t a
    simp only [setPool_node, setNode_pool, owner_setNode, owner_ite, owner_ite_state, ite_self]
  have hn := malloc_node s (s.pool P).node_size
  unfold _elr_alloc_mem_node
  revert hm hn
  generalize malloc s (s.pool P).node_size = r
  obtain ⟨s1, a⟩ := r
  intro hm hn
  simp only at hm hn
  by_cases ha : a = 0
  · simp only [ha, if_true]
    rw [hn]
  · simp only [ha, if_false]
    refine (hT _ a).trans ?_
    rw [owner_setNode, if_neg (hm ha), setPool_node]
    simp only [hn]

theorem free_new_run_owner (s : State) (x n P m : Nat) :
    ((free_new_run s x n P).node m).owner = (s.node m).owner := by
  simp only [free_new_run, setPool_node, setSlice_node, owner_setNode, owner_ite,
    owner_ite_state, ite_self]

theorem free_after_tail_owner (s : State) (x n m : Nat) :
    ((free_after_tail s x n).node m).owner = (s.node m).owner := by
  simp only [free_after_tail, setPool_node, setSlice_node, owner_setNode, owner_ite,
    owner_ite_state, ite_self]

theorem free_unlink_owner (s : State) (mem x n P m : Nat) :
    ((free_unlink s mem x n P).node m).owner = (s.node m).owner := by
  rw [free_unlink_node]
  simp only
  split_ifs with h1
  · rw [h1]
  · rfl

theorem free_mem_node_owner (s : State) (n m : Nat) :
    ((_elr_free_mem_node s n).node m).owner = (s.node m).owner := by
  have e := excise_free_run_node s n
  unfold _elr_free_mem_node sys_free
  revert e
  generalize excise_free_run s n = s1
  intro e
  simp only [setPool_node, owner_setNode, owner_ite, owner_ite_state, ite_self, e]

/-- The function `elr_mpl_free` changes the owner of no node. -/
theorem free_owner (s : State) (mem m : Nat) :
    ((elr_mpl_free s mem).node m).owner = (s.node m).owner := by
  simp only [elr_mpl_free, owner_ite_state, free_mem_node_owner, free_new_run_owner,
    free_after_tail_owner, free_unlink_owner, ite_self]

theorem slice_from_pool_owner (s : State) (P m : Nat)
    (hm : (malloc s (s.pool P).node_size).2 ≠ 0 → m ≠ (malloc s (s.pool P).node_size).2) :
    ((_elr_slice_from_pool s P).1.node m).owner = (s.node m).owner := by
  simp only [_elr_slice_from_pool, apply_ite Prod.fst, owner_ite_state, push_occupied_node,
    slice_from_free_list_owner, slice_from_node_owner, alloc_mem_node_owner s P m hm, ite_self]

theorem malloc_blocks_mem (s : State) (size : Nat) {b : Nat × Nat} (hb : b ∈ s.blocks) :
    b ∈ (malloc s size).1.blocks := by
  unfold malloc
  split
  · exact hb
  · exact hb
  · split_ifs
    · exact List.mem_cons_of_mem _ hb
    · exact hb

theorem slice_from_pool_blocks_mem (s : State) (P : Nat) {b : Nat × Nat} (hb : b ∈ s.blocks) :
    b ∈ (_elr_slice_from_pool s P).1.blocks := by
  have hm := malloc_blocks_mem s (s.pool P).node_size hb
  rw [← alloc_mem_node_blocks] at hm
  simp only [_elr_slice_from_pool, apply_ite Prod.fst, apply_ite State.blocks,
    push_occupied_blocks, slice_from_free_list_blocks, slice_from_node_blocks]
  split_ifs <;> assumption

theorem free_unlink_blocks (s : State) (mem x n P : Nat) :
    (free_unlink s mem x n P).blocks = s.blocks := by
  simp only [free_unlink, setSlice_blocks, setPool_blocks, setNode_blocks,
    apply_ite State.blocks, ite_self]

theorem free_new_run_blocks (s : State) (x n P : Nat) :
    (free_new_run s x n P).blocks = s.blocks := by
  simp only [free_new_run, setSlice_blocks, setPool_blocks, setNode_blocks,
    apply_ite State.blocks, ite_self]

theorem free_after_tail_blocks (s : State) (x n : Nat) :
    (free_after_tail s x n).blocks = s.blocks := by
  simp only [free_after_tail, setSlice_blocks, setPool_blocks, setNode_blocks,
    apply_ite State.blocks, ite_self]

theorem excise_free_run_blocks (s : State) (n : Nat) :
    (excise_free_run s n).blocks = s.blocks := by
  simp only [excise_free_run, setSlice_blocks, setPool_blocks, setNode_blocks,
    apply_ite State.blocks, ite_self]

theorem free_mem_node_blocks (s : State) (n : Nat) :
    (_elr_free_mem_node s n).blocks = s.blocks.filter (fun b => b.1 ≠ n) := by
  have e := excise_free_run_blocks s n
  unfold _elr_free_mem_node sys_free
  revert e
  generalize excise_free_run s n = s1
  intro e
  simp only [setPool_blocks, setNode_blocks, apply_ite State.blocks, ite_self, e]

/-- The function `elr_mpl_free` gives back to the system no block but the node
of the slice of `mem`. -/
theorem free_blocks_mem (s : State) (mem : Nat) {b : Nat × Nat} (hb : b ∈ s.blocks)
    (hne : b.1 ≠ (s.slice (mem - SLICE_HDR)).node) : b ∈ (elr_mpl_free s mem).blocks := by
  simp only [elr_mpl_free, apply_ite State.blocks, free_mem_node_blocks, free_new_run_blocks,
    free_after_tail_blocks, free_unlink_blocks]
  have : b ∈ s.blocks.filter (fun b => b.1 ≠ (s.slice (mem - SLICE_HDR)).node) := by
    rw [List.mem_filter]
    exact ⟨hb, by simpa using hne⟩
  split_ifs <;> assumption

/-! ### A pool stays valid under allocation and release -/

/-- No slice of the lists of a pool is the slice that holds the pool object. -/
theorem PoolInv.slice_ne_anchor {s : State} {P : Nat} {NL : List Nat}
    {runs : List (Nat × List Nat)} {OL : List Nat} (h : PoolInv s P NL runs OL)
    (ha : anchored s P) (hg : roomy s P) {z : Nat} (hz : z ∈ flat runs ++ OL) :
    z ≠ P - SLICE_HDR := by
  obtain ⟨b, hb, hown, hb0, h1, h2⟩ := ha
  obtain ⟨hn, i, hi, hzi⟩ := h.slice_place hz
  have hbn := (h.node_ok _ hn).2.1
  have hne : b ≠ ((s.slice z).node, (s.pool P).node_size) := by
    intro e
    apply hown
    rw [e]
    exact (h.node_ok _ hn).1
  have hd := blocks_disjoint.ne h.blocks_ok hb hbn hne
  simp only at hd
  unfold roomy at hg
  have e1 : (i + 1) * (s.pool P).slice_size ≤ (s.pool P).slice_count * (s.pool P).slice_size :=
    Nat.mul_le_mul_right _ hi
  have hss := h.ss_pos
  rw [Nat.add_mul] at e1
  omega

theorem roomy_of_static {s S : State} {P : Nat}
    (h : static_of (S.pool P) = static_of (s.pool P)) (hg : roomy s P) : roomy S P := by
  unfold roomy at hg ⊢
  rw [static_of_slice_count h, static_of_slice_size h, static_of_node_size h]
  exact hg

/-- The function `_elr_slice_from_pool` on a valid pool leaves the pool valid
and anchored. -/
theorem valid_slice_from_pool {s : State} {P : Nat} {NL : List Nat}
    {runs : List (Nat × List Nat)} {OL : List Nat} (h : PoolInv s P NL runs OL)
    (ha : anchored s P) (hg : roomy s P) (hv : pool_valid s P) :
    pool_valid (_elr_slice_from_pool s P).1 P ∧ anchored (_elr_slice_from_pool s P).1 P
    ∧ roomy (_elr_slice_from_pool s P).1 P := by
  have hst := slice_from_pool_static s P P
  have hg2 := roomy_of_static hst hg
  have ha2 : anchored (_elr_slice_from_pool s P).1 P := by
    obtain ⟨b, hb, hown, hb0, h1, h2⟩ := ha
    refine ⟨b, slice_from_pool_blocks_mem s P hb, ?_, hb0, h1, h2⟩
    rw [slice_from_pool_owner s P b.1 ?_]
    · exact hown
    · intro hm e
      obtain ⟨a, rest, hsys, hfresh⟩ := malloc_granted_of_ne_zero s _ hm
      have hd := ((sys_fresh_iff s a _).1 hfresh).2.2.2 b hb
      rw [disjoint_iff] at hd
      have ea : (malloc s (s.pool P).node_size).2 = a := by
        rw [malloc_granted s _ a rest hsys hfresh]
      rw [ea] at e
      have := h.ns_pos
      omega
  refine ⟨?_, ha2, hg2⟩
  unfold pool_valid at hv ⊢
  rw [static_of_slice_tag hst, ← hv]
  apply slice_from_pool_tag_ne
  rcases PoolInv_slice_from_pool h with ⟨e, -⟩ | ⟨e, -, NL2, runs2, hinv⟩
  · rw [e]
    obtain ⟨b, hb, hown, hb0, h1, h2⟩ := ha
    omega
  · exact (hinv.slice_ne_anchor ha2 hg2
      (List.mem_append_right _ (List.mem_cons_self _ _))).symm

theorem valid_alloc {s : State} {hp : elr_mpl_t} {NL : List Nat}
    {runs : List (Nat × List Nat)} {OL : List Nat} (h : PoolInv s hp.pool NL runs OL)
    (ha : anchored s hp.pool) (hg : roomy s hp.pool) (hv : pool_valid s hp.pool) :
    pool_valid (elr_mpl_alloc s hp).1 hp.pool ∧ anchored (elr_mpl_alloc s hp).1 hp.pool
    ∧ roomy (elr_mpl_alloc s hp).1 hp.pool := by
  obtain ⟨h1, h2, h3⟩ := valid_slice_from_pool h ha hg hv
  obtain ⟨e1, e2, e3, e4, -, -⟩ := alloc_slice s hp
  unfold pool_valid at h1 ⊢
  unfold anchored at h2 ⊢
  unfold roomy at h3 ⊢
  rw [e1, e2, e3, e4]
  exact ⟨h1, h2, h3⟩

/-- The function `elr_mpl_free` on the payload of an occupied slice of a
valid pool leaves the pool valid and anchored. -/
theorem valid_free {s : State} {P x : Nat} {NL : List Nat}
    {runs : List (Nat × List Nat)} {OL : List Nat} (h : PoolInv s P NL runs OL)
    (hx : x ∈ OL) (ha : anchored s P) (hg : roomy s P) (hv : pool_valid s P) :
    pool_valid (elr_mpl_free s (x + SLICE_HDR)) P ∧ anchored (elr_mpl_free s (x + SLICE_HDR)) P
    ∧ roomy (elr_mpl_free s (x + SLICE_HDR)) P := by
  have hst := free_static s (x + SLICE_HDR) P
  refine ⟨?_, ?_, roomy_of_static hst hg⟩
  · unfold pool_valid at hv ⊢
    rw [static_of_slice_tag hst, ← hv, free_tag, Nat.add_sub_cancel]
    have hne := (h.slice_ne_anchor ha hg (List.mem_append_right _ hx)).symm
    simp [hne]
  · obtain ⟨b, hb, hown, hb0, h1, h2⟩ := ha
    refine ⟨b, free_blocks_mem s _ hb ?_, ?_, hb0, h1, h2⟩
    · rw [Nat.add_sub_cancel]
      intro e
      apply hown
      rw [e]
      exact (h.node_ok _ (h.occ_ok x hx)).1
    · rw [free_owner]
      exact hown

theorem Sound_alloc {s : State} {hp : elr_mpl_t} {live : List Nat}
    (h : Sound s hp.pool live) :
    Sound (elr_mpl_alloc s hp).1 hp.pool
      (if (elr_mpl_alloc s hp).2 = 0 then live else (elr_mpl_alloc s hp).2 :: live) := by
  obtain ⟨hl, hv, ha, hg⟩ := h
  refine ⟨Live_alloc hl, ?_⟩
  obtain ⟨NL, runs, OL, hinv, -, -⟩ := hl
  exact valid_alloc hinv ha hg hv

theorem Sound_free {s : State} {P mem : Nat} {live : List Nat} (h : Sound s P live)
    (hm : mem ∈ live) : Sound (elr_mpl_free s mem) P (live.erase mem) := by
  obtain ⟨hl, hv, ha, hg⟩ := h
  refine ⟨Live_free hl hm, ?_⟩
  obtain ⟨NL, runs, OL, hinv, -, hl2⟩ := hl
  obtain ⟨hm1, hm2⟩ := hl2 mem hm
  have := valid_free hinv hm2 ha hg hv
  rwa [Nat.sub_add_cancel hm1] at this

theorem Sound_run_ops (hp : elr_mpl_t) (ops : List Op) :
    ∀ (s : State) (live : List Nat), Sound s hp.pool live →
      Sound (run_ops hp ops (s, live)).1 hp.pool (run_ops hp ops (s, live)).2
      ∧ static_of ((run_ops hp ops (s, live)).1.pool hp.pool) = static_of (s.pool hp.pool) := by
  induction ops with
  | nil => intro s live h; exact ⟨h, rfl⟩
  | cons op ops ih =>
    intro s live h
    cases op with
    | alloc =>
      simp only [run_ops]
      obtain ⟨h1, h2⟩ := ih _ _ (Sound_alloc h)
      exact ⟨h1, h2.trans (alloc_static s hp hp.pool)⟩
    | free mem =>
      simp only [run_ops]
      split_ifs with hm
      · obtain ⟨h1, h2⟩ := ih _ _ (Sound_free h hm)
        exact ⟨h1, h2.trans (free_static s mem hp.pool)⟩
      · exact ih _ _ h

theorem slice_tag_setPool (s : State) (a p : Nat) (v : elr_mem_pool) :
    ((s.setPool a v).pool p).slice_tag = if p = a then v.slice_tag else (s.pool p).slice_tag := by
  rw [setPool_pool]
  split_ifs <;> rfl

theorem slice_tag_ite (s : State) (p a : Nat) :
    (if p = a then (s.pool a).slice_tag else (s.pool p).slice_tag) = (s.pool p).slice_tag := by
  split_ifs with h
  · rw [h]
  · rfl

theorem slice_tag_ite_state (c : Prop) [Decidable c] (A B : State) (p : Nat) :
    ((if c then A else B).pool p).slice_tag
      = if c then (A.pool p).slice_tag else (B.pool p).slice_tag := by
  split_ifs <;> rfl

theorem init_pool_slice_tag (s : State) (ps P : Nat) (fpool : Option elr_mpl_t) (n a f : Nat) :
    ((init_pool s ps P fpool n a f).pool P).slice_tag = (s.slice ps).tag := by
  simp only [init_pool, setPool_pool, if_true]

theorem link_pool_slice_tag (s : State) (P p : Nat) :
    ((link_pool s P).pool p).slice_tag = (s.pool p).slice_tag := by
  simp only [link_pool, slice_tag_setPool, slice_tag_ite, slice_tag_ite_state, ite_self]

/-- The pool made by a successful `elr_mpl_create_ex` is in working order when
`g_mem_pool` satisfies the pool invariant, its nodes hold more than one slice
and no block overlaps the static `g_mem_pool`. -/
theorem Sound_create {s : State} {NL : List Nat} {runs : List (Nat × List Nat)}
    {OL : List Nat} (fpool : Option elr_mpl_t) (n a f : Nat)
    (hG : PoolInv s g_mem_pool NL runs OL) (hst : static_clear s)
    (hsc : (s.pool g_mem_pool).slice_count ≠ 1) (hn : n + 100 ≤ SIZE_MOD)
    (hok : (elr_mpl_create_ex s fpool n a f).2.pool ≠ 0) :
    Sound (elr_mpl_create_ex s fpool n a f).1 (elr_mpl_create_ex s fpool n a f).2.pool [] := by
  obtain ⟨hinv, -⟩ := PoolInv_create s fpool n a f hG.blocks_ok hn hok
  have hne := create_ex_ok s fpool n a f hok
  obtain ⟨e1, e2, e3, e4, e5⟩ := create_ex_pool s fpool n a f hne
  obtain ⟨c1, c2, c3, c4⟩ := create_sizes n hn
  have hlive : Live (elr_mpl_create_ex s fpool n a f).1 (elr_mpl_create_ex s fpool n a f).2.pool
      [] := ⟨[], [], [], hinv, List.nodup_nil, fun p hp => by simp at hp⟩
  refine ⟨hlive, ?_, ?_, ?_⟩
  · unfold pool_valid
    rw [e1, Nat.add_sub_cancel, e3, create_ex_state s fpool n a f hne, link_pool_slice_tag,
      init_pool_slice_tag]
  · rcases PoolInv_slice_from_pool hG with ⟨e, -⟩ | ⟨-, -, NL2, runs2, hinv2⟩
    · exact absurd e hne
    · have hx : (_elr_slice_from_pool s g_mem_pool).2
          ∈ flat runs2 ++ (_elr_slice_from_pool s g_mem_pool).2 :: OL :=
        List.mem_append_right _ (List.mem_cons_self _ _)
      obtain ⟨hnode, i, hi, hxi⟩ := hinv2.slice_place hx
      have hPG := hinv2.payload_ne_global (slice_from_pool_static_clear s _ hst)
        (by rw [static_of_slice_count (slice_from_pool_static s g_mem_pool g_mem_pool)]
            exact hsc) hx
      have hgeo : NODE_HDR + ((_elr_slice_from_pool s g_mem_pool).1.pool g_mem_pool).slice_count
          * ((_elr_slice_from_pool s g_mem_pool).1.pool g_mem_pool).slice_size
          ≤ ((_elr_slice_from_pool s g_mem_pool).1.pool g_mem_pool).node_size := by
        rcases hinv2.geom with e | e
        · rw [static_of_slice_count (slice_from_pool_static s g_mem_pool g_mem_pool)] at e
          exact absurd e hsc
        · exact e
      have hn0 : ((_elr_slice_from_pool s g_mem_pool).1.slice
          (_elr_slice_from_pool s g_mem_pool).2).node ≠ 0 := by
        intro e
        exact dll_not_mem_zero hinv2.nodes (e ▸ hnode)
      refine ⟨(_, _), by rw [e5]; exact (hinv2.node_ok _ hnode).2.1, ?_, ?_, ?_, ?_⟩
      · rw [e4, (hinv2.node_ok _ hnode).1, e1]
        exact fun e => hPG e.symm
      · simp only
        omega
      · simp only
        rw [e1, Nat.add_sub_cancel]
        omega
      · simp only
        rw [e1, Nat.add_sub_cancel]
        have h1 : (i + 1) * ((_elr_slice_from_pool s g_mem_pool).1.pool g_mem_pool).slice_size
            ≤ ((_elr_slice_from_pool s g_mem_pool).1.pool g_mem_pool).slice_count
              * ((_elr_slice_from_pool s g_mem_pool).1.pool g_mem_pool).slice_size :=
          Nat.mul_le_mul_right _ hi
        have hss := hinv2.ss_pos
        rw [Nat.add_mul] at h1
        omega
  · unfold roomy
    rw [e1]
    simp only [geometry_of, Prod.mk.injEq] at e2
    obtain ⟨-, g2, g3, g4, -⟩ := e2
    rw [g2, g3, g4, c4]

/-- The states reached from a successful `elr_mpl_create_ex` by calls of
`elr_mpl_alloc` and `elr_mpl_free` (of live payloads) on the new pool. -/
theorem Sound_reached {s : State} {NL : List Nat} {runs : List (Nat × List Nat)}
    {OL : List Nat} (fpool : Option elr_mpl_t) (n a f : Nat) (ops : List Op)
    (hG : PoolInv s g_mem_pool NL runs OL) (hst : static_clear s)
    (hsc : (s.pool g_mem_pool).slice_count ≠ 1) (hn : n + 100 ≤ SIZE_MOD)
    (hok : (elr_mpl_create_ex s fpool n a f).2.pool ≠ 0) :
    Sound (run_ops (elr_mpl_create_ex s fpool n a f).2 ops
        ((elr_mpl_create_ex s fpool n a f).1, [])).1 (elr_mpl_create_ex s fpool n a f).2.pool
      (run_ops (elr_mpl_create_ex s fpool n a f).2 ops
        ((elr_mpl_create_ex s fpool n a f).1, [])).2
    ∧ static_of ((run_ops (elr_mpl_create_ex s fpool n a f).2 ops
        ((elr_mpl_create_ex s fpool n a f).1, [])).1.pool (elr_mpl_create_ex s fpool n a f).2.pool)
      = static_of ((elr_mpl_create_ex s fpool n a f).1.pool
          (elr_mpl_create_ex s fpool n a f).2.pool) :=
  Sound_run_ops _ ops _ _ (Sound_create fpool n a f hG hst hsc hn hok)

/-! ### Counters and tags under one step -/

theorem using_setNode (s : State) (a m : Nat) (v : elr_mem_node) :
    ((s.setNode a v).node m).using_slice_count
      = if m = a then v.using_slice_count else (s.node m).using_slice_count := by
  rw [setNode_node]
  split_ifs <;> rfl

theorem using_ite (s : State) (m a : Nat) :
    (if m = a then (s.node a).using_slice_count else (s.node m).using_slice_count)
      = (s.node m).using_slice_count := by
  split_ifs with h
  · rw [h]
  · rfl

theorem using_ite_state (c : Prop) [Decidable c] (A B : State) (m : Nat) :
    ((if c then A else B).node m).using_slice_count
      = if c then (A.node m).using_slice_count else (B.node m).using_slice_count := by
  split_ifs <;> rfl

theorem free_mem_node_using (s : State) (n m : Nat) :
    ((_elr_free_mem_node s n).node m).using_slice_count = (s.node m).using_slice_count := by
  have e := excise_free_run_node s n
  unfold _elr_free_mem_node sys_free
  revert e
  generalize excise_free_run s n = s1
  intro e
  simp only [setPool_node, using_setNode, using_ite, using_ite_state, ite_self, e]

theorem free_unlink_using (s : State) (mem x n P m : Nat) :
    ((free_unlink s mem x n P).node m).using_slice_count
      = if m = n then ((s.node n).using_slice_count + SIZE_MOD - 1) % SIZE_MOD
        else (s.node m).using_slice_count := by
  rw [free_unlink_node]
  simp only
  split_ifs <;> rfl

/-- The function `elr_mpl_free` on a slice of a valid pool counts the slice
out of its node and changes no other `using_slice_count`. -/
theorem free_using (s : State) (mem m : Nat)
    (hv : (s.slice ((s.node (s.slice (mem - SLICE_HDR)).node).owner - SLICE_HDR)).tag
      = (s.pool (s.node (s.slice (mem - SLICE_HDR)).node).owner).slice_tag) :
    ((elr_mpl_free s mem).node m).using_slice_count
      = if m = (s.slice (mem - SLICE_HDR)).node then
          ((s.node m).using_slice_count + SIZE_MOD - 1) % SIZE_MOD
        else (s.node m).using_slice_count := by
  simp only [elr_mpl_free, hv, ne_eq, not_true_eq_false, if_false, using_ite_state,
    free_mem_node_using, free_new_run_using, free_after_tail_using, free_unlink_using, ite_self]
  split_ifs with h1
  · rw [h1]
  · rfl

/-- The function `elr_mpl_free` on the payload of an occupied slice of a valid
pool lowers the `using_slice_count` of the node of the slice by one. -/
theorem PoolInv.free_decrements {s : State} {P x : Nat} {NL : List Nat}
    {runs : List (Nat × List Nat)} {OL : List Nat} (h : PoolInv s P NL runs OL)
    (hx : x ∈ OL) (hv : pool_valid s P) :
    ((elr_mpl_free s (x + SLICE_HDR)).node (s.slice x).node).using_slice_count + 1
      = (s.node (s.slice x).node).using_slice_count := by
  obtain ⟨hn, h1, h2, -, -⟩ := h.occupied_facts hx
  have hown := (h.node_ok _ hn).1
  rw [free_using s _ _ (by rw [Nat.add_sub_cancel, hown]; exact hv), Nat.add_sub_cancel,
    if_pos rfl]
  have e : (s.node (s.slice x).node).using_slice_count + SIZE_MOD - 1
      = ((s.node (s.slice x).node).using_slice_count - 1) + SIZE_MOD := by omega
  rw [e, Nat.add_mod_right, Nat.mod_eq_of_lt (by omega)]
  omega

theorem slice_from_pool_snd_free (s : State) (P : Nat) (hv : pool_valid s P)
    (hff : (s.pool P).first_free_slice ≠ 0) :
    (_elr_slice_from_pool s P).2 = (s.pool P).first_free_slice := by
  unfold pool_valid at hv
  unfold _elr_slice_from_pool
  simp only [hv, ne_eq, not_true_eq_false, if_false, hff, not_false_eq_true, if_true]
  rfl

/-- What one `elr_mpl_alloc` and one `elr_mpl_free` do to the tags of a valid
pool that satisfies its invariant. -/
theorem PoolInv.tags_step {s : State} {hp : elr_mpl_t} {NL : List Nat}
    {runs : List (Nat × List Nat)} {OL : List Nat} (h : PoolInv s hp.pool NL runs OL)
    (hv : pool_valid s hp.pool) :
    ((elr_mpl_alloc s hp).2 ≠ 0 →
      (flat runs ≠ [] →
        (elr_mpl_alloc s hp).2 - SLICE_HDR = (flat runs).headD 0
        ∧ ((elr_mpl_alloc s hp).1.slice ((elr_mpl_alloc s hp).2 - SLICE_HDR)).tag
            = wrap_int ((s.slice ((elr_mpl_alloc s hp).2 - SLICE_HDR)).tag + 1))
      ∧ (flat runs = [] →
        (elr_mpl_alloc s hp).2 - SLICE_HDR ∉ OL
        ∧ ((elr_mpl_alloc s hp).1.slice ((elr_mpl_alloc s hp).2 - SLICE_HDR)).tag = 0))
    ∧ (∀ z, z ≠ (elr_mpl_alloc s hp).2 - SLICE_HDR →
        ((elr_mpl_alloc s hp).1.slice z).tag = (s.slice z).tag)
    ∧ (∀ x ∈ OL,
        ((elr_mpl_free s (x + SLICE_HDR)).slice x).tag = wrap_int ((s.slice x).tag + 1)
        ∧ ∀ z, z ≠ x → ((elr_mpl_free s (x + SLICE_HDR)).slice z).tag = (s.slice z).tag) := by
  obtain ⟨e1, -, -, -, -, e6⟩ := alloc_slice s hp
  have hff0 : (s.pool hp.pool).first_free_slice = 0 ↔ flat runs = [] := dll_nil_iff h.frees
  have hffh : (s.pool hp.pool).first_free_slice = (flat runs).headD 0 := dll_first h.frees
  refine ⟨?_, ?_, ?_⟩
  · intro hne
    have hr : (_elr_slice_from_pool s hp.pool).2 ≠ 0 := by
      intro e
      rw [e6, if_pos e] at hne
      exact hne rfl
    have e7 : (elr_mpl_alloc s hp).2 - SLICE_HDR = (_elr_slice_from_pool s hp.pool).2 := by
      rw [e6, if_neg hr, Nat.add_sub_cancel]
    rw [e7, e1, slice_from_pool_tag_eq s hp.pool hr]
    constructor
    · intro hfl
      have hff : (s.pool hp.pool).first_free_slice ≠ 0 := fun e => hfl (hff0.1 e)
      rw [if_pos hff, slice_from_pool_snd_free s hp.pool hv hff]
      exact ⟨hffh, rfl⟩
    · intro hfl
      rw [if_neg (not_not.2 (hff0.2 hfl))]
      rcases PoolInv_slice_from_pool h with ⟨e, -⟩ | ⟨-, hf, -⟩
      · exact absurd e hr
      · exact ⟨hf, rfl⟩
  · intro z hz
    rw [e1]
    apply slice_from_pool_tag_ne
    rw [e6] at hz
    by_cases hr : (_elr_slice_from_pool s hp.pool).2 = 0
    · rw [if_pos hr] at hz
      rw [hr]
      simpa using hz
    · rw [if_neg hr, Nat.add_sub_cancel] at hz
      exact hz
  · intro x hx
    have hown := (h.node_ok _ (h.occ_ok x hx)).1
    have hv2 : (s.slice ((s.node (s.slice (x + SLICE_HDR - SLICE_HDR)).node).owner
        - SLICE_HDR)).tag
        = (s.pool (s.node (s.slice (x + SLICE_HDR - SLICE_HDR)).node).owner).slice_tag := by
      rw [Nat.add_sub_cancel, hown]
      exact hv
    constructor
    · rw [free_tag, if_pos ⟨hv2, by rw [Nat.add_sub_cancel]⟩]
    · intro z hz
      rw [free_tag, if_neg]
      rw [Nat.add_sub_cancel]
      exact fun hc => hz hc.2

/-- On a pool whose nodes hold one slice, an allocation, the release of its
payload without the return of the node, and one more allocation give the same
payload twice. -/
theorem PoolInv.alloc_free_alloc {s : State} {hp : elr_mpl_t} {NL : List Nat}
    {runs : List (Nat × List Nat)} {OL : List Nat} (h : PoolInv s hp.pool NL runs OL)
    (ha : anchored s hp.pool) (hg : roomy s hp.pool) (hv : pool_valid s hp.pool)
    (hsc : (s.pool hp.pool).slice_count = 1)
    (hne : (elr_mpl_alloc s hp).2 ≠ 0)
    (hrel : ¬ (((elr_mpl_alloc s hp).1.node
          ((elr_mpl_alloc s hp).1.slice ((elr_mpl_alloc s hp).2 - SLICE_HDR)).node).using_slice_count
            = 1
        ∧ (elr_mpl_alloc s hp).1.g_occupation_size ≥ ELR_AUTO_FREE_NODE_THRESHOLD)) :
    (elr_mpl_alloc (elr_mpl_free (elr_mpl_alloc s hp).1 (elr_mpl_alloc s hp).2) hp).2
      = (elr_mpl_alloc s hp).2 := by
  obtain ⟨hv1, ha1, hg1⟩ := valid_alloc h ha hg hv
  rcases PoolInv_alloc h with ⟨e, -⟩ | ⟨-, e2, -, NL2, runs2, hinv⟩
  · exact absurd e hne
  obtain ⟨x, hx⟩ : ∃ x, x = (elr_mpl_alloc s hp).2 - SLICE_HDR := ⟨_, rfl⟩
  obtain ⟨S1, hS1⟩ : ∃ S1, S1 = (elr_mpl_alloc s hp).1 := ⟨_, rfl⟩
  rw [← hx] at e2 hinv hrel
  rw [← hS1] at hinv hrel hv1 ha1 hg1 ⊢
  rw [e2]
  have hxO : x ∈ x :: OL := List.mem_cons_self _ _
  obtain ⟨hnNL, husing1, husing2, -, hx0⟩ := hinv.occupied_facts hxO
  have hown : (S1.node (S1.slice x).node).owner = hp.pool := (hinv.node_ok _ hnNL).1
  have hsc1 : (S1.pool hp.pool).slice_count = 1 := by
    rw [hS1, static_of_slice_count (alloc_static s hp hp.pool)]
    exact hsc
  have hhead : (S1.node (S1.slice x).node).free_slice_head = 0 := by
    obtain ⟨-, -, n3, -, -, -, n7, n8, -⟩ := hinv.node_ok _ hnNL
    rw [n8]
    have : (run_of runs2 (S1.slice x).node).length = 0 := by
      rw [hsc1] at n3
      omega
    rw [List.length_eq_zero] at this
    rw [this]
    rfl
  have hfe := free_eq S1 x (by rw [hown]; exact hv1) husing1 husing2
  rw [hown, if_neg hrel, if_pos hhead] at hfe
  have hinv2 := @PoolInv_free_new_run S1 hp.pool _ x (x + SLICE_HDR) NL2 runs2 (x :: OL) hinv hxO
    rfl hhead
  rw [← hfe] at hinv2
  obtain ⟨hv2, -, -⟩ := valid_free hinv hxO ha1 hg1 hv1
  obtain ⟨e3, -⟩ := PoolInv_alloc_reuse hinv2 hv2
  obtain ⟨-, -, -, -, -, e6⟩ := alloc_slice (elr_mpl_free S1 (x + SLICE_HDR)) hp
  rw [e6, e3, if_neg hx0]

theorem Sound_of_reached {s : State} {NL : List Nat} {runs : List (Nat × List Nat)}
    {OL : List Nat} (fpool : Option elr_mpl_t) (n a f : Nat) (ops : List Op)
    (hG : PoolInv s g_mem_pool NL runs OL) (hst : static_clear s)
    (hsc : (s.pool g_mem_pool).slice_count ≠ 1) (hn : n + 100 ≤ SIZE_MOD)
    (hok : (elr_mpl_create_ex s fpool n a f).2.pool ≠ 0) :
    Sound (reached s fpool n a f ops).1 (elr_mpl_create_ex s fpool n a f).2.pool
      (reached s fpool n a f ops).2
    ∧ static_of ((reached s fpool n a f ops).1.pool (elr_mpl_create_ex s fpool n a f).2.pool)
      = static_of ((elr_mpl_create_ex s fpool n a f).1.pool
          (elr_mpl_create_ex s fpool n a f).2.pool) :=
  Sound_reached fpool n a f ops hG hst hsc hn hok

/-- Object sizes that do not wrap around (`n + 100 ≤ 2^64`): a pool made by a successful `elr_mpl_create_ex` (in a state where
`g_mem_pool` satisfies the pool invariant), then any sequence of
`elr_mpl_alloc` calls and `elr_mpl_free` calls on live payloads of that pool:
every node `m` of the pool's node list has a free subrange `R` (the part of
the pool's free list from `free_slice_head` to `free_slice_tail`) with
`using_slice_count + |R| = used_slice_count` and
`using_slice_count + |R| + (slice_count - used_slice_count) = slice_count`;
and `elr_mpl_free` of a live payload lowers the `using_slice_count` of the
node of its slice by exactly one. -/
theorem node_slice_counts {s : State} {NL : List Nat} {runs : List (Nat × List Nat)}
    {OL : List Nat} (fpool : Option elr_mpl_t) (n a f : Nat) (ops : List Op)
    (hG : PoolInv s g_mem_pool NL runs OL) (hst : static_clear s)
    (hsc : (s.pool g_mem_pool).slice_count ≠ 1) (hn : n + 100 ≤ SIZE_MOD)
    (hok : (elr_mpl_create_ex s fpool n a f).2.pool ≠ 0) :
    ∃ NL2 FL : List Nat,
      node_list (reached s fpool n a f ops).1 (elr_mpl_create_ex s fpool n a f).2.pool NL2
      ∧ free_list (reached s fpool n a f ops).1 (elr_mpl_create_ex s fpool n a f).2.pool FL
      ∧ (∀ m ∈ NL2, ∃ R : List Nat,
          free_subrange (reached s fpool n a f ops).1 FL m R
          ∧ ((reached s fpool n a f ops).1.node m).using_slice_count + R.length = ((reached s fpool n a f ops).1.node m).used_slice_count
          ∧ ((reached s fpool n a f ops).1.node m).using_slice_count + R.length
              + (((reached s fpool n a f ops).1.pool (elr_mpl_create_ex s fpool n a f).2.pool).slice_count - ((reached s fpool n a f ops).1.node m).used_slice_count)
            = ((reached s fpool n a f ops).1.pool (elr_mpl_create_ex s fpool n a f).2.pool).slice_count)
      ∧ ∀ p ∈ (reached s fpool n a f ops).2,
          ((elr_mpl_free (reached s fpool n a f ops).1 p).node ((reached s fpool n a f ops).1.slice (p - SLICE_HDR)).node).using_slice_count + 1
            = ((reached s fpool n a f ops).1.node ((reached s fpool n a f ops).1.slice (p - SLICE_HDR)).node).using_slice_count := by
  obtain ⟨⟨⟨NL2, runs2, OL2, hinv, -, hl⟩, hv, -, -⟩, -⟩ :=
    Sound_of_reached fpool n a f ops hG hst hsc hn hok
  refine ⟨NL2, flat runs2, hinv.nodes, hinv.frees, ?_, ?_⟩
  · intro m hm
    obtain ⟨-, -, n3, -, -, -, n7, -⟩ := hinv.node_ok m hm
    exact ⟨run_of runs2 m, hinv.free_subrange hm, n7.symm, by omega⟩
  · intro p hp
    obtain ⟨h1, h2⟩ := hl p hp
    have := hinv.free_decrements h2 hv
    rwa [Nat.sub_add_cancel h1] at this

/-- Example: the pool of 256-byte objects after two allocations and the
release of the first payload. -/
theorem node_slice_counts_witness :
    PoolInv (booted [some 300000]) g_mem_pool [131072] [] init_occupied
    ∧ static_clear (booted [some 300000])
    ∧ ((booted [some 300000]).pool g_mem_pool).slice_count ≠ 1
    ∧ 256 + 100 ≤ SIZE_MOD
    ∧ (elr_mpl_create_ex (booted [some 300000]) none 256 0 0).2.pool ≠ 0
    ∧ ∃ NL2 FL : List Nat,
      node_list (reached (booted [some 300000]) none 256 0 0 [Op.alloc, Op.alloc, Op.free 300096]).1 (elr_mpl_create_ex (booted [some 300000]) none 256 0 0).2.pool NL2
      ∧ free_list (reached (booted [some 300000]) none 256 0 0 [Op.alloc, Op.alloc, Op.free 300096]).1 (elr_mpl_create_ex (booted [some 300000]) none 256 0 0).2.pool FL
      ∧ (∀ m ∈ NL2, ∃ R : List Nat,
          free_subrange (reached (booted [some 300000]) none 256 0 0 [Op.alloc, Op.alloc, Op.free 300096]).1 FL m R
          ∧ ((reached (booted [some 300000]) none 256 0 0 [Op.alloc, Op.alloc, Op.free 300096]).1.node m).using_slice_count + R.length = ((reached (booted [some 300000]) none 256 0 0 [Op.alloc, Op.alloc, Op.free 300096]).1.node m).used_slice_count
          ∧ ((reached (booted [some 300000]) none 256 0 0 [Op.alloc, Op.alloc, Op.free 300096]).1.node m).using_slice_count + R.length
              + (((reached (booted [some 300000]) none 256 0 0 [Op.alloc, Op.alloc, Op.free 300096]).1.pool (elr_mpl_create_ex (booted [some 300000]) none 256 0 0).2.pool).slice_count - ((reached (booted [some 300000]) none 256 0 0 [Op.alloc, Op.alloc, Op.free 300096]).1.node m).used_slice_count)
            = ((reached (booted [some 300000]) none 256 0 0 [Op.alloc, Op.alloc, Op.free 300096]).1.pool (elr_mpl_create_ex (booted [some 300000]) none 256 0 0).2.pool).slice_count)
      ∧ ∀ p ∈ (reached (booted [some 300000]) none 256 0 0 [Op.alloc, Op.alloc, Op.free 300096]).2,
          ((elr_mpl_free (reached (booted [some 300000]) none 256 0 0 [Op.alloc, Op.alloc, Op.free 300096]).1 p).node ((reached (booted [some 300000]) none 256 0 0 [Op.alloc, Op.alloc, Op.free 300096]).1.slice (p - SLICE_HDR)).node).using_slice_count + 1
            = ((reached (booted [some 300000]) none 256 0 0 [Op.alloc, Op.alloc, Op.free 300096]).1.node ((reached (booted [some 300000]) none 256 0 0 [Op.alloc, Op.alloc, Op.free 300096]).1.slice (p - SLICE_HDR)).node).using_slice_count :=
  ⟨by decide!, by decide!, by decide!, by decide, by decide!,
    @node_slice_counts (booted [some 300000]) [131072] [] init_occupied none 256 0 0 [Op.alloc, Op.alloc, Op.free 300096]
      (by decide!) (by decide!) (by decide!) (by decide) (by decide!)⟩

/-- Object sizes that do not wrap around (`n + 100 ≤ 2^64`): a pool made by a successful `elr_mpl_create_ex` (in a state where
`g_mem_pool` satisfies the pool invariant), then any sequence of
`elr_mpl_alloc` calls and `elr_mpl_free` calls on live payloads of that pool.
In the state reached, with free list `FL` and occupied list `OL2`: the slices
of the live payloads are occupied; the tag of an occupied slice is even and
the tag of a free slice is odd; a successful `elr_mpl_alloc` returns the head
of `FL` with its tag raised by one, or, when `FL` is empty, a slice that was
not occupied, with tag 0, and changes no other tag; `elr_mpl_free` of a live
payload raises the tag of its slice by one and changes no other tag.  The
raised tag is reduced to the range of `int` (`wrap_int`). -/
theorem slice_tags {s : State} {NL : List Nat} {runs : List (Nat × List Nat)}
    {OL : List Nat} (fpool : Option elr_mpl_t) (n a f : Nat) (ops : List Op)
    (hG : PoolInv s g_mem_pool NL runs OL) (hst : static_clear s)
    (hsc : (s.pool g_mem_pool).slice_count ≠ 1) (hn : n + 100 ≤ SIZE_MOD)
    (hok : (elr_mpl_create_ex s fpool n a f).2.pool ≠ 0) :
    ∃ FL OL2 : List Nat,
      free_list (reached s fpool n a f ops).1 (elr_mpl_create_ex s fpool n a f).2.pool FL
      ∧ occupied_list (reached s fpool n a f ops).1 (elr_mpl_create_ex s fpool n a f).2.pool OL2
      ∧ (∀ p ∈ (reached s fpool n a f ops).2, p - SLICE_HDR ∈ OL2)
      ∧ (∀ x ∈ OL2, ((reached s fpool n a f ops).1.slice x).tag % 2 = 0)
      ∧ (∀ x ∈ FL, ((reached s fpool n a f ops).1.slice x).tag % 2 = 1)
      ∧ ((elr_mpl_alloc (reached s fpool n a f ops).1 (elr_mpl_create_ex s fpool n a f).2).2 ≠ 0 →
          (FL ≠ [] →
            (elr_mpl_alloc (reached s fpool n a f ops).1 (elr_mpl_create_ex s fpool n a f).2).2 - SLICE_HDR = FL.headD 0
            ∧ ((elr_mpl_alloc (reached s fpool n a f ops).1 (elr_mpl_create_ex s fpool n a f).2).1.slice ((elr_mpl_alloc (reached s fpool n a f ops).1 (elr_mpl_create_ex s fpool n a f).2).2 - SLICE_HDR)).tag
                = wrap_int (((reached s fpool n a f ops).1.slice ((elr_mpl_alloc (reached s fpool n a f ops).1 (elr_mpl_create_ex s fpool n a f).2).2 - SLICE_HDR)).tag + 1))
          ∧ (FL = [] →
            (elr_mpl_alloc (reached s fpool n a f ops).1 (elr_mpl_create_ex s fpool n a f).2).2 - SLICE_HDR ∉ OL2
            ∧ ((elr_mpl_alloc (reached s fpool n a f ops).1 (elr_mpl_create_ex s fpool n a f).2).1.slice ((elr_mpl_alloc (reached s fpool n a f ops).1 (elr_mpl_create_ex s fpool n a f).2).2 - SLICE_HDR)).tag
                = 0))
      ∧ (∀ z, z ≠ (elr_mpl_alloc (reached s fpool n a f ops).1 (elr_mpl_create_ex s fpool n a f).2).2 - SLICE_HDR →
          ((elr_mpl_alloc (reached s fpool n a f ops).1 (elr_mpl_create_ex s fpool n a f).2).1.slice z).tag = ((reached s fpool n a f ops).1.slice z).tag)
      ∧ (∀ p ∈ (reached s fpool n a f ops).2,
          ((elr_mpl_free (reached s fpool n a f ops).1 p).slice (p - SLICE_HDR)).tag
              = wrap_int (((reached s fpool n a f ops).1.slice (p - SLICE_HDR)).tag + 1)
          ∧ ∀ z, z ≠ p - SLICE_HDR → ((elr_mpl_free (reached s fpool n a f ops).1 p).slice z).tag = ((reached s fpool n a f ops).1.slice z).tag) := by
  obtain ⟨⟨⟨NL2, runs2, OL2, hinv, -, hl⟩, hv, -, -⟩, -⟩ :=
    Sound_of_reached fpool n a f ops hG hst hsc hn hok
  obtain ⟨t1, t2, t3⟩ := @PoolInv.tags_step _ (elr_mpl_create_ex s fpool n a f).2 _ _ _ hinv hv
  have hfree : ∀ p ∈ (reached s fpool n a f ops).2,
      ((elr_mpl_free (reached s fpool n a f ops).1 p).slice (p - SLICE_HDR)).tag
          = wrap_int (((reached s fpool n a f ops).1.slice (p - SLICE_HDR)).tag + 1)
      ∧ ∀ z, z ≠ p - SLICE_HDR →
          ((elr_mpl_free (reached s fpool n a f ops).1 p).slice z).tag
            = ((reached s fpool n a f ops).1.slice z).tag := by
    intro p hp
    obtain ⟨h1, h2⟩ := hl p hp
    have := t3 _ h2
    rwa [Nat.sub_add_cancel h1] at this
  exact ⟨flat runs2, OL2, hinv.frees, hinv.occ, fun p hp => (hl p hp).2,
    fun x hx => (hinv.tag_occ x hx).1, fun x hx => (hinv.tag_free x hx).1, t1, t2, hfree⟩

/-- Example: the pool of 256-byte objects after two allocations and the
release of the first payload. -/
theorem slice_tags_witness :
    PoolInv (booted [some 300000]) g_mem_pool [131072] [] init_occupied
    ∧ static_clear (booted [some 300000])
    ∧ ((booted [some 300000]).pool g_mem_pool).slice_count ≠ 1
    ∧ 256 + 100 ≤ SIZE_MOD
    ∧ (elr_mpl_create_ex (booted [some 300000]) none 256 0 0).2.pool ≠ 0
    ∧ ∃ FL OL2 : List Nat,
      free_list (reached (booted [some 300000]) none 256 0 0 [Op.alloc, Op.alloc, Op.free 300096]).1 (elr_mpl_create_ex (booted [some 300000]) none 256 0 0).2.pool FL
      ∧ occupied_list (reached (booted [some 300000]) none 256 0 0 [Op.alloc, Op.alloc, Op.free 300096]).1 (elr_mpl_create_ex (booted [some 300000]) none 256 0 0).2.pool OL2
      ∧ (∀ p ∈ (reached (booted [some 300000]) none 256 0 0 [Op.alloc, Op.alloc, Op.free 300096]).2, p - SLICE_HDR ∈ OL2)
      ∧ (∀ x ∈ OL2, ((reached (booted [some 300000]) none 256 0 0 [Op.alloc, Op.alloc, Op.free 300096]).1.slice x).tag % 2 = 0)
      ∧ (∀ x ∈ FL, ((reached (booted [some 300000]) none 256 0 0 [Op.alloc, Op.alloc, Op.free 300096]).1.slice x).tag % 2 = 1)
      ∧ ((elr_mpl_alloc (reached (booted [some 300000]) none 256 0 0 [Op.alloc, Op.alloc, Op.free 300096]).1 (elr_mpl_create_ex (booted [some 300000]) none 256 0 0).2).2 ≠ 0 →
          (FL ≠ [] →
            (elr_mpl_alloc (reached (booted [some 300000]) none 256 0 0 [Op.alloc, Op.alloc, Op.free 300096]).1 (elr_mpl_create_ex (booted [some 300000]) none 256 0 0).2).2 - SLICE_HDR = FL.headD 0
            ∧ ((elr_mpl_alloc (reached (booted [some 300000]) none 256 0 0 [Op.alloc, Op.alloc, Op.free 300096]).1 (elr_mpl_create_ex (booted [some 300000]) none 256 0 0).2).1.slice ((elr_mpl_alloc (reached (booted [some 300000]) none 256 0 0 [Op.alloc, Op.alloc, Op.free 300096]).1 (elr_mpl_create_ex (booted [some 300000]) none 256 0 0).2).2 - SLICE_HDR)).tag
                = wrap_int (((reached (booted [some 300000]) none 256 0 0 [Op.alloc, Op.alloc, Op.free 300096]).1.slice ((elr_mpl_alloc (reached (booted [some 300000]) none 256 0 0 [Op.alloc, Op.alloc, Op.free 300096]).1 (elr_mpl_create_ex (booted [some 300000]) none 256 0 0).2).2 - SLICE_HDR)).tag + 1))
          ∧ (FL = [] →
            (elr_mpl_alloc (reached (booted [some 300000]) none 256 0 0 [Op.alloc, Op.alloc, Op.free 300096]).1 (elr_mpl_create_ex (booted [some 300000]) none 256 0 0).2).2 - SLICE_HDR ∉ OL2
            ∧ ((elr_mpl_alloc (reached (booted [some 300000]) none 256 0 0 [Op.alloc, Op.alloc, Op.free 300096]).1 (elr_mpl_create_ex (booted [some 300000]) none 256 0 0).2).1.slice ((elr_mpl_alloc (reached (booted [some 300000]) none 256 0 0 [Op.alloc, Op.alloc, Op.free 300096]).1 (elr_mpl_create_ex (booted [some 300000]) none 256 0 0).2).2 - SLICE_HDR)).tag
                = 0))
      ∧ (∀ z, z ≠ (elr_mpl_alloc (reached (booted [some 300000]) none 256 0 0 [Op.alloc, Op.alloc, Op.free 300096]).1 (elr_mpl_create_ex (booted [some 300000]) none 256 0 0).2).2 - SLICE_HDR →
          ((elr_mpl_alloc (reached (booted [some 300000]) none 256 0 0 [Op.alloc, Op.alloc, Op.free 300096]).1 (elr_mpl_create_ex (booted [some 300000]) none 256 0 0).2).1.slice z).tag = ((reached (booted [some 300000]) none 256 0 0 [Op.alloc, Op.alloc, Op.free 300096]).1.slice z).tag)
      ∧ (∀ p ∈ (reached (booted [some 300000]) none 256 0 0 [Op.alloc, Op.alloc, Op.free 300096]).2,
          ((elr_mpl_free (reached (booted [some 300000]) none 256 0 0 [Op.alloc, Op.alloc, Op.free 300096]).1 p).slice (p - SLICE_HDR)).tag
              = wrap_int (((reached (booted [some 300000]) none 256 0 0 [Op.alloc, Op.alloc, Op.free 300096]).1.slice (p - SLICE_HDR)).tag + 1)
          ∧ ∀ z, z ≠ p - SLICE_HDR → ((elr_mpl_free (reached (booted [some 300000]) none 256 0 0 [Op.alloc, Op.alloc, Op.free 300096]).1 p).slice z).tag = ((reached (booted [some 300000]) none 256 0 0 [Op.alloc, Op.alloc, Op.free 300096]).1.slice z).tag) :=
  ⟨by decide!, by decide!, by decide!, by decide, by decide!,
    @slice_tags (booted [some 300000]) [131072] [] init_occupied none 256 0 0 [Op.alloc, Op.alloc, Op.free 300096]
      (by decide!) (by decide!) (by decide!) (by decide) (by decide!)⟩

/-- C18: a pool made by a successful `elr_mpl_create_ex` (in a state where
`g_mem_pool` satisfies the pool invariant) whose nodes hold one slice
(`slice_count = 1`), in any state reached by `elr_mpl_alloc` calls and
`elr_mpl_free` calls on its live payloads: if `elr_mpl_alloc` returns a
payload `p` and `elr_mpl_free(p)` does not return the node to the system (the
release condition of line 536, last occupied slice of the node and
`g_occupation_size` at the threshold, is false), the next `elr_mpl_alloc`
returns `p` again. -/
theorem single_slice_realloc {s : State} {NL : List Nat} {runs : List (Nat × List Nat)}
    {OL : List Nat} (fpool : Option elr_mpl_t) (n a f : Nat) (ops : List Op)
    (hG : PoolInv s g_mem_pool NL runs OL) (hst : static_clear s)
    (hsc : (s.pool g_mem_pool).slice_count ≠ 1) (hn : n + 100 ≤ SIZE_MOD)
    (hok : (elr_mpl_create_ex s fpool n a f).2.pool ≠ 0)
    (hone : ((reached s fpool n a f ops).1.pool (elr_mpl_create_ex s fpool n a f).2.pool).slice_count = 1)
    (hne : (elr_mpl_alloc (reached s fpool n a f ops).1 (elr_mpl_create_ex s fpool n a f).2).2 ≠ 0)
    (hrel : ¬ (((elr_mpl_alloc (reached s fpool n a f ops).1 (elr_mpl_create_ex s fpool n a f).2).1.node
            ((elr_mpl_alloc (reached s fpool n a f ops).1 (elr_mpl_create_ex s fpool n a f).2).1.slice
              ((elr_mpl_alloc (reached s fpool n a f ops).1 (elr_mpl_create_ex s fpool n a f).2).2 - SLICE_HDR)).node).using_slice_count = 1
          ∧ (elr_mpl_alloc (reached s fpool n a f ops).1 (elr_mpl_create_ex s fpool n a f).2).1.g_occupation_size ≥ ELR_AUTO_FREE_NODE_THRESHOLD)) :
    (elr_mpl_alloc (elr_mpl_free (elr_mpl_alloc (reached s fpool n a f ops).1 (elr_mpl_create_ex s fpool n a f).2).1 (elr_mpl_alloc (reached s fpool n a f ops).1 (elr_mpl_create_ex s fpool n a f).2).2) (elr_mpl_create_ex s fpool n a f).2).2
      = (elr_mpl_alloc (reached s fpool n a f ops).1 (elr_mpl_create_ex s fpool n a f).2).2 := by
  obtain ⟨⟨⟨NL2, runs2, OL2, hinv, -, -⟩, hv, ha, hg⟩, -⟩ :=
    Sound_of_reached fpool n a f ops hG hst hsc hn hok
  exact @PoolInv.alloc_free_alloc _ (elr_mpl_create_ex s fpool n a f).2 _ _ _ hinv ha hg hv hone
    hne hrel

/-- C18 (example): a pool of 40000-byte objects; the payload `300096` is
allocated, released and allocated again. -/
theorem single_slice_realloc_witness :
    PoolInv (booted [some 300000]) g_mem_pool [131072] [] init_occupied
    ∧ static_clear (booted [some 300000])
    ∧ ((booted [some 300000]).pool g_mem_pool).slice_count ≠ 1
    ∧ 40000 + 100 ≤ SIZE_MOD
    ∧ (elr_mpl_create_ex (booted [some 300000]) none 40000 0 0).2.pool ≠ 0
    ∧ ((reached (booted [some 300000]) none 40000 0 0 []).1.pool (elr_mpl_create_ex (booted [some 300000]) none 40000 0 0).2.pool).slice_count = 1
    ∧ (elr_mpl_alloc (reached (booted [some 300000]) none 40000 0 0 []).1 (elr_mpl_create_ex (booted [some 300000]) none 40000 0 0).2).2 = 300096
    ∧ (elr_mpl_alloc (elr_mpl_free (elr_mpl_alloc (reached (booted [some 300000]) none 40000 0 0 []).1 (elr_mpl_create_ex (booted [some 300000]) none 40000 0 0).2).1 (elr_mpl_alloc (reached (booted [some 300000]) none 40000 0 0 []).1 (elr_mpl_create_ex (booted [some 300000]) none 40000 0 0).2).2) (elr_mpl_create_ex (booted [some 300000]) none 40000 0 0).2).2
      = (elr_mpl_alloc (reached (booted [some 300000]) none 40000 0 0 []).1 (elr_mpl_create_ex (booted [some 300000]) none 40000 0 0).2).2 :=
  ⟨by decide!, by decide!, by decide!, by decide, by decide!, by decide!, by decide!,
    @single_slice_realloc (booted [some 300000]) [131072] [] init_occupied none 40000 0 0 []
      (by decide!) (by decide!) (by decide!) (by decide) (by decide!) (by decide!) (by decide!)
      (by decide!)⟩

/-! ### Allocation without release: the number of nodes -/

theorem malloc_occupation (s : State) (size : Nat) :
    (malloc s size).1.g_occupation_size = s.g_occupation_size := by
  unfold malloc
  split
  · rfl
  · rfl
  · split_ifs <;> rfl

theorem alloc_mem_node_occupation (s : State) (P : Nat) :
    (_elr_alloc_mem_node s P).g_occupation_size
      = if (malloc s (s.pool P).node_size).2 = 0 then s.g_occupation_size
        else (s.g_occupation_size + (s.pool P).node_size) % SIZE_MOD := by
  have hp := malloc_pool s (s.pool P).node_size
  have ho := malloc_occupation s (s.pool P).node_size
  unfold _elr_alloc_mem_node
  revert hp ho
  generalize malloc s (s.pool P).node_size = r
  obtain ⟨s1, a⟩ := r
  intro hp ho
  simp only at hp ho
  by_cases ha : a = 0
  · simp only [ha, if_true]
    exact ho
  · simp only [ha, if_false, setNode_occupation, setPool_occupation,
      apply_ite State.g_occupation_size, ite_self, hp, ho]

theorem slice_from_node_occupation (s : State) (P : Nat) :
    (_elr_slice_from_node s P).1.g_occupation_size = s.g_occupation_size := by
  simp only [_elr_slice_from_node, setNode_occupation, setPool_occupation, setSlice_occupation,
    apply_ite Prod.fst, apply_ite State.g_occupation_size, ite_self]

theorem push_occupied_occupation (s : State) (P x : Nat) :
    (push_occupied s P x).g_occupation_size = s.g_occupation_size := by
  simp only [push_occupied, setNode_occupation, setPool_occupation, setSlice_occupation,
    apply_ite State.g_occupation_size, ite_self]

theorem newly_setPool (s : State) (a p : Nat) (v : elr_mem_pool) :
    ((s.setPool a v).pool p).newly_alloc_node
      = if p = a then v.newly_alloc_node else (s.pool p).newly_alloc_node := by
  rw [setPool_pool]
  split_ifs <;> rfl

theorem newly_ite (s : State) (p a : Nat) :
    (if p = a then (s.pool a).newly_alloc_node else (s.pool p).newly_alloc_node)
      = (s.pool p).newly_alloc_node := by
  split_ifs with h
  · rw [h]
  · rfl

theorem newly_ite_state (c : Prop) [Decidable c] (A B : State) (p : Nat) :
    ((if c then A else B).pool p).newly_alloc_node
      = if c then (A.pool p).newly_alloc_node else (B.pool p).newly_alloc_node := by
  split_ifs <;> rfl

theorem push_occupied_newly (s : State) (P x p : Nat) :
    ((push_occupied s P x).pool p).newly_alloc_node = (s.pool p).newly_alloc_node := by
  simp only [push_occupied, setSlice_pool, newly_setPool, newly_ite, newly_ite_state, ite_self]

/-- After a bump allocation the pool has no bump node left or its bump node
has handed out a slice. -/
theorem bump_newly {s : State} {P nn : Nat} {NL : List Nat}
    {runs : List (Nat × List Nat)} {OL : List Nat}
    (h : PoolInv s P NL runs OL) (hnn : (s.pool P).newly_alloc_node = nn) (hnn0 : nn ≠ 0) :
    ((push_occupied (_elr_slice_from_node s P).1 P
        (_elr_slice_from_node s P).2).pool P).newly_alloc_node = 0
    ∨ 1 ≤ ((push_occupied (_elr_slice_from_node s P).1 P (_elr_slice_from_node s P).2).node
        ((push_occupied (_elr_slice_from_node s P).1 P
          (_elr_slice_from_node s P).2).pool P).newly_alloc_node).used_slice_count := by
  rw [push_occupied_newly, push_occupied_node, slice_from_node_bump s P nn _ hnn hnn0 rfl]
  have hlt : (s.node nn).used_slice_count < (s.pool P).slice_count := by
    rcases h.newly_ok with e | e
    · exact absurd (hnn ▸ e) hnn0
    · rw [hnn] at e
      exact e.2
  have hM := h.sc_lt
  have e1 : ((s.node nn).used_slice_count + 1) % SIZE_MOD = (s.node nn).used_slice_count + 1 :=
    Nat.mod_eq_of_lt (by omega)
  simp only [if_true, e1]
  by_cases hfull : (s.node nn).used_slice_count + 1 = (s.pool P).slice_count
  · left
    rw [if_pos hfull]
  · right
    rw [if_neg hfull]
    simp only [if_true]
    omega

/-- A successful `elr_mpl_alloc` on a pool without free slices: the slice comes
from the bump node, which is a new node when the pool had none. -/
theorem PoolInv.alloc_no_free {s : State} {hp : elr_mpl_t} {NL OL : List Nat}
    (h : PoolInv s hp.pool NL [] OL) (hne : (elr_mpl_alloc s hp).2 ≠ 0) :
    ∃ NL2 x, PoolInv (elr_mpl_alloc s hp).1 hp.pool NL2 [] (x :: OL)
      ∧ (((elr_mpl_alloc s hp).1.pool hp.pool).newly_alloc_node = 0
        ∨ 1 ≤ ((elr_mpl_alloc s hp).1.node
            ((elr_mpl_alloc s hp).1.pool hp.pool).newly_alloc_node).used_slice_count)
      ∧ (((s.pool hp.pool).newly_alloc_node = 0 ∧ NL2.length = NL.length + 1
          ∧ (elr_mpl_alloc s hp).1.g_occupation_size
            = (s.g_occupation_size + (s.pool hp.pool).node_size) % SIZE_MOD)
        ∨ ((s.pool hp.pool).newly_alloc_node ≠ 0 ∧ NL2 = NL
          ∧ (elr_mpl_alloc s hp).1.g_occupation_size = s.g_occupation_size)) := by
  obtain ⟨e1, e2, e3, e4, e5, e6⟩ := alloc_slice s hp
  have hr : (_elr_slice_from_pool s hp.pool).2 ≠ 0 := by
    intro e
    rw [e6, if_pos e] at hne
    exact hne rfl
  have htag : (s.slice (hp.pool - SLICE_HDR)).tag = (s.pool hp.pool).slice_tag := by
    by_contra hc
    apply hr
    unfold _elr_slice_from_pool
    simp [hc]
  have hff : (s.pool hp.pool).first_free_slice = 0 := (dll_nil_iff h.frees).2 rfl
  rw [e2, e3, e5]
  by_cases hnew : (s.pool hp.pool).newly_alloc_node = 0
  · have hm : (malloc s (s.pool hp.pool).node_size).2 ≠ 0 := by
      intro hm
      apply hr
      rw [slice_from_pool_refused s hp.pool htag hff hnew hm]
    obtain ⟨a, rest, hsys, hfresh⟩ := malloc_granted_of_ne_zero s _ hm
    have ha0 : a ≠ 0 := ((sys_fresh_iff s a _).1 hfresh).1
    have e : _elr_slice_from_pool s hp.pool
        = (push_occupied (_elr_slice_from_node (_elr_alloc_mem_node s hp.pool) hp.pool).1 hp.pool
            (_elr_slice_from_node (_elr_alloc_mem_node s hp.pool) hp.pool).2,
           (_elr_slice_from_node (_elr_alloc_mem_node s hp.pool) hp.pool).2) := by
      unfold _elr_slice_from_pool
      simp [htag, hff, hnew]
    have es : (_elr_slice_from_pool s hp.pool).1
        = push_occupied (_elr_slice_from_node (_elr_alloc_mem_node s hp.pool) hp.pool).1 hp.pool
            (_elr_slice_from_node (_elr_alloc_mem_node s hp.pool) hp.pool).2 := by
      rw [e]
    obtain ⟨hinv0, hnw0, -⟩ := PoolInv_alloc_mem_node h hnew hsys hfresh
    obtain ⟨-, hinv, -⟩ := PoolInv_bump hinv0 hnw0 ha0
    have hj := bump_newly hinv0 hnw0 ha0
    rw [← es] at hinv hj
    refine ⟨a :: NL, _, PoolInv_of_views hinv e1 e2 e3 e4, hj, Or.inl ⟨hnew, rfl, ?_⟩⟩
    rw [es]
    rw [push_occupied_occupation, slice_from_node_occupation, alloc_mem_node_occupation,
      if_neg hm]
  · have e : _elr_slice_from_pool s hp.pool
        = (push_occupied (_elr_slice_from_node s hp.pool).1 hp.pool
            (_elr_slice_from_node s hp.pool).2,
           (_elr_slice_from_node s hp.pool).2) := by
      unfold _elr_slice_from_pool
      simp [htag, hff, hnew]
    have es : (_elr_slice_from_pool s hp.pool).1
        = push_occupied (_elr_slice_from_node s hp.pool).1 hp.pool
            (_elr_slice_from_node s hp.pool).2 := by
      rw [e]
    obtain ⟨-, hinv, -⟩ := PoolInv_bump h rfl hnew
    have hj := bump_newly h rfl hnew
    rw [← es] at hinv hj
    refine ⟨NL, _, PoolInv_of_views hinv e1 e2 e3 e4, hj, Or.inr ⟨hnew, rfl, ?_⟩⟩
    rw [es]
    rw [push_occupied_occupation, slice_from_node_occupation]

theorem run_ops_allocs_length (hp : elr_mpl_t) :
    ∀ (k : Nat) (c : State × List Nat),
      (run_ops hp (List.replicate k Op.alloc) c).2.length ≤ c.2.length + k
  | 0, c => by simp [run_ops]
  | k + 1, c => by
    rw [List.replicate_succ]
    simp only [run_ops]
    refine le_trans (run_ops_allocs_length hp k _) ?_
    simp only
    split_ifs
    · omega
    · simp only [List.length_cons]
      omega

theorem sum_unbumped {s : State} {P : Nat} {NL : List Nat}
    {runs : List (Nat × List Nat)} {OL : List Nat} (h : PoolInv s P NL runs OL) :
    (NL.map (fun m => (s.pool P).slice_count - (s.node m).used_slice_count)).sum
      = if (s.pool P).newly_alloc_node = 0 then 0
        else (s.pool P).slice_count
          - (s.node (s.pool P).newly_alloc_node).used_slice_count := by
  have hnd : NL.Nodup := h.nodes.2.2
  have h0 : (0 : Nat) ∉ NL := dll_not_mem_zero h.nodes
  have e : NL.map (fun m => (s.pool P).slice_count - (s.node m).used_slice_count)
      = NL.map (fun m => if (s.pool P).newly_alloc_node = m then
          (s.pool P).slice_count - (s.node (s.pool P).newly_alloc_node).used_slice_count
          else 0) := by
    apply List.map_congr_left
    intro m hm
    by_cases hc : (s.pool P).newly_alloc_node = m
    · rw [if_pos hc, hc]
    · rw [if_neg hc, (h.node_ok m hm).2.2.2.2.1 (fun e => hc e.symm)]
      simp
  rw [e]
  by_cases hnew : (s.pool P).newly_alloc_node = 0
  · rw [if_pos hnew]
    apply List.sum_eq_zero
    intro v hv
    obtain ⟨m, hm, rfl⟩ := List.mem_map.1 hv
    have : (s.pool P).newly_alloc_node ≠ m := fun e => h0 (by rw [← e, hnew] at hm; exact hm)
    rw [if_neg this]
  · rw [if_neg hnew]
    rcases h.newly_ok with e2 | e2
    · exact absurd e2 hnew
    · exact sum_indicator _ _ NL hnd e2.1

/-- After `k` successful bump allocations in a row the pool has one node per
`slice_count` slices handed out, the last one possibly not full. -/
theorem allocs_only (hp : elr_mpl_t) (N g0 : Nat) :
    ∀ (k : Nat) (s : State) (live NL OL : List Nat),
      PoolInv s hp.pool NL [] OL →
      ((s.pool hp.pool).newly_alloc_node = 0
        ∨ 1 ≤ (s.node (s.pool hp.pool).newly_alloc_node).used_slice_count) →
      (s.pool hp.pool).node_size = N →
      s.g_occupation_size = (g0 + NL.length * N) % SIZE_MOD →
      (run_ops hp (List.replicate k Op.alloc) (s, live)).2.length = live.length + k →
      ∃ NL2 OL2,
        PoolInv (run_ops hp (List.replicate k Op.alloc) (s, live)).1 hp.pool NL2 [] OL2
        ∧ (((run_ops hp (List.replicate k Op.alloc) (s, live)).1.pool hp.pool).newly_alloc_node
            = 0
          ∨ 1 ≤ ((run_ops hp (List.replicate k Op.alloc) (s, live)).1.node
              ((run_ops hp (List.replicate k Op.alloc) (s, live)).1.pool
                hp.pool).newly_alloc_node).used_slice_count)
        ∧ OL2.length = OL.length + k
        ∧ (run_ops hp (List.replicate k Op.alloc) (s, live)).1.g_occupation_size
            = (g0 + NL2.length * N) % SIZE_MOD
  | 0, s, live, NL, OL, h, hj, _, hg, _ => ⟨NL, OL, h, hj, rfl, hg⟩
  | k + 1, s, live, NL, OL, h, hj, hN, hg, hlen => by
    rw [List.replicate_succ] at hlen ⊢
    simp only [run_ops] at hlen ⊢
    have hne : (elr_mpl_alloc s hp).2 ≠ 0 := by
      intro e
      rw [if_pos e] at hlen
      have := run_ops_allocs_length hp k ((elr_mpl_alloc s hp).1, live)
      simp only at this
      omega
    rw [if_neg hne] at hlen ⊢
    obtain ⟨NL2, x, hinv, hj2, hcase⟩ := h.alloc_no_free hne
    have hN2 : ((elr_mpl_alloc s hp).1.pool hp.pool).node_size = N := by
      rw [static_of_node_size (alloc_static s hp hp.pool)]
      exact hN
    have hg2 : (elr_mpl_alloc s hp).1.g_occupation_size = (g0 + NL2.length * N) % SIZE_MOD := by
      rcases hcase with ⟨-, c2, c3⟩ | ⟨-, c2, c3⟩
      · rw [c3, hg, c2, hN, Nat.mod_add_mod, Nat.succ_mul, Nat.add_assoc]
      · rw [c3, hg, c2]
    obtain ⟨NL3, OL3, r1, r2, r3, r4⟩ := allocs_only hp N g0 k _ ((elr_mpl_alloc s hp).2 :: live)
      NL2 (x :: OL) hinv hj2 hN2 hg2 (by rw [hlen, List.length_cons]; omega)
    exact ⟨NL3, OL3, r1, r2, by rw [r3, List.length_cons]; omega, r4⟩

theorem ceil_div_of_count (k sc N u : Nat) (hsc : 0 < sc)
    (h : (k = sc * N) ∨ (k + (sc - u) = sc * N ∧ 1 ≤ u ∧ u < sc)) :
    N = (k + sc - 1) / sc := by
  symm
  apply Nat.div_eq_of_lt_le
  · rcases h with h | ⟨h1, h2, h3⟩
    · rw [h, Nat.mul_comm]
      omega
    · rw [Nat.mul_comm]
      omega
  · rw [Nat.succ_mul]
    rcases h with h | ⟨h1, h2, h3⟩
    · rw [h, Nat.mul_comm]
      omega
    · rw [Nat.mul_comm]
      omega

/-- C20: a pool made by a successful `elr_mpl_create_ex` (object size `n` with
`n + 100 ≤ 2^64`), then `k` calls of `elr_mpl_alloc` that all succeed, with no
release: the pool holds `(k + slice_count - 1) / slice_count` nodes, that is
`k / slice_count` rounded up, and `g_occupation_size` has grown by that many
times `node_size` (modulo `2^64`). -/
theorem nodes_after_allocs (s : State) (fpool : Option elr_mpl_t) (n a f k : Nat)
    (hbd : blocks_disjoint s) (hn : n + 100 ≤ SIZE_MOD)
    (hok : (elr_mpl_create_ex s fpool n a f).2.pool ≠ 0)
    (hocc : (elr_mpl_create_ex s fpool n a f).1.g_occupation_size < SIZE_MOD)
    (hsucc : (reached s fpool n a f (List.replicate k Op.alloc)).2.length = k) :
    ∃ NL : List Nat,
      node_list (reached s fpool n a f (List.replicate k Op.alloc)).1
        (elr_mpl_create_ex s fpool n a f).2.pool NL
      ∧ NL.length
        = (k + ((reached s fpool n a f (List.replicate k Op.alloc)).1.pool
              (elr_mpl_create_ex s fpool n a f).2.pool).slice_count - 1)
          / ((reached s fpool n a f (List.replicate k Op.alloc)).1.pool
              (elr_mpl_create_ex s fpool n a f).2.pool).slice_count
      ∧ (reached s fpool n a f (List.replicate k Op.alloc)).1.g_occupation_size
        = ((elr_mpl_create_ex s fpool n a f).1.g_occupation_size
            + NL.length
              * ((reached s fpool n a f (List.replicate k Op.alloc)).1.pool
                  (elr_mpl_create_ex s fpool n a f).2.pool).node_size) % SIZE_MOD := by
  obtain ⟨hinv, -⟩ := PoolInv_create s fpool n a f hbd hn hok
  simp only [reached] at hsucc ⊢
  have hj : ((elr_mpl_create_ex s fpool n a f).1.pool
      (elr_mpl_create_ex s fpool n a f).2.pool).newly_alloc_node = 0 := by
    rcases hinv.newly_ok with e | e
    · exact e
    · exact absurd e.1 (by simp)
  obtain ⟨NL2, OL2, r1, r2, r3, r4⟩ := allocs_only (elr_mpl_create_ex s fpool n a f).2
    ((elr_mpl_create_ex s fpool n a f).1.pool
      (elr_mpl_create_ex s fpool n a f).2.pool).node_size
    (elr_mpl_create_ex s fpool n a f).1.g_occupation_size k
    (elr_mpl_create_ex s fpool n a f).1 [] [] [] hinv (Or.inl hj) rfl
    (by simp [Nat.mod_eq_of_lt hocc]) (by simpa using hsucc)
  have hst := (Live_run_ops (elr_mpl_create_ex s fpool n a f).2 (List.replicate k Op.alloc)
    (elr_mpl_create_ex s fpool n a f).1 []
    ⟨[], [], [], hinv, List.nodup_nil, fun p hp => by simp at hp⟩).2
  have hc := r1.census
  rw [sum_unbumped r1] at hc
  simp only [flat_nil, List.length_nil, List.length_cons, Nat.add_zero, Nat.zero_add] at r3 hc
  refine ⟨NL2, r1.nodes, ?_, ?_⟩
  · apply ceil_div_of_count _ _ _
      ((run_ops (elr_mpl_create_ex s fpool n a f).2 (List.replicate k Op.alloc)
          ((elr_mpl_create_ex s fpool n a f).1, [])).1.node
        ((run_ops (elr_mpl_create_ex s fpool n a f).2 (List.replicate k Op.alloc)
          ((elr_mpl_create_ex s fpool n a f).1, [])).1.pool
            (elr_mpl_create_ex s fpool n a f).2.pool).newly_alloc_node).used_slice_count
      r1.sc_pos
    rw [r3] at hc
    by_cases hnew : ((run_ops (elr_mpl_create_ex s fpool n a f).2 (List.replicate k Op.alloc)
          ((elr_mpl_create_ex s fpool n a f).1, [])).1.pool
            (elr_mpl_create_ex s fpool n a f).2.pool).newly_alloc_node = 0
    · left
      rw [if_pos hnew] at hc
      exact hc
    · right
      rw [if_neg hnew] at hc
      rcases r1.newly_ok with e | e
      · exact absurd e hnew
      · rcases r2 with e2 | e2
        · exact absurd e2 hnew
        · exact ⟨hc, e2, e.2⟩
  · rw [r4]
    rw [static_of_node_size hst]

/-- C20 (example): the pool of 256-byte objects has `slice_count` 64; 64
allocations leave it with the one node `300000`, and the 65th makes the node
`400000` its second node and raises `g_occupation_size` by the 18496 bytes of
one node. -/
theorem nodes_after_allocs_witness :
    blocks_disjoint (booted [some 300000, some 400000]) ∧ 256 + 100 ≤ SIZE_MOD
    ∧ (elr_mpl_create_ex (booted [some 300000, some 400000]) none 256 0 0).2.pool ≠ 0
    ∧ (elr_mpl_create_ex (booted [some 300000, some 400000]) none 256 0 0).1.g_occupation_size < SIZE_MOD
    ∧ (reached (booted [some 300000, some 400000]) none 256 0 0 (List.replicate 65 Op.alloc)).2.length = 65
    ∧ (∃ NL : List Nat,
      node_list (reached (booted [some 300000, some 400000]) none 256 0 0 (List.replicate 65 Op.alloc)).1
        (elr_mpl_create_ex (booted [some 300000, some 400000]) none 256 0 0).2.pool NL
      ∧ NL.length
        = (65 + ((reached (booted [some 300000, some 400000]) none 256 0 0 (List.replicate 65 Op.alloc)).1.pool
              (elr_mpl_create_ex (booted [some 300000, some 400000]) none 256 0 0).2.pool).slice_count - 1)
          / ((reached (booted [some 300000, some 400000]) none 256 0 0 (List.replicate 65 Op.alloc)).1.pool
              (elr_mpl_create_ex (booted [some 300000, some 400000]) none 256 0 0).2.pool).slice_count
      ∧ (reached (booted [some 300000, some 400000]) none 256 0 0 (List.replicate 65 Op.alloc)).1.g_occupation_size
        = ((elr_mpl_create_ex (booted [some 300000, some 400000]) none 256 0 0).1.g_occupation_size
            + NL.length
              * ((reached (booted [some 300000, some 400000]) none 256 0 0 (List.replicate 65 Op.alloc)).1.pool
                  (elr_mpl_create_ex (booted [some 300000, some 400000]) none 256 0 0).2.pool).node_size) % SIZE_MOD)
    ∧ ((reached (booted [some 300000, some 400000]) none 256 0 0 (List.replicate 65 Op.alloc)).1.pool (elr_mpl_create_ex (booted [some 300000, some 400000]) none 256 0 0).2.pool).slice_count = 64
    ∧ ((reached (booted [some 300000, some 400000]) none 256 0 0 (List.replicate 65 Op.alloc)).1.pool (elr_mpl_create_ex (booted [some 300000, some 400000]) none 256 0 0).2.pool).node_size = 18496
    ∧ node_list (reached (booted [some 300000, some 400000]) none 256 0 0 (List.replicate 64 Op.alloc)).1 (elr_mpl_create_ex (booted [some 300000, some 400000]) none 256 0 0).2.pool [300000]
    ∧ node_list (reached (booted [some 300000, some 400000]) none 256 0 0 (List.replicate 65 Op.alloc)).1 (elr_mpl_create_ex (booted [some 300000, some 400000]) none 256 0 0).2.pool [400000, 300000]
    ∧ (reached (booted [some 300000, some 400000]) none 256 0 0 (List.replicate 65 Op.alloc)).1.g_occupation_size = (reached (booted [some 300000, some 400000]) none 256 0 0 (List.replicate 64 Op.alloc)).1.g_occupation_size + 18496 :=
  ⟨by decide!, by decide, by decide!, by decide!, by decide!,
    nodes_after_allocs (booted [some 300000, some 400000]) none 256 0 0 65
      (by decide!) (by decide) (by decide!) (by decide!) (by decide!),
    by decide!, by decide!, by decide!, by decide!, by decide!⟩

/-! ### Pools as clients of `g_mem_pool` -/

/-- The function `_elr_slice_from_pool` takes no slice but the one it returns
out of the free list. -/
theorem PoolInv_slice_from_pool_keep {s : State} {P : Nat} {NL : List Nat}
    {runs : List (Nat × List Nat)} {OL : List Nat} (h : PoolInv s P NL runs OL) :
    ((_elr_slice_from_pool s P).2 = 0 ∧ PoolInv (_elr_slice_from_pool s P).1 P NL runs OL)
    ∨ ((_elr_slice_from_pool s P).2 ≠ 0 ∧ (_elr_slice_from_pool s P).2 ∉ OL
      ∧ ∃ NL2 runs2, PoolInv (_elr_slice_from_pool s P).1 P NL2 runs2
          ((_elr_slice_from_pool s P).2 :: OL)
        ∧ ∀ z ∈ flat runs, z = (_elr_slice_from_pool s P).2 ∨ z ∈ flat runs2) := by
  by_cases htag : (s.slice (P - SLICE_HDR)).tag = (s.pool P).slice_tag
  swap
  · left
    have e : _elr_slice_from_pool s P = (s, 0) := by
      unfold _elr_slice_from_pool
      simp [htag]
    rw [e]
    exact ⟨rfl, h⟩
  by_cases hff : (s.pool P).first_free_slice = 0
  swap
  · right
    obtain ⟨n, R, rest, hr⟩ := h.first_run hff
    have hfl : flat runs = (s.pool P).first_free_slice :: R ++ flat rest := by
      rw [hr, flat_cons]
    rw [hr] at h
    obtain ⟨e, hinv⟩ := PoolInv_alloc_reuse h htag
    have hf := hinv.head_fresh
    rw [e]
    refine ⟨hf.1, hf.2, NL, _, hinv, ?_⟩
    intro z hz
    rw [hfl] at hz
    rcases List.mem_append.1 hz with hz | hz
    · rcases List.mem_cons.1 hz with hz | hz
      · exact Or.inl hz
      · right
        have hR : R ≠ [] := by
          intro e2
          rw [e2] at hz
          simp at hz
        rw [if_neg hR, flat_cons]
        exact List.mem_append_left _ hz
    · right
      by_cases hR : R = []
      · rw [if_pos hR]
        exact hz
      · rw [if_neg hR, flat_cons]
        exact List.mem_append_right _ hz
  by_cases hnew : (s.pool P).newly_alloc_node = 0
  · by_cases hm : (malloc s (s.pool P).node_size).2 = 0
    · left
      rw [slice_from_pool_refused s P htag hff hnew hm]
      exact ⟨rfl, PoolInv_of_views h rfl rfl rfl rfl⟩
    · right
      obtain ⟨a, rest, hsys, hfresh⟩ := malloc_granted_of_ne_zero s _ hm
      have ha0 : a ≠ 0 := ((sys_fresh_iff s a _).1 hfresh).1
      have e : _elr_slice_from_pool s P
          = (push_occupied (_elr_slice_from_node (_elr_alloc_mem_node s P) P).1 P
              (_elr_slice_from_node (_elr_alloc_mem_node s P) P).2,
             (_elr_slice_from_node (_elr_alloc_mem_node s P) P).2) := by
        unfold _elr_slice_from_pool
        simp [htag, hff, hnew]
      obtain ⟨hinv0, hnw0, _⟩ := PoolInv_alloc_mem_node h hnew hsys hfresh
      obtain ⟨e2, hinv, _⟩ := PoolInv_bump hinv0 hnw0 ha0
      rw [e, e2]
      rw [e2] at hinv
      have hf := hinv.head_fresh
      exact ⟨hf.1, hf.2, _, _, hinv, fun z hz => Or.inr hz⟩
  · right
    have e : _elr_slice_from_pool s P
        = (push_occupied (_elr_slice_from_node s P).1 P (_elr_slice_from_node s P).2,
           (_elr_slice_from_node s P).2) := by
      unfold _elr_slice_from_pool
      simp [htag, hff, hnew]
    obtain ⟨e2, hinv, _⟩ := PoolInv_bump h rfl hnew
    rw [e, e2]
    rw [e2] at hinv
    have hf := hinv.head_fresh
    exact ⟨hf.1, hf.2, _, _, hinv, fun z hz => Or.inr hz⟩

/-- The function `elr_mpl_free`, when it does not return the node, moves the
slice from the occupied list to the free list and keeps the other slices where
they are. -/
theorem PoolInv_free_keep {s : State} {P x : Nat} {NL : List Nat}
    {runs : List (Nat × List Nat)} {OL : List Nat} (h : PoolInv s P NL runs OL)
    (hx : x ∈ OL) (htag : (s.slice (P - SLICE_HDR)).tag = (s.pool P).slice_tag)
    (hc : ¬ ((s.node (s.slice x).node).using_slice_count = 1
        ∧ s.g_occupation_size ≥ ELR_AUTO_FREE_NODE_THRESHOLD)) :
    ∃ runs2, PoolInv (elr_mpl_free s (x + SLICE_HDR)) P NL runs2 (OL.erase x)
      ∧ x ∈ flat runs2 ∧ ∀ z ∈ flat runs, z ∈ flat runs2 := by
  obtain ⟨hnNL, husing1, husing2, hxFL, hx0⟩ := h.occupied_facts hx
  have hown : (s.node (s.slice x).node).owner = P := (h.node_ok _ hnNL).1
  have hfe := free_eq s x (by rw [hown]; exact htag) husing1 husing2
  rw [hown] at hfe
  rw [hfe, if_neg hc]
  by_cases hh : (s.node (s.slice x).node).free_slice_head = 0
  · rw [if_pos hh]
    refine ⟨_, PoolInv_free_new_run h hx rfl hh, ?_, ?_⟩
    · rw [flat_cons]
      simp
    · intro z hz
      rw [flat_cons]
      exact List.mem_append_right _ hz
  · rw [if_neg hh]
    have h8 := (h.node_ok _ hnNL).2.2.2.2.2.2.2.1
    have hk : (s.slice x).node ∈ runs.map Prod.fst := by
      by_contra hk
      rw [run_of_not_mem hk] at h8
      exact hh h8
    obtain ⟨RA, RB, e, _, _⟩ := runs_split hk h.runs_keys
    have h2 := h
    rw [e] at h2
    refine ⟨_, PoolInv_free_after_tail h2 hx rfl, ?_, ?_⟩
    · rw [flat_split]
      simp
    · intro z hz
      have hz2 : z ∈ flat (RA ++ ((s.slice x).node, run_of runs (s.slice x).node) :: RB) := by
        rw [← e]
        exact hz
      rw [flat_split] at hz2 ⊢
      simp only [List.mem_append] at hz2 ⊢
      tauto

theorem free_unlink_pool_ne (s : State) (mem x n P : Nat) {p : Nat} (h : p ≠ P) :
    (free_unlink s mem x n P).pool p = s.pool p := by
  simp only [free_unlink, apply_ite State.pool, ite_apply, setPool_pool_ne _ _ _ h,
    setNode_pool, setSlice_pool, ite_self]

theorem free_new_run_pool_ne (s : State) (x n P : Nat) {p : Nat} (h : p ≠ P) :
    (free_new_run s x n P).pool p = s.pool p := by
  simp only [free_new_run, apply_ite State.pool, ite_apply, setPool_pool_ne _ _ _ h,
    setNode_pool, setSlice_pool, ite_self]

theorem free_after_tail_pool (s : State) (x n : Nat) :
    (free_after_tail s x n).pool = s.pool := by
  simp only [free_after_tail, apply_ite State.pool, setNode_pool, setSlice_pool, ite_self]

theorem leaf_setPool (s : State) (a p : Nat) (v : elr_mem_pool) :
    leaf_of ((s.setPool a v).pool p) = if p = a then leaf_of v else leaf_of (s.pool p) := by
  rw [setPool_pool]
  split_ifs <;> rfl

theorem leaf_of_prev (p : elr_mem_pool) (x : Nat) : leaf_of { p with prev := x } = leaf_of p :=
  rfl

theorem leaf_of_next (p : elr_mem_pool) (x : Nat) : leaf_of { p with next := x } = leaf_of p :=
  rfl

theorem leaf_ite (s : State) (p a : Nat) :
    (if p = a then leaf_of (s.pool a) else leaf_of (s.pool p)) = leaf_of (s.pool p) := by
  split_ifs with h
  · rw [h]
  · rfl

theorem leaf_ite_state (c : Prop) [Decidable c] (A B : State) (p : Nat) :
    leaf_of ((if c then A else B).pool p)
      = if c then leaf_of (A.pool p) else leaf_of (B.pool p) := by
  split_ifs <;> rfl

theorem unlink_pool_views (s : State) (P : Nat) :
    (unlink_pool s P).slice = s.slice ∧ (unlink_pool s P).node = s.node
    ∧ (unlink_pool s P).blocks = s.blocks
    ∧ (unlink_pool s P).g_occupation_size = s.g_occupation_size := by
  refine ⟨?_, ?_, ?_, ?_⟩
  · simp only [unlink_pool, setPool_slice, apply_ite State.slice, ite_self]
  · simp only [unlink_pool, setPool_node, apply_ite State.node, ite_self]
  · simp only [unlink_pool, setPool_blocks, apply_ite State.blocks, ite_self]
  · simp only [unlink_pool, setPool_occupation, apply_ite State.g_occupation_size, ite_self]

theorem unlink_pool_geometry (s : State) (P p : Nat) :
    geometry_of ((unlink_pool s P).pool p) = geometry_of (s.pool p) := by
  simp only [unlink_pool, geometry_setPool, geometry_of_prev, geometry_of_next,
    geometry_of_first_child, geometry_ite, geometry_ite_state, ite_self]

theorem unlink_pool_slice_tag (s : State) (P p : Nat) :
    ((unlink_pool s P).pool p).slice_tag = (s.pool p).slice_tag := by
  simp only [unlink_pool, slice_tag_setPool, slice_tag_ite, slice_tag_ite_state, ite_self]

theorem unlink_pool_leaf (s : State) (P p : Nat) (hp : p ≠ (s.pool P).parent) :
    leaf_of ((unlink_pool s P).pool p) = leaf_of (s.pool p) := by
  have key : ∀ (t : State) (c : Prop) [Decidable c] (q v : Nat), p ≠ q →
      leaf_of ((if c then t.setPool q { t.pool q with first_child := v } else t).pool p)
        = leaf_of (t.pool p) := by
    intro t c _ q v hq
    rw [leaf_ite_state, leaf_setPool, if_neg hq, ite_self]
  have hpar : ∀ t : State,
      ((if (t.pool P).prev ≠ 0 then
          t.setPool (t.pool P).prev { t.pool (t.pool P).prev with next := (t.pool P).next }
        else t).pool P).parent = (t.pool P).parent := by
    intro t
    simp only [parent_setPool, parent_ite, parent_ite_state, ite_self]
  have hpar2 : ∀ t : State,
      ((if (t.pool P).next ≠ 0 then
          t.setPool (t.pool P).next { t.pool (t.pool P).next with prev := (t.pool P).prev }
        else t).pool P).parent = (t.pool P).parent := by
    intro t
    simp only [parent_setPool, parent_ite, parent_ite_state, ite_self]
  unfold unlink_pool
  simp only []
  rw [key _ _ _ _ (by rw [hpar, hpar2]; exact hp)]
  simp only [leaf_setPool, leaf_of_prev, leaf_of_next, leaf_ite, leaf_ite_state, ite_self]

theorem destory_eq (fuel : Nat) (s : State) (pool : Nat) (inner lock_this : Int) :
    _elr_mpl_destory (fuel + 1) s pool inner lock_this =
      match destroy_children fuel (unlink_pool s pool) pool lock_this with
      | none => none
      | some s =>
        match (if (s.pool pool).on_slice_free ≠ 0 then
            free_occupied s pool fuel (s.pool pool).first_occupied_slice
          else some s) with
        | none => none
        | some s =>
          match free_nodes s pool fuel (s.pool pool).first_node with
          | none => none
          | some s =>
            let s := s.setPool pool { s.pool pool with parent := 0 }
            let s := s.setPool pool { s.pool pool with slice_tag := -1 }
            let s :=
              if pool ≠ s.g_multi_mem_pool.pool ∧ (s.pool pool).multi ≠ 0 then
                elr_mpl_free s (s.pool pool).multi
              else s
            if pool ≠ g_mem_pool then some (elr_mpl_free s pool) else some s := by
  rw [_elr_mpl_destory]
  rfl

/-- The function `elr_mpl_destroy` on a valid handle of a pool without
children, nodes, size classes and callback: the pool leaves the children of
`g_mem_pool`, is marked dead, and its slice is given to `elr_mpl_free`. -/
theorem destroy_leaf (s : State) (h : elr_mpl_t)
    (hv : h.tag = (s.slice (h.pool - SLICE_HDR)).tag)
    (hleaf : leaf_of (s.pool h.pool) = (g_mem_pool, 0, 0, 0, 0, h.tag))
    (hne : h.pool ≠ g_mem_pool) :
    elr_mpl_destroy 2 s h
      = some (elr_mpl_free (mark_dead (unlink_pool s h.pool) h.pool) h.pool, ⟨0, 0⟩) := by
  simp only [leaf_of, Prod.mk.injEq] at hleaf
  obtain ⟨l1, l2, l3, l4, l5, l6⟩ := hleaf
  have hl := unlink_pool_leaf s h.pool h.pool (by rw [l1]; exact hne)
  simp only [leaf_of, Prod.mk.injEq, l1, l2, l3, l4, l5, l6] at hl
  obtain ⟨m1, m2, m3, m4, m5, m6⟩ := hl
  unfold elr_mpl_destroy
  simp only [l6, ← hv, and_self, if_true, l4, ne_eq, not_true_eq_false, if_false]
  rw [destory_eq, destroy_children]
  generalize unlink_pool s h.pool = s1 at m1 m2 m3 m4 m5 m6 ⊢
  simp only [m2, ne_eq, not_true_eq_false, if_false, m5, free_nodes, m3, mark_dead,
    setPool_pool, if_true, m4, and_false, hne, not_false_eq_true]

theorem mark_dead_views (s : State) (P : Nat) :
    (mark_dead s P).slice = s.slice ∧ (mark_dead s P).node = s.node
    ∧ (mark_dead s P).blocks = s.blocks
    ∧ (mark_dead s P).g_occupation_size = s.g_occupation_size
    ∧ (∀ p, geometry_of ((mark_dead s P).pool p) = geometry_of (s.pool p))
    ∧ (∀ p, p ≠ P → (mark_dead s P).pool p = s.pool p) := by
  refine ⟨rfl, rfl, rfl, rfl, ?_, ?_⟩
  · intro p
    simp only [mark_dead, setPool_pool]
    split_ifs with h1
    · rw [h1]
      rfl
    · rfl
  · intro p hp
    simp only [mark_dead, setPool_pool_ne _ _ _ hp]

theorem leaf_of_first_child (p : elr_mem_pool) (x : Nat) (h : p.first_child = x) :
    leaf_of { p with first_child := x } = leaf_of p := by
  unfold leaf_of
  simp only [h]

theorem init_pool_leaf (s : State) (ps P : Nat) (fpool : Option elr_mpl_t) (n a f : Nat) :
    leaf_of ((init_pool s ps P fpool n a f).pool P)
      = (parent_of fpool, 0, 0, 0, f, (s.slice ps).tag) := by
  simp only [init_pool, setPool_pool, if_true, leaf_of]

theorem link_pool_leaf (s : State) (P p : Nat) (hp : p ≠ (s.pool P).parent) :
    leaf_of ((link_pool s P).pool p) = leaf_of (s.pool p) := by
  have key : ∀ (t : State) (q v : Nat), p ≠ q →
      leaf_of ((t.setPool q { t.pool q with first_child := v }).pool p) = leaf_of (t.pool p) := by
    intro t q v hq
    rw [leaf_setPool, if_neg hq]
  have hpar : ∀ t : State,
      ((if (t.pool P).next ≠ 0 then
          t.setPool (t.pool P).next { t.pool (t.pool P).next with prev := P }
        else t).pool P).parent = (t.pool P).parent := by
    intro t
    simp only [parent_setPool, parent_ite, parent_ite_state, ite_self]
  have hpar2 : ∀ (t : State) (v : Nat),
      ((t.setPool P { t.pool P with next := v }).pool P).parent = (t.pool P).parent := by
    intro t v
    simp only [setPool_pool, if_true]
  have hpar3 : ∀ (t : State) (v : Nat),
      ((t.setPool P { t.pool P with prev := v }).pool P).parent = (t.pool P).parent := by
    intro t v
    simp only [setPool_pool, if_true]
  unfold link_pool
  simp only []
  rw [key _ _ _ (by rw [hpar, hpar2, hpar3]; exact hp)]
  simp only [leaf_setPool, leaf_of_prev, leaf_of_next, leaf_ite, leaf_ite_state, ite_self]

theorem leaf_of_eq_of_static {a b : elr_mem_pool} (h : static_of a = static_of b)
    (h2 : a.first_node = b.first_node) : leaf_of a = leaf_of b := by
  have e1 : a.parent = b.parent := by
    show (static_of a).parent = (static_of b).parent
    rw [h]
  have e2 : a.first_child = b.first_child := by
    show (static_of a).first_child = (static_of b).first_child
    rw [h]
  have e3 : a.multi = b.multi := by
    show (static_of a).multi = (static_of b).multi
    rw [h]
  have e4 : a.on_slice_free = b.on_slice_free := by
    show (static_of a).on_slice_free = (static_of b).on_slice_free
    rw [h]
  have e5 : a.slice_tag = b.slice_tag := by
    show (static_of a).slice_tag = (static_of b).slice_tag
    rw [h]
  unfold leaf_of
  rw [e1, e2, e3, e4, e5, h2]

/-- No slice of the lists of `g_mem_pool` is the fictitious slice in front of
the static `g_mem_pool` whose tag the tag check reads. -/
theorem PoolInv.slice_ne_static {s : State} {NL : List Nat}
    {runs : List (Nat × List Nat)} {OL : List Nat} (h : PoolInv s g_mem_pool NL runs OL)
    (hst : static_clear s) (hsc : (s.pool g_mem_pool).slice_count ≠ 1) {x : Nat}
    (hx : x ∈ flat runs ++ OL) : x ≠ g_mem_pool - SLICE_HDR := by
  have := h.payload_ne_global hst hsc hx
  intro e
  apply this
  rw [e]
  decide

/-- What a successful `elr_mpl_create_ex` writes in the pool objects. -/
theorem create_ex_leaf (s : State) (fpool : Option elr_mpl_t) (n a f : Nat)
    (hne : (_elr_slice_from_pool s g_mem_pool).2 ≠ 0)
    (hPG : (_elr_slice_from_pool s g_mem_pool).2 + SLICE_HDR ≠ parent_of fpool) :
    (elr_mpl_create_ex s fpool n a f).2
        = ⟨(_elr_slice_from_pool s g_mem_pool).2 + SLICE_HDR,
            ((_elr_slice_from_pool s g_mem_pool).1.slice (_elr_slice_from_pool s g_mem_pool).2).tag⟩
    ∧ leaf_of ((elr_mpl_create_ex s fpool n a f).1.pool
          ((_elr_slice_from_pool s g_mem_pool).2 + SLICE_HDR))
        = (parent_of fpool, 0, 0, 0, f,
            ((_elr_slice_from_pool s g_mem_pool).1.slice (_elr_slice_from_pool s g_mem_pool).2).tag)
    ∧ (∀ p, p ≠ (_elr_slice_from_pool s g_mem_pool).2 + SLICE_HDR → p ≠ parent_of fpool →
        leaf_of ((elr_mpl_create_ex s fpool n a f).1.pool p)
          = leaf_of ((_elr_slice_from_pool s g_mem_pool).1.pool p))
    ∧ (∀ p, p ≠ (_elr_slice_from_pool s g_mem_pool).2 + SLICE_HDR →
        ((elr_mpl_create_ex s fpool n a f).1.pool p).slice_tag
          = ((_elr_slice_from_pool s g_mem_pool).1.pool p).slice_tag) := by
  have eS := create_ex_state s fpool n a f hne
  have hpar : ((init_pool (_elr_slice_from_pool s g_mem_pool).1
      (_elr_slice_from_pool s g_mem_pool).2
      ((_elr_slice_from_pool s g_mem_pool).2 + SLICE_HDR) fpool n a f).pool
        ((_elr_slice_from_pool s g_mem_pool).2 + SLICE_HDR)).parent = parent_of fpool :=
    init_pool_parent _ _ _ _ _ _ _
  have h2 : leaf_of ((elr_mpl_create_ex s fpool n a f).1.pool
        ((_elr_slice_from_pool s g_mem_pool).2 + SLICE_HDR))
      = (parent_of fpool, 0, 0, 0, f,
          ((_elr_slice_from_pool s g_mem_pool).1.slice
            (_elr_slice_from_pool s g_mem_pool).2).tag) := by
    rw [eS, link_pool_leaf _ _ _ (by rw [hpar]; exact hPG), init_pool_leaf]
  refine ⟨?_, h2, ?_, ?_⟩
  · have e1 : (elr_mpl_create_ex s fpool n a f).2.pool
        = (_elr_slice_from_pool s g_mem_pool).2 + SLICE_HDR :=
      (create_ex_pool s fpool n a f hne).1
    have e2 : (elr_mpl_create_ex s fpool n a f).2.tag
        = ((elr_mpl_create_ex s fpool n a f).1.pool
            ((_elr_slice_from_pool s g_mem_pool).2 + SLICE_HDR)).slice_tag := by
      unfold elr_mpl_create_ex
      simp only [hne, if_false]
    have e3 : ((elr_mpl_create_ex s fpool n a f).1.pool
        ((_elr_slice_from_pool s g_mem_pool).2 + SLICE_HDR)).slice_tag
        = ((_elr_slice_from_pool s g_mem_pool).1.slice
            (_elr_slice_from_pool s g_mem_pool).2).tag := by
      have := congrArg (fun q => q.2.2.2.2.2) h2
      exact this
    cases hh : (elr_mpl_create_ex s fpool n a f).2 with
    | mk pp tt =>
      rw [hh] at e1 e2
      simp only at e1 e2
      rw [e1, e2, e3]
  · intro p hp1 hp2
    rw [eS, link_pool_leaf _ _ _ (by rw [hpar]; exact hp2), init_pool_pool_ne _ _ _ _ _ _ _ hp1]
  · intro p hp1
    rw [eS, link_pool_slice_tag, init_pool_pool_ne _ _ _ _ _ _ _ hp1]

theorem leaf_of_first_occupied (p : elr_mem_pool) (x : Nat) :
    leaf_of { p with first_occupied_slice := x } = leaf_of p := rfl

theorem leaf_of_first_free (p : elr_mem_pool) (x : Nat) :
    leaf_of { p with first_free_slice := x } = leaf_of p := rfl

theorem free_unlink_leaf (s : State) (mem x n P p : Nat) :
    leaf_of ((free_unlink s mem x n P).pool p) = leaf_of (s.pool p) := by
  have hT : ∀ t : State,
      leaf_of
        ((let t2 :=
            if (t.slice x).next ≠ 0 then
              t.setSlice (t.slice x).next
                { t.slice (t.slice x).next with prev := (t.slice x).prev }
            else t
          if (t2.slice x).prev ≠ 0 then
            t2.setSlice (t2.slice x).prev
              { t2.slice (t2.slice x).prev with next := (t2.slice x).next }
          else
            t2.setPool P { t2.pool P with first_occupied_slice := (t2.slice x).next }).pool p)
        = leaf_of (t.pool p) := by
    intro t
    simp only [setSlice_pool, leaf_setPool, leaf_of_first_occupied, leaf_ite, leaf_ite_state,
      ite_self]
  have hC : ∀ t : State,
      (if (t.pool P).on_slice_free ≠ 0 then
          { t with calls := ((t.pool P).on_slice_free, mem) :: t.calls }
        else t).pool = t.pool := by
    intro t
    split_ifs <;> rfl
  refine (hT _).trans ?_
  rw [hC, setNode_pool, setSlice_pool]

theorem free_new_run_leaf (s : State) (x n P p : Nat) :
    leaf_of ((free_new_run s x n P).pool p) = leaf_of (s.pool p) := by
  simp only [free_new_run, setSlice_pool, setNode_pool, leaf_setPool, leaf_of_first_free,
    leaf_ite, leaf_ite_state, ite_self]

/-- When `elr_mpl_free` does not return the node, it gives no block back to
the system and writes no pool field but the heads of the two slice lists. -/
theorem free_keep (s : State) (x : Nat)
    (htag : (s.slice ((s.node (s.slice x).node).owner - SLICE_HDR)).tag
      = (s.pool (s.node (s.slice x).node).owner).slice_tag)
    (h1 : 1 ≤ (s.node (s.slice x).node).using_slice_count)
    (h2 : (s.node (s.slice x).node).using_slice_count < SIZE_MOD)
    (hc : ¬ ((s.node (s.slice x).node).using_slice_count = 1
        ∧ s.g_occupation_size ≥ ELR_AUTO_FREE_NODE_THRESHOLD)) :
    (elr_mpl_free s (x + SLICE_HDR)).blocks = s.blocks
    ∧ ∀ p, leaf_of ((elr_mpl_free s (x + SLICE_HDR)).pool p) = leaf_of (s.pool p) := by
  rw [free_eq s x htag h1 h2, if_neg hc]
  by_cases hh : (s.node (s.slice x).node).free_slice_head = 0
  · rw [if_pos hh]
    refine ⟨by rw [free_new_run_blocks, free_unlink_blocks], fun p => ?_⟩
    rw [free_new_run_leaf, free_unlink_leaf]
  · rw [if_neg hh]
    refine ⟨by rw [free_after_tail_blocks, free_unlink_blocks], fun p => ?_⟩
    rw [free_after_tail_pool, free_unlink_leaf]

/-- The states reached from a successful `elr_mpl_create_ex` by calls of
`elr_mpl_alloc` and `elr_mpl_free` (of live payloads) on the new pool keep the
pool invariant and the live payloads. -/
theorem Live_of_reached (s : State) (fpool : Option elr_mpl_t) (n a f : Nat)
    (ops : List Op) (hbd : blocks_disjoint s) (hn : n + 100 ≤ SIZE_MOD)
    (hok : (elr_mpl_create_ex s fpool n a f).2.pool ≠ 0) :
    Live (reached s fpool n a f ops).1 (elr_mpl_create_ex s fpool n a f).2.pool
      (reached s fpool n a f ops).2
    ∧ static_of ((reached s fpool n a f ops).1.pool (elr_mpl_create_ex s fpool n a f).2.pool)
      = static_of ((elr_mpl_create_ex s fpool n a f).1.pool
          (elr_mpl_create_ex s fpool n a f).2.pool) :=
  Live_reached s fpool n a f ops hbd hn hok

/-- Object sizes that do not wrap around (`n + 100 ≤ 2^64`): a pool made by a successful `elr_mpl_create_ex` (object size `n` with
`n + 100 ≤ 2^64`), then any sequence of `elr_mpl_alloc` calls and
`elr_mpl_free` calls on live payloads of that pool: the pool then has a
free-slice list `FL` and an occupied-slice list `OL`, neither with a repeated
slice and with no slice in both; the live payloads are pairwise distinct and
each is the payload of a slice of `OL`; and when a further `elr_mpl_alloc`
returns a payload, its slice is not in `OL`, the payload is none of the live
ones, and the occupied list after the call is that slice followed by `OL`. -/
theorem alloc_never_in_use (s : State) (fpool : Option elr_mpl_t) (n a f : Nat)
    (ops : List Op) (hbd : blocks_disjoint s) (hn : n + 100 ≤ SIZE_MOD)
    (hok : (elr_mpl_create_ex s fpool n a f).2.pool ≠ 0) :
    ∃ FL OL : List Nat,
      free_list (reached s fpool n a f ops).1 (elr_mpl_create_ex s fpool n a f).2.pool FL
      ∧ occupied_list (reached s fpool n a f ops).1 (elr_mpl_create_ex s fpool n a f).2.pool OL
      ∧ FL.Nodup ∧ OL.Nodup ∧ (∀ x ∈ OL, x ∉ FL)
      ∧ (reached s fpool n a f ops).2.Nodup
      ∧ (∀ p ∈ (reached s fpool n a f ops).2, SLICE_HDR ≤ p ∧ p - SLICE_HDR ∈ OL)
      ∧ ((elr_mpl_alloc (reached s fpool n a f ops).1 (elr_mpl_create_ex s fpool n a f).2).2 ≠ 0 →
          (elr_mpl_alloc (reached s fpool n a f ops).1 (elr_mpl_create_ex s fpool n a f).2).2
              - SLICE_HDR ∉ OL
          ∧ (elr_mpl_alloc (reached s fpool n a f ops).1 (elr_mpl_create_ex s fpool n a f).2).2
              ∉ (reached s fpool n a f ops).2
          ∧ occupied_list
              (elr_mpl_alloc (reached s fpool n a f ops).1 (elr_mpl_create_ex s fpool n a f).2).1
              (elr_mpl_create_ex s fpool n a f).2.pool
              (((elr_mpl_alloc (reached s fpool n a f ops).1
                  (elr_mpl_create_ex s fpool n a f).2).2 - SLICE_HDR) :: OL)) := by
  obtain ⟨⟨NL, runs, OL, hinv, hnd, hl⟩, -⟩ := Live_of_reached s fpool n a f ops hbd hn hok
  refine ⟨flat runs, OL, hinv.frees, hinv.occ, hinv.frees.2.2, hinv.occ.2.2, hinv.disj, hnd, hl,
    ?_⟩
  intro hne
  rcases PoolInv_alloc hinv with ⟨e, -⟩ | ⟨-, -, hnot, NL2, runs2, hinv2⟩
  · exact absurd e hne
  · exact ⟨hnot, fun hmem => hnot (hl _ hmem).2, hinv2.occ⟩

/-- Example: after `p = elr_mpl_create(NULL, 256)`, two allocations and
the release of the first payload, the lists of `p` have no repeated slice and
the next allocation returns a payload that is not live. -/
theorem alloc_never_in_use_witness :
    blocks_disjoint (booted [some 300000]) ∧ 256 + 100 ≤ SIZE_MOD
    ∧ (elr_mpl_create_ex (booted [some 300000]) none 256 0 0).2.pool ≠ 0
    ∧ ∃ FL OL : List Nat,
      free_list (reached (booted [some 300000]) none 256 0 0
          [Op.alloc, Op.alloc, Op.free 300096]).1
        (elr_mpl_create_ex (booted [some 300000]) none 256 0 0).2.pool FL
      ∧ occupied_list (reached (booted [some 300000]) none 256 0 0
          [Op.alloc, Op.alloc, Op.free 300096]).1
        (elr_mpl_create_ex (booted [some 300000]) none 256 0 0).2.pool OL
      ∧ FL.Nodup ∧ OL.Nodup ∧ (∀ x ∈ OL, x ∉ FL)
      ∧ (reached (booted [some 300000]) none 256 0 0
          [Op.alloc, Op.alloc, Op.free 300096]).2.Nodup
      ∧ (∀ p ∈ (reached (booted [some 300000]) none 256 0 0
          [Op.alloc, Op.alloc, Op.free 300096]).2, SLICE_HDR ≤ p ∧ p - SLICE_HDR ∈ OL)
      ∧ ((elr_mpl_alloc (reached (booted [some 300000]) none 256 0 0
            [Op.alloc, Op.alloc, Op.free 300096]).1
            (elr_mpl_create_ex (booted [some 300000]) none 256 0 0).2).2 ≠ 0 →
          (elr_mpl_alloc (reached (booted [some 300000]) none 256 0 0
            [Op.alloc, Op.alloc, Op.free 300096]).1
            (elr_mpl_create_ex (booted [some 300000]) none 256 0 0).2).2
              - SLICE_HDR ∉ OL
          ∧ (elr_mpl_alloc (reached (booted [some 300000]) none 256 0 0
            [Op.alloc, Op.alloc, Op.free 300096]).1
            (elr_mpl_create_ex (booted [some 300000]) none 256 0 0).2).2
              ∉ (reached (booted [some 300000]) none 256 0 0
                  [Op.alloc, Op.alloc, Op.free 300096]).2
          ∧ occupied_list
              (elr_mpl_alloc (reached (booted [some 300000]) none 256 0 0
                [Op.alloc, Op.alloc, Op.free 300096]).1
                (elr_mpl_create_ex (booted [some 300000]) none 256 0 0).2).1
              (elr_mpl_create_ex (booted [some 300000]) none 256 0 0).2.pool
              (((elr_mpl_alloc (reached (booted [some 300000]) none 256 0 0
                  [Op.alloc, Op.alloc, Op.free 300096]).1
                  (elr_mpl_create_ex (booted [some 300000]) none 256 0 0).2).2
                - SLICE_HDR) :: OL)) :=
  ⟨by decide!, by decide, by decide!,
    alloc_never_in_use (booted [some 300000]) none 256 0 0
      [Op.alloc, Op.alloc, Op.free 300096] (by decide!) (by decide) (by decide!)⟩

/-- The sizes of a pool made by a successful `elr_mpl_create_ex` with an object
size `n`, `n + 100 ≤ 2^64`: a slice has room for its header and `n` payload
bytes, and a node for its header and `slice_count` slices. -/
theorem create_geometry (s : State) (fpool : Option elr_mpl_t) (n a f : Nat)
    (hn : n + 100 ≤ SIZE_MOD) (hok : (elr_mpl_create_ex s fpool n a f).2.pool ≠ 0) :
    ((elr_mpl_create_ex s fpool n a f).1.pool
        (elr_mpl_create_ex s fpool n a f).2.pool).object_size = n
    ∧ SLICE_HDR + n ≤ ((elr_mpl_create_ex s fpool n a f).1.pool
        (elr_mpl_create_ex s fpool n a f).2.pool).slice_size
    ∧ roomy (elr_mpl_create_ex s fpool n a f).1 (elr_mpl_create_ex s fpool n a f).2.pool := by
  have hne := create_ex_ok s fpool n a f hok
  obtain ⟨e1, e2, -⟩ := create_ex_pool s fpool n a f hne
  obtain ⟨c1, -, -, c4⟩ := create_sizes n hn
  unfold roomy
  rw [e1]
  simp only [geometry_of, Prod.mk.injEq] at e2
  obtain ⟨g1, g2, g3, g4, -⟩ := e2
  rw [g1, g2, g3, g4, c4]
  exact ⟨rfl, by omega, Nat.le_refl _⟩

/-- Under the pool invariant, in a pool whose nodes have room for
`slice_count` slices, the slices handed out by a node lie one after the other
between the node header and `first_avail`, which is inside the node's block. -/
theorem PoolInv.slice_layout {s : State} {P : Nat} {NL : List Nat}
    {runs : List (Nat × List Nat)} {OL : List Nat} (h : PoolInv s P NL runs OL)
    (hg : roomy s P) {m : Nat} (hm : m ∈ NL) :
    (m, (s.pool P).node_size) ∈ s.blocks
    ∧ (s.node m).used_slice_count ≤ (s.pool P).slice_count
    ∧ (s.node m).first_avail = m + NODE_HDR + (s.node m).used_slice_count * (s.pool P).slice_size
    ∧ (s.node m).first_avail ≤ m + (s.pool P).node_size
    ∧ (∀ i : Nat, i < (s.node m).used_slice_count →
        m + NODE_HDR + i * (s.pool P).slice_size ∈ flat runs ++ OL
        ∧ m + NODE_HDR + i * (s.pool P).slice_size + (s.pool P).slice_size
            ≤ (s.node m).first_avail
        ∧ ∀ j : Nat, j < i →
            m + NODE_HDR + j * (s.pool P).slice_size + (s.pool P).slice_size
              ≤ m + NODE_HDR + i * (s.pool P).slice_size) := by
  obtain ⟨-, hblk, hused, hfa, -, -, -, -, -, hcomp⟩ := h.node_ok m hm
  unfold roomy at hg
  have h1 : (s.node m).used_slice_count * (s.pool P).slice_size
      ≤ (s.pool P).slice_count * (s.pool P).slice_size := Nat.mul_le_mul_right _ hused
  refine ⟨hblk, hused, hfa, by omega, ?_⟩
  intro i hi
  have h2 : (i + 1) * (s.pool P).slice_size
      ≤ (s.node m).used_slice_count * (s.pool P).slice_size := Nat.mul_le_mul_right _ hi
  rw [Nat.add_mul, Nat.one_mul] at h2
  refine ⟨hcomp i hi, by omega, ?_⟩
  intro j hj
  have h3 : (j + 1) * (s.pool P).slice_size ≤ i * (s.pool P).slice_size :=
    Nat.mul_le_mul_right _ hj
  rw [Nat.add_mul, Nat.one_mul] at h3
  omega

/-- A pool made by a successful `elr_mpl_create_ex` with an object size `n`,
`n + 100 ≤ 2^64`, then any sequence of `elr_mpl_alloc` calls and `elr_mpl_free`
calls on live payloads: every node `m` of the pool is a live block of
`node_size` bytes with `used_slice_count ≤ slice_count` and
`first_avail = m + NODE_HDR + used_slice_count * slice_size ≤ m + node_size`;
its slices `m + NODE_HDR + i * slice_size`, `i < used_slice_count`, are the
slices of the pool's lists in that node, each has room for the header and `n`
payload bytes before the next one starts, and the last ends at `first_avail`. -/
theorem slices_inside_node (s : State) (fpool : Option elr_mpl_t) (n a f : Nat)
    (ops : List Op) (hbd : blocks_disjoint s) (hn : n + 100 ≤ SIZE_MOD)
    (hok : (elr_mpl_create_ex s fpool n a f).2.pool ≠ 0) :
    ∃ NL FL OL : List Nat,
      node_list (reached s fpool n a f ops).1 (elr_mpl_create_ex s fpool n a f).2.pool NL
      ∧ free_list (reached s fpool n a f ops).1 (elr_mpl_create_ex s fpool n a f).2.pool FL
      ∧ occupied_list (reached s fpool n a f ops).1 (elr_mpl_create_ex s fpool n a f).2.pool OL
      ∧ ((reached s fpool n a f ops).1.pool
          (elr_mpl_create_ex s fpool n a f).2.pool).object_size = n
      ∧ SLICE_HDR + n ≤ ((reached s fpool n a f ops).1.pool
          (elr_mpl_create_ex s fpool n a f).2.pool).slice_size
      ∧ (∀ x ∈ FL ++ OL, ((reached s fpool n a f ops).1.slice x).node ∈ NL
          ∧ ∃ i : Nat,
            i < ((reached s fpool n a f ops).1.node
                  ((reached s fpool n a f ops).1.slice x).node).used_slice_count
            ∧ x = ((reached s fpool n a f ops).1.slice x).node + NODE_HDR
                + i * ((reached s fpool n a f ops).1.pool
                    (elr_mpl_create_ex s fpool n a f).2.pool).slice_size)
      ∧ ∀ m ∈ NL,
          (m, ((reached s fpool n a f ops).1.pool
              (elr_mpl_create_ex s fpool n a f).2.pool).node_size)
            ∈ (reached s fpool n a f ops).1.blocks
          ∧ ((reached s fpool n a f ops).1.node m).used_slice_count
              ≤ ((reached s fpool n a f ops).1.pool
                  (elr_mpl_create_ex s fpool n a f).2.pool).slice_count
          ∧ ((reached s fpool n a f ops).1.node m).first_avail
              = m + NODE_HDR + ((reached s fpool n a f ops).1.node m).used_slice_count
                  * ((reached s fpool n a f ops).1.pool
                      (elr_mpl_create_ex s fpool n a f).2.pool).slice_size
          ∧ ((reached s fpool n a f ops).1.node m).first_avail
              ≤ m + ((reached s fpool n a f ops).1.pool
                  (elr_mpl_create_ex s fpool n a f).2.pool).node_size
          ∧ (∀ i : Nat, i < ((reached s fpool n a f ops).1.node m).used_slice_count →
              m + NODE_HDR + i * ((reached s fpool n a f ops).1.pool
                  (elr_mpl_create_ex s fpool n a f).2.pool).slice_size ∈ FL ++ OL
              ∧ m + NODE_HDR + i * ((reached s fpool n a f ops).1.pool
                    (elr_mpl_create_ex s fpool n a f).2.pool).slice_size
                  + ((reached s fpool n a f ops).1.pool
                    (elr_mpl_create_ex s fpool n a f).2.pool).slice_size
                  ≤ ((reached s fpool n a f ops).1.node m).first_avail
              ∧ ∀ j : Nat, j < i →
                  m + NODE_HDR + j * ((reached s fpool n a f ops).1.pool
                      (elr_mpl_create_ex s fpool n a f).2.pool).slice_size
                    + ((reached s fpool n a f ops).1.pool
                      (elr_mpl_create_ex s fpool n a f).2.pool).slice_size
                  ≤ m + NODE_HDR + i * ((reached s fpool n a f ops).1.pool
                      (elr_mpl_create_ex s fpool n a f).2.pool).slice_size) := by
  obtain ⟨⟨NL, runs, OL, hinv, -, -⟩, hst⟩ := Live_reached s fpool n a f ops hbd hn hok
  obtain ⟨g1, g2, g3⟩ := create_geometry s fpool n a f hn hok
  have hst2 : static_of ((reached s fpool n a f ops).1.pool
      (elr_mpl_create_ex s fpool n a f).2.pool)
      = static_of ((elr_mpl_create_ex s fpool n a f).1.pool
          (elr_mpl_create_ex s fpool n a f).2.pool) := hst
  have hinv2 : PoolInv (reached s fpool n a f ops).1 (elr_mpl_create_ex s fpool n a f).2.pool
      NL runs OL := hinv
  have hg := roomy_of_static hst2 g3
  refine ⟨NL, flat runs, OL, hinv2.nodes, hinv2.frees, hinv2.occ, ?_, ?_, ?_, ?_⟩
  · rw [static_of_object_size hst2]
    exact g1
  · rw [static_of_slice_size hst2]
    exact g2
  · intro x hx
    exact ⟨(hinv2.slice_place hx).1, hinv2.issued x hx⟩
  · intro m hm
    exact hinv2.slice_layout hg hm

/-- C22: after `elr_mpl_init`, `p = elr_mpl_create(NULL, 2^64 - 1)` and two
`elr_mpl_alloc(&p)`, the node `300000` of `p` has `used_slice_count = 2 ≤ 64 =
slice_count` and `first_avail = 300000 + NODE_HDR + 2 * slice_size`, but
`slice_size` is 32 (the sum of lines 230-231 wraps around) and `node_size` 2112
while `elr_mpl_size` of a payload is `2^64 - 1`: the header and `object_size`
payload bytes of the slice `300064` end after the node's block, and the second
slice `300096` starts where the payload of the first starts.  After
`q = elr_mpl_create(NULL, 2^64 - 31)` and two `elr_mpl_alloc(&q)` the two
slices of the node are 4 bytes apart (`slice_size = 4`), less than a slice
header.  And `elr_mpl_create(NULL, 2^64 - 36)` gives `node_size = 60` (the sum
of lines 237-238 wraps around), less than a node header. -/
theorem wrapped_sizes_slice_outside_node :
    (elr_mpl_create_ex (booted [some 300000]) none (2 ^ 64 - 1) 0 0).2 = ⟨133352, 0⟩
    ∧ (reached (booted [some 300000]) none (2 ^ 64 - 1) 0 0 [Op.alloc, Op.alloc]).2
        = [300096 + SLICE_HDR, 300064 + SLICE_HDR]
    ∧ node_list (reached (booted [some 300000]) none (2 ^ 64 - 1) 0 0 [Op.alloc, Op.alloc]).1
        133352 [300000]
    ∧ occupied_list (reached (booted [some 300000]) none (2 ^ 64 - 1) 0 0
        [Op.alloc, Op.alloc]).1 133352 [300096, 300064]
    ∧ ((reached (booted [some 300000]) none (2 ^ 64 - 1) 0 0 [Op.alloc, Op.alloc]).1.slice
        300064).node = 300000
    ∧ ((reached (booted [some 300000]) none (2 ^ 64 - 1) 0 0 [Op.alloc, Op.alloc]).1.slice
        300096).node = 300000
    ∧ ((reached (booted [some 300000]) none (2 ^ 64 - 1) 0 0 [Op.alloc, Op.alloc]).1.pool
        133352).object_size = 2 ^ 64 - 1
    ∧ elr_mpl_size (reached (booted [some 300000]) none (2 ^ 64 - 1) 0 0
        [Op.alloc, Op.alloc]).1 (300064 + SLICE_HDR) = 2 ^ 64 - 1
    ∧ ((reached (booted [some 300000]) none (2 ^ 64 - 1) 0 0 [Op.alloc, Op.alloc]).1.pool
        133352).slice_size = 32
    ∧ ((reached (booted [some 300000]) none (2 ^ 64 - 1) 0 0 [Op.alloc, Op.alloc]).1.pool
        133352).slice_count = 64
    ∧ ((reached (booted [some 300000]) none (2 ^ 64 - 1) 0 0 [Op.alloc, Op.alloc]).1.pool
        133352).node_size = 2112
    ∧ (300000, 2112) ∈ (reached (booted [some 300000]) none (2 ^ 64 - 1) 0 0
        [Op.alloc, Op.alloc]).1.blocks
    ∧ ((reached (booted [some 300000]) none (2 ^ 64 - 1) 0 0 [Op.alloc, Op.alloc]).1.node
        300000).used_slice_count = 2
    ∧ ((reached (booted [some 300000]) none (2 ^ 64 - 1) 0 0 [Op.alloc, Op.alloc]).1.node
        300000).first_avail = 300000 + NODE_HDR + 2 * 32
    ∧ ¬ (300064 + SLICE_HDR
          + ((reached (booted [some 300000]) none (2 ^ 64 - 1) 0 0
              [Op.alloc, Op.alloc]).1.pool 133352).object_size
        ≤ 300000 + ((reached (booted [some 300000]) none (2 ^ 64 - 1) 0 0
              [Op.alloc, Op.alloc]).1.pool 133352).node_size)
    ∧ ¬ (300064 + SLICE_HDR
          + ((reached (booted [some 300000]) none (2 ^ 64 - 1) 0 0
              [Op.alloc, Op.alloc]).1.pool 133352).object_size ≤ 300096)
    ∧ (elr_mpl_create_ex (booted [some 300000]) none (2 ^ 64 - 31) 0 0).2 = ⟨133352, 0⟩
    ∧ (reached (booted [some 300000]) none (2 ^ 64 - 31) 0 0 [Op.alloc, Op.alloc]).2
        = [300068 + SLICE_HDR, 300064 + SLICE_HDR]
    ∧ occupied_list (reached (booted [some 300000]) none (2 ^ 64 - 31) 0 0
        [Op.alloc, Op.alloc]).1 133352 [300068, 300064]
    ∧ ((reached (booted [some 300000]) none (2 ^ 64 - 31) 0 0 [Op.alloc, Op.alloc]).1.slice
        300064).node = 300000
    ∧ ((reached (booted [some 300000]) none (2 ^ 64 - 31) 0 0 [Op.alloc, Op.alloc]).1.slice
        300068).node = 300000
    ∧ ((reached (booted [some 300000]) none (2 ^ 64 - 31) 0 0 [Op.alloc, Op.alloc]).1.pool
        133352).slice_size = 4
    ∧ ¬ (300064 + SLICE_HDR ≤ 300068)
    ∧ (elr_mpl_create_ex (booted [some 300000]) none (2 ^ 64 - 36) 0 0).2 = ⟨133352, 0⟩
    ∧ ((elr_mpl_create_ex (booted [some 300000]) none (2 ^ 64 - 36) 0 0).1.pool
        133352).slice_count = 1
    ∧ ((elr_mpl_create_ex (booted [some 300000]) none (2 ^ 64 - 36) 0 0).1.pool
        133352).node_size = 60
    ∧ ¬ (NODE_HDR ≤ ((elr_mpl_create_ex (booted [some 300000]) none (2 ^ 64 - 36) 0 0).1.pool
        133352).node_size) := by
  decide!

/-! ### Pools whose slice size has wrapped around -/

/-- A list head whose `next` is the head itself is the start of no list. -/
theorem no_dll_of_self_loop {nx pv : Nat → Nat} {first : Nat} (h0 : first ≠ 0)
    (hloop : nx first = first) : ∀ l : List Nat, ¬ DLL nx pv first l := by
  intro l h
  obtain ⟨hc, -, hnd⟩ := h
  cases l with
  | nil => exact h0 hc
  | cons x l =>
    obtain ⟨e, -, hc2⟩ := hc
    subst e
    rw [hloop] at hc2
    cases l with
    | nil => exact h0 hc2
    | cons y l =>
      obtain ⟨e2, -, -⟩ := hc2
      subst e2
      exact (List.nodup_cons.1 hnd).1 (List.mem_cons_self _ _)

/-- A pool whose first occupied slice is its own successor has no occupied
list. -/
theorem no_occupied_list_of_self_loop (S : State) (P x : Nat) (hx : x ≠ 0)
    (h1 : (S.pool P).first_occupied_slice = x) (h2 : (S.slice x).next = x) :
    ∀ OL : List Nat, ¬ occupied_list S P OL := by
  intro OL h
  unfold occupied_list at h
  rw [h1] at h
  exact no_dll_of_self_loop hx h2 OL h

/-- A pool whose first free slice is its own successor has no free list. -/
theorem no_free_list_of_self_loop (S : State) (P x : Nat) (hx : x ≠ 0)
    (h1 : (S.pool P).first_free_slice = x) (h2 : (S.slice x).next = x) :
    ∀ FL : List Nat, ¬ free_list S P FL := by
  intro FL h
  unfold free_list at h
  rw [h1] at h
  exact no_dll_of_self_loop hx h2 FL h

/-- C1: after `elr_mpl_init`, `p = elr_mpl_create(NULL, 2^64 - 31)` and two
`elr_mpl_alloc(&p)`: the pool has `object_size = 2^64 - 31` and, the sum of
lines 230-231 having wrapped around, `slice_size = 4`; the two live payloads
are `300096` and `300100`, their slices `300064` and `300068`; so the header
of the second slice, which the second call writes (lines 710-715 and 771-775),
contains the eight bytes of the field `node` of the first slice, the field
that `elr_mpl_size` follows for the first payload.  Likewise with
`object_size = 2^64 - 19`: `slice_size = 16`, the live payloads are `300096`
and `300112`, and the second slice `300080` starts at the field `node` of the
first, so that its first field, `prev`, which the second call sets to null
(lines 712 and 771), is that field. -/
theorem wrapped_size_header_overwritten :
    (elr_mpl_create_ex (booted [some 300000]) none (2 ^ 64 - 31) 0 0).2 = ⟨133352, 0⟩
    ∧ ((elr_mpl_create_ex (booted [some 300000]) none (2 ^ 64 - 31) 0 0).1.pool
        133352).object_size = 2 ^ 64 - 31
    ∧ ((elr_mpl_create_ex (booted [some 300000]) none (2 ^ 64 - 31) 0 0).1.pool
        133352).slice_size = 4
    ∧ (reached (booted [some 300000]) none (2 ^ 64 - 31) 0 0 [Op.alloc]).2
        = [300064 + SLICE_HDR]
    ∧ (elr_mpl_alloc (reached (booted [some 300000]) none (2 ^ 64 - 31) 0 0 [Op.alloc]).1
        ⟨133352, 0⟩).2 = 300068 + SLICE_HDR
    ∧ (reached (booted [some 300000]) none (2 ^ 64 - 31) 0 0 [Op.alloc, Op.alloc]).2
        = [300068 + SLICE_HDR, 300064 + SLICE_HDR]
    ∧ 300068 ≤ 300064 + offsetof_slice_node
    ∧ 300064 + offsetof_slice_node + sizeof_ptr ≤ 300068 + SLICE_HDR
    ∧ (elr_mpl_create_ex (booted [some 300000]) none (2 ^ 64 - 19) 0 0).2 = ⟨133352, 0⟩
    ∧ ((elr_mpl_create_ex (booted [some 300000]) none (2 ^ 64 - 19) 0 0).1.pool
        133352).object_size = 2 ^ 64 - 19
    ∧ ((elr_mpl_create_ex (booted [some 300000]) none (2 ^ 64 - 19) 0 0).1.pool
        133352).slice_size = 16
    ∧ (reached (booted [some 300000]) none (2 ^ 64 - 19) 0 0 [Op.alloc]).2
        = [300064 + SLICE_HDR]
    ∧ (elr_mpl_alloc (reached (booted [some 300000]) none (2 ^ 64 - 19) 0 0 [Op.alloc]).1
        ⟨133352, 0⟩).2 = 300080 + SLICE_HDR
    ∧ (reached (booted [some 300000]) none (2 ^ 64 - 19) 0 0 [Op.alloc, Op.alloc]).2
        = [300080 + SLICE_HDR, 300064 + SLICE_HDR]
    ∧ 300080 = 300064 + offsetof_slice_node := by
  decide!

/-- C14: after `elr_mpl_init`, `p = elr_mpl_create(NULL, 2^64 - 35)` and two
`elr_mpl_alloc(&p)`: `slice_size` is 0 (the sum of lines 230-231 wraps
around), both calls return the slice `300064` of the node `300000`, and the
second call links the slice in front of itself; the head of the occupied list
is its own successor, so that the pool has no occupied list to count, while
the node has `used_slice_count = 2` of `slice_count = 64`. -/
theorem wrapped_size_no_census :
    (elr_mpl_create_ex (booted [some 300000]) none (2 ^ 64 - 35) 0 0).2 = ⟨133352, 0⟩
    ∧ ((reached (booted [some 300000]) none (2 ^ 64 - 35) 0 0 [Op.alloc, Op.alloc]).1.pool
        133352).slice_size = 0
    ∧ ((reached (booted [some 300000]) none (2 ^ 64 - 35) 0 0 [Op.alloc, Op.alloc]).1.pool
        133352).slice_count = 64
    ∧ node_list (reached (booted [some 300000]) none (2 ^ 64 - 35) 0 0 [Op.alloc, Op.alloc]).1
        133352 [300000]
    ∧ free_list (reached (booted [some 300000]) none (2 ^ 64 - 35) 0 0 [Op.alloc, Op.alloc]).1
        133352 []
    ∧ ((reached (booted [some 300000]) none (2 ^ 64 - 35) 0 0 [Op.alloc, Op.alloc]).1.node
        300000).used_slice_count = 2
    ∧ ((reached (booted [some 300000]) none (2 ^ 64 - 35) 0 0 [Op.alloc, Op.alloc]).1.pool
        133352).first_occupied_slice = 300064
    ∧ ((reached (booted [some 300000]) none (2 ^ 64 - 35) 0 0 [Op.alloc, Op.alloc]).1.slice
        300064).next = 300064
    ∧ ∀ OL : List Nat,
        ¬ occupied_list (reached (booted [some 300000]) none (2 ^ 64 - 35) 0 0
            [Op.alloc, Op.alloc]).1 133352 OL := by
  refine ⟨by decide!, by decide!, by decide!, by decide!, by decide!, by decide!, by decide!,
    by decide!, ?_⟩
  exact no_occupied_list_of_self_loop _ 133352 300064 (by decide) (by decide!) (by decide!)

/-- C15: after `elr_mpl_init`, `p = elr_mpl_create(NULL, 2^64 - 35)`, two
`elr_mpl_alloc(&p)`, which both return the payload `300096`, and one
`elr_mpl_free` for each of them: no payload is live and the node `300000` has
`using_slice_count = 0` and `used_slice_count = 2`, but its free subrange
goes from `free_slice_head = 300064` to `free_slice_tail = 300064`, one slice:
`using_slice_count` and the length of the free subrange do not add up to
`used_slice_count`. -/
theorem wrapped_size_node_counts :
    (elr_mpl_create_ex (booted [some 300000]) none (2 ^ 64 - 35) 0 0).2 = ⟨133352, 0⟩
    ∧ (reached (booted [some 300000]) none (2 ^ 64 - 35) 0 0 [Op.alloc, Op.alloc]).2
        = [300096, 300096]
    ∧ (reached (booted [some 300000]) none (2 ^ 64 - 35) 0 0
        [Op.alloc, Op.alloc, Op.free 300096, Op.free 300096]).2 = []
    ∧ node_list (reached (booted [some 300000]) none (2 ^ 64 - 35) 0 0
        [Op.alloc, Op.alloc, Op.free 300096, Op.free 300096]).1 133352 [300000]
    ∧ ((reached (booted [some 300000]) none (2 ^ 64 - 35) 0 0
        [Op.alloc, Op.alloc, Op.free 300096, Op.free 300096]).1.node 300000).using_slice_count
        = 0
    ∧ ((reached (booted [some 300000]) none (2 ^ 64 - 35) 0 0
        [Op.alloc, Op.alloc, Op.free 300096, Op.free 300096]).1.node 300000).used_slice_count
        = 2
    ∧ ((reached (booted [some 300000]) none (2 ^ 64 - 35) 0 0
        [Op.alloc, Op.alloc, Op.free 300096, Op.free 300096]).1.node 300000).free_slice_head
        = 300064
    ∧ ((reached (booted [some 300000]) none (2 ^ 64 - 35) 0 0
        [Op.alloc, Op.alloc, Op.free 300096, Op.free 300096]).1.node 300000).free_slice_tail
        = 300064
    ∧ ((reached (booted [some 300000]) none (2 ^ 64 - 35) 0 0
        [Op.alloc, Op.alloc, Op.free 300096, Op.free 300096]).1.node 300000).using_slice_count
        + [300064].length
      ≠ ((reached (booted [some 300000]) none (2 ^ 64 - 35) 0 0
        [Op.alloc, Op.alloc, Op.free 300096, Op.free 300096]).1.node 300000).used_slice_count := by
  decide!

/-- C16: after `elr_mpl_init`, `p = elr_mpl_create(NULL, 2^64 - 35)`, two
`elr_mpl_alloc(&p)`, which both return the payload `300096`, and one
`elr_mpl_free(300096)`, the free list of the pool is the slice `300064`, the
free subrange of the node `300000` of the pool, and the payload is live once
more.  Its release finds the slice as `free_slice_tail` of its node and links
it behind itself (lines 554-559), so that the head of the free list is its
own successor and predecessor and the pool has no free list. -/
theorem wrapped_size_free_list_cycle :
    (elr_mpl_create_ex (booted [some 300000]) none (2 ^ 64 - 35) 0 0).2 = ⟨133352, 0⟩
    ∧ free_list (reached (booted [some 300000]) none (2 ^ 64 - 35) 0 0
        [Op.alloc, Op.alloc, Op.free 300096]).1 133352 [300064]
    ∧ ((reached (booted [some 300000]) none (2 ^ 64 - 35) 0 0
        [Op.alloc, Op.alloc, Op.free 300096]).1.slice 300064).node = 300000
    ∧ ((reached (booted [some 300000]) none (2 ^ 64 - 35) 0 0
        [Op.alloc, Op.alloc, Op.free 300096]).1.node 300000).owner = 133352
    ∧ ((reached (booted [some 300000]) none (2 ^ 64 - 35) 0 0
        [Op.alloc, Op.alloc, Op.free 300096]).1.node 300000).free_slice_head = 300064
    ∧ ((reached (booted [some 300000]) none (2 ^ 64 - 35) 0 0
        [Op.alloc, Op.alloc, Op.free 300096]).1.node 300000).free_slice_tail = 300064
    ∧ (reached (booted [some 300000]) none (2 ^ 64 - 35) 0 0
        [Op.alloc, Op.alloc, Op.free 300096]).2 = [300096]
    ∧ ((reached (booted [some 300000]) none (2 ^ 64 - 35) 0 0
        [Op.alloc, Op.alloc, Op.free 300096, Op.free 300096]).1.pool 133352).first_free_slice
        = 300064
    ∧ ((reached (booted [some 300000]) none (2 ^ 64 - 35) 0 0
        [Op.alloc, Op.alloc, Op.free 300096, Op.free 300096]).1.slice 300064).next = 300064
    ∧ ((reached (booted [some 300000]) none (2 ^ 64 - 35) 0 0
        [Op.alloc, Op.alloc, Op.free 300096, Op.free 300096]).1.slice 300064).prev = 300064
    ∧ ∀ FL : List Nat,
        ¬ free_list (reached (booted [some 300000]) none (2 ^ 64 - 35) 0 0
            [Op.alloc, Op.alloc, Op.free 300096, Op.free 300096]).1 133352 FL := by
  refine ⟨by decide!, by decide!, by decide!, by decide!, by decide!, by decide!, by decide!,
    by decide!, by decide!, by decide!, ?_⟩
  exact no_free_list_of_self_loop _ 133352 300064 (by decide) (by decide!) (by decide!)

/-- C21: after `elr_mpl_init` and `p = elr_mpl_create(NULL, 2^64 - 35)` the
pool has `slice_size = 0` (the sum of lines 230-231 wraps around); the first
`elr_mpl_alloc(&p)` returns the payload `300096` of the slice `300064`, which
is then the occupied list, and `first_avail` of the node stays at `300064`
(line 714 adds `slice_size`); the second `elr_mpl_alloc(&p)` returns the same
payload `300096`: a slice of the occupied list is handed out, the two live
payloads have one address, and the slice is its own successor in the occupied
list. -/
theorem wrapped_size_alloc_hands_out_live_slice :
    (elr_mpl_create_ex (booted [some 300000]) none (2 ^ 64 - 35) 0 0).2 = ⟨133352, 0⟩
    ∧ ((elr_mpl_create_ex (booted [some 300000]) none (2 ^ 64 - 35) 0 0).1.pool
        133352).slice_size = 0
    ∧ (reached (booted [some 300000]) none (2 ^ 64 - 35) 0 0 [Op.alloc]).2 = [300096]
    ∧ occupied_list (reached (booted [some 300000]) none (2 ^ 64 - 35) 0 0 [Op.alloc]).1
        133352 [300064]
    ∧ ((reached (booted [some 300000]) none (2 ^ 64 - 35) 0 0 [Op.alloc]).1.node
        300000).first_avail = 300064
    ∧ (elr_mpl_alloc (reached (booted [some 300000]) none (2 ^ 64 - 35) 0 0 [Op.alloc]).1
        ⟨133352, 0⟩).2 = 300096
    ∧ (elr_mpl_alloc (reached (booted [some 300000]) none (2 ^ 64 - 35) 0 0 [Op.alloc]).1
        ⟨133352, 0⟩).2 - SLICE_HDR ∈ [300064]
    ∧ (elr_mpl_alloc (reached (booted [some 300000]) none (2 ^ 64 - 35) 0 0 [Op.alloc]).1
        ⟨133352, 0⟩).2
          ∈ (reached (booted [some 300000]) none (2 ^ 64 - 35) 0 0 [Op.alloc]).2
    ∧ (reached (booted [some 300000]) none (2 ^ 64 - 35) 0 0 [Op.alloc, Op.alloc]).2
        = [300096, 300096]
    ∧ ¬ (reached (booted [some 300000]) none (2 ^ 64 - 35) 0 0 [Op.alloc, Op.alloc]).2.Nodup
    ∧ ((reached (booted [some 300000]) none (2 ^ 64 - 35) 0 0 [Op.alloc, Op.alloc]).1.pool
        133352).first_occupied_slice = 300064
    ∧ ((reached (booted [some 300000]) none (2 ^ 64 - 35) 0 0 [Op.alloc, Op.alloc]).1.slice
        300064).next = 300064 := by
  decide!

/-! ### Rounds of destruction and creation: the tag wraps around -/

/-- The destruction of the pool `133352` in a state with `cycle_view`. -/
theorem cycle_destroy (s : State) (t : Int) (h : cycle_view s t) :
    ∃ S : State, elr_mpl_destroy 2 s ⟨133352, t⟩ = some (S, ⟨0, 0⟩)
      ∧ dead_view S (wrap_int (t + 1)) := by
  obtain ⟨hP, hG, hN, hx, hnx, h4064, hnd, hocc, hb⟩ := h
  have e1 := destroy_leaf s ⟨133352, t⟩
    (by simp only [SLICE_HDR_eq]; rw [hx])
    (by simp only [leaf_of, hP, g_mem_pool])
    (by show (133352 : Nat) ≠ g_mem_pool; decide)
  refine ⟨_, e1, ?_⟩
  simp only []
  obtain ⟨s2, hs2⟩ : ∃ s2, s2 = mark_dead (unlink_pool s 133352) 133352 := ⟨_, rfl⟩
  rw [← hs2]
  have v_slice : s2.slice = s.slice := by
    rw [hs2, (mark_dead_views _ _).1, (unlink_pool_views _ _).1]
  have v_node : s2.node = s.node := by
    rw [hs2, (mark_dead_views _ _).2.1, (unlink_pool_views _ _).2.1]
  have v_blocks : s2.blocks = s.blocks := by
    rw [hs2, (mark_dead_views _ _).2.2.1, (unlink_pool_views _ _).2.2.1]
  have v_occ : s2.g_occupation_size = s.g_occupation_size := by
    rw [hs2, (mark_dead_views _ _).2.2.2.1, (unlink_pool_views _ _).2.2.2]
  have u1 : (unlink_pool s 133352).pool 4096
      = ⟨0, 133184, 0, 0, 0, 0, 64, 168, 136, 10816, 131072, 131072, 0, 0, 0, 133320, 0⟩ := by
    simp [unlink_pool, hP, hG, hN]
  have u2 : (unlink_pool s 133352).pool 133184
      = ⟨4096, 0, 0, 133016, 0, 0, 61, 2080, 2048, 126944, 0, 0, 0, 0, 0, 0, 0⟩ := by
    simp [unlink_pool, hP, hG, hN]
  have u3 : (unlink_pool s 133352).pool 133352
      = ⟨4096, 0, 0, 133184, 0, 0, 64, 40, 8, 2624, 0, 0, 0, 0, 0, 0, t⟩ := by
    simp [unlink_pool, hP, hG, hN]
  have pG : s2.pool 4096
      = ⟨0, 133184, 0, 0, 0, 0, 64, 168, 136, 10816, 131072, 131072, 0, 0, 0, 133320, 0⟩ := by
    rw [hs2, (mark_dead_views _ _).2.2.2.2.2 4096 (by decide), u1]
  have pN : s2.pool 133184
      = ⟨4096, 0, 0, 133016, 0, 0, 61, 2080, 2048, 126944, 0, 0, 0, 0, 0, 0, 0⟩ := by
    rw [hs2, (mark_dead_views _ _).2.2.2.2.2 133184 (by decide), u2]
  have pP : s2.pool 133352
      = ⟨0, 0, 0, 133184, 0, 0, 64, 40, 8, 2624, 0, 0, 0, 0, 0, 0, -1⟩ := by
    rw [hs2]
    simp [mark_dead, u3]
  have sx : s2.slice 133320 = ⟨0, 133152, 131072, t⟩ := by rw [v_slice, hx]
  have snx : s2.slice 133152 = ⟨133320, 132984, 131072, 0⟩ := by rw [v_slice, hnx]
  have s4064 : (s2.slice 4064).tag = 0 := by rw [v_slice, h4064]
  have sn : s2.node 131072 = ⟨4096, 0, 0, 0, 0, 14, 14, 133488⟩ := by rw [v_node, hnd]
  have e32 : (133352 : Nat) = 133320 + SLICE_HDR := by rw [SLICE_HDR_eq]
  have hfe := free_eq s2 133320
    (by simp only [sx, sn, SLICE_HDR_eq, pG]; exact s4064)
    (by simp only [sx, sn]; decide)
    (by simp only [sx, sn]; decide)
  simp only [sx, sn, Nat.reduceEqDiff, false_and, if_false, if_true] at hfe
  have F1 := free_unlink_eq s2 (133320 + SLICE_HDR) 133320 131072 4096 0 133152
    (by rw [sx]) (by rw [sx]) (by decide) (by decide) (by decide)
  have hff : ((free_unlink s2 (133320 + SLICE_HDR) 133320 131072 4096).pool 4096).first_free_slice
      = 0 := by
    rw [F1]
    simp [pG]
  have F2 := free_new_run_eq (free_unlink s2 (133320 + SLICE_HDR) 133320 131072 4096)
    133320 131072 4096 0 hff (by decide)
  rw [e32, hfe, F2, F1]
  unfold dead_view
  simp [sx, snx, s4064, sn, pG, pN, pP, v_occ, v_blocks, hocc, hb]
  decide


/-- The pool object written by lines 225-246 of `elr_mpl_create_ex`. -/
theorem init_pool_pool_self (s : State) (ps P : Nat) (fpool : Option elr_mpl_t) (n a f : Nat) :
    (init_pool s ps P fpool n a f).pool P
      = ⟨parent_of fpool, 0, (s.pool P).prev, (s.pool P).next, 0, 0,
          slice_count_of ((SLICE_HDR + ELR_ALIGN n sizeof_int) % SIZE_MOD),
          (SLICE_HDR + ELR_ALIGN n sizeof_int) % SIZE_MOD, n,
          ((SLICE_HDR + ELR_ALIGN n sizeof_int) % SIZE_MOD
            * slice_count_of ((SLICE_HDR + ELR_ALIGN n sizeof_int) % SIZE_MOD) + NODE_HDR)
            % SIZE_MOD,
          0, 0, 0, a, f, 0, (s.slice ps).tag⟩ := by
  simp only [init_pool, setPool_pool, if_true]
  rfl

/-- The state after lines 251-255 of `elr_mpl_create_ex` when the parent has a
first child `N`. -/
theorem link_pool_eq (s : State) (P G N : Nat) (hpar : (s.pool P).parent = G)
    (hfc : (s.pool G).first_child = N) (hPG : G ≠ P) (hN0 : N ≠ 0) (hNP : N ≠ P)
    (hNG : N ≠ G) :
    link_pool s P =
      { s with pool := fun p =>
          if p = G then { s.pool G with first_child := P }
          else if p = N then { s.pool N with prev := P }
          else if p = P then { s.pool P with prev := 0, next := N }
          else s.pool p } := by
  have hPG2 : P ≠ G := hPG.symm
  have hNP2 : P ≠ N := hNP.symm
  have hNG2 : G ≠ N := hNG.symm
  unfold link_pool
  simp [hpar, hfc, hPG, hN0, hNP, hNG, hPG2, hNP2, hNG2]
  ext1 <;> try rfl
  funext z
  simp
  split_ifs <;> simp_all

theorem link_pool_occupation (s : State) (P : Nat) :
    (link_pool s P).g_occupation_size = s.g_occupation_size := by
  simp only [link_pool, setPool_occupation, apply_ite State.g_occupation_size, ite_self]

theorem init_pool_occupation (s : State) (ps P : Nat) (fpool : Option elr_mpl_t) (n a f : Nat) :
    (init_pool s ps P fpool n a f).g_occupation_size = s.g_occupation_size := by
  simp only [init_pool, setPool_occupation]

/-- The call `elr_mpl_create(NULL, 8)` in a state with `dead_view`. -/
theorem cycle_create (s : State) (u : Int) (h : dead_view s u) :
    (elr_mpl_create s none 8).2 = ⟨133352, wrap_int (u + 1)⟩
    ∧ cycle_view (elr_mpl_create s none 8).1 (wrap_int (u + 1)) := by
  obtain ⟨dP, dG, dN, dx, dnx, d4064, dnd, docc, db⟩ := h
  have hg : g_mem_pool = 4096 := rfl
  have sfp := slice_from_pool_free_path s 4096 133320 0 133152 131072
    (by simp only [SLICE_HDR_eq, dG]; exact d4064) (by rw [dG]) (by rw [dx]) (by rw [dG])
    (by rw [dx]) (by decide) (by decide) (by decide) (by decide)
  have r2 : (_elr_slice_from_pool s g_mem_pool).2 = 133320 := by rw [hg, sfp]
  obtain ⟨S4, hS4⟩ : ∃ S4, S4 = (_elr_slice_from_pool s g_mem_pool).1 := ⟨_, rfl⟩
  have hne : (_elr_slice_from_pool s g_mem_pool).2 ≠ 0 := by rw [r2]; decide
  have hst := create_ex_state s none 8 0 0 hne
  obtain ⟨l1, -, -⟩ := create_ex_leaf s none 8 0 0 hne (by rw [r2]; decide)
  rw [r2, ← hS4] at hst l1
  have e32 : 133320 + SLICE_HDR = 133352 := by rw [SLICE_HDR_eq]
  rw [e32] at hst l1
  have qx : S4.slice 133320 = ⟨0, 133152, 131072, wrap_int (u + 1)⟩ := by
    rw [hS4, hg, sfp]
    simp [dx]
  have qnx : S4.slice 133152 = ⟨133320, 132984, 131072, 0⟩ := by
    rw [hS4, hg, sfp]
    simp [dnx]
  have q4064 : (S4.slice 4064).tag = 0 := by
    rw [hS4, hg, sfp]
    simp [d4064]
  have qn : S4.node 131072 = ⟨4096, 0, 0, 0, 0, 14, 14, 133488⟩ := by
    rw [hS4, hg, sfp]
    simp [dnd]
    decide
  have qG : S4.pool 4096
      = ⟨0, 133184, 0, 0, 0, 0, 64, 168, 136, 10816, 131072, 131072, 0, 0, 0, 133320, 0⟩ := by
    rw [hS4, hg, sfp]
    simp [dG]
  have qN : S4.pool 133184
      = ⟨4096, 0, 0, 133016, 0, 0, 61, 2080, 2048, 126944, 0, 0, 0, 0, 0, 0, 0⟩ := by
    rw [hS4, hg, sfp]
    simp [dN]
  have qP : S4.pool 133352
      = ⟨0, 0, 0, 133184, 0, 0, 64, 40, 8, 2624, 0, 0, 0, 0, 0, 0, -1⟩ := by
    rw [hS4, hg, sfp]
    simp [dP]
  have qocc : S4.g_occupation_size = 21120 := by
    rw [hS4, hg, sfp]
    exact docc
  have qb : S4.blocks = [(196608, 10304), (131072, 10816)] := by
    rw [hS4, hg, sfp]
    exact db
  obtain ⟨I, hI⟩ : ∃ I, I = init_pool S4 133320 133352 none 8 0 0 := ⟨_, rfl⟩
  rw [← hI] at hst
  have szs : slice_count_of ((SLICE_HDR + ELR_ALIGN 8 sizeof_int) % SIZE_MOD) = 64
      ∧ (SLICE_HDR + ELR_ALIGN 8 sizeof_int) % SIZE_MOD = 40
      ∧ ((SLICE_HDR + ELR_ALIGN 8 sizeof_int) % SIZE_MOD
          * slice_count_of ((SLICE_HDR + ELR_ALIGN 8 sizeof_int) % SIZE_MOD) + NODE_HDR)
          % SIZE_MOD = 2624 := by decide
  have iP : I.pool 133352
      = ⟨4096, 0, 0, 133184, 0, 0, 64, 40, 8, 2624, 0, 0, 0, 0, 0, 0, wrap_int (u + 1)⟩ := by
    rw [hI, init_pool_pool_self, szs.2.2, szs.1, szs.2.1, qP, qx]
    rfl
  have iG : I.pool 4096
      = ⟨0, 133184, 0, 0, 0, 0, 64, 168, 136, 10816, 131072, 131072, 0, 0, 0, 133320, 0⟩ := by
    rw [hI, init_pool_pool_ne _ _ _ _ _ _ _ (by decide), qG]
  have iN : I.pool 133184
      = ⟨4096, 0, 0, 133016, 0, 0, 61, 2080, 2048, 126944, 0, 0, 0, 0, 0, 0, 0⟩ := by
    rw [hI, init_pool_pool_ne _ _ _ _ _ _ _ (by decide), qN]
  have w_slice : (link_pool I 133352).slice = S4.slice := by
    rw [(link_pool_views _ _).1, hI, (init_pool_views _ _ _ _ _ _ _).1]
  have w_node : (link_pool I 133352).node = S4.node := by
    rw [(link_pool_views _ _).2.1, hI, (init_pool_views _ _ _ _ _ _ _).2.1]
  have w_blocks : (link_pool I 133352).blocks = S4.blocks := by
    rw [(link_pool_views _ _).2.2, hI, (init_pool_views _ _ _ _ _ _ _).2.2]
  have w_occ : (link_pool I 133352).g_occupation_size = S4.g_occupation_size := by
    rw [link_pool_occupation, hI, init_pool_occupation]
  have hl := link_pool_eq I 133352 4096 133184 (by rw [iP]) (by rw [iG]) (by decide)
    (by decide) (by decide) (by decide)
  have fP : (link_pool I 133352).pool 133352
      = ⟨4096, 0, 0, 133184, 0, 0, 64, 40, 8, 2624, 0, 0, 0, 0, 0, 0, wrap_int (u + 1)⟩ := by
    rw [hl]
    simp [iP]
  have fG : (link_pool I 133352).pool 4096
      = ⟨0, 133352, 0, 0, 0, 0, 64, 168, 136, 10816, 131072, 131072, 0, 0, 0, 133320, 0⟩ := by
    rw [hl]
    simp [iG]
  have fN : (link_pool I 133352).pool 133184
      = ⟨4096, 0, 133352, 133016, 0, 0, 61, 2080, 2048, 126944, 0, 0, 0, 0, 0, 0, 0⟩ := by
    rw [hl]
    simp [iN]
  unfold elr_mpl_create
  rw [l1, hst, qx]
  refine ⟨rfl, fP, fG, fN, ?_, ?_, ?_, ?_, ?_, ?_⟩
  · rw [w_slice, qx]
  · rw [w_slice, qnx]
  · rw [w_slice, q4064]
  · rw [w_node, qn]
  · rw [w_occ, qocc]
  · rw [w_blocks, qb]

theorem wrap_int_add_two (t : Int) (k : Nat) :
    wrap_int (wrap_int (wrap_int (t + 1) + 1) + 2 * (k : Int))
      = wrap_int (t + 2 * ((k + 1 : Nat) : Int)) := by
  unfold wrap_int
  push_cast
  omega

/-- In a state with `cycle_view`, `k` rounds of destruction and creation give
the handle `(133352, t + 2k)`, the tag reduced to the range of `int`, in a
state with `cycle_view` again. -/
theorem recycle_view : ∀ (k : Nat) (s : State) (t : Int),
    -2147483648 ≤ t → t ≤ 2147483647 → cycle_view s t →
    ∃ S : State, recycle k (s, ⟨133352, t⟩)
        = some (S, ⟨133352, wrap_int (t + 2 * (k : Int))⟩)
      ∧ cycle_view S (wrap_int (t + 2 * (k : Int))) := by
  intro k
  induction k with
  | zero =>
    intro s t h1 h2 h
    have e : wrap_int (t + 2 * ((0 : Nat) : Int)) = t := by
      unfold wrap_int
      push_cast
      omega
    rw [e]
    exact ⟨s, rfl, h⟩
  | succ k ih =>
    intro s t h1 h2 h
    obtain ⟨D, hD, hdv⟩ := cycle_destroy s t h
    obtain ⟨hc1, hc2⟩ := cycle_create D _ hdv
    have r1 : -2147483648 ≤ wrap_int (wrap_int (t + 1) + 1) := by
      unfold wrap_int
      omega
    have r2 : wrap_int (wrap_int (t + 1) + 1) ≤ 2147483647 := by
      unfold wrap_int
      omega
    obtain ⟨S, hS, hv⟩ := ih (elr_mpl_create D none 8).1 _ r1 r2 hc2
    rw [wrap_int_add_two] at hS hv
    refine ⟨S, ?_, hv⟩
    rw [recycle]
    simp only [hD]
    rw [← hS]
    congr 1
    rw [← hc1]

/-- A handle with the tag `t` is valid in a state with `cycle_view` for `t`. -/
theorem cycle_view_avail (s : State) (t u : Int) (h : cycle_view s t) :
    elr_mpl_avail s ⟨133352, u⟩ = decide (u = t) := by
  obtain ⟨hP, -, -, hx, -⟩ := h
  unfold elr_mpl_avail
  simp only [SLICE_HDR_eq, hP, hx]
  by_cases e : u = t
  · simp [e]
  · simp [e]

/-- No handle of the pool `133352` is valid in a state with `dead_view`. -/
theorem dead_view_avail (s : State) (t : Int) (h : dead_view s (wrap_int (t + 1))) :
    elr_mpl_avail s ⟨133352, t⟩ = false := by
  obtain ⟨hP, -, -, hx, -⟩ := h
  have hne : t ≠ wrap_int (t + 1) := by
    unfold wrap_int
    omega
  unfold elr_mpl_avail
  simp [SLICE_HDR_eq, hP, hx, hne]

/-- C6: after `elr_mpl_init`, `h = elr_mpl_create(NULL, 8)` returns the handle
`(133352, 0)`.  After `elr_mpl_destroy(&h)` a copy of that handle is invalid,
`h = elr_mpl_create(NULL, 8)` reuses the address with the tag 2, and the copy
is still invalid.  After `k` rounds of `elr_mpl_destroy(&h)` and
`h = elr_mpl_create(NULL, 8)` the handle is `(133352, 2k)` with `2k` reduced to
the range of `int`, the pool object is still in the slice `133320` of the
node `131072`, which the system allocator has not got back, and the copy of
the first handle is valid exactly when that tag is 0.  After `2^31` rounds the
tag has wrapped around: the new handle is `(133352, 0)` again and
`elr_mpl_avail` on the copy of the first handle is true. -/
theorem stale_handle_valid_after_tag_wrap :
    (elr_mpl_create (booted []) none 8).2 = ⟨133352, 0⟩
    ∧ (∃ D : State,
        elr_mpl_destroy 2 (elr_mpl_create (booted []) none 8).1 ⟨133352, 0⟩ = some (D, ⟨0, 0⟩)
        ∧ elr_mpl_avail D ⟨133352, 0⟩ = false
        ∧ (elr_mpl_create D none 8).2 = ⟨133352, 2⟩
        ∧ elr_mpl_avail (elr_mpl_create D none 8).1 ⟨133352, 0⟩ = false)
    ∧ (∀ k : Nat, ∃ S : State,
        recycle k (elr_mpl_create (booted []) none 8)
          = some (S, ⟨133352, wrap_int (2 * (k : Int))⟩)
        ∧ (S.slice (133352 - SLICE_HDR)).node = 131072
        ∧ (131072, 10816) ∈ S.blocks
        ∧ elr_mpl_avail S ⟨133352, 0⟩ = decide (wrap_int (2 * (k : Int)) = 0))
    ∧ ∃ S : State,
        recycle (2 ^ 31) (elr_mpl_create (booted []) none 8) = some (S, ⟨133352, 0⟩)
        ∧ elr_mpl_avail S ⟨133352, 0⟩ = true := by
  have h0 : cycle_view (elr_mpl_create (booted []) none 8).1 0 := by decide!
  have e0 : (elr_mpl_create (booted []) none 8).2 = ⟨133352, 0⟩ := by decide!
  have ep : elr_mpl_create (booted []) none 8
      = ((elr_mpl_create (booted []) none 8).1, ⟨133352, 0⟩) := by
    rw [← e0]
  refine ⟨e0, ?_, ?_, ?_⟩
  · obtain ⟨D, hD, hdv⟩ := cycle_destroy _ 0 h0
    obtain ⟨hc1, hc2⟩ := cycle_create D _ hdv
    have e2 : wrap_int (wrap_int (0 + 1) + 1) = 2 := by decide
    rw [e2] at hc1 hc2
    refine ⟨D, hD, dead_view_avail D 0 hdv, hc1, ?_⟩
    rw [cycle_view_avail _ 2 0 hc2]
    decide
  · intro k
    obtain ⟨S, hS, hv⟩ := recycle_view k _ 0 (by decide) (by decide) h0
    rw [zero_add] at hS hv
    rw [ep]
    refine ⟨S, hS, ?_, ?_, ?_⟩
    · rw [SLICE_HDR_eq, hv.2.2.2.1]
    · rw [hv.2.2.2.2.2.2.2.2]
      decide
    · rw [cycle_view_avail _ _ 0 hv]
      by_cases e : wrap_int (2 * (k : Int)) = 0
      · simp [e]
      · have e2 : (0 : Int) ≠ wrap_int (2 * (k : Int)) := fun h => e h.symm
        simp [e, e2]
  · obtain ⟨S, hS, hv⟩ := recycle_view (2 ^ 31) _ 0 (by decide) (by decide) h0
    have e2 : wrap_int (0 + 2 * ((2 ^ 31 : Nat) : Int)) = 0 := by decide
    rw [e2] at hS hv
    rw [ep]
    refine ⟨S, hS, ?_⟩
    rw [cycle_view_avail _ 0 0 hv]
    decide

/-- C17: after `elr_mpl_init`, `p = elr_mpl_create(NULL, 2^64 - 35)`
(`slice_size` wraps to 0), two `elr_mpl_alloc(&p)`, which both return the
payload `300096`, and one `elr_mpl_free(300096)`: one payload is still live,
and its slice `300064` is the occupied list and the free list of the pool at
once, with the odd tag 1, so that the parity of the tag does not tell whether
the slice is free.  And after `2^30 - 1` rounds of `elr_mpl_destroy(&h)` and
`h = elr_mpl_create(NULL, 8)` on the pool object in the slice `133320` of
`g_mem_pool`, the slice is occupied with the tag `2^31 - 2`; the next
`elr_mpl_destroy(&h)` releases it with the tag `2^31 - 1 = INT_MAX`, and the
next `elr_mpl_create` takes it from the free list with the tag `-2^31`: the
`tag++` of line 759 has lowered the tag. -/
theorem slice_tag_parity_and_wrap :
    (elr_mpl_create_ex (booted [some 300000]) none (2 ^ 64 - 35) 0 0).2 = ⟨133352, 0⟩
    ∧ (reached (booted [some 300000]) none (2 ^ 64 - 35) 0 0 [Op.alloc, Op.alloc]).2
        = [300096, 300096]
    ∧ (reached (booted [some 300000]) none (2 ^ 64 - 35) 0 0
        [Op.alloc, Op.alloc, Op.free 300096]).2 = [300096]
    ∧ occupied_list (reached (booted [some 300000]) none (2 ^ 64 - 35) 0 0
        [Op.alloc, Op.alloc, Op.free 300096]).1 133352 [300064]
    ∧ free_list (reached (booted [some 300000]) none (2 ^ 64 - 35) 0 0
        [Op.alloc, Op.alloc, Op.free 300096]).1 133352 [300064]
    ∧ ((reached (booted [some 300000]) none (2 ^ 64 - 35) 0 0
        [Op.alloc, Op.alloc, Op.free 300096]).1.slice 300064).tag = 1
    ∧ ∃ S D : State,
        recycle (2 ^ 30 - 1) (elr_mpl_create (booted []) none 8)
          = some (S, ⟨133352, 2147483646⟩)
        ∧ (S.pool g_mem_pool).first_occupied_slice = 133320
        ∧ (S.slice 133320).tag = 2147483646
        ∧ elr_mpl_destroy 2 S ⟨133352, 2147483646⟩ = some (D, ⟨0, 0⟩)
        ∧ (D.pool g_mem_pool).first_free_slice = 133320
        ∧ (D.slice 133320).tag = 2147483647
        ∧ (_elr_slice_from_pool D g_mem_pool).2 = 133320
        ∧ ((elr_mpl_create D none 8).1.pool g_mem_pool).first_occupied_slice = 133320
        ∧ ((elr_mpl_create D none 8).1.slice 133320).tag = -2147483648 := by
  refine ⟨by decide!, by decide!, by decide!, by decide!, by decide!, by decide!, ?_⟩
  have h0 : cycle_view (elr_mpl_create (booted []) none 8).1 0 := by decide!
  have e0 : (elr_mpl_create (booted []) none 8).2 = ⟨133352, 0⟩ := by decide!
  have ep : elr_mpl_create (booted []) none 8
      = ((elr_mpl_create (booted []) none 8).1, ⟨133352, 0⟩) := by
    rw [← e0]
  obtain ⟨S, hS, hv⟩ := recycle_view (2 ^ 30 - 1) _ 0 (by decide) (by decide) h0
  have e1 : wrap_int (0 + 2 * ((2 ^ 30 - 1 : Nat) : Int)) = 2147483646 := by decide
  rw [e1] at hS hv
  obtain ⟨D, hD, hdv⟩ := cycle_destroy S _ hv
  obtain ⟨-, hc2⟩ := cycle_create D _ hdv
  have e2 : wrap_int (2147483646 + 1) = 2147483647 := by decide
  have e3 : wrap_int (2147483647 + 1) = -2147483648 := by decide
  rw [e2] at hdv hc2
  rw [e3] at hc2
  have hg : g_mem_pool = 4096 := rfl
  have hsfp : (_elr_slice_from_pool D g_mem_pool).2 = 133320 := by
    obtain ⟨dP, dG, dN, dx, dnx, d4064, dnd, docc, db⟩ := hdv
    rw [hg, slice_from_pool_free_path D 4096 133320 0 133152 131072
      (by simp only [SLICE_HDR_eq, dG]; exact d4064) (by rw [dG]) (by rw [dx]) (by rw [dG])
      (by rw [dx]) (by decide) (by decide) (by decide) (by decide)]
  rw [ep]
  refine ⟨S, D, hS, ?_, ?_, hD, ?_, ?_, hsfp, ?_, ?_⟩
  · rw [hg, hv.2.1]
  · rw [hv.2.2.2.1]
  · rw [hg, hdv.2.1]
  · rw [hdv.2.2.2.1]
  · rw [hg, hc2.2.1]
  · rw [hc2.2.2.2.1]

end ElrMpl
